import Mathlib

/-!
Verification development for the grid pathfinding/maze-generation core.

The definitions below are a shallow embedding of the JavaScript sources
`src/algorithms/bfs.js`, `dfs.js`, `dijkstra.js`, `astar.js`,
`greedyBestFirst.js` and `maze.js`.  Node objects mutated in place in the
source become an explicit `Grid` state (a function from coordinates to cell
records) threaded through the loops; `Infinity` becomes the extended
naturals `EN`; JavaScript's stable `Array.prototype.sort` becomes a stable
insertion sort; `Math.random()` becomes an explicit stream of choices.
Loops are given explicit fuel; the wrappers instantiate the fuel with a
bound that is proved (where a claim needs it) to be large enough for the
loop to run to its natural end.
-/

namespace PV

/-- Extended naturals: the value of JavaScript number fields that hold
either a nonnegative integer or `Infinity` (`distance`, `fScore`). -/
inductive EN where
  | fin : Nat → EN
  | inf : EN
deriving DecidableEq, Repr

namespace EN

/-- Boolean `≤`, matching the effective comparator `a.distance - b.distance`
used with JavaScript's stable sort (`Infinity` compares above everything,
`Infinity` vs `Infinity` compares equal). -/
def leb : EN → EN → Bool
  | _, inf => true
  | inf, fin _ => false
  | fin a, fin b => a ≤ b

/-- Boolean `<`, the strict-improvement test used by the relaxation steps. -/
def ltb : EN → EN → Bool
  | inf, _ => false
  | fin _, inf => true
  | fin a, fin b => a < b

/-- Adding a natural number to an extended natural (`distance + 1`,
`tentativeG + manhattan`). -/
def addN : EN → Nat → EN
  | inf, _ => inf
  | fin a, n => fin (a + n)

theorem leb_refl (a : EN) : leb a a = true := by
  cases a <;> simp [leb]

theorem leb_trans {a b c : EN} (h₁ : leb a b = true) (h₂ : leb b c = true) :
    leb a c = true := by
  cases a <;> cases b <;> cases c <;> simp_all [leb] <;> omega

theorem leb_total (a b : EN) : leb a b = true ∨ leb b a = true := by
  cases a <;> cases b <;> simp [leb] <;> omega

theorem ltb_of_not_leb {a b : EN} (h : ¬ leb a b = true) : ltb b a = true := by
  cases a <;> cases b <;> simp_all [leb, ltb] <;> omega

theorem leb_of_ltb {a b : EN} (h : ltb a b = true) : leb a b = true := by
  cases a <;> cases b <;> simp_all [leb, ltb] <;> omega

theorem not_ltb_self (a : EN) : ltb a a = false := by
  cases a <;> simp [ltb]

theorem ltb_irrefl' {a b : EN} (h : ltb a b = true) : a ≠ b := by
  intro rfl_eq; subst rfl_eq; simp [not_ltb_self] at h

theorem ltb_fin_inf (n : Nat) : ltb (fin n) inf = true := rfl

theorem addN_fin (a n : Nat) : addN (fin a) n = fin (a + n) := rfl

theorem ltb_addN_right {a b : EN} (h : ltb a b = true) (n : Nat) :
    ltb (addN a n) (addN b n) = true := by
  cases a <;> cases b <;> simp_all [ltb, addN] <;> omega

theorem leb_leb_antisymm {a b : EN} (h₁ : leb a b = true) (h₂ : leb b a = true) :
    a = b := by
  cases a <;> cases b <;> simp_all [leb] <;> omega

theorem ltb_iff_not_leb {a b : EN} : ltb a b = true ↔ ¬ leb b a = true := by
  cases a <;> cases b <;> simp [leb, ltb] <;> omega

theorem leb_of_not_ltb {a b : EN} (h : ¬ ltb a b = true) : leb b a = true := by
  cases a <;> cases b <;> simp_all [leb, ltb] <;> omega

end EN

/-- A cell coordinate: `(row, col)`. -/
abbrev Pos := Nat × Nat

/-- The per-node state of the source's node objects.  `isWall` is the only
field the algorithms read but never write; `fScore` starts out `inf`
matching the sort key `a.fScore ?? Infinity` used on undefined scores. -/
structure Cell where
  isWall : Bool
  isVisited : Bool
  dist : EN
  fScore : EN
  prev : Option Pos
deriving DecidableEq, Repr

/-- A cell with all working fields in their reset state and no wall. -/
def Cell.clean : Cell := ⟨false, false, EN.inf, EN.inf, none⟩

/-- The grid: dimensions plus the cell state at each coordinate. -/
structure Grid where
  rows : Nat
  cols : Nat
  cell : Pos → Cell

/-- Point update of one cell's state. -/
def Grid.set (g : Grid) (p : Pos) (c : Cell) : Grid :=
  ⟨g.rows, g.cols, fun q => if q = p then c else g.cell q⟩

theorem Grid.set_rows (g : Grid) (p : Pos) (c : Cell) : (g.set p c).rows = g.rows := rfl

theorem Grid.set_cols (g : Grid) (p : Pos) (c : Cell) : (g.set p c).cols = g.cols := rfl

theorem Grid.set_same (g : Grid) (p : Pos) (c : Cell) : (g.set p c).cell p = c := by
  simp [Grid.set]

theorem Grid.set_other (g : Grid) {p q : Pos} (c : Cell) (h : q ≠ p) :
    (g.set p c).cell q = g.cell q := by
  simp [Grid.set, h]

/-- A fully reset grid of the given dimensions with no walls. -/
def cleanGrid (rows cols : Nat) : Grid := ⟨rows, cols, fun _ => Cell.clean⟩

/-- In-bounds predicate for the `rows × cols` grid. -/
def inB (g : Grid) (p : Pos) : Prop := p.1 < g.rows ∧ p.2 < g.cols

instance (g : Grid) (p : Pos) : Decidable (inB g p) := by
  unfold inB; infer_instance

/-- Manhattan distance `|a.row - b.row| + |a.col - b.col|`
(`manhattan` in astar.js and greedyBestFirst.js). -/
def manhattan (a b : Pos) : Nat :=
  ((a.1 : Int) - b.1).natAbs + ((a.2 : Int) - b.2).natAbs

/-- Neighbor coordinates in the order Up, Down, Left, Right: the order used
by `getUnvisitedNeighbors` in bfs.js/dijkstra.js and `getNeighbors` in
astar.js/greedyBestFirst.js. -/
def neighborsUDLR (g : Grid) (p : Pos) : List Pos :=
  (if 0 < p.1 then [(p.1 - 1, p.2)] else []) ++
  (if p.1 < g.rows - 1 then [(p.1 + 1, p.2)] else []) ++
  (if 0 < p.2 then [(p.1, p.2 - 1)] else []) ++
  (if p.2 < g.cols - 1 then [(p.1, p.2 + 1)] else [])

/-- Neighbor coordinates in the order Up, Right, Down, Left: the order used
by `getUnvisitedNeighbors` in dfs.js. -/
def neighborsURDL (g : Grid) (p : Pos) : List Pos :=
  (if 0 < p.1 then [(p.1 - 1, p.2)] else []) ++
  (if p.2 < g.cols - 1 then [(p.1, p.2 + 1)] else []) ++
  (if p.1 < g.rows - 1 then [(p.1 + 1, p.2)] else []) ++
  (if 0 < p.2 then [(p.1, p.2 - 1)] else [])

/-- `getUnvisitedNeighbors` of bfs.js and dijkstra.js (UDLR order, then
`filter ((n) => !n.isVisited)`). -/
def getUnvisitedNeighbors (g : Grid) (p : Pos) : List Pos :=
  (neighborsUDLR g p).filter (fun q => ¬ (g.cell q).isVisited)

/-- `getNeighbors` of astar.js and greedyBestFirst.js (no filtering). -/
def getNeighbors (g : Grid) (p : Pos) : List Pos := neighborsUDLR g p

/-- `getUnvisitedNeighbors` of dfs.js (URDL order, then the same filter). -/
def getUnvisitedNeighborsDfs (g : Grid) (p : Pos) : List Pos :=
  (neighborsURDL g p).filter (fun q => ¬ (g.cell q).isVisited)

/-- Stable insertion of `x` into a sorted list: `x` goes in front of the
first element whose key is not smaller, so earlier list elements keep
priority among equal keys — the behavior of JavaScript's stable sort. -/
def insSorted (key : Pos → EN) (x : Pos) : List Pos → List Pos
  | [] => [x]
  | y :: ys => if EN.ltb (key y) (key x) then y :: insSorted key x ys else x :: y :: ys

/-- Stable sort by key, modelling `Array.prototype.sort` with the numeric
comparators of dijkstra.js/astar.js/greedyBestFirst.js. -/
def sortKey (key : Pos → EN) : List Pos → List Pos
  | [] => []
  | x :: xs => insSorted key x (sortKey key xs)

theorem insSorted_perm (key : Pos → EN) (x : Pos) (l : List Pos) :
    (insSorted key x l).Perm (x :: l) := by
  induction l with
  | nil => simp [insSorted]
  | cons y ys ih =>
    simp only [insSorted]
    by_cases h : EN.ltb (key y) (key x) = true
    · simp only [h, if_true]
      exact ((ih.cons y).trans (List.Perm.swap x y ys))
    · simp [h]

theorem sortKey_perm (key : Pos → EN) (l : List Pos) : (sortKey key l).Perm l := by
  induction l with
  | nil => simp [sortKey]
  | cons x xs ih =>
    exact (insSorted_perm key x (sortKey key xs)).trans (ih.cons x)

theorem mem_sortKey {key : Pos → EN} {l : List Pos} {p : Pos} :
    p ∈ sortKey key l ↔ p ∈ l := (sortKey_perm key l).mem_iff

/-- The head of the list (when it exists) has a minimal key. -/
def HeadMin (key : Pos → EN) (l : List Pos) : Prop :=
  ∀ h t, l = h :: t → ∀ y ∈ l, EN.leb (key h) (key y) = true

theorem headMin_insSorted {key : Pos → EN} (x : Pos) {l : List Pos}
    (hl : HeadMin key l) : HeadMin key (insSorted key x l) := by
  cases l with
  | nil =>
    intro h t heq y hy
    simp only [insSorted] at heq
    injection heq with h1 h2
    subst h1; subst h2
    simp only [insSorted] at hy
    simp at hy; rw [hy]; exact EN.leb_refl _
  | cons a as =>
    have hmin : ∀ y ∈ a :: as, EN.leb (key a) (key y) = true := hl a as rfl
    simp only [insSorted]
    by_cases hb : EN.ltb (key a) (key x) = true
    · simp only [hb, if_true]
      intro h t heq y hy
      injection heq with h1 h2
      subst h1; subst h2
      rcases List.mem_cons.mp hy with rfl | h1
      · exact EN.leb_refl _
      · rcases List.mem_cons.mp ((insSorted_perm key x as).mem_iff.mp h1) with rfl | h2
        · exact EN.leb_of_ltb hb
        · exact hmin y (by simp [h2])
    · simp only [hb, if_false]
      intro h t heq y hy
      injection heq with h1 h2
      subst h1; subst h2
      have hxa : EN.leb (key x) (key a) = true := EN.leb_of_not_ltb hb
      rcases List.mem_cons.mp hy with rfl | h1
      · exact EN.leb_refl _
      · exact EN.leb_trans hxa (hmin y h1)

/-- The head of a stable sort has minimal key among all sorted elements. -/
theorem headMin_sortKey (key : Pos → EN) (l : List Pos) : HeadMin key (sortKey key l) := by
  induction l with
  | nil => intro h t heq; simp [sortKey] at heq
  | cons x xs ih => exact headMin_insSorted x ih

theorem sortKey_head_le {key : Pos → EN} {l : List Pos} {h : Pos} {t : List Pos}
    (heq : sortKey key l = h :: t) {y : Pos} (hy : y ∈ l) :
    EN.leb (key h) (key y) = true :=
  headMin_sortKey key l h t heq y (mem_sortKey.mpr hy)

/-! ## Breadth-first search (bfs.js) -/

/-- The neighbor loop of one BFS expansion: each unvisited neighbor that is
not a wall is marked visited, given `distance = node.distance + 1` and
`previousNode = node`, and appended to the pending-push list. -/
def bfsExpand (g : Grid) (node : Pos) : Grid × List Pos :=
  (getUnvisitedNeighbors g node).foldl
    (fun (st : Grid × List Pos) nb =>
      if (st.1.cell nb).isWall then st
      else
        (st.1.set nb { st.1.cell nb with
            isVisited := true
            dist := (st.1.cell node).dist.addN 1
            prev := some node },
         st.2 ++ [nb]))
    (g, [])

/-- The main loop of bfs.js.  The queue holds coordinates (head = front);
the accumulator is `visitedNodesInOrder`.  Fuel replaces the implicit
termination of the JavaScript `while` loop. -/
def bfsLoop (finish : Pos) : Nat → Grid → List Pos → List Pos → List Pos × Grid
  | 0, g, _, acc => (acc, g)
  | _ + 1, g, [], acc => (acc, g)
  | fuel + 1, g, node :: queue, acc =>
      if (g.cell node).isWall then bfsLoop finish fuel g queue acc
      else if node = finish then (acc ++ [node], g)
      else
        let gq := bfsExpand g node
        bfsLoop finish fuel gq.1 (queue ++ gq.2) (acc ++ [node])

/-- `bfs(grid, startNode, finishNode)`: marks the start visited with
distance 0, runs the queue loop, returns the visited order and the mutated
grid. -/
def bfs (g : Grid) (start finish : Pos) : List Pos × Grid :=
  let g0 := g.set start { g.cell start with isVisited := true, dist := EN.fin 0 }
  bfsLoop finish (2 * g.rows * g.cols + 2) g0 [start] []

/-! ## Depth-first search (the dfs source file) -/

/-- One DFS expansion: the unvisited-neighbor list (URDL order) is walked
from its last element down to its first, skipping walls and marking/pushing
the rest; the resulting stack top is therefore the first list element, so
with a head-is-top stack the pushed block is the filtered list itself. -/
def dfsExpand (g : Grid) (node : Pos) : Grid × List Pos :=
  (getUnvisitedNeighborsDfs g node).foldl
    (fun (st : Grid × List Pos) nb =>
      if (st.1.cell nb).isWall then st
      else
        (st.1.set nb { st.1.cell nb with
            isVisited := true
            dist := (st.1.cell node).dist.addN 1
            prev := some node },
         st.2 ++ [nb]))
    (g, [])

/-- The main loop of the dfs source (stack head = top). -/
def dfsLoop (finish : Pos) : Nat → Grid → List Pos → List Pos → List Pos × Grid
  | 0, g, _, acc => (acc, g)
  | _ + 1, g, [], acc => (acc, g)
  | fuel + 1, g, node :: stack, acc =>
      if (g.cell node).isWall then dfsLoop finish fuel g stack acc
      else if node = finish then (acc ++ [node], g)
      else
        let gq := dfsExpand g node
        dfsLoop finish fuel gq.1 (gq.2 ++ stack) (acc ++ [node])

/-- `dfs(grid, startNode, finishNode)`. -/
def dfs (g : Grid) (start finish : Pos) : List Pos × Grid :=
  let g0 := g.set start { g.cell start with isVisited := true, dist := EN.fin 0 }
  dfsLoop finish (2 * g.rows * g.cols + 2) g0 [start] []

/-! ## Dijkstra (dijkstra.js) -/

/-- `getAllNodes(grid)`: row-major list of all coordinates. -/
def getAllNodes (g : Grid) : List Pos :=
  (List.range g.rows).flatMap fun r => (List.range g.cols).map fun c => (r, c)

/-- `updateUnvisitedNeighbors(node, grid)`: relax each unvisited neighbor
only when `node.distance + 1` is strictly smaller than its distance. -/
def updateUnvisitedNeighbors (g : Grid) (node : Pos) : Grid :=
  (getUnvisitedNeighbors g node).foldl
    (fun g' nb =>
      if EN.ltb ((g'.cell node).dist.addN 1) ((g'.cell nb).dist) then
        g'.set nb { g'.cell nb with
          dist := (g'.cell node).dist.addN 1
          prev := some node }
      else g')
    g

/-- The main loop of dijkstra.js: re-sort the unvisited pool by distance
(stable), shift the closest node, skip walls, stop at `Infinity`, mark,
record, return at finish, otherwise relax neighbors. -/
def dijkstraLoop (finish : Pos) : Nat → Grid → List Pos → List Pos → List Pos × Grid
  | 0, g, _, acc => (acc, g)
  | fuel + 1, g, pool, acc =>
    match sortKey (fun p => (g.cell p).dist) pool with
    | [] => (acc, g)
    | closest :: rest =>
      if (g.cell closest).isWall then dijkstraLoop finish fuel g rest acc
      else if (g.cell closest).dist = EN.inf then (acc, g)
      else
        let g' := g.set closest { g.cell closest with isVisited := true }
        if closest = finish then (acc ++ [closest], g')
        else dijkstraLoop finish fuel (updateUnvisitedNeighbors g' closest) rest (acc ++ [closest])

/-- `dijkstra(grid, startNode, finishNode)`. -/
def dijkstra (g : Grid) (start finish : Pos) : List Pos × Grid :=
  let g0 := g.set start { g.cell start with dist := EN.fin 0 }
  dijkstraLoop finish (g.rows * g.cols + 1) g0 (getAllNodes g0) []

/-- `getNodesInShortestPathOrder(finishNode)`: follow `previousNode`
back-links, prepending each node.  The JavaScript loop has no fuel; the
fuel argument makes the model total, and the termination claims are about
the result being stable once the fuel is large enough. -/
def pathStep (g : Grid) : Nat → Option Pos → List Pos → List Pos
  | 0, _, acc => acc
  | _ + 1, none, acc => acc
  | fuel + 1, some p, acc => pathStep g fuel ((g.cell p).prev) (p :: acc)

/-- Path reconstruction with the canonical sufficient fuel. -/
def getNodesInShortestPathOrder (g : Grid) (finish : Pos) : List Pos :=
  pathStep g (g.rows * g.cols + 2) (some finish) []

/-! ## A* (astar.js) -/

/-- The neighbor loop of one A* expansion.  Walls and closed cells are
skipped; a strict `gScore` improvement updates `distance`, `previousNode`
and `fScore = tentativeG + manhattan(neighbor, finish)` and pushes the
neighbor into the open set unless it is already there. -/
def astarRelax (g : Grid) (cur finish : Pos) (openl : List Pos) : Grid × List Pos :=
  (getNeighbors g cur).foldl
    (fun (st : Grid × List Pos) nb =>
      if ((st.1.cell nb).isWall || (st.1.cell nb).isVisited) then st
      else
        let tG := (st.1.cell cur).dist.addN 1
        if EN.ltb tG ((st.1.cell nb).dist) then
          (st.1.set nb { st.1.cell nb with
              dist := tG
              prev := some cur
              fScore := tG.addN (manhattan nb finish) },
           if nb ∈ st.2 then st.2 else st.2 ++ [nb])
        else st)
    (g, openl)

/-- The main loop of astar.js: re-sort the open set by
`fScore ?? Infinity` (stable), shift the minimum, skip walls and closed
cells, close/record the node, return at finish, otherwise relax. -/
def astarLoop (finish : Pos) : Nat → Grid → List Pos → List Pos → List Pos × Grid
  | 0, g, _, acc => (acc, g)
  | fuel + 1, g, openl, acc =>
    match sortKey (fun p => (g.cell p).fScore) openl with
    | [] => (acc, g)
    | cur :: rest =>
      if (g.cell cur).isWall then astarLoop finish fuel g rest acc
      else if (g.cell cur).isVisited then astarLoop finish fuel g rest acc
      else
        let g' := g.set cur { g.cell cur with isVisited := true }
        if cur = finish then (acc ++ [cur], g')
        else
          let gr := astarRelax g' cur finish rest
          astarLoop finish fuel gr.1 gr.2 (acc ++ [cur])

/-- `astar(grid, startNode, finishNode)`. -/
def astar (g : Grid) (start finish : Pos) : List Pos × Grid :=
  let g0 := g.set start { g.cell start with
    dist := EN.fin 0
    fScore := EN.fin (manhattan start finish) }
  astarLoop finish (5 * g.rows * g.cols + 2) g0 [start] []

/-! ## Greedy best-first (greedyBestFirst.js) -/

/-- The neighbor loop of one greedy expansion: `previousNode` is set only
the first time a neighbor is seen, `fScore` is the heuristic alone, and
the neighbor is pushed unless already in the open set. -/
def greedyRelax (g : Grid) (cur finish : Pos) (openl : List Pos) : Grid × List Pos :=
  (getNeighbors g cur).foldl
    (fun (st : Grid × List Pos) nb =>
      if ((st.1.cell nb).isWall || (st.1.cell nb).isVisited) then st
      else
        let g1 :=
          if (st.1.cell nb).prev = none then
            st.1.set nb { st.1.cell nb with prev := some cur }
          else st.1
        let g2 := g1.set nb { g1.cell nb with fScore := EN.fin (manhattan nb finish) }
        (g2, if nb ∈ st.2 then st.2 else st.2 ++ [nb]))
    (g, openl)

/-- The main loop of greedyBestFirst.js (same frontier discipline as A*,
heuristic-only priority). -/
def greedyLoop (finish : Pos) : Nat → Grid → List Pos → List Pos → List Pos × Grid
  | 0, g, _, acc => (acc, g)
  | fuel + 1, g, openl, acc =>
    match sortKey (fun p => (g.cell p).fScore) openl with
    | [] => (acc, g)
    | cur :: rest =>
      if (g.cell cur).isWall then greedyLoop finish fuel g rest acc
      else if (g.cell cur).isVisited then greedyLoop finish fuel g rest acc
      else
        let g' := g.set cur { g.cell cur with isVisited := true }
        if cur = finish then (acc ++ [cur], g')
        else
          let gr := greedyRelax g' cur finish rest
          greedyLoop finish fuel gr.1 gr.2 (acc ++ [cur])

/-- `greedyBestFirst(grid, startNode, finishNode)`. -/
def greedyBestFirst (g : Grid) (start finish : Pos) : List Pos × Grid :=
  let g0 := g.set start { g.cell start with
    dist := EN.fin 0
    fScore := EN.fin (manhattan start finish) }
  greedyLoop finish (5 * g.rows * g.cols + 2) g0 [start] []

/-! ## Maze generation (maze.js)

The generators work on raw JavaScript numbers (which go negative in
intermediate expressions such as `cols - 1` on tiny grids), so this part
of the embedding uses `Int` coordinates.  The `Set` of `"row-col"` string
keys becomes a duplicate-free insertion list of pairs — `key(row, col)` is
injective, so string membership and pair membership coincide.
`Math.random()` becomes an arbitrary stream of naturals `rand : Nat → Nat`
with an explicit draw index, consumed exactly where the source calls
`Math.random()`. -/

/-- Integer coordinate pair, for maze.js. -/
abbrev IPos := Int × Int

/-- Random stream standing in for `Math.random()`. -/
abbrev RStream := Nat → Nat

/-- `walls.add(key(p))`. -/
def wadd (w : List IPos) (p : IPos) : List IPos := if p ∈ w then w else w ++ [p]

/-- `walls.delete(key(p))`. -/
def wdel (w : List IPos) (p : IPos) : List IPos := w.filter (fun q => q ≠ p)

/-- `randomEven(min, max)`: an even integer in `[min, max]`, or `none`;
one random draw is consumed exactly when the range is nonempty. -/
def randomEven (rand : RStream) (i : Nat) (min max : Int) : Option Int × Nat :=
  let start := if min % 2 = 0 then min else min + 1
  if start > max then (none, i)
  else
    let count := (max - start) / 2 + 1
    (some (start + 2 * ((rand i : Int) % count)), i + 1)

/-- `randomOdd(min, max)`.  JavaScript's `%` truncates toward zero, so the
test `min % 2 === 1` only succeeds for nonnegative `min`. -/
def randomOdd (rand : RStream) (i : Nat) (min max : Int) : Option Int × Nat :=
  let start := if 0 ≤ min ∧ min % 2 = 1 then min else min + 1
  if start > max then (none, i)
  else
    let count := (max - start) / 2 + 1
    (some (start + 2 * ((rand i : Int) % count)), i + 1)

/-- Split orientations of the recursive-division generator. -/
inductive Orient where
  | horizontal
  | vertical
deriving DecidableEq, Repr

/-- `chooseOrientation(width, height)`: horizontal when the region is
taller than wide, vertical when wider, a coin flip when square (one draw
consumed only in the square case). -/
def chooseOrientation (rand : RStream) (i : Nat) (width height : Int) : Orient × Nat :=
  if width < height then (Orient.horizontal, i)
  else if height < width then (Orient.vertical, i)
  else (if rand i % 2 = 0 then Orient.horizontal else Orient.vertical, i + 1)

/-- `addWall`/`setWall`: insert unless the coordinate is protected
(start or finish). -/
def addWallP (prot : List IPos) (w : List IPos) (p : IPos) : List IPos :=
  if p ∈ prot then w else wadd w p

/-- The optional border fill of `generateRecursiveDivisionMaze`. -/
def addBorderWalls (prot : List IPos) (rows cols : Int) (w : List IPos) : List IPos :=
  let w1 := (List.range rows.toNat).foldl
    (fun w r => addWallP prot (addWallP prot w ((r : Int), 0)) ((r : Int), cols - 1)) w
  (List.range cols.toNat).foldl
    (fun w c => addWallP prot (addWallP prot w (0, (c : Int))) (rows - 1, (c : Int))) w1

/-- `randomEven(lo, hi) ?? Math.floor((lo' + hi') / 2)` where the fallback
midpoint of the call sites equals `(lo + hi) / 2` of the range passed in. -/
def pickEven (rand : RStream) (i : Nat) (lo hi : Int) : Int × Nat :=
  match randomEven rand i lo hi with
  | (some v, j) => (v, j)
  | (none, j) => ((lo + hi) / 2, j)

/-- `randomOdd(lo, hi) ?? Math.floor((lo + hi) / 2)`. -/
def pickOdd (rand : RStream) (i : Nat) (lo hi : Int) : Int × Nat :=
  match randomOdd rand i lo hi with
  | (some v, j) => (v, j)
  | (none, j) => ((lo + hi) / 2, j)

theorem randomEven_some_bounds {rand : RStream} {i : Nat} {lo hi v : Int} {j : Nat}
    (heq : randomEven rand i lo hi = (some v, j)) : lo ≤ v ∧ v ≤ hi := by
  unfold randomEven at heq
  set s := if lo % 2 = 0 then lo else lo + 1 with hs
  have hsl : lo ≤ s ∧ s ≤ lo + 1 := by
    rw [hs]; split <;> omega
  by_cases hgt : s > hi
  · rw [if_pos hgt] at heq; simp at heq
  · rw [if_neg hgt] at heq
    have h1 : some (s + 2 * ((rand i : Int) % ((hi - s) / 2 + 1))) = some v :=
      (Prod.ext_iff.mp heq).1
    have h2 := Option.some.inj h1
    have hm1 : (0 : Int) ≤ (rand i : Int) % ((hi - s) / 2 + 1) :=
      Int.emod_nonneg _ (by omega)
    have hm2 : (rand i : Int) % ((hi - s) / 2 + 1) < (hi - s) / 2 + 1 :=
      Int.emod_lt_of_pos _ (by omega)
    omega

theorem randomOdd_some_bounds {rand : RStream} {i : Nat} {lo hi v : Int} {j : Nat}
    (heq : randomOdd rand i lo hi = (some v, j)) : lo ≤ v ∧ v ≤ hi := by
  unfold randomOdd at heq
  set s := if 0 ≤ lo ∧ lo % 2 = 1 then lo else lo + 1 with hs
  have hsl : lo ≤ s ∧ s ≤ lo + 1 := by
    rw [hs]; split <;> omega
  by_cases hgt : s > hi
  · rw [if_pos hgt] at heq; simp at heq
  · rw [if_neg hgt] at heq
    have h1 : some (s + 2 * ((rand i : Int) % ((hi - s) / 2 + 1))) = some v :=
      (Prod.ext_iff.mp heq).1
    have h2 := Option.some.inj h1
    have hm1 : (0 : Int) ≤ (rand i : Int) % ((hi - s) / 2 + 1) :=
      Int.emod_nonneg _ (by omega)
    have hm2 : (rand i : Int) % ((hi - s) / 2 + 1) < (hi - s) / 2 + 1 :=
      Int.emod_lt_of_pos _ (by omega)
    omega

theorem pickEven_bounds (rand : RStream) (i : Nat) {lo hi : Int} (h : lo ≤ hi) :
    lo ≤ (pickEven rand i lo hi).1 ∧ (pickEven rand i lo hi).1 ≤ hi := by
  unfold pickEven
  rcases hmatch : randomEven rand i lo hi with ⟨ov, j⟩
  cases ov with
  | some v => simpa using randomEven_some_bounds hmatch
  | none => simp only []; omega

theorem pickOdd_bounds (rand : RStream) (i : Nat) {lo hi : Int} (h : lo ≤ hi) :
    lo ≤ (pickOdd rand i lo hi).1 ∧ (pickOdd rand i lo hi).1 ≤ hi := by
  unfold pickOdd
  rcases hmatch : randomOdd rand i lo hi with ⟨ov, j⟩
  cases ov with
  | some v => simpa using randomOdd_some_bounds hmatch
  | none => simp only []; omega

/-- The `divide` closure of `generateRecursiveDivisionMaze`: split the
region with a wall line on the passed orientation, leaving one passage,
then recurse into both sub-regions with
`chooseOrientation(width, height)` of the *current* region as the next
orientation. -/
def divide (rand : RStream) (prot : List IPos) :
    Nat → Int → Int → Int → Int → Orient → List IPos → Nat → List IPos × Nat
  | 0, _, _, _, _, _, w, i => (w, i)
  | fuel + 1, minRow, maxRow, minCol, maxCol, o, w, i =>
    if maxCol - minCol + 1 < 3 ∨ maxRow - minRow + 1 < 3 then (w, i)
    else
      let co := chooseOrientation rand i (maxCol - minCol + 1) (maxRow - minRow + 1)
      match o with
      | Orient.horizontal =>
        let pe := pickEven rand co.2 (minRow + 1) (maxRow - 1)
        let po := pickOdd rand pe.2 minCol maxCol
        let w1 := (List.range (maxCol - minCol + 1).toNat).foldl
          (fun w k =>
            if minCol + (k : Int) = po.1 then w
            else addWallP prot w (pe.1, minCol + (k : Int))) w
        let d1 := divide rand prot fuel minRow (pe.1 - 1) minCol maxCol co.1 w1 po.2
        divide rand prot fuel (pe.1 + 1) maxRow minCol maxCol co.1 d1.1 d1.2
      | Orient.vertical =>
        let pe := pickEven rand co.2 (minCol + 1) (maxCol - 1)
        let po := pickOdd rand pe.2 minRow maxRow
        let w1 := (List.range (maxRow - minRow + 1).toNat).foldl
          (fun w k =>
            if minRow + (k : Int) = po.1 then w
            else addWallP prot w (minRow + (k : Int), pe.1)) w
        let d1 := divide rand prot fuel minRow maxRow minCol (pe.1 - 1) co.1 w1 po.2
        divide rand prot fuel minRow maxRow (pe.1 + 1) maxCol co.1 d1.1 d1.2

/-- The `del` closure of `ensureEndpointOpenings`: delete if in bounds. -/
def endpointDel (rows cols : Int) (w : List IPos) (r c : Int) : List IPos :=
  if r < 0 ∨ r ≥ rows ∨ c < 0 ∨ c ≥ cols then w else wdel w (r, c)

/-- `ensureEndpointOpenings(walls, rows, cols, pos)`: clears the endpoint
itself, an inward cell per touched border, and a diagonal interior cell
per touched corner. -/
def ensureEndpointOpenings (w : List IPos) (rows cols : Int) (pos : IPos) : List IPos :=
  let r := pos.1
  let c := pos.2
  let w0 := endpointDel rows cols w r c
  let w1 := if r = 0 then endpointDel rows cols w0 1 c else w0
  let w2 := if r = rows - 1 then endpointDel rows cols w1 (rows - 2) c else w1
  let w3 := if c = 0 then endpointDel rows cols w2 r 1 else w2
  let w4 := if c = cols - 1 then endpointDel rows cols w3 r (cols - 2) else w3
  let w5 := if r = 0 ∧ c = 0 then endpointDel rows cols w4 1 1 else w4
  let w6 := if r = 0 ∧ c = cols - 1 then endpointDel rows cols w5 1 (cols - 2) else w5
  let w7 := if r = rows - 1 ∧ c = 0 then endpointDel rows cols w6 (rows - 2) 1 else w6
  if r = rows - 1 ∧ c = cols - 1 then endpointDel rows cols w7 (rows - 2) (cols - 2) else w7

/-- `generateRecursiveDivisionMaze({rows, cols, start, finish, addBorder})`. -/
def generateRecursiveDivisionMaze (rows cols : Int) (start finish : IPos)
    (addBorder : Bool) (rand : RStream) : List IPos :=
  let prot := [start, finish]
  let w0 : List IPos := []
  let w1 := if addBorder then addBorderWalls prot rows cols w0 else w0
  let co := chooseOrientation rand 0 cols rows
  let dv := divide rand prot ((rows + cols).toNat + 2) 1 (rows - 2) 1 (cols - 2) co.1 w1 co.2
  let w2 := ensureEndpointOpenings dv.1 rows cols start
  ensureEndpointOpenings w2 rows cols finish

/-- Claim model of `divide` written from the claim's words, to be compared
with the source model: every region is split with orientation horizontal
if the region is taller than wide, vertical if wider than tall, and a
random coin flip if square — the rule re-evaluated on each region by the
same `chooseOrientation` primitive — and each recursive call passes the
*other* orientation as the next preferred choice.  Wall line, passage and
randomness consumption are as in the source. -/
def divideRuleC6 (rand : RStream) (prot : List IPos) :
    Nat → Int → Int → Int → Int → Orient → List IPos → Nat → List IPos × Nat
  | 0, _, _, _, _, _, w, i => (w, i)
  | fuel + 1, minRow, maxRow, minCol, maxCol, _, w, i =>
    if maxCol - minCol + 1 < 3 ∨ maxRow - minRow + 1 < 3 then (w, i)
    else
      let co := chooseOrientation rand i (maxCol - minCol + 1) (maxRow - minRow + 1)
      match co.1 with
      | Orient.horizontal =>
        let pe := pickEven rand co.2 (minRow + 1) (maxRow - 1)
        let po := pickOdd rand pe.2 minCol maxCol
        let w1 := (List.range (maxCol - minCol + 1).toNat).foldl
          (fun w k =>
            if minCol + (k : Int) = po.1 then w
            else addWallP prot w (pe.1, minCol + (k : Int))) w
        let d1 := divideRuleC6 rand prot fuel minRow (pe.1 - 1) minCol maxCol
          Orient.vertical w1 po.2
        divideRuleC6 rand prot fuel (pe.1 + 1) maxRow minCol maxCol Orient.vertical d1.1 d1.2
      | Orient.vertical =>
        let pe := pickEven rand co.2 (minCol + 1) (maxCol - 1)
        let po := pickOdd rand pe.2 minRow maxRow
        let w1 := (List.range (maxRow - minRow + 1).toNat).foldl
          (fun w k =>
            if minRow + (k : Int) = po.1 then w
            else addWallP prot w (minRow + (k : Int), pe.1)) w
        let d1 := divideRuleC6 rand prot fuel minRow maxRow minCol (pe.1 - 1)
          Orient.horizontal w1 po.2
        divideRuleC6 rand prot fuel minRow maxRow (pe.1 + 1) maxCol Orient.horizontal d1.1 d1.2

/-- The claim model of `generateRecursiveDivisionMaze` built on
`divideRuleC6` (everything else as in the source). -/
def generateRecursiveDivisionMazeRuleC6 (rows cols : Int) (start finish : IPos)
    (addBorder : Bool) (rand : RStream) : List IPos :=
  let prot := [start, finish]
  let w0 : List IPos := []
  let w1 := if addBorder then addBorderWalls prot rows cols w0 else w0
  let co := chooseOrientation rand 0 cols rows
  let dv := divideRuleC6 rand prot ((rows + cols).toNat + 2) 1 (rows - 2) 1 (cols - 2) co.1 w1 co.2
  let w2 := ensureEndpointOpenings dv.1 rows cols start
  ensureEndpointOpenings w2 rows cols finish

/-- The amended description of `divide`, as a definition: each region is
split along the orientation *argument*, and both recursive calls receive
`chooseOrientation(width, height)` of the region just split — not the
opposite orientation, and not re-evaluated on the sub-region. -/
def divideAmendedC6 (rand : RStream) (prot : List IPos) :
    Nat → Int → Int → Int → Int → Orient → List IPos → Nat → List IPos × Nat
  | 0, _, _, _, _, _, w, i => (w, i)
  | fuel + 1, minRow, maxRow, minCol, maxCol, o, w, i =>
    if maxCol - minCol + 1 < 3 ∨ maxRow - minRow + 1 < 3 then (w, i)
    else
      let nextO := chooseOrientation rand i (maxCol - minCol + 1) (maxRow - minRow + 1)
      match o with
      | Orient.horizontal =>
        let pe := pickEven rand nextO.2 (minRow + 1) (maxRow - 1)
        let po := pickOdd rand pe.2 minCol maxCol
        let w1 := (List.range (maxCol - minCol + 1).toNat).foldl
          (fun w k =>
            if minCol + (k : Int) = po.1 then w
            else addWallP prot w (pe.1, minCol + (k : Int))) w
        let d1 := divideAmendedC6 rand prot fuel minRow (pe.1 - 1) minCol maxCol nextO.1 w1 po.2
        divideAmendedC6 rand prot fuel (pe.1 + 1) maxRow minCol maxCol nextO.1 d1.1 d1.2
      | Orient.vertical =>
        let pe := pickEven rand nextO.2 (minCol + 1) (maxCol - 1)
        let po := pickOdd rand pe.2 minRow maxRow
        let w1 := (List.range (maxRow - minRow + 1).toNat).foldl
          (fun w k =>
            if minRow + (k : Int) = po.1 then w
            else addWallP prot w (minRow + (k : Int), pe.1)) w
        let d1 := divideAmendedC6 rand prot fuel minRow maxRow minCol (pe.1 - 1) nextO.1 w1 po.2
        divideAmendedC6 rand prot fuel minRow maxRow (pe.1 + 1) maxCol nextO.1 d1.1 d1.2

/-- `randomOdd(lo, hi) ?? 1`: the fallback used for the backtracker's
starting cell. -/
def pickOdd1 (rand : RStream) (i : Nat) (lo hi : Int) : Int × Nat :=
  match randomOdd rand i lo hi with
  | (some v, j) => (v, j)
  | (none, j) => (1, j)

/-- The two-step neighbor scan of the backtracker: in-bounds, interior,
odd-odd, unvisited cells two away in the order Up, Down, Left, Right. -/
def backtrackerNeighbors (rows cols : Int) (vis : List IPos) (p : IPos) : List IPos :=
  ([((-2 : Int), (0 : Int)), (2, 0), (0, -2), (0, 2)] : List IPos).filterMap
    (fun d =>
      let nr := p.1 + d.1
      let nc := p.2 + d.2
      if (0 ≤ nr ∧ nr < rows ∧ 0 ≤ nc ∧ nc < cols) ∧
         (0 < nr ∧ nr < rows - 1 ∧ 0 < nc ∧ nc < cols - 1) ∧
         ¬ (nr % 2 = 0 ∨ nc % 2 = 0) ∧
         (nr, nc) ∉ vis
      then some (nr, nc) else none)

/-- The carving loop of the backtracker: peek at the stack top; with no
eligible neighbor, pop; otherwise pick a uniformly random neighbor, clear
the midpoint wall and the neighbor, mark it visited and push it. -/
def carveLoop (rand : RStream) (rows cols : Int) :
    Nat → List IPos → List IPos → List IPos → Nat → List IPos × Nat
  | 0, w, _, _, i => (w, i)
  | _ + 1, w, [], _, i => (w, i)
  | fuel + 1, w, cur :: stack, vis, i =>
    let nbs := backtrackerNeighbors rows cols vis cur
    if nbs.length = 0 then carveLoop rand rows cols fuel w stack vis i
    else
      let nxt := nbs.getD (rand i % nbs.length) (0, 0)
      let wallR := (cur.1 + nxt.1) / 2
      let wallC := (cur.2 + nxt.2) / 2
      let w1 := wdel (wdel w (wallR, wallC)) nxt
      carveLoop rand rows cols fuel w1 (nxt :: cur :: stack) (nxt :: vis) (i + 1)

/-- The `openCells` scan: interior coordinates that are not walls, in the
source's row-major order. -/
def openCellsOf (rows cols : Int) (w : List IPos) : List IPos :=
  (List.range (rows - 2).toNat).flatMap (fun k =>
    (List.range (cols - 2).toNat).filterMap (fun m =>
      if ((1 + (k : Int)), (1 + (m : Int))) ∈ w then none
      else some ((1 + (k : Int)), (1 + (m : Int)))))

/-- `nearestOpen(from)`: linear scan keeping the first strictly-smaller
Manhattan distance. -/
def nearestOpen (cells : List IPos) (p : IPos) : Option IPos :=
  (cells.foldl
    (fun (best : Option (IPos × Nat)) cell =>
      let d := (p.1 - cell.1).natAbs + (p.2 - cell.2).natAbs
      match best with
      | none => some (cell, d)
      | some (b, bd) => if d < bd then some (cell, d) else some (b, bd))
    none).map Prod.fst

/-- The row phase of `carveLine`: step toward the target row, clearing
in-bounds interior cells along the way.  The fuel is instantiated with the
exact number of steps `|toR - r|` by `carveLine`. -/
def carveStepsRow (rows cols : Int) (toR c : Int) :
    Nat → Int → List IPos → List IPos × Int
  | 0, r, w => (w, r)
  | fuel + 1, r, w =>
    if r = toR then (w, r)
    else
      let r1 := if r < toR then r + 1 else r - 1
      let w1 := if (0 ≤ r1 ∧ r1 < rows ∧ 0 ≤ c ∧ c < cols) ∧
                   (0 < r1 ∧ r1 < rows - 1 ∧ 0 < c ∧ c < cols - 1)
                then wdel w (r1, c) else w
      carveStepsRow rows cols toR c fuel r1 w1

/-- The column phase of `carveLine` (the row is already at its target). -/
def carveStepsCol (rows cols : Int) (toC r : Int) :
    Nat → Int → List IPos → List IPos
  | 0, _, w => w
  | fuel + 1, c, w =>
    if c = toC then w
    else
      let c1 := if c < toC then c + 1 else c - 1
      let w1 := if (0 ≤ r ∧ r < rows ∧ 0 ≤ c1 ∧ c1 < cols) ∧
                   (0 < r ∧ r < rows - 1 ∧ 0 < c1 ∧ c1 < cols - 1)
                then wdel w (r, c1) else w
      carveStepsCol rows cols toC r fuel c1 w1

/-- `carveLine(from, to)`: no-op on a missing target, else walk rows then
columns, clearing interior cells. -/
def carveLine (rows cols : Int) (fr : IPos) (tgt : Option IPos) (w : List IPos) : List IPos :=
  match tgt with
  | none => w
  | some t =>
    let ws := carveStepsRow rows cols t.1 fr.2 (t.1 - fr.1).natAbs fr.1 w
    carveStepsCol rows cols t.2 ws.2 (t.2 - fr.2).natAbs fr.2 ws.1

/-- `generateRecursiveBacktrackerMaze({rows, cols, start, finish, addBorder})`.
The initial fill calls `setWall` on every cell in both branches of the
`addBorder` conditional, so the fill is written unconditionally here. -/
def generateRecursiveBacktrackerMaze (rows cols : Int) (start finish : IPos)
    (addBorder : Bool) (rand : RStream) : List IPos :=
  let prot := [start, finish]
  let w0 := (List.range rows.toNat).foldl
    (fun w rk => (List.range cols.toNat).foldl
      (fun w ck => addWallP prot w ((rk : Int), (ck : Int))) w) []
  let s0 := pickOdd1 rand 0 1 (rows - 2)
  let s1 := pickOdd1 rand s0.2 1 (cols - 2)
  let startCell : IPos := (s0.1, s1.1)
  let w1 := wdel w0 startCell
  let cl := carveLoop rand rows cols (3 * rows.toNat * cols.toNat + 2) w1 [startCell] [startCell] s1.2
  let w2 := wdel (wdel cl.1 start) finish
  let oc := openCellsOf rows cols w2
  let w3 := carveLine rows cols start (nearestOpen oc start) w2
  let w4 := carveLine rows cols finish (nearestOpen oc finish) w3
  let w5 := ensureEndpointOpenings w4 rows cols start
  ensureEndpointOpenings w5 rows cols finish

/-- Adjacency between in-bounds non-wall cells: the notion of reachability
in the maze invariant ("mutually reachable through 4-directionally
adjacent non-wall cells"). -/
def MazeAdj (rows cols : Int) (w : List IPos) (p q : IPos) : Prop :=
  (0 ≤ q.1 ∧ q.1 < rows ∧ 0 ≤ q.2 ∧ q.2 < cols) ∧ q ∉ w ∧
  ((q.1 - p.1).natAbs + (q.2 - p.2).natAbs = 1)

/-- Reachability through non-wall cells. -/
def MazeReach (rows cols : Int) (w : List IPos) : IPos → IPos → Prop :=
  Relation.ReflTransGen (MazeAdj rows cols w)

/-! ## Concrete inputs used by counterexamples and witnesses -/

/-- A choice sequence for the recursive backtracker on an 11×11 grid: the
first two draws put the carving root at (5,5); the rest steer the carving
depth-first search into a spanning tree of the odd lattice that uses none
of the four lattice edges around the even-even cell (6,6). -/
def c2Choices : List Nat :=
  [2, 2, 0, 2, 1, 1, 1, 1, 0, 0, 0, 0, 0, 0, 1, 0, 0, 0, 0, 0, 0, 0, 0, 0, 0, 0]

/-- The choice stream realizing `c2Choices` (0 after the list runs out). -/
def c2Rand : RStream := fun i => c2Choices.getD i 0

/-- The wall set the backtracker returns on an 11×11 grid with
start = (6,6), finish = (1,1), addBorder = true and the stream above. -/
def c2Walls : List IPos := generateRecursiveBacktrackerMaze 11 11 (6, 6) (1, 1) true c2Rand

/-! ## Wall-set lemmas: protected cells are never inserted -/

theorem mem_of_mem_wadd {w : List IPos} {p q : IPos} (h : p ∈ wadd w q) : p ∈ w ∨ p = q := by
  unfold wadd at h
  split at h
  · exact Or.inl h
  · rcases List.mem_append.mp h with h1 | h1
    · exact Or.inl h1
    · simp at h1; exact Or.inr h1

theorem not_mem_addWallP {prot w : List IPos} {s q : IPos} (hs : s ∈ prot) (h : s ∉ w) :
    s ∉ addWallP prot w q := by
  unfold addWallP
  split
  · exact h
  · intro hm
    rcases mem_of_mem_wadd hm with h1 | rfl
    · exact h h1
    · rename_i hq; exact hq hs

theorem mem_of_mem_wdel {w : List IPos} {p q : IPos} (h : p ∈ wdel w q) : p ∈ w := by
  unfold wdel at h
  exact (List.mem_filter.mp h).1

/-- Fold preservation of a wall-set predicate. -/
theorem foldl_pres {α : Type} (P : List IPos → Prop) (f : List IPos → α → List IPos)
    (hf : ∀ w a, P w → P (f w a)) : ∀ (l : List α) (w : List IPos), P w → P (l.foldl f w) := by
  intro l
  induction l with
  | nil => intro w h; exact h
  | cons x xs ih => intro w h; exact ih _ (hf _ _ h)

theorem not_mem_addBorderWalls {prot : List IPos} {rows cols : Int} {w : List IPos} {s : IPos}
    (hs : s ∈ prot) (h : s ∉ w) : s ∉ addBorderWalls prot rows cols w := by
  unfold addBorderWalls
  refine foldl_pres (s ∉ ·) _ (fun w a hw => not_mem_addWallP hs (not_mem_addWallP hs hw)) _ _ ?_
  exact foldl_pres (s ∉ ·) _ (fun w a hw => not_mem_addWallP hs (not_mem_addWallP hs hw)) _ _ h

theorem not_mem_divide {rand : RStream} {prot : List IPos} {s : IPos} (hs : s ∈ prot) :
    ∀ (fuel : Nat) (minRow maxRow minCol maxCol : Int) (o : Orient) (w : List IPos) (i : Nat),
      s ∉ w → s ∉ (divide rand prot fuel minRow maxRow minCol maxCol o w i).1 := by
  intro fuel
  induction fuel with
  | zero => intro _ _ _ _ _ w i hw; exact hw
  | succ n ih =>
    intro minRow maxRow minCol maxCol o w i hw
    simp only [divide]
    split
    · exact hw
    · cases o <;>
        exact ih _ _ _ _ _ _ _ (ih _ _ _ _ _ _ _
          (foldl_pres (s ∉ ·) _
            (fun w a hw => by dsimp only; split; exacts [hw, not_mem_addWallP hs hw]) _ _ hw))

theorem not_mem_endpointDel {rows cols : Int} {w : List IPos} {r c : Int} {s : IPos}
    (h : s ∉ w) : s ∉ endpointDel rows cols w r c := by
  unfold endpointDel
  split
  · exact h
  · intro hm; exact h (mem_of_mem_wdel hm)

theorem not_mem_iteDel {w : List IPos} {s : IPos} {c : Prop} [Decidable c]
    {rows cols r q : Int} (h : s ∉ w) :
    s ∉ (if c then endpointDel rows cols w r q else w) := by
  split
  · exact not_mem_endpointDel h
  · exact h

theorem not_mem_iteWdel {w : List IPos} {s : IPos} {c : Prop} [Decidable c] {q : IPos}
    (h : s ∉ w) : s ∉ (if c then wdel w q else w) := by
  split
  · intro hm; exact h (mem_of_mem_wdel hm)
  · exact h

theorem not_mem_ensureEndpointOpenings {w : List IPos} {rows cols : Int} {pos s : IPos}
    (h : s ∉ w) : s ∉ ensureEndpointOpenings w rows cols pos := by
  unfold ensureEndpointOpenings
  dsimp only
  exact not_mem_iteDel (not_mem_iteDel (not_mem_iteDel (not_mem_iteDel (not_mem_iteDel
    (not_mem_iteDel (not_mem_iteDel (not_mem_iteDel (not_mem_endpointDel h))))))))

theorem not_mem_carveLoop {rand : RStream} {rows cols : Int} {s : IPos} :
    ∀ (fuel : Nat) (w stack vis : List IPos) (i : Nat),
      s ∉ w → s ∉ (carveLoop rand rows cols fuel w stack vis i).1 := by
  intro fuel
  induction fuel with
  | zero => intro w stack vis i hw; exact hw
  | succ n ih =>
    intro w stack vis i hw
    cases stack with
    | nil => exact hw
    | cons cur rest =>
      simp only [carveLoop]
      split
      · exact ih _ _ _ _ hw
      · exact ih _ _ _ _ (fun hm => hw (mem_of_mem_wdel (mem_of_mem_wdel hm)))

theorem not_mem_carveStepsRow {rows cols toR c : Int} {s : IPos} :
    ∀ (fuel : Nat) (r : Int) (w : List IPos),
      s ∉ w → s ∉ (carveStepsRow rows cols toR c fuel r w).1 := by
  intro fuel
  induction fuel with
  | zero => intro r w hw; exact hw
  | succ n ih =>
    intro r w hw
    simp only [carveStepsRow]
    split
    · exact hw
    · exact ih _ _ (not_mem_iteWdel hw)

theorem not_mem_carveStepsCol {rows cols toC r : Int} {s : IPos} :
    ∀ (fuel : Nat) (c : Int) (w : List IPos),
      s ∉ w → s ∉ carveStepsCol rows cols toC r fuel c w := by
  intro fuel
  induction fuel with
  | zero => intro c w hw; exact hw
  | succ n ih =>
    intro c w hw
    simp only [carveStepsCol]
    split
    · exact hw
    · exact ih _ _ (not_mem_iteWdel hw)

theorem not_mem_carveLine {rows cols : Int} {fr : IPos} {tgt : Option IPos}
    {w : List IPos} {s : IPos} (h : s ∉ w) : s ∉ carveLine rows cols fr tgt w := by
  unfold carveLine
  cases tgt with
  | none => exact h
  | some t => exact not_mem_carveStepsCol _ _ _ (not_mem_carveStepsRow _ _ _ h)

theorem not_mem_divisionMaze {rows cols : Int} {start finish : IPos} {addBorder : Bool}
    {rand : RStream} {s : IPos} (hs : s ∈ [start, finish]) :
    s ∉ generateRecursiveDivisionMaze rows cols start finish addBorder rand := by
  unfold generateRecursiveDivisionMaze
  refine not_mem_ensureEndpointOpenings (not_mem_ensureEndpointOpenings
    (not_mem_divide hs _ _ _ _ _ _ _ _ ?_))
  split
  · exact not_mem_addBorderWalls hs (by simp)
  · simp

theorem not_mem_backtrackerMaze {rows cols : Int} {start finish : IPos} {addBorder : Bool}
    {rand : RStream} {s : IPos} (hs : s ∈ [start, finish]) :
    s ∉ generateRecursiveBacktrackerMaze rows cols start finish addBorder rand := by
  unfold generateRecursiveBacktrackerMaze
  refine not_mem_ensureEndpointOpenings (not_mem_ensureEndpointOpenings
    (not_mem_carveLine (not_mem_carveLine ?_)))
  refine fun hm => ?_
  have h1 := mem_of_mem_wdel (mem_of_mem_wdel hm)
  revert h1
  refine not_mem_carveLoop _ _ _ _ _ (fun hm2 => ?_)
  have h2 := mem_of_mem_wdel hm2
  revert h2
  refine foldl_pres (s ∉ ·) _
    (fun w a hw => foldl_pres (s ∉ ·) _ (fun w a hw => not_mem_addWallP hs hw) _ _ hw) _ _ (by simp)

/-! ## Neighbor-list lemmas -/

theorem mem_neighborsUDLR {g : Grid} {p q : Pos} :
    q ∈ neighborsUDLR g p ↔
      (0 < p.1 ∧ q = (p.1 - 1, p.2)) ∨ (p.1 < g.rows - 1 ∧ q = (p.1 + 1, p.2)) ∨
      (0 < p.2 ∧ q = (p.1, p.2 - 1)) ∨ (p.2 < g.cols - 1 ∧ q = (p.1, p.2 + 1)) := by
  unfold neighborsUDLR
  simp only [List.mem_append, List.mem_singleton]
  constructor
  · intro h
    rcases h with ((h | h) | h) | h <;> split at h <;> simp_all
  · intro h
    rcases h with ⟨h1, rfl⟩ | ⟨h1, rfl⟩ | ⟨h1, rfl⟩ | ⟨h1, rfl⟩
    · exact Or.inl (Or.inl (Or.inl (by simp [h1])))
    · exact Or.inl (Or.inl (Or.inr (by simp [h1])))
    · exact Or.inl (Or.inr (by simp [h1]))
    · exact Or.inr (by simp [h1])

theorem mem_neighborsURDL {g : Grid} {p q : Pos} :
    q ∈ neighborsURDL g p ↔
      (0 < p.1 ∧ q = (p.1 - 1, p.2)) ∨ (p.2 < g.cols - 1 ∧ q = (p.1, p.2 + 1)) ∨
      (p.1 < g.rows - 1 ∧ q = (p.1 + 1, p.2)) ∨ (0 < p.2 ∧ q = (p.1, p.2 - 1)) := by
  unfold neighborsURDL
  simp only [List.mem_append, List.mem_singleton]
  constructor
  · intro h
    rcases h with ((h | h) | h) | h <;> split at h <;> simp_all
  · intro h
    rcases h with ⟨h1, rfl⟩ | ⟨h1, rfl⟩ | ⟨h1, rfl⟩ | ⟨h1, rfl⟩
    · exact Or.inl (Or.inl (Or.inl (by simp [h1])))
    · exact Or.inl (Or.inl (Or.inr (by simp [h1])))
    · exact Or.inl (Or.inr (by simp [h1]))
    · exact Or.inr (by simp [h1])

theorem inB_of_mem_neighborsUDLR {g : Grid} {p q : Pos} (hp : inB g p)
    (hq : q ∈ neighborsUDLR g p) : inB g q := by
  rcases hp with ⟨h1, h2⟩
  rcases mem_neighborsUDLR.mp hq with ⟨h, rfl⟩ | ⟨h, rfl⟩ | ⟨h, rfl⟩ | ⟨h, rfl⟩ <;>
    exact ⟨by omega, by omega⟩

theorem inB_of_mem_neighborsURDL {g : Grid} {p q : Pos} (hp : inB g p)
    (hq : q ∈ neighborsURDL g p) : inB g q := by
  rcases hp with ⟨h1, h2⟩
  rcases mem_neighborsURDL.mp hq with ⟨h, rfl⟩ | ⟨h, rfl⟩ | ⟨h, rfl⟩ | ⟨h, rfl⟩ <;>
    exact ⟨by omega, by omega⟩

theorem manhattan_of_mem_neighborsUDLR {g : Grid} {p q : Pos}
    (hq : q ∈ neighborsUDLR g p) : manhattan p q = 1 := by
  rcases mem_neighborsUDLR.mp hq with ⟨h, rfl⟩ | ⟨h, rfl⟩ | ⟨h, rfl⟩ | ⟨h, rfl⟩ <;>
    (unfold manhattan; omega)

theorem self_not_mem_neighborsUDLR (g : Grid) (p : Pos) : p ∉ neighborsUDLR g p := by
  intro h
  rcases p with ⟨r, c⟩
  rcases mem_neighborsUDLR.mp h with ⟨h1, h2⟩ | ⟨h1, h2⟩ | ⟨h1, h2⟩ | ⟨h1, h2⟩ <;>
    (simp only [Prod.mk.injEq] at h2; omega)

theorem self_not_mem_neighborsURDL (g : Grid) (p : Pos) : p ∉ neighborsURDL g p := by
  intro h
  rcases p with ⟨r, c⟩
  rcases mem_neighborsURDL.mp h with ⟨h1, h2⟩ | ⟨h1, h2⟩ | ⟨h1, h2⟩ | ⟨h1, h2⟩ <;>
    (simp only [Prod.mk.injEq] at h2; omega)

theorem nodup_neighborsUDLR (g : Grid) (p : Pos) : (neighborsUDLR g p).Nodup := by
  rcases p with ⟨r, c⟩
  by_cases h1 : 0 < r <;> by_cases h2 : r < g.rows - 1 <;>
    by_cases h3 : 0 < c <;> by_cases h4 : c < g.cols - 1 <;>
    simp [neighborsUDLR, h1, h2, h3, h4, Prod.ext_iff] <;> omega

theorem nodup_neighborsURDL (g : Grid) (p : Pos) : (neighborsURDL g p).Nodup := by
  rcases p with ⟨r, c⟩
  by_cases h1 : 0 < r <;> by_cases h2 : r < g.rows - 1 <;>
    by_cases h3 : 0 < c <;> by_cases h4 : c < g.cols - 1 <;>
    simp [neighborsURDL, h1, h2, h3, h4, Prod.ext_iff] <;> omega

theorem length_neighborsUDLR_le (g : Grid) (p : Pos) : (neighborsUDLR g p).length ≤ 4 := by
  rcases p with ⟨r, c⟩
  by_cases h1 : 0 < r <;> by_cases h2 : r < g.rows - 1 <;>
    by_cases h3 : 0 < c <;> by_cases h4 : c < g.cols - 1 <;>
    simp [neighborsUDLR, h1, h2, h3, h4]

/-! ## Expansion characterizations

Proof-side views of the neighbor folds: each expansion/relaxation fold is
shown (definitionally) equal to a named fold, and the named fold's effect
on the grid and the pending list is characterized cell by cell. -/

/-- The neighbor-marking fold shared by the bfs and dfs expansions. -/
def markCells (node : Pos) (l : List Pos) (st : Grid × List Pos) : Grid × List Pos :=
  l.foldl
    (fun (st : Grid × List Pos) nb =>
      if (st.1.cell nb).isWall then st
      else
        (st.1.set nb { st.1.cell nb with
            isVisited := true
            dist := (st.1.cell node).dist.addN 1
            prev := some node },
         st.2 ++ [nb]))
    st

theorem bfsExpand_eq_markCells (g : Grid) (node : Pos) :
    bfsExpand g node = markCells node (getUnvisitedNeighbors g node) (g, []) := rfl

theorem dfsExpand_eq_markCells (g : Grid) (node : Pos) :
    dfsExpand g node = markCells node (getUnvisitedNeighborsDfs g node) (g, []) := rfl

/-- The marked state of a cell after an expansion of `node`. -/
def markedCell (g0 : Grid) (node q : Pos) : Cell :=
  { g0.cell q with
    isVisited := true
    dist := (g0.cell node).dist.addN 1
    prev := some node }

theorem markCells_spec (g0 : Grid) (node : Pos) :
    ∀ (l : List Pos) (g : Grid) (acc : List Pos),
      node ∉ l → node ∉ acc →
      g.rows = g0.rows → g.cols = g0.cols →
      (∀ q, g.cell q = if q ∈ acc then markedCell g0 node q else g0.cell q) →
      (markCells node l (g, acc)).2 = acc ++ l.filter (fun p => !(g0.cell p).isWall) ∧
      (markCells node l (g, acc)).1.rows = g0.rows ∧
      (markCells node l (g, acc)).1.cols = g0.cols ∧
      (∀ q, (markCells node l (g, acc)).1.cell q =
        if q ∈ (markCells node l (g, acc)).2 then markedCell g0 node q else g0.cell q) := by
  intro l
  induction l with
  | nil =>
    intro g acc h1 h2 h3 h4 h5
    refine ⟨by simp [markCells], h3, h4, ?_⟩
    intro q
    simpa [markCells] using h5 q
  | cons x xs ih =>
    intro g acc h1 h2 h3 h4 h5
    have hnx : node ≠ x := by intro h; exact h1 (h ▸ List.mem_cons_self x xs)
    have hnxs : node ∉ xs := fun h => h1 (List.mem_cons_of_mem x h)
    have hgnode : g.cell node = g0.cell node := by
      rw [h5 node, if_neg h2]
    have hxw : (g.cell x).isWall = (g0.cell x).isWall := by
      rw [h5 x]
      split <;> rfl
    have hstep : markCells node (x :: xs) (g, acc) =
        markCells node xs
          (if (g.cell x).isWall then (g, acc)
           else (g.set x { g.cell x with
                  isVisited := true
                  dist := (g.cell node).dist.addN 1
                  prev := some node },
                 acc ++ [x])) := by
      simp only [markCells, List.foldl_cons]
    by_cases hw : (g0.cell x).isWall = true
    · rw [hstep, if_pos (by rw [hxw]; exact hw)]
      have hres := ih g acc hnxs h2 h3 h4 h5
      refine ⟨?_, hres.2.1, hres.2.2.1, ?_⟩
      · rw [hres.1, List.filter_cons_of_neg (by simp [hw])]
      · exact hres.2.2.2
    · have hw' : (g0.cell x).isWall = false := by
        cases hb : (g0.cell x).isWall
        · rfl
        · exact absurd hb hw
      rw [hstep, if_neg (by rw [hxw, hw']; exact fun h => by cases h)]
      have hinv : ∀ q, (g.set x { g.cell x with
              isVisited := true
              dist := (g.cell node).dist.addN 1
              prev := some node }).cell q =
          if q ∈ acc ++ [x] then markedCell g0 node q else g0.cell q := by
        intro q
        by_cases hqx : q = x
        · subst hqx
          rw [Grid.set_same, hgnode, h5 q]
          by_cases hqa : q ∈ acc
          · rw [if_pos hqa, if_pos (by simp [hqa])]
            rfl
          · rw [if_neg hqa, if_pos (by simp)]
            rfl
        · rw [Grid.set_other _ _ hqx, h5 q]
          have : q ∈ acc ++ [x] ↔ q ∈ acc := by simp [hqx]
          rw [if_congr this rfl rfl]
      have hres := ih (g.set x { g.cell x with
          isVisited := true
          dist := (g.cell node).dist.addN 1
          prev := some node }) (acc ++ [x]) hnxs (by simp [h2, hnx])
        ((Grid.set_rows _ _ _).trans h3) ((Grid.set_cols _ _ _).trans h4) hinv
      refine ⟨?_, hres.2.1, hres.2.2.1, ?_⟩
      · rw [hres.1, List.filter_cons_of_pos (by simp [hw'])]
        simp
      · exact hres.2.2.2

theorem bfsExpand_spec (g : Grid) (node : Pos) :
    (bfsExpand g node).2 =
      (getUnvisitedNeighbors g node).filter (fun p => !(g.cell p).isWall) ∧
    (bfsExpand g node).1.rows = g.rows ∧ (bfsExpand g node).1.cols = g.cols ∧
    ∀ q, (bfsExpand g node).1.cell q =
      if q ∈ (bfsExpand g node).2 then markedCell g node q else g.cell q := by
  have h := markCells_spec g node (getUnvisitedNeighbors g node) g []
    (fun hm => self_not_mem_neighborsUDLR g node ((List.mem_filter.mp hm).1)) (by simp)
    rfl rfl (by intro q; simp)
  rw [bfsExpand_eq_markCells]
  simpa using h

theorem dfsExpand_spec (g : Grid) (node : Pos) :
    (dfsExpand g node).2 =
      (getUnvisitedNeighborsDfs g node).filter (fun p => !(g.cell p).isWall) ∧
    (dfsExpand g node).1.rows = g.rows ∧ (dfsExpand g node).1.cols = g.cols ∧
    ∀ q, (dfsExpand g node).1.cell q =
      if q ∈ (dfsExpand g node).2 then markedCell g node q else g.cell q := by
  have h := markCells_spec g node (getUnvisitedNeighborsDfs g node) g []
    (fun hm => self_not_mem_neighborsURDL g node ((List.mem_filter.mp hm).1)) (by simp)
    rfl rfl (by intro q; simp)
  rw [dfsExpand_eq_markCells]
  simpa using h

/-- The relaxation fold of dijkstra.js. -/
def relaxCells (node : Pos) (l : List Pos) (g : Grid) : Grid :=
  l.foldl
    (fun g' nb =>
      if EN.ltb ((g'.cell node).dist.addN 1) ((g'.cell nb).dist) then
        g'.set nb { g'.cell nb with
          dist := (g'.cell node).dist.addN 1
          prev := some node }
      else g')
    g

theorem updateUnvisitedNeighbors_eq_relaxCells (g : Grid) (node : Pos) :
    updateUnvisitedNeighbors g node = relaxCells node (getUnvisitedNeighbors g node) g := rfl

/-- The relaxed state of a cell after dijkstra relaxes it from `node`. -/
def relaxedCell (g0 : Grid) (node q : Pos) : Cell :=
  { g0.cell q with
    dist := (g0.cell node).dist.addN 1
    prev := some node }

theorem relaxedCell_congr {g g' : Grid} {node q : Pos} (h1 : g.cell node = g'.cell node)
    (h2 : g.cell q = g'.cell q) : relaxedCell g node q = relaxedCell g' node q := by
  unfold relaxedCell
  rw [h1, h2]

theorem relaxCells_spec (node : Pos) :
    ∀ (l : List Pos) (g : Grid), node ∉ l → l.Nodup →
      (relaxCells node l g).rows = g.rows ∧ (relaxCells node l g).cols = g.cols ∧
      ∀ q, (relaxCells node l g).cell q =
        if q ∈ l ∧ EN.ltb ((g.cell node).dist.addN 1) ((g.cell q).dist) = true then
          relaxedCell g node q
        else g.cell q := by
  intro l
  induction l with
  | nil =>
    intro g _ _
    exact ⟨rfl, rfl, fun q => by simp [relaxCells]⟩
  | cons x xs ih =>
    intro g h1 h2
    have hnx : node ≠ x := fun h => h1 (h ▸ List.mem_cons_self x xs)
    have hnxs : node ∉ xs := fun h => h1 (List.mem_cons_of_mem x h)
    have hxxs : x ∉ xs := (List.nodup_cons.mp h2).1
    have hstep : relaxCells node (x :: xs) g =
        relaxCells node xs
          (if EN.ltb ((g.cell node).dist.addN 1) ((g.cell x).dist) then
            g.set x (relaxedCell g node x)
           else g) := by
      simp only [relaxCells, List.foldl_cons]
      rfl
    by_cases hc : EN.ltb ((g.cell node).dist.addN 1) ((g.cell x).dist) = true
    · rw [hstep, if_pos hc]
      have hgx : ∀ q, q ≠ x →
          (g.set x (relaxedCell g node x)).cell q = g.cell q := fun q hq =>
        Grid.set_other _ _ hq
      have hres := ih (g.set x (relaxedCell g node x)) hnxs (List.nodup_cons.mp h2).2
      refine ⟨hres.1.trans (Grid.set_rows g x (relaxedCell g node x)),
        hres.2.1.trans (Grid.set_cols g x (relaxedCell g node x)), ?_⟩
      intro q
      rw [hres.2.2 q]
      by_cases hqx : q = x
      · subst hqx
        rw [if_neg (fun h => hxxs h.1), Grid.set_same,
          if_pos ⟨List.mem_cons_self _ _, hc⟩]
      · rw [hgx q hqx, hgx node hnx]
        by_cases hql : q ∈ xs
        · by_cases hqc : EN.ltb ((g.cell node).dist.addN 1) ((g.cell q).dist) = true
          · rw [if_pos ⟨hql, hqc⟩, if_pos ⟨List.mem_cons_of_mem x hql, hqc⟩]
            exact relaxedCell_congr (hgx node hnx) (hgx q hqx)
          · rw [if_neg (fun h => hqc h.2), if_neg (fun h => hqc h.2)]
        · rw [if_neg (fun h => hql h.1),
            if_neg (fun h => hql ((List.mem_cons.mp h.1).resolve_left hqx))]
    · rw [hstep, if_neg hc]
      have hres := ih g hnxs (List.nodup_cons.mp h2).2
      refine ⟨hres.1, hres.2.1, ?_⟩
      intro q
      rw [hres.2.2 q]
      by_cases hqx : q = x
      · subst hqx
        rw [if_neg (fun h => hxxs h.1), if_neg (fun h => hc h.2)]
      · by_cases hql : q ∈ xs
        · by_cases hqc : EN.ltb ((g.cell node).dist.addN 1) ((g.cell q).dist) = true
          · rw [if_pos ⟨hql, hqc⟩, if_pos ⟨List.mem_cons_of_mem x hql, hqc⟩]
          · rw [if_neg (fun h => hqc h.2), if_neg (fun h => hqc h.2)]
        · rw [if_neg (fun h => hql h.1), if_neg (fun h => ?_)]
          exact hql ((List.mem_cons.mp h.1).resolve_left hqx)

/-- The relaxation fold of astar.js. -/
def astarRelaxFold (cur finish : Pos) (l : List Pos) (st : Grid × List Pos) :
    Grid × List Pos :=
  l.foldl
    (fun (st : Grid × List Pos) nb =>
      if ((st.1.cell nb).isWall || (st.1.cell nb).isVisited) then st
      else
        let tG := (st.1.cell cur).dist.addN 1
        if EN.ltb tG ((st.1.cell nb).dist) then
          (st.1.set nb { st.1.cell nb with
              dist := tG
              prev := some cur
              fScore := tG.addN (manhattan nb finish) },
           if nb ∈ st.2 then st.2 else st.2 ++ [nb])
        else st)
    st

theorem astarRelax_eq_fold (g : Grid) (cur finish : Pos) (openl : List Pos) :
    astarRelax g cur finish openl = astarRelaxFold cur finish (getNeighbors g cur) (g, openl) :=
  rfl

/-- The relaxed state of a cell after A* relaxes it from `cur`. -/
def astarRelaxedCell (g0 : Grid) (cur finish q : Pos) : Cell :=
  { g0.cell q with
    dist := (g0.cell cur).dist.addN 1
    prev := some cur
    fScore := ((g0.cell cur).dist.addN 1).addN (manhattan q finish) }

/-- A* relaxes a neighbor exactly when it is no wall, not closed, and the
tentative score strictly improves. -/
def astarRelaxCond (g0 : Grid) (cur q : Pos) : Prop :=
  (g0.cell q).isWall = false ∧ (g0.cell q).isVisited = false ∧
  EN.ltb ((g0.cell cur).dist.addN 1) ((g0.cell q).dist) = true

instance (g0 : Grid) (cur q : Pos) : Decidable (astarRelaxCond g0 cur q) := by
  unfold astarRelaxCond; infer_instance

theorem astarRelaxedCell_congr {g g' : Grid} {cur finish q : Pos}
    (h1 : g.cell cur = g'.cell cur) (h2 : g.cell q = g'.cell q) :
    astarRelaxedCell g cur finish q = astarRelaxedCell g' cur finish q := by
  unfold astarRelaxedCell
  rw [h1, h2]

theorem astarRelaxCond_congr {g g' : Grid} {cur q : Pos}
    (h1 : g.cell cur = g'.cell cur) (h2 : g.cell q = g'.cell q) :
    astarRelaxCond g cur q ↔ astarRelaxCond g' cur q := by
  unfold astarRelaxCond
  rw [h1, h2]

theorem astarRelaxFold_spec (cur finish : Pos) :
    ∀ (l : List Pos) (g : Grid) (openl : List Pos), cur ∉ l → l.Nodup →
      (astarRelaxFold cur finish l (g, openl)).1.rows = g.rows ∧
      (astarRelaxFold cur finish l (g, openl)).1.cols = g.cols ∧
      (∀ q, (astarRelaxFold cur finish l (g, openl)).1.cell q =
        if q ∈ l ∧ astarRelaxCond g cur q then astarRelaxedCell g cur finish q
        else g.cell q) ∧
      (∀ q, q ∈ (astarRelaxFold cur finish l (g, openl)).2 ↔
        q ∈ openl ∨ (q ∈ l ∧ astarRelaxCond g cur q)) := by
  intro l
  induction l with
  | nil =>
    intro g openl _ _
    refine ⟨rfl, rfl, fun q => by simp [astarRelaxFold], fun q => by simp [astarRelaxFold]⟩
  | cons x xs ih =>
    intro g openl h1 h2
    have hcx : cur ≠ x := fun h => h1 (h ▸ List.mem_cons_self x xs)
    have hcxs : cur ∉ xs := fun h => h1 (List.mem_cons_of_mem x h)
    have hxxs : x ∉ xs := (List.nodup_cons.mp h2).1
    by_cases hskip : ((g.cell x).isWall || (g.cell x).isVisited) = true
    · have hstep : astarRelaxFold cur finish (x :: xs) (g, openl) =
          astarRelaxFold cur finish xs (g, openl) := by
        simp only [astarRelaxFold, List.foldl_cons, hskip, if_true]
      rw [hstep]
      have hres := ih g openl hcxs (List.nodup_cons.mp h2).2
      have hnc : ¬ astarRelaxCond g cur x := by
        intro hcond
        simp [hcond.1, hcond.2.1] at hskip
      refine ⟨hres.1, hres.2.1, ?_, ?_⟩
      · intro q
        rw [hres.2.2.1 q]
        by_cases hqx : q = x
        · subst hqx
          rw [if_neg (fun h => hxxs h.1), if_neg (fun h => hnc h.2)]
        · have : q ∈ xs ∧ astarRelaxCond g cur q ↔
              q ∈ x :: xs ∧ astarRelaxCond g cur q := by
            constructor
            · exact fun h => ⟨List.mem_cons_of_mem x h.1, h.2⟩
            · exact fun h => ⟨(List.mem_cons.mp h.1).resolve_left hqx, h.2⟩
          rw [if_congr this rfl rfl]
      · intro q
        rw [hres.2.2.2 q]
        constructor
        · rintro (h | h)
          · exact Or.inl h
          · exact Or.inr ⟨List.mem_cons_of_mem x h.1, h.2⟩
        · rintro (h | ⟨hm, hc⟩)
          · exact Or.inl h
          · rcases List.mem_cons.mp hm with rfl | hm'
            · exact absurd hc hnc
            · exact Or.inr ⟨hm', hc⟩
    · have hok : (g.cell x).isWall = false ∧ (g.cell x).isVisited = false := by
        constructor
        · cases hb : (g.cell x).isWall
          · rfl
          · simp [hb] at hskip
        · cases hb : (g.cell x).isVisited
          · rfl
          · simp [hb] at hskip
      by_cases hc : EN.ltb ((g.cell cur).dist.addN 1) ((g.cell x).dist) = true
      · have hcond : astarRelaxCond g cur x := ⟨hok.1, hok.2, hc⟩
        have hstep : astarRelaxFold cur finish (x :: xs) (g, openl) =
            astarRelaxFold cur finish xs
              (g.set x (astarRelaxedCell g cur finish x),
               if x ∈ openl then openl else openl ++ [x]) := by
          simp only [astarRelaxFold, List.foldl_cons, hskip, if_false, Bool.false_eq_true]
          simp only [hc, if_true]
          rfl
        rw [hstep]
        have hgx : ∀ q, q ≠ x →
            (g.set x (astarRelaxedCell g cur finish x)).cell q = g.cell q := fun q hq =>
          Grid.set_other _ _ hq
        have hres := ih (g.set x (astarRelaxedCell g cur finish x))
          (if x ∈ openl then openl else openl ++ [x]) hcxs (List.nodup_cons.mp h2).2
        refine ⟨hres.1.trans (Grid.set_rows _ _ _), hres.2.1.trans (Grid.set_cols _ _ _),
          ?_, ?_⟩
        · intro q
          rw [hres.2.2.1 q]
          by_cases hqx : q = x
          · subst hqx
            rw [if_neg (fun h => hxxs h.1), Grid.set_same,
              if_pos ⟨List.mem_cons_self _ _, hcond⟩]
          · rw [if_congr (and_congr (Iff.rfl)
                (astarRelaxCond_congr (hgx cur hcx) (hgx q hqx)))
                (astarRelaxedCell_congr (hgx cur hcx) (hgx q hqx)) (hgx q hqx)]
            by_cases hql : q ∈ xs
            · by_cases hqc : astarRelaxCond g cur q
              · rw [if_pos ⟨hql, hqc⟩, if_pos ⟨List.mem_cons_of_mem x hql, hqc⟩]
              · rw [if_neg (fun h => hqc h.2), if_neg (fun h => hqc h.2)]
            · rw [if_neg (fun h => hql h.1),
                if_neg (fun h => hql ((List.mem_cons.mp h.1).resolve_left hqx))]
        · intro q
          rw [hres.2.2.2 q]
          have hopen : q ∈ (if x ∈ openl then openl else openl ++ [x]) ↔
              q ∈ openl ∨ q = x := by
            split
            · rename_i hxo
              constructor
              · exact Or.inl
              · rintro (h | rfl)
                · exact h
                · exact hxo
            · simp
          rw [hopen]
          constructor
          · rintro ((h | rfl) | ⟨hm, hcq⟩)
            · exact Or.inl h
            · exact Or.inr ⟨List.mem_cons_self _ _, hcond⟩
            · refine Or.inr ⟨List.mem_cons_of_mem x hm, ?_⟩
              exact (astarRelaxCond_congr (hgx cur hcx)
                (hgx q (fun h => hxxs (h ▸ hm)))).mp hcq
          · rintro (h | ⟨hm, hcq⟩)
            · exact Or.inl (Or.inl h)
            · rcases List.mem_cons.mp hm with rfl | hm'
              · exact Or.inl (Or.inr rfl)
              · refine Or.inr ⟨hm', ?_⟩
                exact (astarRelaxCond_congr (hgx cur hcx)
                  (hgx q (fun h => hxxs (h ▸ hm')))).mpr hcq
      · have hnc : ¬ astarRelaxCond g cur x := fun h => hc h.2.2
        have hstep : astarRelaxFold cur finish (x :: xs) (g, openl) =
            astarRelaxFold cur finish xs (g, openl) := by
          simp only [astarRelaxFold, List.foldl_cons, hskip, if_false, Bool.false_eq_true]
          simp only [hc, if_false, Bool.false_eq_true]
        rw [hstep]
        have hres := ih g openl hcxs (List.nodup_cons.mp h2).2
        refine ⟨hres.1, hres.2.1, ?_, ?_⟩
        · intro q
          rw [hres.2.2.1 q]
          by_cases hqx : q = x
          · subst hqx
            rw [if_neg (fun h => hxxs h.1), if_neg (fun h => hnc h.2)]
          · have : q ∈ xs ∧ astarRelaxCond g cur q ↔
                q ∈ x :: xs ∧ astarRelaxCond g cur q := by
              constructor
              · exact fun h => ⟨List.mem_cons_of_mem x h.1, h.2⟩
              · exact fun h => ⟨(List.mem_cons.mp h.1).resolve_left hqx, h.2⟩
            rw [if_congr this rfl rfl]
        · intro q
          rw [hres.2.2.2 q]
          constructor
          · rintro (h | h)
            · exact Or.inl h
            · exact Or.inr ⟨List.mem_cons_of_mem x h.1, h.2⟩
          · rintro (h | ⟨hm, hcq⟩)
            · exact Or.inl h
            · rcases List.mem_cons.mp hm with rfl | hm'
              · exact absurd hcq hnc
              · exact Or.inr ⟨hm', hcq⟩

/-- The relaxation fold of greedyBestFirst.js. -/
def greedyRelaxFold (cur finish : Pos) (l : List Pos) (st : Grid × List Pos) :
    Grid × List Pos :=
  l.foldl
    (fun (st : Grid × List Pos) nb =>
      if ((st.1.cell nb).isWall || (st.1.cell nb).isVisited) then st
      else
        let g1 :=
          if (st.1.cell nb).prev = none then
            st.1.set nb { st.1.cell nb with prev := some cur }
          else st.1
        let g2 := g1.set nb { g1.cell nb with fScore := EN.fin (manhattan nb finish) }
        (g2, if nb ∈ st.2 then st.2 else st.2 ++ [nb]))
    st

theorem greedyRelax_eq_fold (g : Grid) (cur finish : Pos) (openl : List Pos) :
    greedyRelax g cur finish openl =
      greedyRelaxFold cur finish (getNeighbors g cur) (g, openl) := rfl

/-- The state of a cell after greedy touches it from `cur`: `previousNode`
only if it was unset, `fScore` always the heuristic. -/
def greedyRelaxedCell (g0 : Grid) (cur finish q : Pos) : Cell :=
  { g0.cell q with
    prev := if (g0.cell q).prev = none then some cur else (g0.cell q).prev
    fScore := EN.fin (manhattan q finish) }

/-- Greedy touches a neighbor exactly when it is no wall and not closed. -/
def greedyRelaxCond (g0 : Grid) (q : Pos) : Prop :=
  (g0.cell q).isWall = false ∧ (g0.cell q).isVisited = false

instance (g0 : Grid) (q : Pos) : Decidable (greedyRelaxCond g0 q) := by
  unfold greedyRelaxCond; infer_instance

theorem greedyRelaxedCell_congr {g g' : Grid} {cur finish q : Pos}
    (h2 : g.cell q = g'.cell q) :
    greedyRelaxedCell g cur finish q = greedyRelaxedCell g' cur finish q := by
  unfold greedyRelaxedCell
  rw [h2]

theorem greedyRelaxCond_congr {g g' : Grid} {q : Pos} (h2 : g.cell q = g'.cell q) :
    greedyRelaxCond g q ↔ greedyRelaxCond g' q := by
  unfold greedyRelaxCond
  rw [h2]

theorem greedyStep_cells (g : Grid) (cur finish x : Pos) :
    ((if (g.cell x).prev = none then g.set x { g.cell x with prev := some cur } else g).set x
      { (if (g.cell x).prev = none then
          g.set x { g.cell x with prev := some cur } else g).cell x with
        fScore := EN.fin (manhattan x finish) }).rows = g.rows ∧
    ((if (g.cell x).prev = none then g.set x { g.cell x with prev := some cur } else g).set x
      { (if (g.cell x).prev = none then
          g.set x { g.cell x with prev := some cur } else g).cell x with
        fScore := EN.fin (manhattan x finish) }).cols = g.cols ∧
    ((if (g.cell x).prev = none then g.set x { g.cell x with prev := some cur } else g).set x
      { (if (g.cell x).prev = none then
          g.set x { g.cell x with prev := some cur } else g).cell x with
        fScore := EN.fin (manhattan x finish) }).cell x = greedyRelaxedCell g cur finish x ∧
    (∀ q, q ≠ x →
      ((if (g.cell x).prev = none then g.set x { g.cell x with prev := some cur } else g).set x
        { (if (g.cell x).prev = none then
            g.set x { g.cell x with prev := some cur } else g).cell x with
          fScore := EN.fin (manhattan x finish) }).cell q = g.cell q) := by
  by_cases hp : (g.cell x).prev = none
  · rw [if_pos hp]
    refine ⟨rfl, rfl, ?_, ?_⟩
    · rw [Grid.set_same, Grid.set_same]
      unfold greedyRelaxedCell
      rw [if_pos hp]
    · intro q hq
      rw [Grid.set_other _ _ hq, Grid.set_other _ _ hq]
  · rw [if_neg hp]
    refine ⟨rfl, rfl, ?_, ?_⟩
    · rw [Grid.set_same]
      unfold greedyRelaxedCell
      rw [if_neg hp]
    · intro q hq
      rw [Grid.set_other _ _ hq]

theorem greedyRelaxFold_spec (cur finish : Pos) :
    ∀ (l : List Pos) (g : Grid) (openl : List Pos), l.Nodup →
      (greedyRelaxFold cur finish l (g, openl)).1.rows = g.rows ∧
      (greedyRelaxFold cur finish l (g, openl)).1.cols = g.cols ∧
      (∀ q, (greedyRelaxFold cur finish l (g, openl)).1.cell q =
        if q ∈ l ∧ greedyRelaxCond g q then greedyRelaxedCell g cur finish q
        else g.cell q) ∧
      (∀ q, q ∈ (greedyRelaxFold cur finish l (g, openl)).2 ↔
        q ∈ openl ∨ (q ∈ l ∧ greedyRelaxCond g q)) := by
  intro l
  induction l with
  | nil =>
    intro g openl _
    exact ⟨rfl, rfl, fun q => by simp [greedyRelaxFold], fun q => by simp [greedyRelaxFold]⟩
  | cons x xs ih =>
    intro g openl h2
    have hxxs : x ∉ xs := (List.nodup_cons.mp h2).1
    by_cases hskip : ((g.cell x).isWall || (g.cell x).isVisited) = true
    · have hstep : greedyRelaxFold cur finish (x :: xs) (g, openl) =
          greedyRelaxFold cur finish xs (g, openl) := by
        simp only [greedyRelaxFold, List.foldl_cons, hskip, if_true]
      rw [hstep]
      have hres := ih g openl (List.nodup_cons.mp h2).2
      have hnc : ¬ greedyRelaxCond g x := by
        intro hcond
        simp [hcond.1, hcond.2] at hskip
      refine ⟨hres.1, hres.2.1, ?_, ?_⟩
      · intro q
        rw [hres.2.2.1 q]
        by_cases hqx : q = x
        · subst hqx
          rw [if_neg (fun h => hxxs h.1), if_neg (fun h => hnc h.2)]
        · have : q ∈ xs ∧ greedyRelaxCond g q ↔ q ∈ x :: xs ∧ greedyRelaxCond g q := by
            constructor
            · exact fun h => ⟨List.mem_cons_of_mem x h.1, h.2⟩
            · exact fun h => ⟨(List.mem_cons.mp h.1).resolve_left hqx, h.2⟩
          rw [if_congr this rfl rfl]
      · intro q
        rw [hres.2.2.2 q]
        constructor
        · rintro (h | h)
          · exact Or.inl h
          · exact Or.inr ⟨List.mem_cons_of_mem x h.1, h.2⟩
        · rintro (h | ⟨hm, hcq⟩)
          · exact Or.inl h
          · rcases List.mem_cons.mp hm with rfl | hm'
            · exact absurd hcq hnc
            · exact Or.inr ⟨hm', hcq⟩
    · have hok : (g.cell x).isWall = false ∧ (g.cell x).isVisited = false := by
        constructor
        · cases hb : (g.cell x).isWall
          · rfl
          · simp [hb] at hskip
        · cases hb : (g.cell x).isVisited
          · rfl
          · simp [hb] at hskip
      have hcond : greedyRelaxCond g x := ⟨hok.1, hok.2⟩
      have hstep : greedyRelaxFold cur finish (x :: xs) (g, openl) =
          greedyRelaxFold cur finish xs
            ((if (g.cell x).prev = none then
                g.set x { g.cell x with prev := some cur } else g).set x
              { (if (g.cell x).prev = none then
                  g.set x { g.cell x with prev := some cur } else g).cell x with
                fScore := EN.fin (manhattan x finish) },
             if x ∈ openl then openl else openl ++ [x]) := by
        simp only [greedyRelaxFold, List.foldl_cons, hskip, if_false, Bool.false_eq_true]
      rw [hstep]
      obtain ⟨hrows, hcols, hcellx, hcellq⟩ := greedyStep_cells g cur finish x
      have hres := ih ((if (g.cell x).prev = none then
          g.set x { g.cell x with prev := some cur } else g).set x
        { (if (g.cell x).prev = none then
            g.set x { g.cell x with prev := some cur } else g).cell x with
          fScore := EN.fin (manhattan x finish) })
        (if x ∈ openl then openl else openl ++ [x]) (List.nodup_cons.mp h2).2
      refine ⟨hres.1.trans hrows, hres.2.1.trans hcols, ?_, ?_⟩
      · intro q
        rw [hres.2.2.1 q]
        by_cases hqx : q = x
        · subst hqx
          rw [if_neg (fun h => hxxs h.1), hcellx,
            if_pos ⟨List.mem_cons_self _ _, hcond⟩]
        · rw [if_congr (and_congr (Iff.rfl) (greedyRelaxCond_congr (hcellq q hqx)))
              (@greedyRelaxedCell_congr _ _ cur finish _ (hcellq q hqx))
              (hcellq q hqx)]
          by_cases hql : q ∈ xs
          · by_cases hqc : greedyRelaxCond g q
            · rw [if_pos ⟨hql, hqc⟩, if_pos ⟨List.mem_cons_of_mem x hql, hqc⟩]
            · rw [if_neg (fun h => hqc h.2), if_neg (fun h => hqc h.2)]
          · rw [if_neg (fun h => hql h.1),
              if_neg (fun h => hql ((List.mem_cons.mp h.1).resolve_left hqx))]
      · intro q
        rw [hres.2.2.2 q]
        have hopen : q ∈ (if x ∈ openl then openl else openl ++ [x]) ↔
            q ∈ openl ∨ q = x := by
          split
          · rename_i hxo
            constructor
            · exact Or.inl
            · rintro (h | rfl)
              · exact h
              · exact hxo
          · simp
        rw [hopen]
        constructor
        · rintro ((h | rfl) | ⟨hm, hcq⟩)
          · exact Or.inl h
          · exact Or.inr ⟨List.mem_cons_self _ _, hcond⟩
          · refine Or.inr ⟨List.mem_cons_of_mem x hm, ?_⟩
            exact (greedyRelaxCond_congr (hcellq q (fun h => hxxs (h ▸ hm)))).mp hcq
        · rintro (h | ⟨hm, hcq⟩)
          · exact Or.inl (Or.inl h)
          · rcases List.mem_cons.mp hm with rfl | hm'
            · exact Or.inl (Or.inr rfl)
            · refine Or.inr ⟨hm', ?_⟩
              exact (greedyRelaxCond_congr (hcellq q (fun h => hxxs (h ▸ hm')))).mpr hcq

/-! ## Wall-cell frame facts (claim C7) -/

/-- The grid `g` agrees with the initial grid `g₀` on every `isWall` flag,
and on the `isVisited` flag of every wall cell. -/
def WallSafe (g₀ g : Grid) : Prop :=
  ∀ q, (g.cell q).isWall = (g₀.cell q).isWall ∧
    ((g₀.cell q).isWall = true → (g.cell q).isVisited = (g₀.cell q).isVisited)

theorem wallSafe_refl (g : Grid) : WallSafe g g := fun _ => ⟨rfl, fun _ => rfl⟩

theorem wallSafe_mark {g₀ g : Grid} {p : Pos} (h : WallSafe g₀ g)
    (hp : (g.cell p).isWall = false) :
    WallSafe g₀ (g.set p { g.cell p with isVisited := true }) := by
  intro q
  by_cases hq : q = p
  · subst hq
    rw [Grid.set_same]
    refine ⟨(h q).1, fun hw => ?_⟩
    rw [(h q).1, hw] at hp
    cases hp
  · rw [Grid.set_other _ _ hq]
    exact h q

theorem wallSafe_bfsExpand {g₀ g : Grid} {node : Pos} (h : WallSafe g₀ g) :
    WallSafe g₀ (bfsExpand g node).1 := by
  intro q
  obtain ⟨hout, _, _, hcell⟩ := bfsExpand_spec g node
  rw [hcell q]
  split
  · rename_i hin
    rw [hout] at hin
    have hqw : (g.cell q).isWall = false := by
      have := (List.mem_filter.mp hin).2
      simpa using this
    refine ⟨(h q).1, fun hw => ?_⟩
    rw [(h q).1, hw] at hqw
    cases hqw
  · exact h q

theorem wallSafe_dfsExpand {g₀ g : Grid} {node : Pos} (h : WallSafe g₀ g) :
    WallSafe g₀ (dfsExpand g node).1 := by
  intro q
  obtain ⟨hout, _, _, hcell⟩ := dfsExpand_spec g node
  rw [hcell q]
  split
  · rename_i hin
    rw [hout] at hin
    have hqw : (g.cell q).isWall = false := by
      have := (List.mem_filter.mp hin).2
      simpa using this
    refine ⟨(h q).1, fun hw => ?_⟩
    rw [(h q).1, hw] at hqw
    cases hqw
  · exact h q

theorem wallSafe_updateUnvisitedNeighbors {g₀ g : Grid} {node : Pos} (h : WallSafe g₀ g) :
    WallSafe g₀ (updateUnvisitedNeighbors g node) := by
  intro q
  rw [updateUnvisitedNeighbors_eq_relaxCells]
  have hspec := relaxCells_spec node (getUnvisitedNeighbors g node) g
    (fun hm => self_not_mem_neighborsUDLR g node ((List.mem_filter.mp hm).1))
    ((nodup_neighborsUDLR g node).filter _)
  rw [hspec.2.2 q]
  split
  · exact ⟨(h q).1, fun hw => (h q).2 hw⟩
  · exact h q

theorem wallSafe_astarRelax {g₀ g : Grid} {cur finish : Pos} {openl : List Pos}
    (h : WallSafe g₀ g) : WallSafe g₀ (astarRelax g cur finish openl).1 := by
  intro q
  rw [astarRelax_eq_fold]
  have hspec := astarRelaxFold_spec cur finish (getNeighbors g cur) g openl
    (self_not_mem_neighborsUDLR g cur) (nodup_neighborsUDLR g cur)
  rw [hspec.2.2.1 q]
  split
  · exact ⟨(h q).1, fun hw => (h q).2 hw⟩
  · exact h q

theorem wallSafe_greedyRelax {g₀ g : Grid} {cur finish : Pos} {openl : List Pos}
    (h : WallSafe g₀ g) : WallSafe g₀ (greedyRelax g cur finish openl).1 := by
  intro q
  rw [greedyRelax_eq_fold]
  have hspec := greedyRelaxFold_spec cur finish (getNeighbors g cur) g openl
    (nodup_neighborsUDLR g cur)
  rw [hspec.2.2.1 q]
  split
  · exact ⟨(h q).1, fun hw => (h q).2 hw⟩
  · exact h q

theorem bfsLoop_wallSafe (g₀ : Grid) (finish : Pos) :
    ∀ (fuel : Nat) (g : Grid) (queue acc : List Pos),
      WallSafe g₀ g →
      (∀ p ∈ acc, (g₀.cell p).isWall = false) →
      WallSafe g₀ (bfsLoop finish fuel g queue acc).2 ∧
      ∀ p ∈ (bfsLoop finish fuel g queue acc).1, (g₀.cell p).isWall = false := by
  intro fuel
  induction fuel with
  | zero => intro g queue acc hg hacc; exact ⟨hg, hacc⟩
  | succ n ih =>
    intro g queue acc hg hacc
    cases queue with
    | nil => exact ⟨hg, hacc⟩
    | cons node rest =>
      simp only [bfsLoop]
      by_cases hw : (g.cell node).isWall = true
      · rw [if_pos hw]
        exact ih g rest acc hg hacc
      · rw [if_neg hw]
        have hnodeW : (g₀.cell node).isWall = false := by
          rw [← (hg node).1]
          cases hb : (g.cell node).isWall
          · rfl
          · exact absurd hb hw
        have hacc' : ∀ p ∈ acc ++ [node], (g₀.cell p).isWall = false := by
          intro p hp
          rcases List.mem_append.mp hp with h1 | h1
          · exact hacc p h1
          · simp at h1; rw [h1]; exact hnodeW
        by_cases hf : node = finish
        · rw [if_pos hf]
          exact ⟨hg, hacc'⟩
        · rw [if_neg hf]
          exact ih _ _ _ (wallSafe_bfsExpand hg) hacc'

theorem dfsLoop_wallSafe (g₀ : Grid) (finish : Pos) :
    ∀ (fuel : Nat) (g : Grid) (stack acc : List Pos),
      WallSafe g₀ g →
      (∀ p ∈ acc, (g₀.cell p).isWall = false) →
      WallSafe g₀ (dfsLoop finish fuel g stack acc).2 ∧
      ∀ p ∈ (dfsLoop finish fuel g stack acc).1, (g₀.cell p).isWall = false := by
  intro fuel
  induction fuel with
  | zero => intro g stack acc hg hacc; exact ⟨hg, hacc⟩
  | succ n ih =>
    intro g stack acc hg hacc
    cases stack with
    | nil => exact ⟨hg, hacc⟩
    | cons node rest =>
      simp only [dfsLoop]
      by_cases hw : (g.cell node).isWall = true
      · rw [if_pos hw]
        exact ih g rest acc hg hacc
      · rw [if_neg hw]
        have hnodeW : (g₀.cell node).isWall = false := by
          rw [← (hg node).1]
          cases hb : (g.cell node).isWall
          · rfl
          · exact absurd hb hw
        have hacc' : ∀ p ∈ acc ++ [node], (g₀.cell p).isWall = false := by
          intro p hp
          rcases List.mem_append.mp hp with h1 | h1
          · exact hacc p h1
          · simp at h1; rw [h1]; exact hnodeW
        by_cases hf : node = finish
        · rw [if_pos hf]
          exact ⟨hg, hacc'⟩
        · rw [if_neg hf]
          exact ih _ _ _ (wallSafe_dfsExpand hg) hacc'

theorem dijkstraLoop_wallSafe (g₀ : Grid) (finish : Pos) :
    ∀ (fuel : Nat) (g : Grid) (pool acc : List Pos),
      WallSafe g₀ g →
      (∀ p ∈ acc, (g₀.cell p).isWall = false) →
      WallSafe g₀ (dijkstraLoop finish fuel g pool acc).2 ∧
      ∀ p ∈ (dijkstraLoop finish fuel g pool acc).1, (g₀.cell p).isWall = false := by
  intro fuel
  induction fuel with
  | zero => intro g pool acc hg hacc; exact ⟨hg, hacc⟩
  | succ n ih =>
    intro g pool acc hg hacc
    simp only [dijkstraLoop]
    cases hs : sortKey (fun p => (g.cell p).dist) pool with
    | nil => exact ⟨hg, hacc⟩
    | cons closest rest =>
      dsimp only
      by_cases hw : (g.cell closest).isWall = true
      · rw [if_pos hw]
        exact ih g rest acc hg hacc
      · rw [if_neg hw]
        by_cases hinf : (g.cell closest).dist = EN.inf
        · rw [if_pos hinf]
          exact ⟨hg, hacc⟩
        · rw [if_neg hinf]
          have hclosestW : (g₀.cell closest).isWall = false := by
            rw [← (hg closest).1]
            cases hb : (g.cell closest).isWall
            · rfl
            · exact absurd hb hw
          have hacc' : ∀ p ∈ acc ++ [closest], (g₀.cell p).isWall = false := by
            intro p hp
            rcases List.mem_append.mp hp with h1 | h1
            · exact hacc p h1
            · simp at h1; rw [h1]; exact hclosestW
          have hg' := wallSafe_mark hg (by
            cases hb : (g.cell closest).isWall
            · rfl
            · exact absurd hb hw)
          by_cases hf : closest = finish
          · rw [if_pos hf]
            exact ⟨hg', hacc'⟩
          · rw [if_neg hf]
            exact ih _ _ _ (wallSafe_updateUnvisitedNeighbors hg') hacc'

theorem astarLoop_wallSafe (g₀ : Grid) (finish : Pos) :
    ∀ (fuel : Nat) (g : Grid) (openl acc : List Pos),
      WallSafe g₀ g →
      (∀ p ∈ acc, (g₀.cell p).isWall = false) →
      WallSafe g₀ (astarLoop finish fuel g openl acc).2 ∧
      ∀ p ∈ (astarLoop finish fuel g openl acc).1, (g₀.cell p).isWall = false := by
  intro fuel
  induction fuel with
  | zero => intro g openl acc hg hacc; exact ⟨hg, hacc⟩
  | succ n ih =>
    intro g openl acc hg hacc
    simp only [astarLoop]
    cases hs : sortKey (fun p => (g.cell p).fScore) openl with
    | nil => exact ⟨hg, hacc⟩
    | cons cur rest =>
      dsimp only
      by_cases hw : (g.cell cur).isWall = true
      · rw [if_pos hw]
        exact ih g rest acc hg hacc
      · rw [if_neg hw]
        by_cases hv : (g.cell cur).isVisited = true
        · rw [if_pos hv]
          exact ih g rest acc hg hacc
        · rw [if_neg hv]
          have hcurW : (g₀.cell cur).isWall = false := by
            rw [← (hg cur).1]
            cases hb : (g.cell cur).isWall
            · rfl
            · exact absurd hb hw
          have hacc' : ∀ p ∈ acc ++ [cur], (g₀.cell p).isWall = false := by
            intro p hp
            rcases List.mem_append.mp hp with h1 | h1
            · exact hacc p h1
            · simp at h1; rw [h1]; exact hcurW
          have hg' := wallSafe_mark hg (by
            cases hb : (g.cell cur).isWall
            · rfl
            · exact absurd hb hw)
          by_cases hf : cur = finish
          · rw [if_pos hf]
            exact ⟨hg', hacc'⟩
          · rw [if_neg hf]
            exact ih _ _ _ (wallSafe_astarRelax hg') hacc'

theorem greedyLoop_wallSafe (g₀ : Grid) (finish : Pos) :
    ∀ (fuel : Nat) (g : Grid) (openl acc : List Pos),
      WallSafe g₀ g →
      (∀ p ∈ acc, (g₀.cell p).isWall = false) →
      WallSafe g₀ (greedyLoop finish fuel g openl acc).2 ∧
      ∀ p ∈ (greedyLoop finish fuel g openl acc).1, (g₀.cell p).isWall = false := by
  intro fuel
  induction fuel with
  | zero => intro g openl acc hg hacc; exact ⟨hg, hacc⟩
  | succ n ih =>
    intro g openl acc hg hacc
    simp only [greedyLoop]
    cases hs : sortKey (fun p => (g.cell p).fScore) openl with
    | nil => exact ⟨hg, hacc⟩
    | cons cur rest =>
      dsimp only
      by_cases hw : (g.cell cur).isWall = true
      · rw [if_pos hw]
        exact ih g rest acc hg hacc
      · rw [if_neg hw]
        by_cases hv : (g.cell cur).isVisited = true
        · rw [if_pos hv]
          exact ih g rest acc hg hacc
        · rw [if_neg hv]
          have hcurW : (g₀.cell cur).isWall = false := by
            rw [← (hg cur).1]
            cases hb : (g.cell cur).isWall
            · rfl
            · exact absurd hb hw
          have hacc' : ∀ p ∈ acc ++ [cur], (g₀.cell p).isWall = false := by
            intro p hp
            rcases List.mem_append.mp hp with h1 | h1
            · exact hacc p h1
            · simp at h1; rw [h1]; exact hcurW
          have hg' := wallSafe_mark hg (by
            cases hb : (g.cell cur).isWall
            · rfl
            · exact absurd hb hw)
          by_cases hf : cur = finish
          · rw [if_pos hf]
            exact ⟨hg', hacc'⟩
          · rw [if_neg hf]
            exact ih _ _ _ (wallSafe_greedyRelax hg') hacc'

/-! ## Fuel sufficiency: the unvisited-cell count -/

/-- The reset state of the working fields, as assumed by the spec's grid
lifecycle before every run. -/
def WorkClean (g : Grid) : Prop :=
  ∀ q, (g.cell q).isVisited = false ∧ (g.cell q).dist = EN.inf ∧
    (g.cell q).fScore = EN.inf ∧ (g.cell q).prev = none

/-- Number of in-bounds cells not yet marked visited. -/
def unvisCount (g : Grid) : Nat :=
  (((Finset.range g.rows) ×ˢ (Finset.range g.cols)).filter
    (fun p => (g.cell p).isVisited = false)).card

theorem unvisCount_le (g : Grid) : unvisCount g ≤ g.rows * g.cols := by
  unfold unvisCount
  calc _ ≤ ((Finset.range g.rows) ×ˢ (Finset.range g.cols)).card :=
        Finset.card_filter_le _ _
    _ = g.rows * g.cols := by rw [Finset.card_product]; simp

theorem unvisCount_congr {g g' : Grid} (hr : g'.rows = g.rows) (hc : g'.cols = g.cols)
    (h : ∀ q, (g'.cell q).isVisited = (g.cell q).isVisited) : unvisCount g' = unvisCount g := by
  unfold unvisCount
  rw [hr, hc]
  congr 1
  apply Finset.filter_congr
  intro q _
  rw [h q]

theorem unvisCount_mark {g : Grid} {p : Pos} {c : Cell} (hb : inB g p)
    (hv : (g.cell p).isVisited = false) (hc : c.isVisited = true) :
    unvisCount (g.set p c) + 1 = unvisCount g := by
  unfold unvisCount
  have hset : (((Finset.range (g.set p c).rows) ×ˢ (Finset.range (g.set p c).cols)).filter
      (fun q => ((g.set p c).cell q).isVisited = false)) =
      (((Finset.range g.rows) ×ˢ (Finset.range g.cols)).filter
        (fun q => (g.cell q).isVisited = false)).erase p := by
    ext q
    simp only [Finset.mem_erase, Finset.mem_filter, Finset.mem_product, Finset.mem_range,
      Grid.set_rows, Grid.set_cols]
    by_cases hq : q = p
    · subst hq
      rw [Grid.set_same]
      simp [hc]
    · rw [Grid.set_other _ _ hq]
      simp [hq]
      try tauto
  rw [hset]
  have hmem : p ∈ (((Finset.range g.rows) ×ˢ (Finset.range g.cols)).filter
      (fun q => (g.cell q).isVisited = false)) := by
    simp only [Finset.mem_filter, Finset.mem_product, Finset.mem_range]
    exact ⟨⟨hb.1, hb.2⟩, hv⟩
  rw [Finset.card_erase_of_mem hmem]
  have := Finset.card_pos.mpr ⟨p, hmem⟩
  omega

/-- The effect of marking a duplicate-free block of in-bounds, previously
unvisited cells on the unvisited count. -/
theorem unvisCount_markCells :
    ∀ (out : List Pos) (g g' : Grid),
      g'.rows = g.rows → g'.cols = g.cols →
      out.Nodup → (∀ p ∈ out, inB g p) →
      (∀ p ∈ out, (g.cell p).isVisited = false) →
      (∀ q, (g'.cell q).isVisited = if q ∈ out then true else (g.cell q).isVisited) →
      unvisCount g' + out.length = unvisCount g := by
  intro out
  induction out with
  | nil =>
    intro g g' hr hcc _ _ _ hcell
    rw [unvisCount_congr hr hcc (fun q => by simpa using hcell q)]
    simp
  | cons x xs ih =>
    intro g g' hr hcc hout houtIn houtUv hcell
    have hxIn : inB g x := houtIn x (List.mem_cons_self x xs)
    have hxUv : (g.cell x).isVisited = false := houtUv x (List.mem_cons_self x xs)
    have hxxs : x ∉ xs := (List.nodup_cons.mp hout).1
    have key : unvisCount g' + xs.length =
        unvisCount (g.set x { g.cell x with isVisited := true }) := by
      refine ih (g.set x { g.cell x with isVisited := true }) g'
        (hr.trans (Grid.set_rows g x _).symm) (hcc.trans (Grid.set_cols g x _).symm)
        (List.nodup_cons.mp hout).2 ?_ ?_ ?_
      · intro p hp
        have := houtIn p (List.mem_cons_of_mem x hp)
        exact ⟨by rw [Grid.set_rows]; exact this.1, by rw [Grid.set_cols]; exact this.2⟩
      · intro p hp
        by_cases hpx : p = x
        · subst hpx; exact absurd hp hxxs
        · rw [Grid.set_other _ _ hpx]
          exact houtUv p (List.mem_cons_of_mem x hp)
      · intro q
        rw [hcell q]
        by_cases hqx : q = x
        · subst hqx
          rw [Grid.set_same, if_pos (List.mem_cons_self _ _), if_neg hxxs]
        · rw [Grid.set_other _ _ hqx]
          by_cases hqxs : q ∈ xs
          · rw [if_pos hqxs, if_pos (List.mem_cons_of_mem x hqxs)]
          · rw [if_neg hqxs, if_neg (by
              intro hmem
              rcases List.mem_cons.mp hmem with h | h
              · exact hqx h
              · exact hqxs h)]
    have hmark := @unvisCount_mark g x { g.cell x with isVisited := true } hxIn hxUv rfl
    simp only [List.length_cons]
    omega

theorem bfsExpand_out_spec {g : Grid} {node : Pos} (hb : inB g node) :
    (bfsExpand g node).2.Nodup ∧
    (∀ p ∈ (bfsExpand g node).2,
      inB g p ∧ (g.cell p).isVisited = false ∧ (g.cell p).isWall = false) ∧
    unvisCount (bfsExpand g node).1 + (bfsExpand g node).2.length = unvisCount g := by
  obtain ⟨hout, hr, hc, hcell⟩ := bfsExpand_spec g node
  have hsub : ∀ p ∈ (bfsExpand g node).2,
      inB g p ∧ (g.cell p).isVisited = false ∧ (g.cell p).isWall = false := by
    intro p hp
    rw [hout] at hp
    have h1 := List.mem_filter.mp hp
    have h2 := List.mem_filter.mp h1.1
    refine ⟨inB_of_mem_neighborsUDLR hb h2.1, by simpa using h2.2, by simpa using h1.2⟩
  refine ⟨?_, hsub, ?_⟩
  · rw [hout]
    exact ((nodup_neighborsUDLR g node).filter _).filter _
  · refine unvisCount_markCells (bfsExpand g node).2 g (bfsExpand g node).1 hr hc
      (by rw [hout]; exact ((nodup_neighborsUDLR g node).filter _).filter _)
      (fun p hp => (hsub p hp).1) (fun p hp => (hsub p hp).2.1) ?_
    intro q
    rw [hcell q]
    split
    · rfl
    · rfl

theorem dfsExpand_out_spec {g : Grid} {node : Pos} (hb : inB g node) :
    (dfsExpand g node).2.Nodup ∧
    (∀ p ∈ (dfsExpand g node).2,
      inB g p ∧ (g.cell p).isVisited = false ∧ (g.cell p).isWall = false) ∧
    unvisCount (dfsExpand g node).1 + (dfsExpand g node).2.length = unvisCount g := by
  obtain ⟨hout, hr, hc, hcell⟩ := dfsExpand_spec g node
  have hsub : ∀ p ∈ (dfsExpand g node).2,
      inB g p ∧ (g.cell p).isVisited = false ∧ (g.cell p).isWall = false := by
    intro p hp
    rw [hout] at hp
    have h1 := List.mem_filter.mp hp
    have h2 := List.mem_filter.mp h1.1
    refine ⟨inB_of_mem_neighborsURDL hb h2.1, by simpa using h2.2, by simpa using h1.2⟩
  refine ⟨?_, hsub, ?_⟩
  · rw [hout]
    exact ((nodup_neighborsURDL g node).filter _).filter _
  · refine unvisCount_markCells (dfsExpand g node).2 g (dfsExpand g node).1 hr hc
      (by rw [hout]; exact ((nodup_neighborsURDL g node).filter _).filter _)
      (fun p hp => (hsub p hp).1) (fun p hp => (hsub p hp).2.1) ?_
    intro q
    rw [hcell q]
    split
    · rfl
    · rfl

/-- The BFS loop, run with enough fuel, either records the finish or ends
with an empty queue having never touched the finish cell, with every
visited-marked cell recorded. -/
theorem bfsLoop_end (finish : Pos) :
    ∀ (fuel : Nat) (g : Grid) (queue acc : List Pos),
      queue.length + 2 * unvisCount g ≤ fuel →
      (∀ p ∈ queue, inB g p) →
      (g.cell finish).isWall = false →
      (∀ p, (g.cell p).isVisited = true → p ∈ acc ∨ (p ∈ queue ∧ (g.cell p).isWall = false)) →
      finish ∈ (bfsLoop finish fuel g queue acc).1 ∨
        (finish ∉ queue ∧
         (bfsLoop finish fuel g queue acc).2.cell finish = g.cell finish ∧
         ∀ p, ((bfsLoop finish fuel g queue acc).2.cell p).isVisited = true →
           p ∈ (bfsLoop finish fuel g queue acc).1) := by
  intro fuel
  induction fuel with
  | zero =>
    intro g queue acc hfuel hinB hfw hM
    have hq : queue = [] := List.length_eq_zero.mp (by omega)
    subst hq
    right
    refine ⟨by simp, rfl, ?_⟩
    intro p hp
    rcases hM p hp with h | h
    · exact h
    · simp at h
  | succ n ih =>
    intro g queue acc hfuel hinB hfw hM
    cases queue with
    | nil =>
      right
      refine ⟨by simp, rfl, ?_⟩
      intro p hp
      rcases hM p hp with h | h
      · exact h
      · rw [List.mem_nil_iff] at h
        exact absurd h.1 (by simp)
    | cons node rest =>
      have hnodeB : inB g node := hinB node (List.mem_cons_self _ _)
      simp only [bfsLoop]
      by_cases hw : (g.cell node).isWall = true
      · rw [if_pos hw]
        have hnf : node ≠ finish := fun h => by rw [h, hfw] at hw; cases hw
        have hres := ih g rest acc
          (by simp only [List.length_cons] at hfuel; omega)
          (fun p hp => hinB p (List.mem_cons_of_mem _ hp)) hfw ?_
        · rcases hres with h | ⟨h1, h2, h3⟩
          · exact Or.inl h
          · exact Or.inr ⟨by simp [h1, Ne.symm hnf], h2, h3⟩
        · intro p hp
          rcases hM p hp with h | ⟨h1, h2⟩
          · exact Or.inl h
          · rcases List.mem_cons.mp h1 with rfl | h3
            · rw [h2] at hw; cases hw
            · exact Or.inr ⟨h3, h2⟩
      · rw [if_neg hw]
        by_cases hf : node = finish
        · rw [if_pos hf]
          exact Or.inl (by simp [hf])
        · rw [if_neg hf]
          obtain ⟨houtN, houtE, houtC⟩ := bfsExpand_out_spec hnodeB
          obtain ⟨houtL, hrows, hcols, hcell⟩ := bfsExpand_spec g node
          have hres := ih (bfsExpand g node).1 (rest ++ (bfsExpand g node).2) (acc ++ [node])
            ?_ ?_ ?_ ?_
          · rcases hres with h | ⟨h1, h2, h3⟩
            · exact Or.inl h
            · refine Or.inr ⟨?_, ?_, h3⟩
              · intro hmem
                rcases List.mem_cons.mp hmem with h4 | h4
                · exact hf h4.symm
                · exact h1 (List.mem_append.mpr (Or.inl h4))
              · rw [h2, hcell finish,
                  if_neg (fun hmem => h1 (List.mem_append.mpr (Or.inr hmem)))]
          · simp only [List.length_append, List.length_cons] at hfuel ⊢
            omega
          · intro p hp
            have hb2 : inB g p := by
              rcases List.mem_append.mp hp with h | h
              · exact hinB p (List.mem_cons_of_mem _ h)
              · exact (houtE p h).1
            exact ⟨by rw [hrows]; exact hb2.1, by rw [hcols]; exact hb2.2⟩
          · rw [hcell finish]
            split
            · simpa [markedCell] using hfw
            · exact hfw
          · intro p hp
            rw [hcell p] at hp
            by_cases hpo : p ∈ (bfsExpand g node).2
            · refine Or.inr ⟨List.mem_append.mpr (Or.inr hpo), ?_⟩
              rw [hcell p, if_pos hpo]
              have := (houtE p hpo).2.2
              unfold markedCell
              simpa using this
            · rw [if_neg hpo] at hp
              rcases hM p hp with h | ⟨h1, h2⟩
              · exact Or.inl (List.mem_append.mpr (Or.inl h))
              · rcases List.mem_cons.mp h1 with rfl | h3
                · exact Or.inl (by simp)
                · refine Or.inr ⟨List.mem_append.mpr (Or.inl h3), ?_⟩
                  rw [hcell p, if_neg hpo]
                  exact h2

/-- The DFS loop analog of `bfsLoop_end`. -/
theorem dfsLoop_end (finish : Pos) :
    ∀ (fuel : Nat) (g : Grid) (stack acc : List Pos),
      stack.length + 2 * unvisCount g ≤ fuel →
      (∀ p ∈ stack, inB g p) →
      (g.cell finish).isWall = false →
      (∀ p, (g.cell p).isVisited = true → p ∈ acc ∨ (p ∈ stack ∧ (g.cell p).isWall = false)) →
      finish ∈ (dfsLoop finish fuel g stack acc).1 ∨
        (finish ∉ stack ∧
         (dfsLoop finish fuel g stack acc).2.cell finish = g.cell finish ∧
         ∀ p, ((dfsLoop finish fuel g stack acc).2.cell p).isVisited = true →
           p ∈ (dfsLoop finish fuel g stack acc).1) := by
  intro fuel
  induction fuel with
  | zero =>
    intro g stack acc hfuel hinB hfw hM
    have hq : stack = [] := List.length_eq_zero.mp (by omega)
    subst hq
    right
    refine ⟨by simp, rfl, ?_⟩
    intro p hp
    rcases hM p hp with h | h
    · exact h
    · simp at h
  | succ n ih =>
    intro g stack acc hfuel hinB hfw hM
    cases stack with
    | nil =>
      right
      refine ⟨by simp, rfl, ?_⟩
      intro p hp
      rcases hM p hp with h | h
      · exact h
      · rw [List.mem_nil_iff] at h
        exact absurd h.1 (by simp)
    | cons node rest =>
      have hnodeB : inB g node := hinB node (List.mem_cons_self _ _)
      simp only [dfsLoop]
      by_cases hw : (g.cell node).isWall = true
      · rw [if_pos hw]
        have hnf : node ≠ finish := fun h => by rw [h, hfw] at hw; cases hw
        have hres := ih g rest acc
          (by simp only [List.length_cons] at hfuel; omega)
          (fun p hp => hinB p (List.mem_cons_of_mem _ hp)) hfw ?_
        · rcases hres with h | ⟨h1, h2, h3⟩
          · exact Or.inl h
          · exact Or.inr ⟨by simp [h1, Ne.symm hnf], h2, h3⟩
        · intro p hp
          rcases hM p hp with h | ⟨h1, h2⟩
          · exact Or.inl h
          · rcases List.mem_cons.mp h1 with rfl | h3
            · rw [h2] at hw; cases hw
            · exact Or.inr ⟨h3, h2⟩
      · rw [if_neg hw]
        by_cases hf : node = finish
        · rw [if_pos hf]
          exact Or.inl (by simp [hf])
        · rw [if_neg hf]
          obtain ⟨houtN, houtE, houtC⟩ := dfsExpand_out_spec hnodeB
          obtain ⟨houtL, hrows, hcols, hcell⟩ := dfsExpand_spec g node
          have hres := ih (dfsExpand g node).1 ((dfsExpand g node).2 ++ rest) (acc ++ [node])
            ?_ ?_ ?_ ?_
          · rcases hres with h | ⟨h1, h2, h3⟩
            · exact Or.inl h
            · refine Or.inr ⟨?_, ?_, h3⟩
              · intro hmem
                rcases List.mem_cons.mp hmem with h4 | h4
                · exact hf h4.symm
                · exact h1 (List.mem_append.mpr (Or.inr h4))
              · rw [h2, hcell finish,
                  if_neg (fun hmem => h1 (List.mem_append.mpr (Or.inl hmem)))]
          · simp only [List.length_append, List.length_cons] at hfuel ⊢
            omega
          · intro p hp
            have hb2 : inB g p := by
              rcases List.mem_append.mp hp with h | h
              · exact (houtE p h).1
              · exact hinB p (List.mem_cons_of_mem _ h)
            exact ⟨by rw [hrows]; exact hb2.1, by rw [hcols]; exact hb2.2⟩
          · rw [hcell finish]
            split
            · simpa [markedCell] using hfw
            · exact hfw
          · intro p hp
            rw [hcell p] at hp
            by_cases hpo : p ∈ (dfsExpand g node).2
            · refine Or.inr ⟨List.mem_append.mpr (Or.inl hpo), ?_⟩
              rw [hcell p, if_pos hpo]
              have := (houtE p hpo).2.2
              unfold markedCell
              simpa using this
            · rw [if_neg hpo] at hp
              rcases hM p hp with h | ⟨h1, h2⟩
              · exact Or.inl (List.mem_append.mpr (Or.inl h))
              · rcases List.mem_cons.mp h1 with rfl | h3
                · exact Or.inl (by simp)
                · refine Or.inr ⟨List.mem_append.mpr (Or.inr h3), ?_⟩
                  rw [hcell p, if_neg hpo]
                  exact h2

theorem EN.eq_inf_of_leb_inf {b : EN} (h : EN.leb EN.inf b = true) : b = EN.inf := by
  cases b
  · simp [EN.leb] at h
  · rfl

/-- The dijkstra loop, with fuel covering the pool, either records the
finish (it is dequeued) or ends with the finish's back-link still unset
and every visited-marked cell recorded. -/
theorem dijkstraLoop_end (finish : Pos) :
    ∀ (fuel : Nat) (g : Grid) (pool acc : List Pos),
      pool.length ≤ fuel →
      (g.cell finish).isWall = false →
      (∀ p, (g.cell p).isVisited = true → p ∈ acc) →
      (∀ p, (g.cell p).dist = EN.inf → (g.cell p).prev = none) →
      finish ∈ pool ∨ finish ∈ acc →
      finish ∈ (dijkstraLoop finish fuel g pool acc).1 ∨
        (((dijkstraLoop finish fuel g pool acc).2.cell finish).prev = none ∧
         ∀ p, ((dijkstraLoop finish fuel g pool acc).2.cell p).isVisited = true →
           p ∈ (dijkstraLoop finish fuel g pool acc).1) := by
  intro fuel
  induction fuel with
  | zero =>
    intro g pool acc hfuel hfw hM hQ hF
    have hp : pool = [] := List.length_eq_zero.mp (by omega)
    subst hp
    rcases hF with h | h
    · simp at h
    · exact Or.inl h
  | succ n ih =>
    intro g pool acc hfuel hfw hM hQ hF
    simp only [dijkstraLoop]
    cases hs : sortKey (fun p => (g.cell p).dist) pool with
    | nil =>
      have hp : pool = [] := by
        have := (sortKey_perm (fun p => (g.cell p).dist) pool).length_eq
        rw [hs] at this
        exact List.length_eq_zero.mp this.symm
      subst hp
      rcases hF with h | h
      · simp at h
      · exact Or.inl h
    | cons closest rest =>
      dsimp only
      have hlen : pool.length = rest.length + 1 := by
        have := (sortKey_perm (fun p => (g.cell p).dist) pool).length_eq
        rw [hs] at this
        simpa using this.symm
      by_cases hw : (g.cell closest).isWall = true
      · rw [if_pos hw]
        have hcf : closest ≠ finish := fun h => by rw [h, hfw] at hw; cases hw
        refine ih g rest acc (by omega) hfw hM hQ ?_
        rcases hF with h | h
        · have : finish ∈ closest :: rest := hs ▸ mem_sortKey.mpr h
          rcases List.mem_cons.mp this with h1 | h1
          · exact absurd h1.symm hcf
          · exact Or.inl h1
        · exact Or.inr h
      · rw [if_neg hw]
        by_cases hinf : (g.cell closest).dist = EN.inf
        · rw [if_pos hinf]
          rcases hF with h | h
          · have hle : EN.leb ((g.cell closest).dist) ((g.cell finish).dist) = true :=
              sortKey_head_le hs h
            rw [hinf] at hle
            exact Or.inr ⟨hQ finish (EN.eq_inf_of_leb_inf hle), hM⟩
          · exact Or.inl h
        · rw [if_neg hinf]
          by_cases hf : closest = finish
          · rw [if_pos hf]
            exact Or.inl (by simp [hf])
          · rw [if_neg hf]
            obtain ⟨kc, hkc⟩ : ∃ k, (g.cell closest).dist = EN.fin k := by
              cases hd : (g.cell closest).dist
              · exact ⟨_, rfl⟩
              · exact absurd hd hinf
            have hg'c : ∀ q, q ≠ closest →
                (g.set closest { g.cell closest with isVisited := true }).cell q =
                  g.cell q := fun q hq => Grid.set_other _ _ hq
            have hg'cl : (g.set closest { g.cell closest with isVisited := true }).cell
                closest = { g.cell closest with isVisited := true } := Grid.set_same _ _ _
            obtain ⟨hrr, hcc, hcell⟩ := relaxCells_spec closest
              (getUnvisitedNeighbors (g.set closest { g.cell closest with
                isVisited := true }) closest)
              (g.set closest { g.cell closest with isVisited := true })
              (fun h => self_not_mem_neighborsUDLR _ closest (List.mem_of_mem_filter h))
              ((nodup_neighborsUDLR _ closest).filter _)
            rw [updateUnvisitedNeighbors_eq_relaxCells]
            refine ih _ rest (acc ++ [closest]) (by omega) ?_ ?_ ?_ ?_
            · rw [hcell finish]
              split
              · simpa [relaxedCell] using
                  (by rw [hg'c finish (fun h => hf h.symm)]; exact hfw :
                    ((g.set closest { g.cell closest with isVisited := true }).cell
                      finish).isWall = false)
              · rw [hg'c finish (fun h => hf h.symm)]
                exact hfw
            · intro p hp
              rw [hcell p] at hp
              have hv : ((g.set closest { g.cell closest with
                  isVisited := true }).cell p).isVisited = true := by
                revert hp
                split
                · intro hp
                  simpa [relaxedCell] using hp
                · intro hp
                  exact hp
              by_cases hpc : p = closest
              · exact List.mem_append.mpr (Or.inr (by simp [hpc]))
              · rw [hg'c p hpc] at hv
                exact List.mem_append.mpr (Or.inl (hM p hv))
            · intro p hp
              rw [hcell p] at hp ⊢
              revert hp
              split
              · intro hp
                exfalso
                rw [show (relaxedCell (g.set closest { g.cell closest with
                    isVisited := true }) closest p).dist =
                    ((g.set closest { g.cell closest with
                      isVisited := true }).cell closest).dist.addN 1 from rfl,
                  hg'cl] at hp
                simp only [show ({ g.cell closest with isVisited := true } : Cell).dist =
                  (g.cell closest).dist from rfl, hkc] at hp
                exact absurd hp (by simp [EN.addN])
              · intro hp
                by_cases hpc : p = closest
                · subst hpc
                  rw [hg'cl] at hp ⊢
                  simp only [show ({ g.cell p with isVisited := true } : Cell).dist =
                    (g.cell p).dist from rfl,
                    show ({ g.cell p with isVisited := true } : Cell).prev =
                      (g.cell p).prev from rfl] at hp ⊢
                  exact hQ p hp
                · rw [hg'c p hpc] at hp ⊢
                  exact hQ p hp
            · rcases hF with h | h
              · have : finish ∈ closest :: rest := hs ▸ mem_sortKey.mpr h
                rcases List.mem_cons.mp this with h1 | h1
                · exact absurd h1.symm hf
                · exact Or.inl h1
              · exact Or.inr (List.mem_append.mpr (Or.inl h))

theorem astarRelaxFold_length (cur finish : Pos) :
    ∀ (l : List Pos) (st : Grid × List Pos),
      (astarRelaxFold cur finish l st).2.length ≤ st.2.length + l.length := by
  intro l
  induction l with
  | nil => intro st; simp [astarRelaxFold]
  | cons x xs ih =>
    intro st
    simp only [astarRelaxFold, List.foldl_cons]
    refine le_trans (ih _) ?_
    simp only [List.length_cons]
    split
    · omega
    · split
      · split
        · show st.2.length + xs.length ≤ st.2.length + (xs.length + 1)
          omega
        · show (st.2 ++ [x]).length + xs.length ≤ st.2.length + (xs.length + 1)
          simp only [List.length_append, List.length_cons, List.length_nil]
          omega
      · omega

theorem greedyRelaxFold_length (cur finish : Pos) :
    ∀ (l : List Pos) (st : Grid × List Pos),
      (greedyRelaxFold cur finish l st).2.length ≤ st.2.length + l.length := by
  intro l
  induction l with
  | nil => intro st; simp [greedyRelaxFold]
  | cons x xs ih =>
    intro st
    simp only [greedyRelaxFold, List.foldl_cons]
    refine le_trans (ih _) ?_
    simp only [List.length_cons]
    split
    · omega
    · split
      · split
        · show st.2.length + xs.length ≤ st.2.length + (xs.length + 1)
          omega
        · show (st.2 ++ [x]).length + xs.length ≤ st.2.length + (xs.length + 1)
          simp only [List.length_append, List.length_cons, List.length_nil]
          omega
      · split
        · show st.2.length + xs.length ≤ st.2.length + (xs.length + 1)
          omega
        · show (st.2 ++ [x]).length + xs.length ≤ st.2.length + (xs.length + 1)
          simp only [List.length_append, List.length_cons, List.length_nil]
          omega

/-- The A* loop, with fuel covering the measure `|open| + 5·unvisited`,
either records the finish or ends with the finish's back-link unset and
every visited-marked cell recorded. -/
theorem astarLoop_end (finish : Pos) :
    ∀ (fuel : Nat) (g : Grid) (openl acc : List Pos),
      openl.length + 5 * unvisCount g ≤ fuel →
      (∀ p ∈ openl, inB g p) →
      (g.cell finish).isWall = false →
      (∀ p, (g.cell p).isVisited = true → p ∈ acc) →
      ((g.cell finish).prev = none ∨ finish ∈ openl ∨ finish ∈ acc) →
      finish ∈ (astarLoop finish fuel g openl acc).1 ∨
        (((astarLoop finish fuel g openl acc).2.cell finish).prev = none ∧
         ∀ p, ((astarLoop finish fuel g openl acc).2.cell p).isVisited = true →
           p ∈ (astarLoop finish fuel g openl acc).1) := by
  intro fuel
  induction fuel with
  | zero =>
    intro g openl acc hfuel hB hfw hM hR
    have hp : openl = [] := List.length_eq_zero.mp (by omega)
    subst hp
    rcases hR with h | h | h
    · exact Or.inr ⟨h, hM⟩
    · simp at h
    · exact Or.inl h
  | succ n ih =>
    intro g openl acc hfuel hB hfw hM hR
    simp only [astarLoop]
    cases hs : sortKey (fun p => (g.cell p).fScore) openl with
    | nil =>
      have hp : openl = [] := by
        have := (sortKey_perm (fun p => (g.cell p).fScore) openl).length_eq
        rw [hs] at this
        exact List.length_eq_zero.mp this.symm
      subst hp
      rcases hR with h | h | h
      · exact Or.inr ⟨h, hM⟩
      · simp at h
      · exact Or.inl h
    | cons cur rest =>
      dsimp only
      have hlen : openl.length = rest.length + 1 := by
        have := (sortKey_perm (fun p => (g.cell p).fScore) openl).length_eq
        rw [hs] at this
        simpa using this.symm
      have hcurl : cur ∈ openl := mem_sortKey.mp (hs ▸ List.mem_cons_self _ _)
      have hrest : ∀ p ∈ rest, p ∈ openl := fun p hp =>
        mem_sortKey.mp (hs ▸ List.mem_cons_of_mem _ hp)
      by_cases hw : (g.cell cur).isWall = true
      · rw [if_pos hw]
        have hcf : cur ≠ finish := fun h => by rw [h, hfw] at hw; cases hw
        refine ih g rest acc (by omega) (fun p hp => hB p (hrest p hp)) hfw hM ?_
        rcases hR with h | h | h
        · exact Or.inl h
        · have : finish ∈ cur :: rest := hs ▸ mem_sortKey.mpr h
          rcases List.mem_cons.mp this with h1 | h1
          · exact absurd h1.symm hcf
          · exact Or.inr (Or.inl h1)
        · exact Or.inr (Or.inr h)
      · rw [if_neg hw]
        by_cases hv : (g.cell cur).isVisited = true
        · rw [if_pos hv]
          refine ih g rest acc (by omega) (fun p hp => hB p (hrest p hp)) hfw hM ?_
          rcases hR with h | h | h
          · exact Or.inl h
          · have : finish ∈ cur :: rest := hs ▸ mem_sortKey.mpr h
            rcases List.mem_cons.mp this with h1 | h1
            · exact Or.inr (Or.inr (h1 ▸ hM cur hv))
            · exact Or.inr (Or.inl h1)
          · exact Or.inr (Or.inr h)
        · rw [if_neg hv]
          by_cases hf : cur = finish
          · rw [if_pos hf]
            exact Or.inl (by simp [hf])
          · rw [if_neg hf]
            have hvf : (g.cell cur).isVisited = false := by
              cases hb : (g.cell cur).isVisited
              · rfl
              · exact absurd hb hv
            have hg'c : ∀ q, q ≠ cur →
                (g.set cur { g.cell cur with isVisited := true }).cell q = g.cell q :=
              fun q hq => Grid.set_other _ _ hq
            obtain ⟨hrows, hcols, hcell, hiff⟩ := astarRelaxFold_spec cur finish
              (getNeighbors (g.set cur { g.cell cur with isVisited := true }) cur)
              (g.set cur { g.cell cur with isVisited := true }) rest
              (self_not_mem_neighborsUDLR _ cur)
              (nodup_neighborsUDLR _ cur)
            rw [astarRelax_eq_fold]
            have hcnt1 : unvisCount (g.set cur { g.cell cur with isVisited := true })
                + 1 = unvisCount g :=
              unvisCount_mark (hB cur hcurl) hvf rfl
            have hcnt2 : unvisCount (astarRelaxFold cur finish
                (getNeighbors (g.set cur { g.cell cur with isVisited := true }) cur)
                ((g.set cur { g.cell cur with isVisited := true }), rest)).1 =
                unvisCount (g.set cur { g.cell cur with isVisited := true }) := by
              refine unvisCount_congr hrows hcols ?_
              intro q
              rw [hcell q]
              split
              · rfl
              · rfl
            have h4 : (getNeighbors (g.set cur
                { g.cell cur with isVisited := true }) cur).length ≤ 4 :=
              length_neighborsUDLR_le _ cur
            have hlen2 : (astarRelaxFold cur finish
                (getNeighbors (g.set cur { g.cell cur with isVisited := true }) cur)
                ((g.set cur { g.cell cur with isVisited := true }), rest)).2.length ≤
                rest.length + 4 :=
              calc (astarRelaxFold cur finish
                    (getNeighbors (g.set cur { g.cell cur with isVisited := true }) cur)
                    ((g.set cur { g.cell cur with isVisited := true }), rest)).2.length
                  ≤ ((g.set cur { g.cell cur with isVisited := true }), rest).2.length +
                      (getNeighbors (g.set cur
                        { g.cell cur with isVisited := true }) cur).length :=
                    astarRelaxFold_length cur finish _ _
                _ = rest.length + (getNeighbors (g.set cur
                      { g.cell cur with isVisited := true }) cur).length := rfl
                _ ≤ rest.length + 4 := Nat.add_le_add_left h4 rest.length
            refine ih _ _ (acc ++ [cur]) ?_ ?_ ?_ ?_ ?_
            · show (astarRelaxFold cur finish
                  (getNeighbors (g.set cur { g.cell cur with isVisited := true }) cur)
                  ((g.set cur { g.cell cur with isVisited := true }), rest)).2.length +
                5 * unvisCount (astarRelaxFold cur finish
                  (getNeighbors (g.set cur { g.cell cur with isVisited := true }) cur)
                  ((g.set cur { g.cell cur with isVisited := true }), rest)).1 ≤ n
              omega
            · intro p hp
              have hb2 : inB g p := by
                rcases (hiff p).mp hp with h | ⟨h, _⟩
                · exact hB p (hrest p h)
                · have := inB_of_mem_neighborsUDLR
                    (⟨(hB cur hcurl).1, (hB cur hcurl).2⟩ :
                      inB (g.set cur { g.cell cur with isVisited := true }) cur) h
                  exact ⟨this.1, this.2⟩
              exact ⟨by rw [hrows]; exact hb2.1, by rw [hcols]; exact hb2.2⟩
            · rw [hcell finish]
              split
              · show ((g.set cur { g.cell cur with isVisited := true }).cell
                  finish).isWall = false
                rw [hg'c finish (fun h => hf h.symm)]
                exact hfw
              · rw [hg'c finish (fun h => hf h.symm)]
                exact hfw
            · intro p hp
              rw [hcell p] at hp
              have hv2 : ((g.set cur { g.cell cur with
                  isVisited := true }).cell p).isVisited = true := by
                revert hp
                split
                · intro hp
                  exact hp
                · intro hp
                  exact hp
              by_cases hpc : p = cur
              · exact List.mem_append.mpr (Or.inr (by simp [hpc]))
              · rw [hg'c p hpc] at hv2
                exact List.mem_append.mpr (Or.inl (hM p hv2))
            · rcases hR with h | h | h
              · by_cases hrel : finish ∈ getNeighbors (g.set cur
                    { g.cell cur with isVisited := true }) cur ∧
                    astarRelaxCond (g.set cur
                      { g.cell cur with isVisited := true }) cur finish
                · exact Or.inr (Or.inl ((hiff finish).mpr (Or.inr hrel)))
                · refine Or.inl ?_
                  rw [hcell finish, if_neg hrel, hg'c finish (fun h2 => hf h2.symm)]
                  exact h
              · have : finish ∈ cur :: rest := hs ▸ mem_sortKey.mpr h
                rcases List.mem_cons.mp this with h1 | h1
                · exact absurd h1.symm hf
                · exact Or.inr (Or.inl ((hiff finish).mpr (Or.inl h1)))
              · exact Or.inr (Or.inr (List.mem_append.mpr (Or.inl h)))

/-- The greedy best-first loop analog of `astarLoop_end`. -/
theorem greedyLoop_end (finish : Pos) :
    ∀ (fuel : Nat) (g : Grid) (openl acc : List Pos),
      openl.length + 5 * unvisCount g ≤ fuel →
      (∀ p ∈ openl, inB g p) →
      (g.cell finish).isWall = false →
      (∀ p, (g.cell p).isVisited = true → p ∈ acc) →
      ((g.cell finish).prev = none ∨ finish ∈ openl ∨ finish ∈ acc) →
      finish ∈ (greedyLoop finish fuel g openl acc).1 ∨
        (((greedyLoop finish fuel g openl acc).2.cell finish).prev = none ∧
         ∀ p, ((greedyLoop finish fuel g openl acc).2.cell p).isVisited = true →
           p ∈ (greedyLoop finish fuel g openl acc).1) := by
  intro fuel
  induction fuel with
  | zero =>
    intro g openl acc hfuel hB hfw hM hR
    have hp : openl = [] := List.length_eq_zero.mp (by omega)
    subst hp
    rcases hR with h | h | h
    · exact Or.inr ⟨h, hM⟩
    · simp at h
    · exact Or.inl h
  | succ n ih =>
    intro g openl acc hfuel hB hfw hM hR
    simp only [greedyLoop]
    cases hs : sortKey (fun p => (g.cell p).fScore) openl with
    | nil =>
      have hp : openl = [] := by
        have := (sortKey_perm (fun p => (g.cell p).fScore) openl).length_eq
        rw [hs] at this
        exact List.length_eq_zero.mp this.symm
      subst hp
      rcases hR with h | h | h
      · exact Or.inr ⟨h, hM⟩
      · simp at h
      · exact Or.inl h
    | cons cur rest =>
      dsimp only
      have hlen : openl.length = rest.length + 1 := by
        have := (sortKey_perm (fun p => (g.cell p).fScore) openl).length_eq
        rw [hs] at this
        simpa using this.symm
      have hcurl : cur ∈ openl := mem_sortKey.mp (hs ▸ List.mem_cons_self _ _)
      have hrest : ∀ p ∈ rest, p ∈ openl := fun p hp =>
        mem_sortKey.mp (hs ▸ List.mem_cons_of_mem _ hp)
      by_cases hw : (g.cell cur).isWall = true
      · rw [if_pos hw]
        have hcf : cur ≠ finish := fun h => by rw [h, hfw] at hw; cases hw
        refine ih g rest acc (by omega) (fun p hp => hB p (hrest p hp)) hfw hM ?_
        rcases hR with h | h | h
        · exact Or.inl h
        · have : finish ∈ cur :: rest := hs ▸ mem_sortKey.mpr h
          rcases List.mem_cons.mp this with h1 | h1
          · exact absurd h1.symm hcf
          · exact Or.inr (Or.inl h1)
        · exact Or.inr (Or.inr h)
      · rw [if_neg hw]
        by_cases hv : (g.cell cur).isVisited = true
        · rw [if_pos hv]
          refine ih g rest acc (by omega) (fun p hp => hB p (hrest p hp)) hfw hM ?_
          rcases hR with h | h | h
          · exact Or.inl h
          · have : finish ∈ cur :: rest := hs ▸ mem_sortKey.mpr h
            rcases List.mem_cons.mp this with h1 | h1
            · exact Or.inr (Or.inr (h1 ▸ hM cur hv))
            · exact Or.inr (Or.inl h1)
          · exact Or.inr (Or.inr h)
        · rw [if_neg hv]
          by_cases hf : cur = finish
          · rw [if_pos hf]
            exact Or.inl (by simp [hf])
          · rw [if_neg hf]
            have hvf : (g.cell cur).isVisited = false := by
              cases hb : (g.cell cur).isVisited
              · rfl
              · exact absurd hb hv
            have hg'c : ∀ q, q ≠ cur →
                (g.set cur { g.cell cur with isVisited := true }).cell q = g.cell q :=
              fun q hq => Grid.set_other _ _ hq
            obtain ⟨hrows, hcols, hcell, hiff⟩ := greedyRelaxFold_spec cur finish
              (getNeighbors (g.set cur { g.cell cur with isVisited := true }) cur)
              (g.set cur { g.cell cur with isVisited := true }) rest
              (nodup_neighborsUDLR _ cur)
            rw [greedyRelax_eq_fold]
            have hcnt1 : unvisCount (g.set cur { g.cell cur with isVisited := true })
                + 1 = unvisCount g :=
              unvisCount_mark (hB cur hcurl) hvf rfl
            have hcnt2 : unvisCount (greedyRelaxFold cur finish
                (getNeighbors (g.set cur { g.cell cur with isVisited := true }) cur)
                ((g.set cur { g.cell cur with isVisited := true }), rest)).1 =
                unvisCount (g.set cur { g.cell cur with isVisited := true }) := by
              refine unvisCount_congr hrows hcols ?_
              intro q
              rw [hcell q]
              split
              · rfl
              · rfl
            have h4 : (getNeighbors (g.set cur
                { g.cell cur with isVisited := true }) cur).length ≤ 4 :=
              length_neighborsUDLR_le _ cur
            have hlen2 : (greedyRelaxFold cur finish
                (getNeighbors (g.set cur { g.cell cur with isVisited := true }) cur)
                ((g.set cur { g.cell cur with isVisited := true }), rest)).2.length ≤
                rest.length + 4 :=
              calc (greedyRelaxFold cur finish
                    (getNeighbors (g.set cur { g.cell cur with isVisited := true }) cur)
                    ((g.set cur { g.cell cur with isVisited := true }), rest)).2.length
                  ≤ ((g.set cur { g.cell cur with isVisited := true }), rest).2.length +
                      (getNeighbors (g.set cur
                        { g.cell cur with isVisited := true }) cur).length :=
                    greedyRelaxFold_length cur finish _ _
                _ = rest.length + (getNeighbors (g.set cur
                      { g.cell cur with isVisited := true }) cur).length := rfl
                _ ≤ rest.length + 4 := Nat.add_le_add_left h4 rest.length
            refine ih _ _ (acc ++ [cur]) ?_ ?_ ?_ ?_ ?_
            · show (greedyRelaxFold cur finish
                  (getNeighbors (g.set cur { g.cell cur with isVisited := true }) cur)
                  ((g.set cur { g.cell cur with isVisited := true }), rest)).2.length +
                5 * unvisCount (greedyRelaxFold cur finish
                  (getNeighbors (g.set cur { g.cell cur with isVisited := true }) cur)
                  ((g.set cur { g.cell cur with isVisited := true }), rest)).1 ≤ n
              omega
            · intro p hp
              have hb2 : inB g p := by
                rcases (hiff p).mp hp with h | ⟨h, _⟩
                · exact hB p (hrest p h)
                · have := inB_of_mem_neighborsUDLR
                    (⟨(hB cur hcurl).1, (hB cur hcurl).2⟩ :
                      inB (g.set cur { g.cell cur with isVisited := true }) cur) h
                  exact ⟨this.1, this.2⟩
              exact ⟨by rw [hrows]; exact hb2.1, by rw [hcols]; exact hb2.2⟩
            · rw [hcell finish]
              split
              · show ((g.set cur { g.cell cur with isVisited := true }).cell
                  finish).isWall = false
                rw [hg'c finish (fun h => hf h.symm)]
                exact hfw
              · rw [hg'c finish (fun h => hf h.symm)]
                exact hfw
            · intro p hp
              rw [hcell p] at hp
              have hv2 : ((g.set cur { g.cell cur with
                  isVisited := true }).cell p).isVisited = true := by
                revert hp
                split
                · intro hp
                  exact hp
                · intro hp
                  exact hp
              by_cases hpc : p = cur
              · exact List.mem_append.mpr (Or.inr (by simp [hpc]))
              · rw [hg'c p hpc] at hv2
                exact List.mem_append.mpr (Or.inl (hM p hv2))
            · rcases hR with h | h | h
              · by_cases hrel : finish ∈ getNeighbors (g.set cur
                    { g.cell cur with isVisited := true }) cur ∧
                    greedyRelaxCond (g.set cur
                      { g.cell cur with isVisited := true }) finish
                · exact Or.inr (Or.inl ((hiff finish).mpr (Or.inr hrel)))
                · refine Or.inl ?_
                  rw [hcell finish, if_neg hrel, hg'c finish (fun h2 => hf h2.symm)]
                  exact h
              · have : finish ∈ cur :: rest := hs ▸ mem_sortKey.mpr h
                rcases List.mem_cons.mp this with h1 | h1
                · exact absurd h1.symm hf
                · exact Or.inr (Or.inl ((hiff finish).mpr (Or.inl h1)))
              · exact Or.inr (Or.inr (List.mem_append.mpr (Or.inl h)))

/-! ## Small run lemmas -/

theorem mem_getAllNodes {g : Grid} {p : Pos} :
    p ∈ getAllNodes g ↔ p.1 < g.rows ∧ p.2 < g.cols := by
  unfold getAllNodes
  constructor
  · intro h
    rcases List.mem_flatMap.mp h with ⟨r, hr, hm⟩
    rcases List.mem_map.mp hm with ⟨c, hc, heq⟩
    cases heq
    exact ⟨List.mem_range.mp hr, List.mem_range.mp hc⟩
  · intro h
    exact List.mem_flatMap.mpr ⟨p.1, List.mem_range.mpr h.1,
      List.mem_map.mpr ⟨p.2, List.mem_range.mpr h.2, rfl⟩⟩

/-- With any fuel left, a run whose start equals finish returns after the
very first dequeue: `[start]`, grid untouched by the loop. -/
theorem bfsLoop_start_eq_finish {g : Grid} {p : Pos} (fuel : Nat) (hf : 1 ≤ fuel)
    (hw : (g.cell p).isWall = false) : bfsLoop p fuel g [p] [] = ([p], g) := by
  cases fuel with
  | zero => omega
  | succ n => simp [bfsLoop, hw]

theorem dfsLoop_start_eq_finish {g : Grid} {p : Pos} (fuel : Nat) (hf : 1 ≤ fuel)
    (hw : (g.cell p).isWall = false) : dfsLoop p fuel g [p] [] = ([p], g) := by
  cases fuel with
  | zero => omega
  | succ n => simp [dfsLoop, hw]

theorem dijkstraLoop_head_finish {g : Grid} {p : Pos} {pool rest : List Pos} (fuel : Nat)
    (hf : 1 ≤ fuel) (hsort : sortKey (fun q => (g.cell q).dist) pool = p :: rest)
    (hw : (g.cell p).isWall = false) (hd : (g.cell p).dist ≠ EN.inf) :
    dijkstraLoop p fuel g pool [] = ([p], g.set p { g.cell p with isVisited := true }) := by
  cases fuel with
  | zero => omega
  | succ n => simp [dijkstraLoop, hsort, hw, hd]

theorem pathStep_none (g : Grid) (fuel : Nat) (acc : List Pos) :
    pathStep g fuel none acc = acc := by
  cases fuel <;> rfl

/-- A cell whose back-link is unset reconstructs to the one-element path. -/
theorem pathOrder_none {g : Grid} {p : Pos} (h : (g.cell p).prev = none) :
    getNodesInShortestPathOrder g p = [p] := by
  have hstep : getNodesInShortestPathOrder g p =
      pathStep g (g.rows * g.cols + 1) ((g.cell p).prev) [p] := rfl
  rw [hstep, h, pathStep_none]

theorem getAllNodes_length (g : Grid) : (getAllNodes g).length = g.rows * g.cols := by
  unfold getAllNodes
  rw [List.length_flatMap]
  have hmap : (List.range g.rows).map
      (List.length ∘ fun r => (List.range g.cols).map (fun c => ((r, c) : Pos))) =
      (List.range g.rows).map (fun _ => g.cols) := by
    apply List.map_congr_left
    intro r _
    simp
  rw [hmap, List.map_const', List.sum_replicate, List.length_range, smul_eq_mul]

/-- The BFS visited list records the finish at most once and only in final
position (given it was not recorded yet). -/
theorem bfsLoop_finish_last (finish : Pos) :
    ∀ (fuel : Nat) (g : Grid) (queue acc : List Pos),
      finish ∉ acc →
      finish ∈ (bfsLoop finish fuel g queue acc).1 →
      ∃ pre, (bfsLoop finish fuel g queue acc).1 = pre ++ [finish] ∧ finish ∉ pre := by
  intro fuel
  induction fuel with
  | zero =>
    intro g queue acc hacc hmem
    exact absurd hmem hacc
  | succ n ih =>
    intro g queue acc hacc hmem
    revert hmem
    cases queue with
    | nil =>
      intro hmem
      exact absurd hmem hacc
    | cons node rest =>
      simp only [bfsLoop]
      by_cases hw : (g.cell node).isWall = true
      · rw [if_pos hw]
        exact ih g rest acc hacc
      · rw [if_neg hw]
        by_cases hf : node = finish
        · rw [if_pos hf]
          intro _
          exact ⟨acc, by rw [hf], hacc⟩
        · rw [if_neg hf]
          exact ih _ _ (acc ++ [node]) (by
            intro h
            rcases List.mem_append.mp h with h1 | h1
            · exact hacc h1
            · simp at h1
              exact hf h1.symm)

/-- The DFS analog of `bfsLoop_finish_last`. -/
theorem dfsLoop_finish_last (finish : Pos) :
    ∀ (fuel : Nat) (g : Grid) (stack acc : List Pos),
      finish ∉ acc →
      finish ∈ (dfsLoop finish fuel g stack acc).1 →
      ∃ pre, (dfsLoop finish fuel g stack acc).1 = pre ++ [finish] ∧ finish ∉ pre := by
  intro fuel
  induction fuel with
  | zero =>
    intro g stack acc hacc hmem
    exact absurd hmem hacc
  | succ n ih =>
    intro g stack acc hacc hmem
    revert hmem
    cases stack with
    | nil =>
      intro hmem
      exact absurd hmem hacc
    | cons node rest =>
      simp only [dfsLoop]
      by_cases hw : (g.cell node).isWall = true
      · rw [if_pos hw]
        exact ih g rest acc hacc
      · rw [if_neg hw]
        by_cases hf : node = finish
        · rw [if_pos hf]
          intro _
          exact ⟨acc, by rw [hf], hacc⟩
        · rw [if_neg hf]
          exact ih _ _ (acc ++ [node]) (by
            intro h
            rcases List.mem_append.mp h with h1 | h1
            · exact hacc h1
            · simp at h1
              exact hf h1.symm)

/-- The dijkstra analog of `bfsLoop_finish_last`. -/
theorem dijkstraLoop_finish_last (finish : Pos) :
    ∀ (fuel : Nat) (g : Grid) (pool acc : List Pos),
      finish ∉ acc →
      finish ∈ (dijkstraLoop finish fuel g pool acc).1 →
      ∃ pre, (dijkstraLoop finish fuel g pool acc).1 = pre ++ [finish] ∧
        finish ∉ pre := by
  intro fuel
  induction fuel with
  | zero =>
    intro g pool acc hacc hmem
    exact absurd hmem hacc
  | succ n ih =>
    intro g pool acc hacc hmem
    revert hmem
    simp only [dijkstraLoop]
    cases hs : sortKey (fun p => (g.cell p).dist) pool with
    | nil =>
      intro hmem
      exact absurd hmem hacc
    | cons closest rest =>
      dsimp only
      by_cases hw : (g.cell closest).isWall = true
      · rw [if_pos hw]
        exact ih g rest acc hacc
      · rw [if_neg hw]
        by_cases hinf : (g.cell closest).dist = EN.inf
        · rw [if_pos hinf]
          intro hmem
          exact absurd hmem hacc
        · rw [if_neg hinf]
          by_cases hf : closest = finish
          · rw [if_pos hf]
            intro _
            exact ⟨acc, by rw [hf], hacc⟩
          · rw [if_neg hf]
            exact ih _ _ (acc ++ [closest]) (by
              intro h
              rcases List.mem_append.mp h with h1 | h1
              · exact hacc h1
              · simp at h1
                exact hf h1.symm)

/-- The A* analog of `bfsLoop_finish_last`. -/
theorem astarLoop_finish_last (finish : Pos) :
    ∀ (fuel : Nat) (g : Grid) (openl acc : List Pos),
      finish ∉ acc →
      finish ∈ (astarLoop finish fuel g openl acc).1 →
      ∃ pre, (astarLoop finish fuel g openl acc).1 = pre ++ [finish] ∧
        finish ∉ pre := by
  intro fuel
  induction fuel with
  | zero =>
    intro g openl acc hacc hmem
    exact absurd hmem hacc
  | succ n ih =>
    intro g openl acc hacc hmem
    revert hmem
    simp only [astarLoop]
    cases hs : sortKey (fun p => (g.cell p).fScore) openl with
    | nil =>
      intro hmem
      exact absurd hmem hacc
    | cons cur rest =>
      dsimp only
      by_cases hw : (g.cell cur).isWall = true
      · rw [if_pos hw]
        exact ih g rest acc hacc
      · rw [if_neg hw]
        by_cases hv : (g.cell cur).isVisited = true
        · rw [if_pos hv]
          exact ih g rest acc hacc
        · rw [if_neg hv]
          by_cases hf : cur = finish
          · rw [if_pos hf]
            intro _
            exact ⟨acc, by rw [hf], hacc⟩
          · rw [if_neg hf]
            exact ih _ _ (acc ++ [cur]) (by
              intro h
              rcases List.mem_append.mp h with h1 | h1
              · exact hacc h1
              · simp at h1
                exact hf h1.symm)

/-- The greedy best-first analog of `bfsLoop_finish_last`. -/
theorem greedyLoop_finish_last (finish : Pos) :
    ∀ (fuel : Nat) (g : Grid) (openl acc : List Pos),
      finish ∉ acc →
      finish ∈ (greedyLoop finish fuel g openl acc).1 →
      ∃ pre, (greedyLoop finish fuel g openl acc).1 = pre ++ [finish] ∧
        finish ∉ pre := by
  intro fuel
  induction fuel with
  | zero =>
    intro g openl acc hacc hmem
    exact absurd hmem hacc
  | succ n ih =>
    intro g openl acc hacc hmem
    revert hmem
    simp only [greedyLoop]
    cases hs : sortKey (fun p => (g.cell p).fScore) openl with
    | nil =>
      intro hmem
      exact absurd hmem hacc
    | cons cur rest =>
      dsimp only
      by_cases hw : (g.cell cur).isWall = true
      · rw [if_pos hw]
        exact ih g rest acc hacc
      · rw [if_neg hw]
        by_cases hv : (g.cell cur).isVisited = true
        · rw [if_pos hv]
          exact ih g rest acc hacc
        · rw [if_neg hv]
          by_cases hf : cur = finish
          · rw [if_pos hf]
            intro _
            exact ⟨acc, by rw [hf], hacc⟩
          · rw [if_neg hf]
            exact ih _ _ (acc ++ [cur]) (by
              intro h
              rcases List.mem_append.mp h with h1 | h1
              · exact hacc h1
              · simp at h1
                exact hf h1.symm)

/-! ## Back-link chains

`prevIter` iterates the `previousNode` field (the loop structure of
`getNodesInShortestPathOrder`); `accIdx` ranks a cell by its position in a
visited list and is the termination measure for those chains: each search
only ever sets `previousNode` to the cell being expanded, which is appended
to the visited list in the same step, so every link points strictly earlier
in visit order. -/

/-- Iterate the `previousNode` link `n` times. -/
def prevIter (g : Grid) : Nat → Option Pos → Option Pos
  | 0, o => o
  | _ + 1, none => none
  | n + 1, some q => prevIter g n ((g.cell q).prev)

/-- Position of `p` in `l` (length of `l` when absent). -/
def accIdx : List Pos → Pos → Nat
  | [], _ => 0
  | x :: xs, p => if x = p then 0 else accIdx xs p + 1

theorem accIdx_of_not_mem : ∀ {l : List Pos} {p : Pos}, p ∉ l → accIdx l p = l.length := by
  intro l
  induction l with
  | nil =>
    intro p _
    rfl
  | cons x xs ih =>
    intro p hp
    have hxp : x ≠ p := fun h => hp (by simp [h])
    simp only [accIdx, if_neg hxp, List.length_cons]
    rw [ih (fun h => hp (List.mem_cons_of_mem _ h))]

theorem accIdx_lt_length : ∀ {l : List Pos} {p : Pos}, p ∈ l → accIdx l p < l.length := by
  intro l
  induction l with
  | nil =>
    intro p hp
    simp at hp
  | cons x xs ih =>
    intro p hp
    by_cases hxp : x = p
    · simp [accIdx, hxp]
    · have hm : p ∈ xs := (List.mem_cons.mp hp).resolve_left (fun h => hxp h.symm)
      simp only [accIdx, if_neg hxp, List.length_cons]
      exact Nat.succ_lt_succ (ih hm)

theorem accIdx_append_of_mem : ∀ {l : List Pos} (l' : List Pos) {p : Pos}, p ∈ l →
    accIdx (l ++ l') p = accIdx l p := by
  intro l
  induction l with
  | nil =>
    intro l' p hp
    simp at hp
  | cons x xs ih =>
    intro l' p hp
    by_cases hxp : x = p
    · simp [accIdx, hxp]
    · have hm : p ∈ xs := (List.mem_cons.mp hp).resolve_left (fun h => hxp h.symm)
      simp only [List.cons_append, accIdx, if_neg hxp]
      exact congrArg (fun t => t + 1) (ih l' hm)

theorem accIdx_le_append : ∀ {l : List Pos} (l' : List Pos) (p : Pos),
    accIdx l p ≤ accIdx (l ++ l') p := by
  intro l
  induction l with
  | nil =>
    intro l' p
    exact Nat.zero_le _
  | cons x xs ih =>
    intro l' p
    by_cases hxp : x = p
    · simp [accIdx, hxp]
    · simp only [List.cons_append, accIdx, if_neg hxp]
      exact Nat.succ_le_succ (ih l' p)

theorem accIdx_append_self : ∀ {l : List Pos} {p : Pos}, p ∉ l →
    accIdx (l ++ [p]) p = l.length := by
  intro l
  induction l with
  | nil =>
    intro p _
    simp [accIdx]
  | cons x xs ih =>
    intro p hp
    have hxp : x ≠ p := fun h => hp (by simp [h])
    simp only [List.cons_append, accIdx, if_neg hxp, List.length_cons]
    exact congrArg (fun t => t + 1) (ih (fun h => hp (List.mem_cons_of_mem _ h)))

/-- The back-link invariant survives appending to the visited list. -/
theorem prevInv_append {g : Grid} {acc : List Pos} (x : Pos)
    (hJ : ∀ p q, (g.cell p).prev = some q → q ∈ acc ∧ accIdx acc q < accIdx acc p) :
    ∀ p q, (g.cell p).prev = some q → q ∈ acc ++ [x] ∧
      accIdx (acc ++ [x]) q < accIdx (acc ++ [x]) p := by
  intro p q hpq
  obtain ⟨hqm, hlt⟩ := hJ p q hpq
  refine ⟨List.mem_append.mpr (Or.inl hqm), ?_⟩
  rw [accIdx_append_of_mem _ hqm]
  exact lt_of_lt_of_le hlt (accIdx_le_append _ p)

/-- Back-links that always point strictly earlier in a list make every
chain reach `none` within `n` steps once its head ranks below `n`. -/
theorem chainBound (g : Grid) (L : List Pos)
    (hJ : ∀ p q, (g.cell p).prev = some q → q ∈ L ∧ accIdx L q < accIdx L p) :
    ∀ (n : Nat) (p : Pos), accIdx L p < n →
      ∃ k, k ≤ n ∧ prevIter g k (some p) = none := by
  intro n
  induction n with
  | zero =>
    intro p h
    omega
  | succ m ih =>
    intro p h
    cases hp : (g.cell p).prev with
    | none =>
      refine ⟨1, by omega, ?_⟩
      show prevIter g 0 ((g.cell p).prev) = none
      rw [hp]
      rfl
    | some q =>
      obtain ⟨hqL, hlt⟩ := hJ p q hp
      obtain ⟨k, hk, hnone⟩ := ih q (by
        have := accIdx_lt_length hqL
        omega)
      refine ⟨k + 1, by omega, ?_⟩
      show prevIter g k ((g.cell p).prev) = none
      rw [hp]
      exact hnone

/-- Once the chain from `o` dies within `k` steps, `pathStep` is fuel
independent beyond `k`: the JavaScript `while` loop terminates. -/
theorem pathStep_stable (g : Grid) :
    ∀ (k : Nat) (o : Option Pos) (acc : List Pos),
      prevIter g k o = none →
      ∀ fuel, k ≤ fuel → pathStep g fuel o acc = pathStep g k o acc := by
  intro k
  induction k with
  | zero =>
    intro o acc hnone fuel _
    have ho : o = none := hnone
    subst ho
    rw [pathStep_none, pathStep_none]
  | succ m ih =>
    intro o acc hnone fuel hf
    cases o with
    | none => rw [pathStep_none, pathStep_none]
    | some q =>
      cases fuel with
      | zero => omega
      | succ f =>
        show pathStep g f ((g.cell q).prev) (q :: acc) =
          pathStep g m ((g.cell q).prev) (q :: acc)
        exact ih ((g.cell q).prev) (q :: acc) hnone f (by omega)

/-- A duplicate-free list of in-bounds coordinates has at most
`rows * cols` elements. -/
theorem nodup_bounded_length {l : List Pos} {r c : Nat} (hn : l.Nodup)
    (hb : ∀ p ∈ l, p.1 < r ∧ p.2 < c) : l.length ≤ r * c := by
  have h1 : l.toFinset ⊆ (Finset.range r) ×ˢ (Finset.range c) := by
    intro p hp
    rw [List.mem_toFinset] at hp
    exact Finset.mem_product.mpr ⟨Finset.mem_range.mpr (hb p hp).1,
      Finset.mem_range.mpr (hb p hp).2⟩
  have h2 := Finset.card_le_card h1
  rw [List.toFinset_card_of_nodup hn, Finset.card_product,
    Finset.card_range, Finset.card_range] at h2
  exact h2

/-- Through the BFS loop, every `previousNode` link points to a strictly
earlier entry of the visited list, which stays duplicate-free and
in-bounds. -/
theorem bfsLoop_prevInv (finish : Pos) :
    ∀ (fuel : Nat) (g : Grid) (queue acc : List Pos),
      (∀ p ∈ queue, inB g p ∧ (g.cell p).isVisited = true ∧ (g.cell p).isWall = false) →
      (∀ p ∈ acc, inB g p ∧ (g.cell p).isVisited = true) →
      queue.Nodup → acc.Nodup → (∀ p ∈ queue, p ∉ acc) →
      (∀ p q, (g.cell p).prev = some q → q ∈ acc ∧ accIdx acc q < accIdx acc p) →
      (bfsLoop finish fuel g queue acc).2.rows = g.rows ∧
      (bfsLoop finish fuel g queue acc).2.cols = g.cols ∧
      (∀ p ∈ (bfsLoop finish fuel g queue acc).1, p.1 < g.rows ∧ p.2 < g.cols) ∧
      (bfsLoop finish fuel g queue acc).1.Nodup ∧
      (∀ p q, ((bfsLoop finish fuel g queue acc).2.cell p).prev = some q →
        q ∈ (bfsLoop finish fuel g queue acc).1 ∧
        accIdx (bfsLoop finish fuel g queue acc).1 q <
          accIdx (bfsLoop finish fuel g queue acc).1 p) := by
  intro fuel
  induction fuel with
  | zero =>
    intro g queue acc hK hA hnq hnacc hdisj hJ
    exact ⟨rfl, rfl, fun p hp => (hA p hp).1, hnacc, hJ⟩
  | succ n ih =>
    intro g queue acc hK hA hnq hnacc hdisj hJ
    cases queue with
    | nil => exact ⟨rfl, rfl, fun p hp => (hA p hp).1, hnacc, hJ⟩
    | cons node rest =>
      simp only [bfsLoop]
      obtain ⟨hnodeB, hnodeV, hnodeW⟩ := hK node (List.mem_cons_self _ _)
      rw [if_neg (by rw [hnodeW]; exact Bool.false_ne_true)]
      have hnodeNotAcc : node ∉ acc := hdisj node (List.mem_cons_self _ _)
      by_cases hf : node = finish
      · rw [if_pos hf]
        refine ⟨rfl, rfl, ?_, ?_, ?_⟩
        · intro p hp
          rcases List.mem_append.mp hp with h | h
          · exact (hA p h).1
          · simp at h
            subst h
            exact hnodeB
        · rw [List.nodup_append]
          refine ⟨hnacc, List.nodup_singleton _, ?_⟩
          intro a ha hax
          simp at hax
          subst hax
          exact hnodeNotAcc ha
        · exact prevInv_append node hJ
      · rw [if_neg hf]
        obtain ⟨houtL, hrows, hcols, hcell⟩ := bfsExpand_spec g node
        obtain ⟨houtN, houtE, _⟩ := bfsExpand_out_spec hnodeB
        have houtNotAcc : ∀ p ∈ (bfsExpand g node).2, p ∉ acc := by
          intro p hp hpa
          have hv := (hA p hpa).2
          rw [(houtE p hp).2.1] at hv
          exact Bool.false_ne_true hv
        have houtNotQ : ∀ p ∈ (bfsExpand g node).2, p ∉ node :: rest := by
          intro p hp hpq
          have h1 := (hK p hpq).2.1
          rw [(houtE p hp).2.1] at h1
          exact Bool.false_ne_true h1
        have hK2 : ∀ p ∈ rest ++ (bfsExpand g node).2,
            inB (bfsExpand g node).1 p ∧
            ((bfsExpand g node).1.cell p).isVisited = true ∧
            ((bfsExpand g node).1.cell p).isWall = false := by
          intro p hp
          rcases List.mem_append.mp hp with h | h
          · obtain ⟨hb, hv, hw⟩ := hK p (List.mem_cons_of_mem _ h)
            have hpo : p ∉ (bfsExpand g node).2 :=
              fun hx => houtNotQ p hx (List.mem_cons_of_mem _ h)
            refine ⟨⟨by rw [hrows]; exact hb.1, by rw [hcols]; exact hb.2⟩, ?_, ?_⟩
            · rw [hcell p, if_neg hpo]
              exact hv
            · rw [hcell p, if_neg hpo]
              exact hw
          · obtain ⟨hb, hv, hw⟩ := houtE p h
            refine ⟨⟨by rw [hrows]; exact hb.1, by rw [hcols]; exact hb.2⟩, ?_, ?_⟩
            · rw [hcell p, if_pos h]
              rfl
            · rw [hcell p, if_pos h]
              show (g.cell p).isWall = false
              exact hw
        have hA2 : ∀ p ∈ acc ++ [node], inB (bfsExpand g node).1 p ∧
            ((bfsExpand g node).1.cell p).isVisited = true := by
          intro p hp
          rcases List.mem_append.mp hp with h | h
          · obtain ⟨hb, hv⟩ := hA p h
            have hpo : p ∉ (bfsExpand g node).2 := fun hx => houtNotAcc p hx h
            exact ⟨⟨by rw [hrows]; exact hb.1, by rw [hcols]; exact hb.2⟩,
              by rw [hcell p, if_neg hpo]; exact hv⟩
          · simp at h
            have hpo : node ∉ (bfsExpand g node).2 :=
              fun hx => houtNotQ node hx (List.mem_cons_self _ _)
            rw [h]
            exact ⟨⟨by rw [hrows]; exact hnodeB.1, by rw [hcols]; exact hnodeB.2⟩,
              by rw [hcell node, if_neg hpo]; exact hnodeV⟩
        have hnq2 : (rest ++ (bfsExpand g node).2).Nodup := by
          rw [List.nodup_append]
          exact ⟨(List.nodup_cons.mp hnq).2, houtN,
            fun a ha hax => houtNotQ a hax (List.mem_cons_of_mem _ ha)⟩
        have hnacc2 : (acc ++ [node]).Nodup := by
          rw [List.nodup_append]
          refine ⟨hnacc, List.nodup_singleton _, ?_⟩
          intro a ha hax
          simp at hax
          subst hax
          exact hnodeNotAcc ha
        have hdisj2 : ∀ p ∈ rest ++ (bfsExpand g node).2, p ∉ acc ++ [node] := by
          intro p hp hpa
          rcases List.mem_append.mp hpa with ha | ha
          · rcases List.mem_append.mp hp with h | h
            · exact hdisj p (List.mem_cons_of_mem _ h) ha
            · exact houtNotAcc p h ha
          · simp at ha
            subst ha
            rcases List.mem_append.mp hp with h | h
            · exact (List.nodup_cons.mp hnq).1 h
            · exact houtNotQ _ h (List.mem_cons_self _ _)
        have hJ2 : ∀ p q, ((bfsExpand g node).1.cell p).prev = some q →
            q ∈ acc ++ [node] ∧
            accIdx (acc ++ [node]) q < accIdx (acc ++ [node]) p := by
          intro p q hpq
          by_cases hpo : p ∈ (bfsExpand g node).2
          · rw [hcell p, if_pos hpo] at hpq
            have hqn : q = node := by
              rw [show (markedCell g node p).prev = some node from rfl] at hpq
              exact (Option.some.inj hpq).symm
            rw [hqn]
            refine ⟨List.mem_append.mpr (Or.inr (by simp)), ?_⟩
            rw [accIdx_append_self hnodeNotAcc]
            have hpnacc : p ∉ acc ++ [node] := by
              intro hx
              rcases List.mem_append.mp hx with h | h
              · exact houtNotAcc p hpo h
              · simp at h
                exact houtNotQ p hpo (by rw [h]; exact List.mem_cons_self _ _)
            rw [accIdx_of_not_mem hpnacc]
            simp only [List.length_append, List.length_cons, List.length_nil]
            omega
          · rw [hcell p, if_neg hpo] at hpq
            exact prevInv_append node hJ p q hpq
        obtain ⟨r1, r2, r3, r4, r5⟩ := ih (bfsExpand g node).1
          (rest ++ (bfsExpand g node).2) (acc ++ [node]) hK2 hA2 hnq2 hnacc2 hdisj2 hJ2
        refine ⟨r1.trans hrows, r2.trans hcols, ?_, r4, r5⟩
        intro p hp
        have h3 := r3 p hp
        rw [hrows, hcols] at h3
        exact h3

/-- The DFS analog of `bfsLoop_prevInv`. -/
theorem dfsLoop_prevInv (finish : Pos) :
    ∀ (fuel : Nat) (g : Grid) (stack acc : List Pos),
      (∀ p ∈ stack, inB g p ∧ (g.cell p).isVisited = true ∧ (g.cell p).isWall = false) →
      (∀ p ∈ acc, inB g p ∧ (g.cell p).isVisited = true) →
      stack.Nodup → acc.Nodup → (∀ p ∈ stack, p ∉ acc) →
      (∀ p q, (g.cell p).prev = some q → q ∈ acc ∧ accIdx acc q < accIdx acc p) →
      (dfsLoop finish fuel g stack acc).2.rows = g.rows ∧
      (dfsLoop finish fuel g stack acc).2.cols = g.cols ∧
      (∀ p ∈ (dfsLoop finish fuel g stack acc).1, p.1 < g.rows ∧ p.2 < g.cols) ∧
      (dfsLoop finish fuel g stack acc).1.Nodup ∧
      (∀ p q, ((dfsLoop finish fuel g stack acc).2.cell p).prev = some q →
        q ∈ (dfsLoop finish fuel g stack acc).1 ∧
        accIdx (dfsLoop finish fuel g stack acc).1 q <
          accIdx (dfsLoop finish fuel g stack acc).1 p) := by
  intro fuel
  induction fuel with
  | zero =>
    intro g stack acc hK hA hnq hnacc hdisj hJ
    exact ⟨rfl, rfl, fun p hp => (hA p hp).1, hnacc, hJ⟩
  | succ n ih =>
    intro g stack acc hK hA hnq hnacc hdisj hJ
    cases stack with
    | nil => exact ⟨rfl, rfl, fun p hp => (hA p hp).1, hnacc, hJ⟩
    | cons node rest =>
      simp only [dfsLoop]
      obtain ⟨hnodeB, hnodeV, hnodeW⟩ := hK node (List.mem_cons_self _ _)
      rw [if_neg (by rw [hnodeW]; exact Bool.false_ne_true)]
      have hnodeNotAcc : node ∉ acc := hdisj node (List.mem_cons_self _ _)
      by_cases hf : node = finish
      · rw [if_pos hf]
        refine ⟨rfl, rfl, ?_, ?_, ?_⟩
        · intro p hp
          rcases List.mem_append.mp hp with h | h
          · exact (hA p h).1
          · simp at h
            subst h
            exact hnodeB
        · rw [List.nodup_append]
          refine ⟨hnacc, List.nodup_singleton _, ?_⟩
          intro a ha hax
          simp at hax
          subst hax
          exact hnodeNotAcc ha
        · exact prevInv_append node hJ
      · rw [if_neg hf]
        obtain ⟨houtL, hrows, hcols, hcell⟩ := dfsExpand_spec g node
        obtain ⟨houtN, houtE, _⟩ := dfsExpand_out_spec hnodeB
        have houtNotAcc : ∀ p ∈ (dfsExpand g node).2, p ∉ acc := by
          intro p hp hpa
          have hv := (hA p hpa).2
          rw [(houtE p hp).2.1] at hv
          exact Bool.false_ne_true hv
        have houtNotQ : ∀ p ∈ (dfsExpand g node).2, p ∉ node :: rest := by
          intro p hp hpq
          have h1 := (hK p hpq).2.1
          rw [(houtE p hp).2.1] at h1
          exact Bool.false_ne_true h1
        have hK2 : ∀ p ∈ (dfsExpand g node).2 ++ rest,
            inB (dfsExpand g node).1 p ∧
            ((dfsExpand g node).1.cell p).isVisited = true ∧
            ((dfsExpand g node).1.cell p).isWall = false := by
          intro p hp
          rcases List.mem_append.mp hp with h | h
          · obtain ⟨hb, hv, hw⟩ := houtE p h
            refine ⟨⟨by rw [hrows]; exact hb.1, by rw [hcols]; exact hb.2⟩, ?_, ?_⟩
            · rw [hcell p, if_pos h]
              rfl
            · rw [hcell p, if_pos h]
              show (g.cell p).isWall = false
              exact hw
          · obtain ⟨hb, hv, hw⟩ := hK p (List.mem_cons_of_mem _ h)
            have hpo : p ∉ (dfsExpand g node).2 :=
              fun hx => houtNotQ p hx (List.mem_cons_of_mem _ h)
            refine ⟨⟨by rw [hrows]; exact hb.1, by rw [hcols]; exact hb.2⟩, ?_, ?_⟩
            · rw [hcell p, if_neg hpo]
              exact hv
            · rw [hcell p, if_neg hpo]
              exact hw
        have hA2 : ∀ p ∈ acc ++ [node], inB (dfsExpand g node).1 p ∧
            ((dfsExpand g node).1.cell p).isVisited = true := by
          intro p hp
          rcases List.mem_append.mp hp with h | h
          · obtain ⟨hb, hv⟩ := hA p h
            have hpo : p ∉ (dfsExpand g node).2 := fun hx => houtNotAcc p hx h
            exact ⟨⟨by rw [hrows]; exact hb.1, by rw [hcols]; exact hb.2⟩,
              by rw [hcell p, if_neg hpo]; exact hv⟩
          · simp at h
            have hpo : node ∉ (dfsExpand g node).2 :=
              fun hx => houtNotQ node hx (List.mem_cons_self _ _)
            rw [h]
            exact ⟨⟨by rw [hrows]; exact hnodeB.1, by rw [hcols]; exact hnodeB.2⟩,
              by rw [hcell node, if_neg hpo]; exact hnodeV⟩
        have hnq2 : ((dfsExpand g node).2 ++ rest).Nodup := by
          rw [List.nodup_append]
          exact ⟨houtN, (List.nodup_cons.mp hnq).2,
            fun a ha hax => houtNotQ a ha (List.mem_cons_of_mem _ hax)⟩
        have hnacc2 : (acc ++ [node]).Nodup := by
          rw [List.nodup_append]
          refine ⟨hnacc, List.nodup_singleton _, ?_⟩
          intro a ha hax
          simp at hax
          subst hax
          exact hnodeNotAcc ha
        have hdisj2 : ∀ p ∈ (dfsExpand g node).2 ++ rest, p ∉ acc ++ [node] := by
          intro p hp hpa
          rcases List.mem_append.mp hpa with ha | ha
          · rcases List.mem_append.mp hp with h | h
            · exact houtNotAcc p h ha
            · exact hdisj p (List.mem_cons_of_mem _ h) ha
          · simp at ha
            subst ha
            rcases List.mem_append.mp hp with h | h
            · exact houtNotQ _ h (List.mem_cons_self _ _)
            · exact (List.nodup_cons.mp hnq).1 h
        have hJ2 : ∀ p q, ((dfsExpand g node).1.cell p).prev = some q →
            q ∈ acc ++ [node] ∧
            accIdx (acc ++ [node]) q < accIdx (acc ++ [node]) p := by
          intro p q hpq
          by_cases hpo : p ∈ (dfsExpand g node).2
          · rw [hcell p, if_pos hpo] at hpq
            have hqn : q = node := by
              rw [show (markedCell g node p).prev = some node from rfl] at hpq
              exact (Option.some.inj hpq).symm
            rw [hqn]
            refine ⟨List.mem_append.mpr (Or.inr (by simp)), ?_⟩
            rw [accIdx_append_self hnodeNotAcc]
            have hpnacc : p ∉ acc ++ [node] := by
              intro hx
              rcases List.mem_append.mp hx with h | h
              · exact houtNotAcc p hpo h
              · simp at h
                exact houtNotQ p hpo (by rw [h]; exact List.mem_cons_self _ _)
            rw [accIdx_of_not_mem hpnacc]
            simp only [List.length_append, List.length_cons, List.length_nil]
            omega
          · rw [hcell p, if_neg hpo] at hpq
            exact prevInv_append node hJ p q hpq
        obtain ⟨r1, r2, r3, r4, r5⟩ := ih (dfsExpand g node).1
          ((dfsExpand g node).2 ++ rest) (acc ++ [node]) hK2 hA2 hnq2 hnacc2 hdisj2 hJ2
        refine ⟨r1.trans hrows, r2.trans hcols, ?_, r4, r5⟩
        intro p hp
        have h3 := r3 p hp
        rw [hrows, hcols] at h3
        exact h3

/-- The dijkstra analog of `bfsLoop_prevInv` (the unvisited pool replaces
the queue). -/
theorem dijkstraLoop_prevInv (finish : Pos) :
    ∀ (fuel : Nat) (g : Grid) (pool acc : List Pos),
      (∀ p ∈ pool, inB g p ∧ (g.cell p).isVisited = false) →
      (∀ p ∈ acc, inB g p ∧ (g.cell p).isVisited = true) →
      pool.Nodup → acc.Nodup →
      (∀ p q, (g.cell p).prev = some q → q ∈ acc ∧ accIdx acc q < accIdx acc p) →
      (dijkstraLoop finish fuel g pool acc).2.rows = g.rows ∧
      (dijkstraLoop finish fuel g pool acc).2.cols = g.cols ∧
      (∀ p ∈ (dijkstraLoop finish fuel g pool acc).1, p.1 < g.rows ∧ p.2 < g.cols) ∧
      (dijkstraLoop finish fuel g pool acc).1.Nodup ∧
      (∀ p q, ((dijkstraLoop finish fuel g pool acc).2.cell p).prev = some q →
        q ∈ (dijkstraLoop finish fuel g pool acc).1 ∧
        accIdx (dijkstraLoop finish fuel g pool acc).1 q <
          accIdx (dijkstraLoop finish fuel g pool acc).1 p) := by
  intro fuel
  induction fuel with
  | zero =>
    intro g pool acc hP hA hnp hnacc hJ
    exact ⟨rfl, rfl, fun p hp => (hA p hp).1, hnacc, hJ⟩
  | succ n ih =>
    intro g pool acc hP hA hnp hnacc hJ
    simp only [dijkstraLoop]
    cases hs : sortKey (fun p => (g.cell p).dist) pool with
    | nil => exact ⟨rfl, rfl, fun p hp => (hA p hp).1, hnacc, hJ⟩
    | cons closest rest =>
      dsimp only
      have hcl : closest ∈ pool := mem_sortKey.mp (hs ▸ List.mem_cons_self _ _)
      obtain ⟨hclB, hclV⟩ := hP closest hcl
      have hcr : (closest :: rest).Nodup :=
        hs ▸ ((sortKey_perm (fun p => (g.cell p).dist) pool).nodup_iff.mpr hnp)
      have hclrest : closest ∉ rest := (List.nodup_cons.mp hcr).1
      have hrestN : rest.Nodup := (List.nodup_cons.mp hcr).2
      have hrestP : ∀ p ∈ rest, inB g p ∧ (g.cell p).isVisited = false := fun p hp =>
        hP p (mem_sortKey.mp (hs ▸ List.mem_cons_of_mem _ hp))
      have hclNotAcc : closest ∉ acc := by
        intro h
        have hv := (hA closest h).2
        rw [hclV] at hv
        exact Bool.false_ne_true hv
      by_cases hw : (g.cell closest).isWall = true
      · rw [if_pos hw]
        exact ih g rest acc hrestP hA hrestN hnacc hJ
      · rw [if_neg hw]
        by_cases hinf : (g.cell closest).dist = EN.inf
        · rw [if_pos hinf]
          exact ⟨rfl, rfl, fun p hp => (hA p hp).1, hnacc, hJ⟩
        · rw [if_neg hinf]
          have hprevEq : ∀ p, ((g.set closest { g.cell closest with
              isVisited := true }).cell p).prev = (g.cell p).prev := by
            intro p
            by_cases hpc : p = closest
            · rw [hpc, Grid.set_same]
            · rw [Grid.set_other _ _ hpc]
          have hvisEq : ∀ p, p ≠ closest → ((g.set closest { g.cell closest with
              isVisited := true }).cell p).isVisited = (g.cell p).isVisited := by
            intro p hpc
            rw [Grid.set_other _ _ hpc]
          have hnacc2 : (acc ++ [closest]).Nodup := by
            rw [List.nodup_append]
            refine ⟨hnacc, List.nodup_singleton _, ?_⟩
            intro a ha hax
            simp at hax
            subst hax
            exact hclNotAcc ha
          by_cases hf : closest = finish
          · rw [if_pos hf]
            refine ⟨rfl, rfl, ?_, hnacc2, ?_⟩
            · intro p hp
              rcases List.mem_append.mp hp with h | h
              · exact (hA p h).1
              · simp at h
                subst h
                exact hclB
            · intro p q hpq
              rw [hprevEq p] at hpq
              exact prevInv_append closest hJ p q hpq
          · rw [if_neg hf]
            obtain ⟨hrr, hcc, hcell⟩ := relaxCells_spec closest
              (getUnvisitedNeighbors (g.set closest { g.cell closest with
                isVisited := true }) closest)
              (g.set closest { g.cell closest with isVisited := true })
              (fun h => self_not_mem_neighborsUDLR _ closest (List.mem_of_mem_filter h))
              ((nodup_neighborsUDLR _ closest).filter _)
            rw [updateUnvisitedNeighbors_eq_relaxCells]
            have hlE : ∀ p ∈ getUnvisitedNeighbors (g.set closest { g.cell closest with
                isVisited := true }) closest,
                p ≠ closest ∧ p ∉ acc := by
              intro p hp
              have h1 := List.mem_filter.mp hp
              have hunv : ((g.set closest { g.cell closest with
                  isVisited := true }).cell p).isVisited = false := by simpa using h1.2
              have hpc : p ≠ closest := by
                intro he
                rw [he, Grid.set_same] at hunv
                have hx : (true : Bool) = false := hunv
                exact Bool.noConfusion hx
              refine ⟨hpc, ?_⟩
              rw [Grid.set_other _ _ hpc] at hunv
              intro ha
              have hv := (hA p ha).2
              rw [hunv] at hv
              exact Bool.false_ne_true hv
            have hP2 : ∀ p ∈ rest,
                inB (relaxCells closest (getUnvisitedNeighbors (g.set closest
                  { g.cell closest with isVisited := true }) closest)
                  (g.set closest { g.cell closest with isVisited := true })) p ∧
                ((relaxCells closest (getUnvisitedNeighbors (g.set closest
                  { g.cell closest with isVisited := true }) closest)
                  (g.set closest { g.cell closest with isVisited := true })).cell
                    p).isVisited = false := by
              intro p hp
              obtain ⟨hb, hv⟩ := hrestP p hp
              have hpc : p ≠ closest := fun h => hclrest (h ▸ hp)
              refine ⟨⟨by rw [hrr]; exact hb.1, by rw [hcc]; exact hb.2⟩, ?_⟩
              rw [hcell p]
              split
              · show ((g.set closest { g.cell closest with
                  isVisited := true }).cell p).isVisited = false
                rw [hvisEq p hpc]
                exact hv
              · rw [hvisEq p hpc]
                exact hv
            have hA2 : ∀ p ∈ acc ++ [closest],
                inB (relaxCells closest (getUnvisitedNeighbors (g.set closest
                  { g.cell closest with isVisited := true }) closest)
                  (g.set closest { g.cell closest with isVisited := true })) p ∧
                ((relaxCells closest (getUnvisitedNeighbors (g.set closest
                  { g.cell closest with isVisited := true }) closest)
                  (g.set closest { g.cell closest with isVisited := true })).cell
                    p).isVisited = true := by
              intro p hp
              rcases List.mem_append.mp hp with h | h
              · obtain ⟨hb, hv⟩ := hA p h
                have hpc : p ≠ closest := fun he => hclNotAcc (he ▸ h)
                refine ⟨⟨by rw [hrr]; exact hb.1, by rw [hcc]; exact hb.2⟩, ?_⟩
                rw [hcell p]
                split
                · show ((g.set closest { g.cell closest with
                    isVisited := true }).cell p).isVisited = true
                  rw [hvisEq p hpc]
                  exact hv
                · rw [hvisEq p hpc]
                  exact hv
              · simp at h
                rw [h]
                have hno : closest ∉ getUnvisitedNeighbors (g.set closest
                    { g.cell closest with isVisited := true }) closest :=
                  fun hx => self_not_mem_neighborsUDLR _ closest (List.mem_of_mem_filter hx)
                refine ⟨⟨by rw [hrr]; exact hclB.1, by rw [hcc]; exact hclB.2⟩, ?_⟩
                rw [hcell closest, if_neg (fun hx => hno hx.1), Grid.set_same]
            have hJ2 : ∀ p q,
                ((relaxCells closest (getUnvisitedNeighbors (g.set closest
                  { g.cell closest with isVisited := true }) closest)
                  (g.set closest { g.cell closest with isVisited := true })).cell
                    p).prev = some q →
                q ∈ acc ++ [closest] ∧
                accIdx (acc ++ [closest]) q < accIdx (acc ++ [closest]) p := by
              intro p q hpq
              rw [hcell p] at hpq
              by_cases hcond : p ∈ getUnvisitedNeighbors (g.set closest
                  { g.cell closest with isVisited := true }) closest ∧
                  EN.ltb (((g.set closest { g.cell closest with
                    isVisited := true }).cell closest).dist.addN 1)
                    (((g.set closest { g.cell closest with
                      isVisited := true }).cell p).dist) = true
              · rw [if_pos hcond] at hpq
                rw [show (relaxedCell (g.set closest { g.cell closest with
                  isVisited := true }) closest p).prev = some closest from rfl] at hpq
                have hqc : q = closest := (Option.some.inj hpq).symm
                rw [hqc]
                refine ⟨List.mem_append.mpr (Or.inr (by simp)), ?_⟩
                rw [accIdx_append_self hclNotAcc]
                obtain ⟨hpc, hpa⟩ := hlE p hcond.1
                have hpnacc : p ∉ acc ++ [closest] := by
                  intro hx
                  rcases List.mem_append.mp hx with h | h
                  · exact hpa h
                  · simp at h
                    exact hpc h
                rw [accIdx_of_not_mem hpnacc]
                simp only [List.length_append, List.length_cons, List.length_nil]
                omega
              · rw [if_neg hcond] at hpq
                rw [hprevEq p] at hpq
                exact prevInv_append closest hJ p q hpq
            obtain ⟨r1, r2, r3, r4, r5⟩ := ih
              (relaxCells closest (getUnvisitedNeighbors (g.set closest
                { g.cell closest with isVisited := true }) closest)
                (g.set closest { g.cell closest with isVisited := true }))
              rest (acc ++ [closest]) hP2 hA2 hrestN hnacc2 hJ2
            refine ⟨r1.trans hrr, r2.trans hcc, ?_, r4, r5⟩
            intro p hp
            have h3 := r3 p hp
            rw [hrr, hcc] at h3
            exact h3

/-- The A* analog of `bfsLoop_prevInv` (the open set replaces the queue). -/
theorem astarLoop_prevInv (finish : Pos) :
    ∀ (fuel : Nat) (g : Grid) (openl acc : List Pos),
      (∀ p ∈ openl, inB g p) →
      (∀ p ∈ acc, inB g p ∧ (g.cell p).isVisited = true) →
      acc.Nodup →
      (∀ p q, (g.cell p).prev = some q → q ∈ acc ∧ accIdx acc q < accIdx acc p) →
      (astarLoop finish fuel g openl acc).2.rows = g.rows ∧
      (astarLoop finish fuel g openl acc).2.cols = g.cols ∧
      (∀ p ∈ (astarLoop finish fuel g openl acc).1, p.1 < g.rows ∧ p.2 < g.cols) ∧
      (astarLoop finish fuel g openl acc).1.Nodup ∧
      (∀ p q, ((astarLoop finish fuel g openl acc).2.cell p).prev = some q →
        q ∈ (astarLoop finish fuel g openl acc).1 ∧
        accIdx (astarLoop finish fuel g openl acc).1 q <
          accIdx (astarLoop finish fuel g openl acc).1 p) := by
  intro fuel
  induction fuel with
  | zero =>
    intro g openl acc hB hA hnacc hJ
    exact ⟨rfl, rfl, fun p hp => (hA p hp).1, hnacc, hJ⟩
  | succ n ih =>
    intro g openl acc hB hA hnacc hJ
    simp only [astarLoop]
    cases hs : sortKey (fun p => (g.cell p).fScore) openl with
    | nil => exact ⟨rfl, rfl, fun p hp => (hA p hp).1, hnacc, hJ⟩
    | cons cur rest =>
      dsimp only
      have hcurl : cur ∈ openl := mem_sortKey.mp (hs ▸ List.mem_cons_self _ _)
      have hcurB : inB g cur := hB cur hcurl
      have hrestB : ∀ p ∈ rest, inB g p := fun p hp =>
        hB p (mem_sortKey.mp (hs ▸ List.mem_cons_of_mem _ hp))
      by_cases hw : (g.cell cur).isWall = true
      · rw [if_pos hw]
        exact ih g rest acc hrestB hA hnacc hJ
      · rw [if_neg hw]
        by_cases hv : (g.cell cur).isVisited = true
        · rw [if_pos hv]
          exact ih g rest acc hrestB hA hnacc hJ
        · rw [if_neg hv]
          have hcurNotAcc : cur ∉ acc := by
            intro h
            exact hv (hA cur h).2
          have hnacc2 : (acc ++ [cur]).Nodup := by
            rw [List.nodup_append]
            refine ⟨hnacc, List.nodup_singleton _, ?_⟩
            intro a ha hax
            simp at hax
            subst hax
            exact hcurNotAcc ha
          have hprevEq : ∀ p, ((g.set cur { g.cell cur with
              isVisited := true }).cell p).prev = (g.cell p).prev := by
            intro p
            by_cases hpc : p = cur
            · rw [hpc, Grid.set_same]
            · rw [Grid.set_other _ _ hpc]
          by_cases hf : cur = finish
          · rw [if_pos hf]
            refine ⟨rfl, rfl, ?_, hnacc2, ?_⟩
            · intro p hp
              rcases List.mem_append.mp hp with h | h
              · exact (hA p h).1
              · simp at h
                subst h
                exact hcurB
            · intro p q hpq
              rw [hprevEq p] at hpq
              exact prevInv_append cur hJ p q hpq
          · rw [if_neg hf]
            obtain ⟨hrr, hcc, hcell, hiff⟩ := astarRelaxFold_spec cur finish
              (getNeighbors (g.set cur { g.cell cur with isVisited := true }) cur)
              (g.set cur { g.cell cur with isVisited := true }) rest
              (self_not_mem_neighborsUDLR _ cur)
              (nodup_neighborsUDLR _ cur)
            rw [astarRelax_eq_fold]
            have hcondFacts : ∀ p, astarRelaxCond (g.set cur { g.cell cur with
                isVisited := true }) cur p → p ≠ cur ∧ p ∉ acc := by
              intro p hcp
              have hunv := hcp.2.1
              have hpc : p ≠ cur := by
                intro he
                rw [he, Grid.set_same] at hunv
                have hx : (true : Bool) = false := hunv
                exact Bool.noConfusion hx
              refine ⟨hpc, ?_⟩
              rw [Grid.set_other _ _ hpc] at hunv
              intro ha
              have hav := (hA p ha).2
              rw [hunv] at hav
              exact Bool.false_ne_true hav
            have hB2 : ∀ p ∈ (astarRelaxFold cur finish
                (getNeighbors (g.set cur { g.cell cur with isVisited := true }) cur)
                ((g.set cur { g.cell cur with isVisited := true }), rest)).2,
                inB (astarRelaxFold cur finish
                  (getNeighbors (g.set cur { g.cell cur with isVisited := true }) cur)
                  ((g.set cur { g.cell cur with isVisited := true }), rest)).1 p := by
              intro p hp
              have hb2 : inB g p := by
                rcases (hiff p).mp hp with h | ⟨h, _⟩
                · exact hrestB p h
                · have := inB_of_mem_neighborsUDLR
                    (⟨hcurB.1, hcurB.2⟩ :
                      inB (g.set cur { g.cell cur with isVisited := true }) cur) h
                  exact ⟨this.1, this.2⟩
              exact ⟨by rw [hrr]; exact hb2.1, by rw [hcc]; exact hb2.2⟩
            have hA2 : ∀ p ∈ acc ++ [cur],
                inB (astarRelaxFold cur finish
                  (getNeighbors (g.set cur { g.cell cur with isVisited := true }) cur)
                  ((g.set cur { g.cell cur with isVisited := true }), rest)).1 p ∧
                ((astarRelaxFold cur finish
                  (getNeighbors (g.set cur { g.cell cur with isVisited := true }) cur)
                  ((g.set cur { g.cell cur with isVisited := true }), rest)).1.cell
                    p).isVisited = true := by
              intro p hp
              rcases List.mem_append.mp hp with h | h
              · obtain ⟨hb, hav⟩ := hA p h
                have hpc : p ≠ cur := fun he => hcurNotAcc (he ▸ h)
                refine ⟨⟨by rw [hrr]; exact hb.1, by rw [hcc]; exact hb.2⟩, ?_⟩
                rw [hcell p]
                split
                · show ((g.set cur { g.cell cur with
                    isVisited := true }).cell p).isVisited = true
                  rw [Grid.set_other _ _ hpc]
                  exact hav
                · rw [Grid.set_other _ _ hpc]
                  exact hav
              · simp at h
                rw [h]
                have hno : ¬ (cur ∈ getNeighbors (g.set cur { g.cell cur with
                    isVisited := true }) cur ∧ astarRelaxCond (g.set cur
                      { g.cell cur with isVisited := true }) cur cur) :=
                  fun hx => self_not_mem_neighborsUDLR _ cur hx.1
                refine ⟨⟨by rw [hrr]; exact hcurB.1, by rw [hcc]; exact hcurB.2⟩, ?_⟩
                rw [hcell cur, if_neg hno, Grid.set_same]
            have hJ2 : ∀ p q, ((astarRelaxFold cur finish
                (getNeighbors (g.set cur { g.cell cur with isVisited := true }) cur)
                ((g.set cur { g.cell cur with isVisited := true }), rest)).1.cell
                  p).prev = some q →
                q ∈ acc ++ [cur] ∧
                accIdx (acc ++ [cur]) q < accIdx (acc ++ [cur]) p := by
              intro p q hpq
              rw [hcell p] at hpq
              by_cases hcond : p ∈ getNeighbors (g.set cur { g.cell cur with
                  isVisited := true }) cur ∧ astarRelaxCond (g.set cur
                  { g.cell cur with isVisited := true }) cur p
              · rw [if_pos hcond] at hpq
                rw [show (astarRelaxedCell (g.set cur { g.cell cur with
                  isVisited := true }) cur finish p).prev = some cur from rfl] at hpq
                have hqc : q = cur := (Option.some.inj hpq).symm
                rw [hqc]
                refine ⟨List.mem_append.mpr (Or.inr (by simp)), ?_⟩
                rw [accIdx_append_self hcurNotAcc]
                obtain ⟨hpc, hpa⟩ := hcondFacts p hcond.2
                have hpnacc : p ∉ acc ++ [cur] := by
                  intro hx
                  rcases List.mem_append.mp hx with h | h
                  · exact hpa h
                  · simp at h
                    exact hpc h
                rw [accIdx_of_not_mem hpnacc]
                simp only [List.length_append, List.length_cons, List.length_nil]
                omega
              · rw [if_neg hcond] at hpq
                rw [hprevEq p] at hpq
                exact prevInv_append cur hJ p q hpq
            obtain ⟨r1, r2, r3, r4, r5⟩ := ih
              (astarRelaxFold cur finish
                (getNeighbors (g.set cur { g.cell cur with isVisited := true }) cur)
                ((g.set cur { g.cell cur with isVisited := true }), rest)).1
              (astarRelaxFold cur finish
                (getNeighbors (g.set cur { g.cell cur with isVisited := true }) cur)
                ((g.set cur { g.cell cur with isVisited := true }), rest)).2
              (acc ++ [cur]) hB2 hA2 hnacc2 hJ2
            refine ⟨r1.trans hrr, r2.trans hcc, ?_, r4, r5⟩
            intro p hp
            have h3 := r3 p hp
            rw [hrr, hcc] at h3
            exact h3

/-- The greedy best-first analog of `bfsLoop_prevInv`. -/
theorem greedyLoop_prevInv (finish : Pos) :
    ∀ (fuel : Nat) (g : Grid) (openl acc : List Pos),
      (∀ p ∈ openl, inB g p) →
      (∀ p ∈ acc, inB g p ∧ (g.cell p).isVisited = true) →
      acc.Nodup →
      (∀ p q, (g.cell p).prev = some q → q ∈ acc ∧ accIdx acc q < accIdx acc p) →
      (greedyLoop finish fuel g openl acc).2.rows = g.rows ∧
      (greedyLoop finish fuel g openl acc).2.cols = g.cols ∧
      (∀ p ∈ (greedyLoop finish fuel g openl acc).1, p.1 < g.rows ∧ p.2 < g.cols) ∧
      (greedyLoop finish fuel g openl acc).1.Nodup ∧
      (∀ p q, ((greedyLoop finish fuel g openl acc).2.cell p).prev = some q →
        q ∈ (greedyLoop finish fuel g openl acc).1 ∧
        accIdx (greedyLoop finish fuel g openl acc).1 q <
          accIdx (greedyLoop finish fuel g openl acc).1 p) := by
  intro fuel
  induction fuel with
  | zero =>
    intro g openl acc hB hA hnacc hJ
    exact ⟨rfl, rfl, fun p hp => (hA p hp).1, hnacc, hJ⟩
  | succ n ih =>
    intro g openl acc hB hA hnacc hJ
    simp only [greedyLoop]
    cases hs : sortKey (fun p => (g.cell p).fScore) openl with
    | nil => exact ⟨rfl, rfl, fun p hp => (hA p hp).1, hnacc, hJ⟩
    | cons cur rest =>
      dsimp only
      have hcurl : cur ∈ openl := mem_sortKey.mp (hs ▸ List.mem_cons_self _ _)
      have hcurB : inB g cur := hB cur hcurl
      have hrestB : ∀ p ∈ rest, inB g p := fun p hp =>
        hB p (mem_sortKey.mp (hs ▸ List.mem_cons_of_mem _ hp))
      by_cases hw : (g.cell cur).isWall = true
      · rw [if_pos hw]
        exact ih g rest acc hrestB hA hnacc hJ
      · rw [if_neg hw]
        by_cases hv : (g.cell cur).isVisited = true
        · rw [if_pos hv]
          exact ih g rest acc hrestB hA hnacc hJ
        · rw [if_neg hv]
          have hcurNotAcc : cur ∉ acc := by
            intro h
            exact hv (hA cur h).2
          have hnacc2 : (acc ++ [cur]).Nodup := by
            rw [List.nodup_append]
            refine ⟨hnacc, List.nodup_singleton _, ?_⟩
            intro a ha hax
            simp at hax
            subst hax
            exact hcurNotAcc ha
          have hprevEq : ∀ p, ((g.set cur { g.cell cur with
              isVisited := true }).cell p).prev = (g.cell p).prev := by
            intro p
            by_cases hpc : p = cur
            · rw [hpc, Grid.set_same]
            · rw [Grid.set_other _ _ hpc]
          by_cases hf : cur = finish
          · rw [if_pos hf]
            refine ⟨rfl, rfl, ?_, hnacc2, ?_⟩
            · intro p hp
              rcases List.mem_append.mp hp with h | h
              · exact (hA p h).1
              · simp at h
                subst h
                exact hcurB
            · intro p q hpq
              rw [hprevEq p] at hpq
              exact prevInv_append cur hJ p q hpq
          · rw [if_neg hf]
            obtain ⟨hrr, hcc, hcell, hiff⟩ := greedyRelaxFold_spec cur finish
              (getNeighbors (g.set cur { g.cell cur with isVisited := true }) cur)
              (g.set cur { g.cell cur with isVisited := true }) rest
              (nodup_neighborsUDLR _ cur)
            rw [greedyRelax_eq_fold]
            have hcondFacts : ∀ p, greedyRelaxCond (g.set cur { g.cell cur with
                isVisited := true }) p → p ≠ cur ∧ p ∉ acc := by
              intro p hcp
              have hunv := hcp.2
              have hpc : p ≠ cur := by
                intro he
                rw [he, Grid.set_same] at hunv
                have hx : (true : Bool) = false := hunv
                exact Bool.noConfusion hx
              refine ⟨hpc, ?_⟩
              rw [Grid.set_other _ _ hpc] at hunv
              intro ha
              have hav := (hA p ha).2
              rw [hunv] at hav
              exact Bool.false_ne_true hav
            have hB2 : ∀ p ∈ (greedyRelaxFold cur finish
                (getNeighbors (g.set cur { g.cell cur with isVisited := true }) cur)
                ((g.set cur { g.cell cur with isVisited := true }), rest)).2,
                inB (greedyRelaxFold cur finish
                  (getNeighbors (g.set cur { g.cell cur with isVisited := true }) cur)
                  ((g.set cur { g.cell cur with isVisited := true }), rest)).1 p := by
              intro p hp
              have hb2 : inB g p := by
                rcases (hiff p).mp hp with h | ⟨h, _⟩
                · exact hrestB p h
                · have := inB_of_mem_neighborsUDLR
                    (⟨hcurB.1, hcurB.2⟩ :
                      inB (g.set cur { g.cell cur with isVisited := true }) cur) h
                  exact ⟨this.1, this.2⟩
              exact ⟨by rw [hrr]; exact hb2.1, by rw [hcc]; exact hb2.2⟩
            have hA2 : ∀ p ∈ acc ++ [cur],
                inB (greedyRelaxFold cur finish
                  (getNeighbors (g.set cur { g.cell cur with isVisited := true }) cur)
                  ((g.set cur { g.cell cur with isVisited := true }), rest)).1 p ∧
                ((greedyRelaxFold cur finish
                  (getNeighbors (g.set cur { g.cell cur with isVisited := true }) cur)
                  ((g.set cur { g.cell cur with isVisited := true }), rest)).1.cell
                    p).isVisited = true := by
              intro p hp
              rcases List.mem_append.mp hp with h | h
              · obtain ⟨hb, hav⟩ := hA p h
                have hpc : p ≠ cur := fun he => hcurNotAcc (he ▸ h)
                refine ⟨⟨by rw [hrr]; exact hb.1, by rw [hcc]; exact hb.2⟩, ?_⟩
                rw [hcell p]
                split
                · show ((greedyRelaxedCell (g.set cur { g.cell cur with
                    isVisited := true }) cur finish p)).isVisited = true
                  show ((g.set cur { g.cell cur with
                    isVisited := true }).cell p).isVisited = true
                  rw [Grid.set_other _ _ hpc]
                  exact hav
                · rw [Grid.set_other _ _ hpc]
                  exact hav
              · simp at h
                rw [h]
                have hno : ¬ (cur ∈ getNeighbors (g.set cur { g.cell cur with
                    isVisited := true }) cur ∧ greedyRelaxCond (g.set cur
                      { g.cell cur with isVisited := true }) cur) :=
                  fun hx => self_not_mem_neighborsUDLR _ cur hx.1
                refine ⟨⟨by rw [hrr]; exact hcurB.1, by rw [hcc]; exact hcurB.2⟩, ?_⟩
                rw [hcell cur, if_neg hno, Grid.set_same]
            have hJ2 : ∀ p q, ((greedyRelaxFold cur finish
                (getNeighbors (g.set cur { g.cell cur with isVisited := true }) cur)
                ((g.set cur { g.cell cur with isVisited := true }), rest)).1.cell
                  p).prev = some q →
                q ∈ acc ++ [cur] ∧
                accIdx (acc ++ [cur]) q < accIdx (acc ++ [cur]) p := by
              intro p q hpq
              rw [hcell p] at hpq
              by_cases hcond : p ∈ getNeighbors (g.set cur { g.cell cur with
                  isVisited := true }) cur ∧ greedyRelaxCond (g.set cur
                  { g.cell cur with isVisited := true }) p
              · rw [if_pos hcond] at hpq
                rw [show (greedyRelaxedCell (g.set cur { g.cell cur with
                  isVisited := true }) cur finish p).prev =
                  (if ((g.set cur { g.cell cur with isVisited := true }).cell
                    p).prev = none then some cur
                   else ((g.set cur { g.cell cur with isVisited := true }).cell
                     p).prev) from rfl] at hpq
                by_cases hpp : ((g.set cur { g.cell cur with
                    isVisited := true }).cell p).prev = none
                · rw [if_pos hpp] at hpq
                  have hqc : q = cur := (Option.some.inj hpq).symm
                  rw [hqc]
                  refine ⟨List.mem_append.mpr (Or.inr (by simp)), ?_⟩
                  rw [accIdx_append_self hcurNotAcc]
                  obtain ⟨hpc, hpa⟩ := hcondFacts p hcond.2
                  have hpnacc : p ∉ acc ++ [cur] := by
                    intro hx
                    rcases List.mem_append.mp hx with h | h
                    · exact hpa h
                    · simp at h
                      exact hpc h
                  rw [accIdx_of_not_mem hpnacc]
                  simp only [List.length_append, List.length_cons, List.length_nil]
                  omega
                · rw [if_neg hpp] at hpq
                  rw [hprevEq p] at hpq
                  exact prevInv_append cur hJ p q hpq
              · rw [if_neg hcond] at hpq
                rw [hprevEq p] at hpq
                exact prevInv_append cur hJ p q hpq
            obtain ⟨r1, r2, r3, r4, r5⟩ := ih
              (greedyRelaxFold cur finish
                (getNeighbors (g.set cur { g.cell cur with isVisited := true }) cur)
                ((g.set cur { g.cell cur with isVisited := true }), rest)).1
              (greedyRelaxFold cur finish
                (getNeighbors (g.set cur { g.cell cur with isVisited := true }) cur)
                ((g.set cur { g.cell cur with isVisited := true }), rest)).2
              (acc ++ [cur]) hB2 hA2 hnacc2 hJ2
            refine ⟨r1.trans hrr, r2.trans hcc, ?_, r4, r5⟩
            intro p hp
            have h3 := r3 p hp
            rw [hrr, hcc] at h3
            exact h3

theorem getAllNodes_nodup (g : Grid) : (getAllNodes g).Nodup := by
  unfold getAllNodes
  rw [List.nodup_flatMap]
  constructor
  · intro r _
    exact List.Nodup.map (fun a b h => by simpa using congrArg Prod.snd h)
      (List.nodup_range g.cols)
  · refine List.Pairwise.imp ?_ (List.nodup_range g.rows)
    intro a b hab
    intro x hxa hxb
    rcases List.mem_map.mp hxa with ⟨c1, _, rfl⟩
    rcases List.mem_map.mp hxb with ⟨c2, _, he⟩
    have hba : b = a := congrArg Prod.fst he
    exact hab hba.symm

/-- From the back-link invariant on a run's result: every chain dies within
`rows*cols + 1` steps and `getNodesInShortestPathOrder` is the stable value
of `pathStep` from that point on. -/
theorem chainsAndStable (res : List Pos × Grid) (rows cols : Nat)
    (hr : res.2.rows = rows) (hc : res.2.cols = cols)
    (h3 : ∀ p ∈ res.1, p.1 < rows ∧ p.2 < cols)
    (h4 : res.1.Nodup)
    (h5 : ∀ p q, (res.2.cell p).prev = some q → q ∈ res.1 ∧
      accIdx res.1 q < accIdx res.1 p) :
    ∀ p : Pos, ∃ k, k ≤ rows * cols + 1 ∧ prevIter res.2 k (some p) = none ∧
      ∀ fuel, k ≤ fuel →
        pathStep res.2 fuel (some p) [] = getNodesInShortestPathOrder res.2 p := by
  intro p
  have hlen : res.1.length ≤ rows * cols := nodup_bounded_length h4 h3
  have hidx : accIdx res.1 p < rows * cols + 1 := by
    by_cases hm : p ∈ res.1
    · have := accIdx_lt_length hm
      omega
    · rw [accIdx_of_not_mem hm]
      omega
  obtain ⟨k, hk, hnone⟩ := chainBound res.2 res.1 h5 (rows * cols + 1) p hidx
  refine ⟨k, hk, hnone, ?_⟩
  intro fuel hfuel
  have h1 := pathStep_stable res.2 k (some p) [] hnone fuel hfuel
  have h2 := pathStep_stable res.2 k (some p) [] hnone
    (res.2.rows * res.2.cols + 2) (by rw [hr, hc]; omega)
  simp only [getNodesInShortestPathOrder]
  rw [h1, h2]

/-! ## Adjacent start/finish runs -/

theorem EN.ltb_addN_one_fin_one (d : EN) : EN.ltb (d.addN 1) (EN.fin 1) = false := by
  cases d <;> simp [EN.addN, EN.ltb]

theorem mem_neighborsURDL_iff_UDLR {g : Grid} {p q : Pos} :
    q ∈ neighborsURDL g p ↔ q ∈ neighborsUDLR g p := by
  rw [mem_neighborsURDL, mem_neighborsUDLR]
  tauto

/-- Two-step reconstruction: a finish whose back-link is a cell with unset
back-link reconstructs to the two-cell path. -/
theorem pathOrder_two {g : Grid} {a b : Pos} (hb : (g.cell b).prev = some a)
    (ha : (g.cell a).prev = none) :
    getNodesInShortestPathOrder g b = [a, b] := by
  show pathStep g (g.rows * g.cols + 2) (some b) [] = [a, b]
  rw [show pathStep g (g.rows * g.cols + 2) (some b) [] =
    pathStep g (g.rows * g.cols + 1) ((g.cell b).prev) [b] from rfl, hb]
  rw [show pathStep g (g.rows * g.cols + 1) (some a) [b] =
    pathStep g (g.rows * g.cols) ((g.cell a).prev) [a, b] from rfl, ha]
  exact pathStep_none g _ _

theorem bfsLoop_step_expand (finish node : Pos) (fuel : Nat) (g : Grid)
    (queue acc : List Pos) (hw : ¬ (g.cell node).isWall = true) (hf : node ≠ finish) :
    bfsLoop finish (fuel + 1) g (node :: queue) acc =
      bfsLoop finish fuel (bfsExpand g node).1 (queue ++ (bfsExpand g node).2)
        (acc ++ [node]) := by
  simp only [bfsLoop]
  rw [if_neg hw, if_neg hf]

theorem dfsLoop_step_expand (finish node : Pos) (fuel : Nat) (g : Grid)
    (stack acc : List Pos) (hw : ¬ (g.cell node).isWall = true) (hf : node ≠ finish) :
    dfsLoop finish (fuel + 1) g (node :: stack) acc =
      dfsLoop finish fuel (dfsExpand g node).1 ((dfsExpand g node).2 ++ stack)
        (acc ++ [node]) := by
  simp only [dfsLoop]
  rw [if_neg hw, if_neg hf]

theorem dijkstraLoop_step_expand (finish closest : Pos) (fuel : Nat) (g : Grid)
    (pool acc rest : List Pos)
    (hs : sortKey (fun p => (g.cell p).dist) pool = closest :: rest)
    (hw : ¬ (g.cell closest).isWall = true) (hd : ¬ (g.cell closest).dist = EN.inf)
    (hf : closest ≠ finish) :
    dijkstraLoop finish (fuel + 1) g pool acc =
      dijkstraLoop finish fuel
        (updateUnvisitedNeighbors (g.set closest { g.cell closest with
          isVisited := true }) closest) rest (acc ++ [closest]) := by
  simp only [dijkstraLoop]
  rw [hs]
  dsimp only
  rw [if_neg hw, if_neg hd, if_neg hf]

theorem astarLoop_step_expand (finish cur : Pos) (fuel : Nat) (g : Grid)
    (openl acc rest : List Pos)
    (hs : sortKey (fun p => (g.cell p).fScore) openl = cur :: rest)
    (hw : ¬ (g.cell cur).isWall = true) (hv : ¬ (g.cell cur).isVisited = true)
    (hf : cur ≠ finish) :
    astarLoop finish (fuel + 1) g openl acc =
      astarLoop finish fuel
        (astarRelax (g.set cur { g.cell cur with isVisited := true }) cur finish rest).1
        (astarRelax (g.set cur { g.cell cur with isVisited := true }) cur finish rest).2
        (acc ++ [cur]) := by
  simp only [astarLoop]
  rw [hs]
  dsimp only
  rw [if_neg hw, if_neg hv, if_neg hf]

theorem greedyLoop_step_expand (finish cur : Pos) (fuel : Nat) (g : Grid)
    (openl acc rest : List Pos)
    (hs : sortKey (fun p => (g.cell p).fScore) openl = cur :: rest)
    (hw : ¬ (g.cell cur).isWall = true) (hv : ¬ (g.cell cur).isVisited = true)
    (hf : cur ≠ finish) :
    greedyLoop finish (fuel + 1) g openl acc =
      greedyLoop finish fuel
        (greedyRelax (g.set cur { g.cell cur with isVisited := true }) cur finish rest).1
        (greedyRelax (g.set cur { g.cell cur with isVisited := true }) cur finish rest).2
        (acc ++ [cur]) := by
  simp only [greedyLoop]
  rw [hs]
  dsimp only
  rw [if_neg hw, if_neg hv, if_neg hf]

/-- Once the finish sits marked in the BFS queue with its back-link set to
`start` and the start's own back-link unset, the loop ends (on sufficient
fuel) with both back-links intact: the finish is visited, never re-relaxed. -/
theorem bfsLoop_c8 (start finish : Pos) :
    ∀ (fuel : Nat) (g : Grid) (queue acc : List Pos),
      queue.length + 2 * unvisCount g ≤ fuel →
      (∀ p ∈ queue, inB g p) →
      finish ∈ queue →
      (g.cell finish).isWall = false →
      (g.cell finish).isVisited = true →
      (g.cell finish).prev = some start →
      (g.cell start).prev = none →
      (g.cell start).isVisited = true →
      ((bfsLoop finish fuel g queue acc).2.cell finish).prev = some start ∧
      ((bfsLoop finish fuel g queue acc).2.cell start).prev = none := by
  intro fuel
  induction fuel with
  | zero =>
    intro g queue acc hfuel hinB hmem hfw hfv hfp hsp hsv
    have := List.length_pos.mpr (List.ne_nil_of_mem hmem)
    omega
  | succ n ih =>
    intro g queue acc hfuel hinB hmem hfw hfv hfp hsp hsv
    cases queue with
    | nil => simp at hmem
    | cons node rest =>
      have hnodeB : inB g node := hinB node (List.mem_cons_self _ _)
      simp only [bfsLoop]
      by_cases hw : (g.cell node).isWall = true
      · rw [if_pos hw]
        have hnf : node ≠ finish := fun h => by rw [h, hfw] at hw; cases hw
        have hmem' : finish ∈ rest := (List.mem_cons.mp hmem).resolve_left
          (fun h => hnf h.symm)
        exact ih g rest acc (by simp only [List.length_cons] at hfuel; omega)
          (fun p hp => hinB p (List.mem_cons_of_mem _ hp)) hmem' hfw hfv hfp hsp hsv
      · rw [if_neg hw]
        by_cases hf : node = finish
        · rw [if_pos hf]
          exact ⟨hfp, hsp⟩
        · rw [if_neg hf]
          obtain ⟨houtL, hrows, hcols, hcell⟩ := bfsExpand_spec g node
          obtain ⟨houtN, houtE, houtC⟩ := bfsExpand_out_spec hnodeB
          have hfin_out : finish ∉ (bfsExpand g node).2 := by
            intro hx
            have := (houtE finish hx).2.1
            rw [hfv] at this
            exact Bool.noConfusion this
          have hst_out : start ∉ (bfsExpand g node).2 := by
            intro hx
            have := (houtE start hx).2.1
            rw [hsv] at this
            exact Bool.noConfusion this
          have hfin_cell : (bfsExpand g node).1.cell finish = g.cell finish := by
            rw [hcell finish, if_neg hfin_out]
          have hst_cell : (bfsExpand g node).1.cell start = g.cell start := by
            rw [hcell start, if_neg hst_out]
          have hmem' : finish ∈ rest := (List.mem_cons.mp hmem).resolve_left
            (fun h => hf h.symm)
          refine ih (bfsExpand g node).1 (rest ++ (bfsExpand g node).2) (acc ++ [node])
            ?_ ?_ (List.mem_append.mpr (Or.inl hmem'))
            (by rw [hfin_cell]; exact hfw) (by rw [hfin_cell]; exact hfv)
            (by rw [hfin_cell]; exact hfp) (by rw [hst_cell]; exact hsp)
            (by rw [hst_cell]; exact hsv)
          · simp only [List.length_append, List.length_cons] at hfuel ⊢
            omega
          · intro p hp
            have hb2 : inB g p := by
              rcases List.mem_append.mp hp with h | h
              · exact hinB p (List.mem_cons_of_mem _ h)
              · exact (houtE p h).1
            exact ⟨by rw [hrows]; exact hb2.1, by rw [hcols]; exact hb2.2⟩

/-- The DFS analog of `bfsLoop_c8`. -/
theorem dfsLoop_c8 (start finish : Pos) :
    ∀ (fuel : Nat) (g : Grid) (stack acc : List Pos),
      stack.length + 2 * unvisCount g ≤ fuel →
      (∀ p ∈ stack, inB g p) →
      finish ∈ stack →
      (g.cell finish).isWall = false →
      (g.cell finish).isVisited = true →
      (g.cell finish).prev = some start →
      (g.cell start).prev = none →
      (g.cell start).isVisited = true →
      ((dfsLoop finish fuel g stack acc).2.cell finish).prev = some start ∧
      ((dfsLoop finish fuel g stack acc).2.cell start).prev = none := by
  intro fuel
  induction fuel with
  | zero =>
    intro g stack acc hfuel hinB hmem hfw hfv hfp hsp hsv
    have := List.length_pos.mpr (List.ne_nil_of_mem hmem)
    omega
  | succ n ih =>
    intro g stack acc hfuel hinB hmem hfw hfv hfp hsp hsv
    cases stack with
    | nil => simp at hmem
    | cons node rest =>
      have hnodeB : inB g node := hinB node (List.mem_cons_self _ _)
      simp only [dfsLoop]
      by_cases hw : (g.cell node).isWall = true
      · rw [if_pos hw]
        have hnf : node ≠ finish := fun h => by rw [h, hfw] at hw; cases hw
        have hmem' : finish ∈ rest := (List.mem_cons.mp hmem).resolve_left
          (fun h => hnf h.symm)
        exact ih g rest acc (by simp only [List.length_cons] at hfuel; omega)
          (fun p hp => hinB p (List.mem_cons_of_mem _ hp)) hmem' hfw hfv hfp hsp hsv
      · rw [if_neg hw]
        by_cases hf : node = finish
        · rw [if_pos hf]
          exact ⟨hfp, hsp⟩
        · rw [if_neg hf]
          obtain ⟨houtL, hrows, hcols, hcell⟩ := dfsExpand_spec g node
          obtain ⟨houtN, houtE, houtC⟩ := dfsExpand_out_spec hnodeB
          have hfin_out : finish ∉ (dfsExpand g node).2 := by
            intro hx
            have := (houtE finish hx).2.1
            rw [hfv] at this
            exact Bool.noConfusion this
          have hst_out : start ∉ (dfsExpand g node).2 := by
            intro hx
            have := (houtE start hx).2.1
            rw [hsv] at this
            exact Bool.noConfusion this
          have hfin_cell : (dfsExpand g node).1.cell finish = g.cell finish := by
            rw [hcell finish, if_neg hfin_out]
          have hst_cell : (dfsExpand g node).1.cell start = g.cell start := by
            rw [hcell start, if_neg hst_out]
          have hmem' : finish ∈ rest := (List.mem_cons.mp hmem).resolve_left
            (fun h => hf h.symm)
          refine ih (dfsExpand g node).1 ((dfsExpand g node).2 ++ rest) (acc ++ [node])
            ?_ ?_ (List.mem_append.mpr (Or.inr hmem'))
            (by rw [hfin_cell]; exact hfw) (by rw [hfin_cell]; exact hfv)
            (by rw [hfin_cell]; exact hfp) (by rw [hst_cell]; exact hsp)
            (by rw [hst_cell]; exact hsv)
          · simp only [List.length_append, List.length_cons] at hfuel ⊢
            omega
          · intro p hp
            have hb2 : inB g p := by
              rcases List.mem_append.mp hp with h | h
              · exact (houtE p h).1
              · exact hinB p (List.mem_cons_of_mem _ h)
            exact ⟨by rw [hrows]; exact hb2.1, by rw [hcols]; exact hb2.2⟩

/-- Once the finish carries `distance = 1` and back-link `start` in the
dijkstra pool, no later relaxation can improve it (any candidate is
`d + 1 ≥ 1`), so the loop ends with both back-links intact. -/
theorem dijkstraLoop_c8 (start finish : Pos) :
    ∀ (fuel : Nat) (g : Grid) (pool acc : List Pos),
      pool.length ≤ fuel →
      finish ∈ pool →
      start ∉ pool →
      (g.cell finish).isWall = false →
      (g.cell finish).dist = EN.fin 1 →
      (g.cell finish).prev = some start →
      (g.cell start).prev = none →
      (g.cell start).isVisited = true →
      ((dijkstraLoop finish fuel g pool acc).2.cell finish).prev = some start ∧
      ((dijkstraLoop finish fuel g pool acc).2.cell start).prev = none := by
  intro fuel
  induction fuel with
  | zero =>
    intro g pool acc hfuel hmem hst hfw hfd hfp hsp hsv
    have := List.length_pos.mpr (List.ne_nil_of_mem hmem)
    omega
  | succ n ih =>
    intro g pool acc hfuel hmem hst hfw hfd hfp hsp hsv
    simp only [dijkstraLoop]
    cases hs : sortKey (fun p => (g.cell p).dist) pool with
    | nil =>
      have hp : pool = [] := by
        have := (sortKey_perm (fun p => (g.cell p).dist) pool).length_eq
        rw [hs] at this
        exact List.length_eq_zero.mp this.symm
      rw [hp] at hmem
      simp at hmem
    | cons closest rest =>
      dsimp only
      have hlen : pool.length = rest.length + 1 := by
        have := (sortKey_perm (fun p => (g.cell p).dist) pool).length_eq
        rw [hs] at this
        simpa using this.symm
      have hrest_pool : ∀ p ∈ rest, p ∈ pool := fun p hp =>
        mem_sortKey.mp (hs ▸ List.mem_cons_of_mem _ hp)
      have hcl_pool : closest ∈ pool := mem_sortKey.mp (hs ▸ List.mem_cons_self _ _)
      have hcl_st : closest ≠ start := fun h => hst (h ▸ hcl_pool)
      by_cases hw : (g.cell closest).isWall = true
      · rw [if_pos hw]
        have hnf : closest ≠ finish := fun h => by rw [h, hfw] at hw; cases hw
        have hmem' : finish ∈ rest := by
          have : finish ∈ closest :: rest := hs ▸ mem_sortKey.mpr hmem
          exact (List.mem_cons.mp this).resolve_left (fun h => hnf h.symm)
        exact ih g rest acc (by omega) hmem' (fun h => hst (hrest_pool start h))
          hfw hfd hfp hsp hsv
      · rw [if_neg hw]
        by_cases hinf : (g.cell closest).dist = EN.inf
        · rw [if_pos hinf]
          exact ⟨hfp, hsp⟩
        · rw [if_neg hinf]
          by_cases hf : closest = finish
          · rw [if_pos hf]
            constructor
            · rw [hf, Grid.set_same]
              exact hfp
            · rw [Grid.set_other _ _ (fun h => hcl_st h.symm)]
              exact hsp
          · rw [if_neg hf]
            have hmem' : finish ∈ rest := by
              have : finish ∈ closest :: rest := hs ▸ mem_sortKey.mpr hmem
              exact (List.mem_cons.mp this).resolve_left (fun h => hf h.symm)
            have hgf : (g.set closest { g.cell closest with isVisited := true }).cell
                finish = g.cell finish := Grid.set_other _ _ (fun h => hf h.symm)
            have hgs : (g.set closest { g.cell closest with isVisited := true }).cell
                start = g.cell start := Grid.set_other _ _ (fun h => hcl_st h.symm)
            obtain ⟨hrr, hcc, hcell⟩ := relaxCells_spec closest
              (getUnvisitedNeighbors (g.set closest { g.cell closest with
                isVisited := true }) closest)
              (g.set closest { g.cell closest with isVisited := true })
              (fun h => self_not_mem_neighborsUDLR _ closest (List.mem_of_mem_filter h))
              ((nodup_neighborsUDLR _ closest).filter _)
            rw [updateUnvisitedNeighbors_eq_relaxCells]
            have hfin_cell : (relaxCells closest (getUnvisitedNeighbors (g.set closest
                { g.cell closest with isVisited := true }) closest)
                (g.set closest { g.cell closest with isVisited := true })).cell finish =
                g.cell finish := by
              rw [hcell finish, if_neg, hgf]
              intro hx
              have hlt := hx.2
              rw [hgf, hfd] at hlt
              rw [EN.ltb_addN_one_fin_one] at hlt
              exact Bool.noConfusion hlt
            have hst_cell : (relaxCells closest (getUnvisitedNeighbors (g.set closest
                { g.cell closest with isVisited := true }) closest)
                (g.set closest { g.cell closest with isVisited := true })).cell start =
                g.cell start := by
              rw [hcell start, if_neg, hgs]
              intro hx
              have hm := List.mem_filter.mp hx.1
              have hv : ((g.set closest { g.cell closest with
                  isVisited := true }).cell start).isVisited = false := by
                simpa using hm.2
              rw [hgs, hsv] at hv
              exact Bool.noConfusion hv
            exact ih _ rest (acc ++ [closest]) (by omega) hmem'
              (fun h => hst (hrest_pool start h))
              (by rw [hfin_cell]; exact hfw) (by rw [hfin_cell]; exact hfd)
              (by rw [hfin_cell]; exact hfp) (by rw [hst_cell]; exact hsp)
              (by rw [hst_cell]; exact hsv)

/-- The A* analog of `dijkstraLoop_c8`: the finish stays in the open set
with `distance = 1` and back-link `start` until it is extracted. -/
theorem astarLoop_c8 (start finish : Pos) :
    ∀ (fuel : Nat) (g : Grid) (openl acc : List Pos),
      openl.length + 5 * unvisCount g ≤ fuel →
      (∀ p ∈ openl, inB g p) →
      finish ∈ openl →
      (g.cell finish).isWall = false →
      (g.cell finish).isVisited = false →
      (g.cell finish).dist = EN.fin 1 →
      (g.cell finish).prev = some start →
      (g.cell start).prev = none →
      (g.cell start).isVisited = true →
      ((astarLoop finish fuel g openl acc).2.cell finish).prev = some start ∧
      ((astarLoop finish fuel g openl acc).2.cell start).prev = none := by
  intro fuel
  induction fuel with
  | zero =>
    intro g openl acc hfuel hB hmem hfw hfv hfd hfp hsp hsv
    have h1 := List.length_pos.mpr (List.ne_nil_of_mem hmem)
    omega
  | succ n ih =>
    intro g openl acc hfuel hB hmem hfw hfv hfd hfp hsp hsv
    simp only [astarLoop]
    cases hs : sortKey (fun p => (g.cell p).fScore) openl with
    | nil =>
      have hp : openl = [] := by
        have := (sortKey_perm (fun p => (g.cell p).fScore) openl).length_eq
        rw [hs] at this
        exact List.length_eq_zero.mp this.symm
      rw [hp] at hmem
      simp at hmem
    | cons cur rest =>
      dsimp only
      have hlen : openl.length = rest.length + 1 := by
        have := (sortKey_perm (fun p => (g.cell p).fScore) openl).length_eq
        rw [hs] at this
        simpa using this.symm
      have hcurl : cur ∈ openl := mem_sortKey.mp (hs ▸ List.mem_cons_self _ _)
      have hrest : ∀ p ∈ rest, p ∈ openl := fun p hp =>
        mem_sortKey.mp (hs ▸ List.mem_cons_of_mem _ hp)
      by_cases hw : (g.cell cur).isWall = true
      · rw [if_pos hw]
        have hnf : cur ≠ finish := fun h => by rw [h, hfw] at hw; cases hw
        have hmem' : finish ∈ rest := by
          have : finish ∈ cur :: rest := hs ▸ mem_sortKey.mpr hmem
          exact (List.mem_cons.mp this).resolve_left (fun h => hnf h.symm)
        exact ih g rest acc (by omega) (fun p hp => hB p (hrest p hp)) hmem'
          hfw hfv hfd hfp hsp hsv
      · rw [if_neg hw]
        by_cases hv : (g.cell cur).isVisited = true
        · rw [if_pos hv]
          have hnf : cur ≠ finish := by
            intro h
            rw [h, hfv] at hv
            exact Bool.noConfusion hv
          have hmem' : finish ∈ rest := by
            have : finish ∈ cur :: rest := hs ▸ mem_sortKey.mpr hmem
            exact (List.mem_cons.mp this).resolve_left (fun h => hnf h.symm)
          exact ih g rest acc (by omega) (fun p hp => hB p (hrest p hp)) hmem'
            hfw hfv hfd hfp hsp hsv
        · rw [if_neg hv]
          by_cases hf : cur = finish
          · rw [if_pos hf]
            have hcs : cur ≠ start := by
              intro h
              rw [h, hsv] at hv
              exact hv rfl
            constructor
            · rw [hf, Grid.set_same]
              exact hfp
            · rw [Grid.set_other _ _ (fun h => hcs h.symm)]
              exact hsp
          · rw [if_neg hf]
            have hcs : cur ≠ start := by
              intro h
              rw [h, hsv] at hv
              exact hv rfl
            have hvf : (g.cell cur).isVisited = false := by
              cases hb : (g.cell cur).isVisited
              · rfl
              · exact absurd hb hv
            have hmem' : finish ∈ rest := by
              have : finish ∈ cur :: rest := hs ▸ mem_sortKey.mpr hmem
              exact (List.mem_cons.mp this).resolve_left (fun h => hf h.symm)
            have hgf : (g.set cur { g.cell cur with isVisited := true }).cell
                finish = g.cell finish := Grid.set_other _ _ (fun h => hf h.symm)
            have hgs : (g.set cur { g.cell cur with isVisited := true }).cell
                start = g.cell start := Grid.set_other _ _ (fun h => hcs h.symm)
            obtain ⟨hrr, hcc, hcell, hiff⟩ := astarRelaxFold_spec cur finish
              (getNeighbors (g.set cur { g.cell cur with isVisited := true }) cur)
              (g.set cur { g.cell cur with isVisited := true }) rest
              (self_not_mem_neighborsUDLR _ cur)
              (nodup_neighborsUDLR _ cur)
            rw [astarRelax_eq_fold]
            have hcnt1 : unvisCount (g.set cur { g.cell cur with isVisited := true })
                + 1 = unvisCount g :=
              unvisCount_mark (hB cur hcurl) hvf rfl
            have hcnt2 : unvisCount (astarRelaxFold cur finish
                (getNeighbors (g.set cur { g.cell cur with isVisited := true }) cur)
                ((g.set cur { g.cell cur with isVisited := true }), rest)).1 =
                unvisCount (g.set cur { g.cell cur with isVisited := true }) := by
              refine unvisCount_congr hrr hcc ?_
              intro q
              rw [hcell q]
              split
              · rfl
              · rfl
            have h4 : (getNeighbors (g.set cur
                { g.cell cur with isVisited := true }) cur).length ≤ 4 :=
              length_neighborsUDLR_le _ cur
            have hlen2 : (astarRelaxFold cur finish
                (getNeighbors (g.set cur { g.cell cur with isVisited := true }) cur)
                ((g.set cur { g.cell cur with isVisited := true }), rest)).2.length ≤
                rest.length + 4 :=
              calc (astarRelaxFold cur finish
                    (getNeighbors (g.set cur { g.cell cur with isVisited := true }) cur)
                    ((g.set cur { g.cell cur with isVisited := true }), rest)).2.length
                  ≤ ((g.set cur { g.cell cur with isVisited := true }), rest).2.length +
                      (getNeighbors (g.set cur
                        { g.cell cur with isVisited := true }) cur).length :=
                    astarRelaxFold_length cur finish _ _
                _ = rest.length + (getNeighbors (g.set cur
                      { g.cell cur with isVisited := true }) cur).length := rfl
                _ ≤ rest.length + 4 := Nat.add_le_add_left h4 rest.length
            have hfin_cell : (astarRelaxFold cur finish
                (getNeighbors (g.set cur { g.cell cur with isVisited := true }) cur)
                ((g.set cur { g.cell cur with isVisited := true }), rest)).1.cell
                finish = g.cell finish := by
              rw [hcell finish, if_neg, hgf]
              intro hx
              have hlt := hx.2.2.2
              rw [hgf, hfd] at hlt
              have hcd : ((g.set cur { g.cell cur with
                  isVisited := true }).cell cur).dist = (g.cell cur).dist := by
                rw [Grid.set_same]
              rw [hcd, EN.ltb_addN_one_fin_one] at hlt
              exact Bool.noConfusion hlt
            have hst_cell : (astarRelaxFold cur finish
                (getNeighbors (g.set cur { g.cell cur with isVisited := true }) cur)
                ((g.set cur { g.cell cur with isVisited := true }), rest)).1.cell
                start = g.cell start := by
              rw [hcell start, if_neg, hgs]
              intro hx
              have hvs := hx.2.2.1
              rw [hgs, hsv] at hvs
              exact Bool.noConfusion hvs
            refine ih _ _ (acc ++ [cur]) ?_ ?_ ?_
              (by rw [hfin_cell]; exact hfw) (by rw [hfin_cell]; exact hfv)
              (by rw [hfin_cell]; exact hfd) (by rw [hfin_cell]; exact hfp)
              (by rw [hst_cell]; exact hsp) (by rw [hst_cell]; exact hsv)
            · show (astarRelaxFold cur finish
                  (getNeighbors (g.set cur { g.cell cur with isVisited := true }) cur)
                  ((g.set cur { g.cell cur with isVisited := true }), rest)).2.length +
                5 * unvisCount (astarRelaxFold cur finish
                  (getNeighbors (g.set cur { g.cell cur with isVisited := true }) cur)
                  ((g.set cur { g.cell cur with isVisited := true }), rest)).1 ≤ n
              omega
            · intro p hp
              have hb2 : inB g p := by
                rcases (hiff p).mp hp with h | ⟨h, _⟩
                · exact hB p (hrest p h)
                · have := inB_of_mem_neighborsUDLR
                    (⟨(hB cur hcurl).1, (hB cur hcurl).2⟩ :
                      inB (g.set cur { g.cell cur with isVisited := true }) cur) h
                  exact ⟨this.1, this.2⟩
              exact ⟨by rw [hrr]; exact hb2.1, by rw [hcc]; exact hb2.2⟩
            · exact (hiff finish).mpr (Or.inl hmem')

/-- The greedy best-first analog of `astarLoop_c8`: a second touch of the
finish leaves its already-set back-link unchanged. -/
theorem greedyLoop_c8 (start finish : Pos) :
    ∀ (fuel : Nat) (g : Grid) (openl acc : List Pos),
      openl.length + 5 * unvisCount g ≤ fuel →
      (∀ p ∈ openl, inB g p) →
      finish ∈ openl →
      (g.cell finish).isWall = false →
      (g.cell finish).isVisited = false →
      (g.cell finish).prev = some start →
      (g.cell start).prev = none →
      (g.cell start).isVisited = true →
      ((greedyLoop finish fuel g openl acc).2.cell finish).prev = some start ∧
      ((greedyLoop finish fuel g openl acc).2.cell start).prev = none := by
  intro fuel
  induction fuel with
  | zero =>
    intro g openl acc hfuel hB hmem hfw hfv hfp hsp hsv
    have h1 := List.length_pos.mpr (List.ne_nil_of_mem hmem)
    omega
  | succ n ih =>
    intro g openl acc hfuel hB hmem hfw hfv hfp hsp hsv
    simp only [greedyLoop]
    cases hs : sortKey (fun p => (g.cell p).fScore) openl with
    | nil =>
      have hp : openl = [] := by
        have := (sortKey_perm (fun p => (g.cell p).fScore) openl).length_eq
        rw [hs] at this
        exact List.length_eq_zero.mp this.symm
      rw [hp] at hmem
      simp at hmem
    | cons cur rest =>
      dsimp only
      have hlen : openl.length = rest.length + 1 := by
        have := (sortKey_perm (fun p => (g.cell p).fScore) openl).length_eq
        rw [hs] at this
        simpa using this.symm
      have hcurl : cur ∈ openl := mem_sortKey.mp (hs ▸ List.mem_cons_self _ _)
      have hrest : ∀ p ∈ rest, p ∈ openl := fun p hp =>
        mem_sortKey.mp (hs ▸ List.mem_cons_of_mem _ hp)
      by_cases hw : (g.cell cur).isWall = true
      · rw [if_pos hw]
        have hnf : cur ≠ finish := fun h => by rw [h, hfw] at hw; cases hw
        have hmem' : finish ∈ rest := by
          have : finish ∈ cur :: rest := hs ▸ mem_sortKey.mpr hmem
          exact (List.mem_cons.mp this).resolve_left (fun h => hnf h.symm)
        exact ih g rest acc (by omega) (fun p hp => hB p (hrest p hp)) hmem'
          hfw hfv hfp hsp hsv
      · rw [if_neg hw]
        by_cases hv : (g.cell cur).isVisited = true
        · rw [if_pos hv]
          have hnf : cur ≠ finish := by
            intro h
            rw [h, hfv] at hv
            exact Bool.noConfusion hv
          have hmem' : finish ∈ rest := by
            have : finish ∈ cur :: rest := hs ▸ mem_sortKey.mpr hmem
            exact (List.mem_cons.mp this).resolve_left (fun h => hnf h.symm)
          exact ih g rest acc (by omega) (fun p hp => hB p (hrest p hp)) hmem'
            hfw hfv hfp hsp hsv
        · rw [if_neg hv]
          by_cases hf : cur = finish
          · rw [if_pos hf]
            have hcs : cur ≠ start := by
              intro h
              rw [h, hsv] at hv
              exact hv rfl
            constructor
            · rw [hf, Grid.set_same]
              exact hfp
            · rw [Grid.set_other _ _ (fun h => hcs h.symm)]
              exact hsp
          · rw [if_neg hf]
            have hcs : cur ≠ start := by
              intro h
              rw [h, hsv] at hv
              exact hv rfl
            have hvf : (g.cell cur).isVisited = false := by
              cases hb : (g.cell cur).isVisited
              · rfl
              · exact absurd hb hv
            have hmem' : finish ∈ rest := by
              have : finish ∈ cur :: rest := hs ▸ mem_sortKey.mpr hmem
              exact (List.mem_cons.mp this).resolve_left (fun h => hf h.symm)
            have hgf : (g.set cur { g.cell cur with isVisited := true }).cell
                finish = g.cell finish := Grid.set_other _ _ (fun h => hf h.symm)
            have hgs : (g.set cur { g.cell cur with isVisited := true }).cell
                start = g.cell start := Grid.set_other _ _ (fun h => hcs h.symm)
            obtain ⟨hrr, hcc, hcell, hiff⟩ := greedyRelaxFold_spec cur finish
              (getNeighbors (g.set cur { g.cell cur with isVisited := true }) cur)
              (g.set cur { g.cell cur with isVisited := true }) rest
              (nodup_neighborsUDLR _ cur)
            rw [greedyRelax_eq_fold]
            have hcnt1 : unvisCount (g.set cur { g.cell cur with isVisited := true })
                + 1 = unvisCount g :=
              unvisCount_mark (hB cur hcurl) hvf rfl
            have hcnt2 : unvisCount (greedyRelaxFold cur finish
                (getNeighbors (g.set cur { g.cell cur with isVisited := true }) cur)
                ((g.set cur { g.cell cur with isVisited := true }), rest)).1 =
                unvisCount (g.set cur { g.cell cur with isVisited := true }) := by
              refine unvisCount_congr hrr hcc ?_
              intro q
              rw [hcell q]
              split
              · rfl
              · rfl
            have h4 : (getNeighbors (g.set cur
                { g.cell cur with isVisited := true }) cur).length ≤ 4 :=
              length_neighborsUDLR_le _ cur
            have hlen2 : (greedyRelaxFold cur finish
                (getNeighbors (g.set cur { g.cell cur with isVisited := true }) cur)
                ((g.set cur { g.cell cur with isVisited := true }), rest)).2.length ≤
                rest.length + 4 :=
              calc (greedyRelaxFold cur finish
                    (getNeighbors (g.set cur { g.cell cur with isVisited := true }) cur)
                    ((g.set cur { g.cell cur with isVisited := true }), rest)).2.length
                  ≤ ((g.set cur { g.cell cur with isVisited := true }), rest).2.length +
                      (getNeighbors (g.set cur
                        { g.cell cur with isVisited := true }) cur).length :=
                    greedyRelaxFold_length cur finish _ _
                _ = rest.length + (getNeighbors (g.set cur
                      { g.cell cur with isVisited := true }) cur).length := rfl
                _ ≤ rest.length + 4 := Nat.add_le_add_left h4 rest.length
            have hfin_cell : ((greedyRelaxFold cur finish
                (getNeighbors (g.set cur { g.cell cur with isVisited := true }) cur)
                ((g.set cur { g.cell cur with isVisited := true }), rest)).1.cell
                finish).prev = some start ∧
                ((greedyRelaxFold cur finish
                (getNeighbors (g.set cur { g.cell cur with isVisited := true }) cur)
                ((g.set cur { g.cell cur with isVisited := true }), rest)).1.cell
                finish).isWall = false ∧
                ((greedyRelaxFold cur finish
                (getNeighbors (g.set cur { g.cell cur with isVisited := true }) cur)
                ((g.set cur { g.cell cur with isVisited := true }), rest)).1.cell
                finish).isVisited = false := by
              rw [hcell finish]
              split
              · refine ⟨?_, ?_, ?_⟩
                · rw [show (greedyRelaxedCell (g.set cur { g.cell cur with
                    isVisited := true }) cur finish finish).prev =
                    (if ((g.set cur { g.cell cur with isVisited := true }).cell
                      finish).prev = none then some cur
                     else ((g.set cur { g.cell cur with isVisited := true }).cell
                       finish).prev) from rfl]
                  rw [hgf, hfp]
                  simp
                · show ((g.set cur { g.cell cur with isVisited := true }).cell
                    finish).isWall = false
                  rw [hgf]
                  exact hfw
                · show ((g.set cur { g.cell cur with isVisited := true }).cell
                    finish).isVisited = false
                  rw [hgf]
                  exact hfv
              · rw [hgf]
                exact ⟨hfp, hfw, hfv⟩
            have hst_cell : (greedyRelaxFold cur finish
                (getNeighbors (g.set cur { g.cell cur with isVisited := true }) cur)
                ((g.set cur { g.cell cur with isVisited := true }), rest)).1.cell
                start = g.cell start := by
              rw [hcell start, if_neg, hgs]
              intro hx
              have hvs := hx.2.2
              rw [hgs, hsv] at hvs
              exact Bool.noConfusion hvs
            refine ih _ _ (acc ++ [cur]) ?_ ?_ ?_
              hfin_cell.2.1 hfin_cell.2.2 hfin_cell.1
              (by rw [hst_cell]; exact hsp) (by rw [hst_cell]; exact hsv)
            · show (greedyRelaxFold cur finish
                  (getNeighbors (g.set cur { g.cell cur with isVisited := true }) cur)
                  ((g.set cur { g.cell cur with isVisited := true }), rest)).2.length +
                5 * unvisCount (greedyRelaxFold cur finish
                  (getNeighbors (g.set cur { g.cell cur with isVisited := true }) cur)
                  ((g.set cur { g.cell cur with isVisited := true }), rest)).1 ≤ n
              omega
            · intro p hp
              have hb2 : inB g p := by
                rcases (hiff p).mp hp with h | ⟨h, _⟩
                · exact hB p (hrest p h)
                · have := inB_of_mem_neighborsUDLR
                    (⟨(hB cur hcurl).1, (hB cur hcurl).2⟩ :
                      inB (g.set cur { g.cell cur with isVisited := true }) cur) h
                  exact ⟨this.1, this.2⟩
              exact ⟨by rw [hrr]; exact hb2.1, by rw [hcc]; exact hb2.2⟩
            · exact (hiff finish).mpr (Or.inl hmem')

/-- BFS on adjacent non-wall endpoints: the finish's back-link is `start`
and reconstruction is the two-cell path. -/
theorem bfs_c8 (g : Grid) (start finish : Pos)
    (hclean : WorkClean g) (hsB : inB g start)
    (hsw : (g.cell start).isWall = false) (hfw : (g.cell finish).isWall = false)
    (hadj : finish ∈ neighborsUDLR g start) :
    ((bfs g start finish).2.cell finish).prev = some start ∧
    getNodesInShortestPathOrder (bfs g start finish).2 finish = [start, finish] := by
  have hfs : finish ≠ start := fun h => self_not_mem_neighborsUDLR g start (h ▸ hadj)
  have hb : bfs g start finish = bfsLoop finish (2 * g.rows * g.cols + 2)
      (g.set start { g.cell start with isVisited := true, dist := EN.fin 0 })
      [start] [] := rfl
  rw [hb]
  have hG0f : (g.set start { g.cell start with isVisited := true, dist := EN.fin 0 }).cell finish = g.cell finish := Grid.set_other _ _ hfs
  rw [show (2 * g.rows * g.cols + 2) = (2 * g.rows * g.cols + 1) + 1 from rfl,
    bfsLoop_step_expand finish start (2 * g.rows * g.cols + 1) _ [] []
      (by
        intro h
        rw [Grid.set_same] at h
        have h2 : (g.cell start).isWall = true := h
        rw [hsw] at h2
        exact Bool.noConfusion h2)
      (fun h => hfs h.symm)]
  obtain ⟨houtL, hrows, hcols, hcell⟩ := bfsExpand_spec
    (g.set start { g.cell start with isVisited := true, dist := EN.fin 0 }) start
  obtain ⟨houtN, houtE, houtC⟩ := bfsExpand_out_spec
    (⟨hsB.1, hsB.2⟩ : inB (g.set start { g.cell start with isVisited := true, dist := EN.fin 0 }) start)
  have hfin_unv : ((g.set start { g.cell start with isVisited := true, dist := EN.fin 0 }).cell finish).isVisited = false := by
    rw [hG0f]
    exact (hclean finish).1
  have hfin_w : ((g.set start { g.cell start with isVisited := true, dist := EN.fin 0 }).cell finish).isWall = false := by
    rw [hG0f]
    exact hfw
  have hfin_out : finish ∈ (bfsExpand (g.set start { g.cell start with
      isVisited := true, dist := EN.fin 0 }) start).2 := by
    rw [houtL]
    refine List.mem_filter.mpr ⟨List.mem_filter.mpr ⟨?_, ?_⟩, ?_⟩
    · exact hadj
    · simp [hfin_unv]
    · simp [hfin_w]
  have hst_out : start ∉ (bfsExpand (g.set start { g.cell start with
      isVisited := true, dist := EN.fin 0 }) start).2 := by
    intro hx
    have hv := (houtE start hx).2.1
    rw [Grid.set_same] at hv
    exact Bool.noConfusion (show (true : Bool) = false from hv)
  have hfin_cell : (bfsExpand (g.set start { g.cell start with isVisited := true, dist := EN.fin 0 }) start).1.cell finish =
      markedCell (g.set start { g.cell start with isVisited := true, dist := EN.fin 0 }) start finish := by
    rw [hcell finish, if_pos hfin_out]
  have hst_cell : (bfsExpand (g.set start { g.cell start with isVisited := true, dist := EN.fin 0 }) start).1.cell start =
      (g.set start { g.cell start with isVisited := true, dist := EN.fin 0 }).cell start := by
    rw [hcell start, if_neg hst_out]
  have hres := bfsLoop_c8 start finish (2 * g.rows * g.cols + 1)
    (bfsExpand (g.set start { g.cell start with isVisited := true, dist := EN.fin 0 }) start).1
    ([] ++ (bfsExpand (g.set start { g.cell start with isVisited := true, dist := EN.fin 0 }) start).2)
    ([] ++ [start])
    (by
      show (bfsExpand (g.set start { g.cell start with isVisited := true, dist := EN.fin 0 }) start).2.length +
        2 * unvisCount (bfsExpand (g.set start { g.cell start with
          isVisited := true, dist := EN.fin 0 }) start).1 ≤
        2 * g.rows * g.cols + 1
      have hle := unvisCount_le (g.set start { g.cell start with isVisited := true, dist := EN.fin 0 })
      have heq : (g.set start { g.cell start with isVisited := true, dist := EN.fin 0 }).rows * (g.set start { g.cell start with
          isVisited := true, dist := EN.fin 0 }).cols = g.rows * g.cols := rfl
      have hassoc2 : 2 * g.rows * g.cols = 2 * (g.rows * g.cols) := Nat.mul_assoc 2 _ _
      omega)
    (by
      intro p hp
      rcases List.mem_append.mp hp with h | h
      · simp at h
      · have hb2 := (houtE p h).1
        exact ⟨by rw [hrows]; exact hb2.1, by rw [hcols]; exact hb2.2⟩)
    (List.mem_append.mpr (Or.inr hfin_out))
    (by
      rw [hfin_cell]
      show ((g.set start { g.cell start with isVisited := true, dist := EN.fin 0 }).cell finish).isWall = false
      exact hfin_w)
    (by rw [hfin_cell]; rfl)
    (by rw [hfin_cell]; rfl)
    (by
      rw [hst_cell, Grid.set_same]
      show (g.cell start).prev = none
      exact (hclean start).2.2.2)
    (by rw [hst_cell, Grid.set_same])
  exact ⟨hres.1, pathOrder_two hres.1 hres.2⟩

/-- DFS on adjacent non-wall endpoints. -/
theorem dfs_c8 (g : Grid) (start finish : Pos)
    (hclean : WorkClean g) (hsB : inB g start)
    (hsw : (g.cell start).isWall = false) (hfw : (g.cell finish).isWall = false)
    (hadj : finish ∈ neighborsUDLR g start) :
    ((dfs g start finish).2.cell finish).prev = some start ∧
    getNodesInShortestPathOrder (dfs g start finish).2 finish = [start, finish] := by
  have hfs : finish ≠ start := fun h => self_not_mem_neighborsUDLR g start (h ▸ hadj)
  have hb : dfs g start finish = dfsLoop finish (2 * g.rows * g.cols + 2)
      (g.set start { g.cell start with isVisited := true, dist := EN.fin 0 })
      [start] [] := rfl
  rw [hb]
  have hG0f : (g.set start { g.cell start with isVisited := true, dist := EN.fin 0 }).cell finish = g.cell finish := Grid.set_other _ _ hfs
  rw [show (2 * g.rows * g.cols + 2) = (2 * g.rows * g.cols + 1) + 1 from rfl,
    dfsLoop_step_expand finish start (2 * g.rows * g.cols + 1) _ [] []
      (by
        intro h
        rw [Grid.set_same] at h
        have h2 : (g.cell start).isWall = true := h
        rw [hsw] at h2
        exact Bool.noConfusion h2)
      (fun h => hfs h.symm)]
  obtain ⟨houtL, hrows, hcols, hcell⟩ := dfsExpand_spec
    (g.set start { g.cell start with isVisited := true, dist := EN.fin 0 }) start
  obtain ⟨houtN, houtE, houtC⟩ := dfsExpand_out_spec
    (⟨hsB.1, hsB.2⟩ : inB (g.set start { g.cell start with isVisited := true, dist := EN.fin 0 }) start)
  have hfin_unv : ((g.set start { g.cell start with isVisited := true, dist := EN.fin 0 }).cell finish).isVisited = false := by
    rw [hG0f]
    exact (hclean finish).1
  have hfin_w : ((g.set start { g.cell start with isVisited := true, dist := EN.fin 0 }).cell finish).isWall = false := by
    rw [hG0f]
    exact hfw
  have hfin_out : finish ∈ (dfsExpand (g.set start { g.cell start with isVisited := true, dist := EN.fin 0 }) start).2 := by
    rw [houtL]
    refine List.mem_filter.mpr ⟨List.mem_filter.mpr ⟨?_, ?_⟩, ?_⟩
    · exact mem_neighborsURDL_iff_UDLR.mpr hadj
    · simp [hfin_unv]
    · simp [hfin_w]
  have hst_out : start ∉ (dfsExpand (g.set start { g.cell start with isVisited := true, dist := EN.fin 0 }) start).2 := by
    intro hx
    have hv := (houtE start hx).2.1
    rw [Grid.set_same] at hv
    exact Bool.noConfusion (show (true : Bool) = false from hv)
  have hfin_cell : (dfsExpand (g.set start { g.cell start with isVisited := true, dist := EN.fin 0 }) start).1.cell finish =
      markedCell (g.set start { g.cell start with isVisited := true, dist := EN.fin 0 }) start finish := by
    rw [hcell finish, if_pos hfin_out]
  have hst_cell : (dfsExpand (g.set start { g.cell start with isVisited := true, dist := EN.fin 0 }) start).1.cell start =
      (g.set start { g.cell start with isVisited := true, dist := EN.fin 0 }).cell start := by
    rw [hcell start, if_neg hst_out]
  have hres := dfsLoop_c8 start finish (2 * g.rows * g.cols + 1)
    (dfsExpand (g.set start { g.cell start with isVisited := true, dist := EN.fin 0 }) start).1
    ((dfsExpand (g.set start { g.cell start with isVisited := true, dist := EN.fin 0 }) start).2 ++ [])
    ([] ++ [start])
    (by
      show ((dfsExpand (g.set start { g.cell start with isVisited := true, dist := EN.fin 0 }) start).2 ++ ([] : List Pos)).length +
        2 * unvisCount (dfsExpand (g.set start { g.cell start with isVisited := true, dist := EN.fin 0 }) start).1 ≤
        2 * g.rows * g.cols + 1
      have hle := unvisCount_le (g.set start { g.cell start with isVisited := true, dist := EN.fin 0 })
      have heq : (g.set start { g.cell start with isVisited := true, dist := EN.fin 0 }).rows * (g.set start { g.cell start with isVisited := true, dist := EN.fin 0 }).cols = g.rows * g.cols := rfl
      have hassoc2 : 2 * g.rows * g.cols = 2 * (g.rows * g.cols) := Nat.mul_assoc 2 _ _
      rw [List.append_nil]
      omega)
    (by
      intro p hp
      rcases List.mem_append.mp hp with h | h
      · have hb2 := (houtE p h).1
        exact ⟨by rw [hrows]; exact hb2.1, by rw [hcols]; exact hb2.2⟩
      · simp at h)
    (List.mem_append.mpr (Or.inl hfin_out))
    (by
      rw [hfin_cell]
      show ((g.set start { g.cell start with isVisited := true, dist := EN.fin 0 }).cell finish).isWall = false
      exact hfin_w)
    (by rw [hfin_cell]; rfl)
    (by rw [hfin_cell]; rfl)
    (by
      rw [hst_cell, Grid.set_same]
      show (g.cell start).prev = none
      exact (hclean start).2.2.2)
    (by rw [hst_cell, Grid.set_same])
  exact ⟨hres.1, pathOrder_two hres.1 hres.2⟩

/-- Dijkstra on adjacent non-wall endpoints: the start (unique finite
distance) is extracted first, relaxes the finish to distance 1 with
back-link `start`, and no later step can improve it. -/
theorem dijkstra_c8 (g : Grid) (start finish : Pos)
    (hclean : WorkClean g) (hsB : inB g start)
    (hsw : (g.cell start).isWall = false) (hfw : (g.cell finish).isWall = false)
    (hadj : finish ∈ neighborsUDLR g start) :
    ((dijkstra g start finish).2.cell finish).prev = some start ∧
    getNodesInShortestPathOrder (dijkstra g start finish).2 finish = [start, finish] := by
  have hfs : finish ≠ start := fun h => self_not_mem_neighborsUDLR g start (h ▸ hadj)
  have hfB : inB g finish := inB_of_mem_neighborsUDLR hsB hadj
  have hb : dijkstra g start finish = dijkstraLoop finish (g.rows * g.cols + 1)
      (g.set start { g.cell start with dist := EN.fin 0 })
      (getAllNodes (g.set start { g.cell start with dist := EN.fin 0 })) [] := rfl
  rw [hb]
  have hG0f : (g.set start { g.cell start with dist := EN.fin 0 }).cell finish =
      g.cell finish := Grid.set_other _ _ hfs
  have hG0sd : ((g.set start { g.cell start with dist := EN.fin 0 }).cell start).dist =
      EN.fin 0 := by
    rw [Grid.set_same]
  have hstart_pool : start ∈ getAllNodes (g.set start { g.cell start with
      dist := EN.fin 0 }) := mem_getAllNodes.mpr ⟨hsB.1, hsB.2⟩
  have hfin_pool : finish ∈ getAllNodes (g.set start { g.cell start with
      dist := EN.fin 0 }) := mem_getAllNodes.mpr ⟨hfB.1, hfB.2⟩
  cases hs : sortKey (fun p => ((g.set start { g.cell start with
      dist := EN.fin 0 }).cell p).dist)
      (getAllNodes (g.set start { g.cell start with dist := EN.fin 0 })) with
  | nil =>
    exfalso
    have hmem : start ∈ sortKey (fun p => ((g.set start { g.cell start with
        dist := EN.fin 0 }).cell p).dist)
        (getAllNodes (g.set start { g.cell start with dist := EN.fin 0 })) :=
      mem_sortKey.mpr hstart_pool
    rw [hs] at hmem
    simp at hmem
  | cons h0 t =>
    have hh0 : h0 = start := by
      by_contra hne
      have hle := sortKey_head_le hs hstart_pool
      have hle2 : EN.leb (((g.set start { g.cell start with
          dist := EN.fin 0 }).cell h0).dist) (((g.set start { g.cell start with
          dist := EN.fin 0 }).cell start).dist) = true := hle
      have hd0 : ((g.set start { g.cell start with dist := EN.fin 0 }).cell h0).dist =
          EN.inf := by
        rw [Grid.set_other _ _ hne]
        exact (hclean h0).2.1
      rw [hd0, hG0sd] at hle2
      exact Bool.noConfusion hle2
    rw [hh0] at hs
    rw [dijkstraLoop_step_expand finish start (g.rows * g.cols) _ _ [] t hs
      (by
        intro h
        rw [Grid.set_same] at h
        have h2 : (g.cell start).isWall = true := h
        rw [hsw] at h2
        exact Bool.noConfusion h2)
      (by
        intro h
        rw [Grid.set_same] at h
        exact EN.noConfusion (show EN.fin 0 = EN.inf from h))
      (fun h => hfs h.symm)]
    have hG0'f : ((g.set start { g.cell start with dist := EN.fin 0 }).set start
        { (g.set start { g.cell start with dist := EN.fin 0 }).cell start with
          isVisited := true }).cell finish = g.cell finish := by
      rw [Grid.set_other _ _ hfs, Grid.set_other _ _ hfs]
    have hG0'sv : (((g.set start { g.cell start with dist := EN.fin 0 }).set start
        { (g.set start { g.cell start with dist := EN.fin 0 }).cell start with
          isVisited := true }).cell start).isVisited = true := by
      rw [Grid.set_same]
    have hG0'sp : (((g.set start { g.cell start with dist := EN.fin 0 }).set start
        { (g.set start { g.cell start with dist := EN.fin 0 }).cell start with
          isVisited := true }).cell start).prev = none := by
      rw [Grid.set_same]
      show (((g.set start { g.cell start with dist := EN.fin 0 }).cell start)).prev = none
      rw [Grid.set_same]
      show (g.cell start).prev = none
      exact (hclean start).2.2.2
    have hG0'sd : (((g.set start { g.cell start with dist := EN.fin 0 }).set start
        { (g.set start { g.cell start with dist := EN.fin 0 }).cell start with
          isVisited := true }).cell start).dist = EN.fin 0 := by
      rw [Grid.set_same]
      show (((g.set start { g.cell start with dist := EN.fin 0 }).cell start)).dist =
        EN.fin 0
      rw [Grid.set_same]
    obtain ⟨hrr, hcc, hcell⟩ := relaxCells_spec start
      (getUnvisitedNeighbors ((g.set start { g.cell start with
        dist := EN.fin 0 }).set start
        { (g.set start { g.cell start with dist := EN.fin 0 }).cell start with
          isVisited := true }) start)
      ((g.set start { g.cell start with dist := EN.fin 0 }).set start
        { (g.set start { g.cell start with dist := EN.fin 0 }).cell start with
          isVisited := true })
      (fun h => self_not_mem_neighborsUDLR _ start (List.mem_of_mem_filter h))
      ((nodup_neighborsUDLR _ start).filter _)
    rw [updateUnvisitedNeighbors_eq_relaxCells]
    have hfin_unv : (((g.set start { g.cell start with dist := EN.fin 0 }).set start
        { (g.set start { g.cell start with dist := EN.fin 0 }).cell start with
          isVisited := true }).cell finish).isVisited = false := by
      rw [hG0'f]
      exact (hclean finish).1
    have hfin_l : finish ∈ getUnvisitedNeighbors ((g.set start { g.cell start with
        dist := EN.fin 0 }).set start
        { (g.set start { g.cell start with dist := EN.fin 0 }).cell start with
          isVisited := true }) start := by
      refine List.mem_filter.mpr ⟨?_, ?_⟩
      · exact hadj
      · simp [hfin_unv]
    have hcond : finish ∈ getUnvisitedNeighbors ((g.set start { g.cell start with
        dist := EN.fin 0 }).set start
        { (g.set start { g.cell start with dist := EN.fin 0 }).cell start with
          isVisited := true }) start ∧
        EN.ltb (((((g.set start { g.cell start with dist := EN.fin 0 }).set start
          { (g.set start { g.cell start with dist := EN.fin 0 }).cell start with
            isVisited := true }).cell start).dist).addN 1)
          ((((g.set start { g.cell start with dist := EN.fin 0 }).set start
          { (g.set start { g.cell start with dist := EN.fin 0 }).cell start with
            isVisited := true }).cell finish).dist) = true := by
      refine ⟨hfin_l, ?_⟩
      rw [hG0'sd, hG0'f, (hclean finish).2.1]
      rfl
    have hfin_cell : (relaxCells start (getUnvisitedNeighbors ((g.set start
        { g.cell start with dist := EN.fin 0 }).set start
        { (g.set start { g.cell start with dist := EN.fin 0 }).cell start with
          isVisited := true }) start)
        ((g.set start { g.cell start with dist := EN.fin 0 }).set start
        { (g.set start { g.cell start with dist := EN.fin 0 }).cell start with
          isVisited := true })).cell finish =
        relaxedCell ((g.set start { g.cell start with dist := EN.fin 0 }).set start
        { (g.set start { g.cell start with dist := EN.fin 0 }).cell start with
          isVisited := true }) start finish := by
      rw [hcell finish, if_pos hcond]
    have hst_cell : (relaxCells start (getUnvisitedNeighbors ((g.set start
        { g.cell start with dist := EN.fin 0 }).set start
        { (g.set start { g.cell start with dist := EN.fin 0 }).cell start with
          isVisited := true }) start)
        ((g.set start { g.cell start with dist := EN.fin 0 }).set start
        { (g.set start { g.cell start with dist := EN.fin 0 }).cell start with
          isVisited := true })).cell start =
        ((g.set start { g.cell start with dist := EN.fin 0 }).set start
        { (g.set start { g.cell start with dist := EN.fin 0 }).cell start with
          isVisited := true }).cell start := by
      rw [hcell start, if_neg]
      intro hx
      exact self_not_mem_neighborsUDLR _ start (List.mem_of_mem_filter hx.1)
    have hfin_t : finish ∈ t := by
      have hmemt : finish ∈ start :: t := hs ▸ mem_sortKey.mpr hfin_pool
      exact (List.mem_cons.mp hmemt).resolve_left hfs
    have hst_t : start ∉ t := by
      have hnd : (start :: t).Nodup := hs ▸
        ((sortKey_perm _ _).nodup_iff.mpr (getAllNodes_nodup _))
      exact (List.nodup_cons.mp hnd).1
    have hlen : t.length ≤ g.rows * g.cols := by
      have hl1 := (sortKey_perm (fun p => ((g.set start { g.cell start with
        dist := EN.fin 0 }).cell p).dist)
        (getAllNodes (g.set start { g.cell start with dist := EN.fin 0 }))).length_eq
      rw [hs] at hl1
      have hl2 := getAllNodes_length (g.set start { g.cell start with
        dist := EN.fin 0 })
      have heq : (g.set start { g.cell start with dist := EN.fin 0 }).rows *
          (g.set start { g.cell start with dist := EN.fin 0 }).cols =
          g.rows * g.cols := rfl
      have hl3 : t.length + 1 = (getAllNodes (g.set start { g.cell start with
        dist := EN.fin 0 })).length := hl1
      omega
    have hres := dijkstraLoop_c8 start finish (g.rows * g.cols)
      (relaxCells start (getUnvisitedNeighbors ((g.set start
        { g.cell start with dist := EN.fin 0 }).set start
        { (g.set start { g.cell start with dist := EN.fin 0 }).cell start with
          isVisited := true }) start)
        ((g.set start { g.cell start with dist := EN.fin 0 }).set start
        { (g.set start { g.cell start with dist := EN.fin 0 }).cell start with
          isVisited := true }))
      t ([] ++ [start]) hlen hfin_t hst_t
      (by
        rw [hfin_cell]
        show (((g.set start { g.cell start with dist := EN.fin 0 }).set start
          { (g.set start { g.cell start with dist := EN.fin 0 }).cell start with
            isVisited := true }).cell finish).isWall = false
        rw [hG0'f]
        exact hfw)
      (by
        rw [hfin_cell]
        show ((((g.set start { g.cell start with dist := EN.fin 0 }).set start
          { (g.set start { g.cell start with dist := EN.fin 0 }).cell start with
            isVisited := true }).cell start).dist).addN 1 = EN.fin 1
        rw [hG0'sd]
        rfl)
      (by rw [hfin_cell]; rfl)
      (by rw [hst_cell]; exact hG0'sp)
      (by rw [hst_cell]; exact hG0'sv)
    exact ⟨hres.1, pathOrder_two hres.1 hres.2⟩

/-- A* on adjacent non-wall endpoints. -/
theorem astar_c8 (g : Grid) (start finish : Pos)
    (hclean : WorkClean g) (hsB : inB g start)
    (hsw : (g.cell start).isWall = false) (hfw : (g.cell finish).isWall = false)
    (hadj : finish ∈ neighborsUDLR g start) :
    ((astar g start finish).2.cell finish).prev = some start ∧
    getNodesInShortestPathOrder (astar g start finish).2 finish = [start, finish] := by
  have hfs : finish ≠ start := fun h => self_not_mem_neighborsUDLR g start (h ▸ hadj)
  have hb : astar g start finish = astarLoop finish (5 * g.rows * g.cols + 2)
      (g.set start { g.cell start with dist := EN.fin 0, fScore := EN.fin (manhattan start finish) }) [start] [] := rfl
  rw [hb]
  rw [show (5 * g.rows * g.cols + 2) = (5 * g.rows * g.cols + 1) + 1 from rfl,
    astarLoop_step_expand finish start (5 * g.rows * g.cols + 1) (g.set start { g.cell start with dist := EN.fin 0, fScore := EN.fin (manhattan start finish) }) [start] [] [] rfl
      (by
        intro h
        rw [Grid.set_same] at h
        have h2 : (g.cell start).isWall = true := h
        rw [hsw] at h2
        exact Bool.noConfusion h2)
      (by
        intro h
        rw [Grid.set_same] at h
        have h2 : (g.cell start).isVisited = true := h
        rw [(hclean start).1] at h2
        exact Bool.noConfusion h2)
      (fun h => hfs h.symm)]
  have hG0f : (g.set start { g.cell start with dist := EN.fin 0, fScore := EN.fin (manhattan start finish) }).cell finish = g.cell finish := Grid.set_other _ _ hfs
  have hG0Pf : ((g.set start { g.cell start with dist := EN.fin 0, fScore := EN.fin (manhattan start finish) }).set start { (g.set start { g.cell start with dist := EN.fin 0, fScore := EN.fin (manhattan start finish) }).cell start with isVisited := true }).cell finish = g.cell finish := by
    rw [Grid.set_other _ _ hfs, Grid.set_other _ _ hfs]
  have hG0Psv : (((g.set start { g.cell start with dist := EN.fin 0, fScore := EN.fin (manhattan start finish) }).set start { (g.set start { g.cell start with dist := EN.fin 0, fScore := EN.fin (manhattan start finish) }).cell start with isVisited := true }).cell start).isVisited = true := by
    rw [Grid.set_same]
  have hG0Psp : (((g.set start { g.cell start with dist := EN.fin 0, fScore := EN.fin (manhattan start finish) }).set start { (g.set start { g.cell start with dist := EN.fin 0, fScore := EN.fin (manhattan start finish) }).cell start with isVisited := true }).cell start).prev = none := by
    rw [Grid.set_same]
    show ((g.set start { g.cell start with dist := EN.fin 0, fScore := EN.fin (manhattan start finish) }).cell start).prev = none
    rw [Grid.set_same]
    show (g.cell start).prev = none
    exact (hclean start).2.2.2
  have hG0Psd : (((g.set start { g.cell start with dist := EN.fin 0, fScore := EN.fin (manhattan start finish) }).set start { (g.set start { g.cell start with dist := EN.fin 0, fScore := EN.fin (manhattan start finish) }).cell start with isVisited := true }).cell start).dist = EN.fin 0 := by
    rw [Grid.set_same]
    show ((g.set start { g.cell start with dist := EN.fin 0, fScore := EN.fin (manhattan start finish) }).cell start).dist = EN.fin 0
    rw [Grid.set_same]
  obtain ⟨hrr, hcc, hcell, hiff⟩ := astarRelaxFold_spec start finish
    (getNeighbors ((g.set start { g.cell start with dist := EN.fin 0, fScore := EN.fin (manhattan start finish) }).set start { (g.set start { g.cell start with dist := EN.fin 0, fScore := EN.fin (manhattan start finish) }).cell start with isVisited := true }) start) ((g.set start { g.cell start with dist := EN.fin 0, fScore := EN.fin (manhattan start finish) }).set start { (g.set start { g.cell start with dist := EN.fin 0, fScore := EN.fin (manhattan start finish) }).cell start with isVisited := true }) []
    (self_not_mem_neighborsUDLR _ start)
    (nodup_neighborsUDLR _ start)
  rw [astarRelax_eq_fold]
  have hcond : finish ∈ (getNeighbors ((g.set start { g.cell start with dist := EN.fin 0, fScore := EN.fin (manhattan start finish) }).set start { (g.set start { g.cell start with dist := EN.fin 0, fScore := EN.fin (manhattan start finish) }).cell start with isVisited := true }) start) ∧ astarRelaxCond ((g.set start { g.cell start with dist := EN.fin 0, fScore := EN.fin (manhattan start finish) }).set start { (g.set start { g.cell start with dist := EN.fin 0, fScore := EN.fin (manhattan start finish) }).cell start with isVisited := true }) start finish := by
    refine ⟨hadj, ?_, ?_, ?_⟩
    · rw [hG0Pf]
      exact hfw
    · rw [hG0Pf]
      exact (hclean finish).1
    · rw [hG0Psd, hG0Pf, (hclean finish).2.1]
      rfl
  have hfin_cell : (astarRelaxFold start finish (getNeighbors ((g.set start { g.cell start with dist := EN.fin 0, fScore := EN.fin (manhattan start finish) }).set start { (g.set start { g.cell start with dist := EN.fin 0, fScore := EN.fin (manhattan start finish) }).cell start with isVisited := true }) start) (((g.set start { g.cell start with dist := EN.fin 0, fScore := EN.fin (manhattan start finish) }).set start { (g.set start { g.cell start with dist := EN.fin 0, fScore := EN.fin (manhattan start finish) }).cell start with isVisited := true }), [])).1.cell finish = astarRelaxedCell ((g.set start { g.cell start with dist := EN.fin 0, fScore := EN.fin (manhattan start finish) }).set start { (g.set start { g.cell start with dist := EN.fin 0, fScore := EN.fin (manhattan start finish) }).cell start with isVisited := true }) start finish finish := by
    rw [hcell finish, if_pos hcond]
  have hst_cell : (astarRelaxFold start finish (getNeighbors ((g.set start { g.cell start with dist := EN.fin 0, fScore := EN.fin (manhattan start finish) }).set start { (g.set start { g.cell start with dist := EN.fin 0, fScore := EN.fin (manhattan start finish) }).cell start with isVisited := true }) start) (((g.set start { g.cell start with dist := EN.fin 0, fScore := EN.fin (manhattan start finish) }).set start { (g.set start { g.cell start with dist := EN.fin 0, fScore := EN.fin (manhattan start finish) }).cell start with isVisited := true }), [])).1.cell start = ((g.set start { g.cell start with dist := EN.fin 0, fScore := EN.fin (manhattan start finish) }).set start { (g.set start { g.cell start with dist := EN.fin 0, fScore := EN.fin (manhattan start finish) }).cell start with isVisited := true }).cell start := by
    rw [hcell start, if_neg]
    intro hx
    exact self_not_mem_neighborsUDLR _ start hx.1
  have hcnt1 : unvisCount ((g.set start { g.cell start with dist := EN.fin 0, fScore := EN.fin (manhattan start finish) }).set start { (g.set start { g.cell start with dist := EN.fin 0, fScore := EN.fin (manhattan start finish) }).cell start with isVisited := true }) + 1 = unvisCount (g.set start { g.cell start with dist := EN.fin 0, fScore := EN.fin (manhattan start finish) }) := by
    refine unvisCount_mark ⟨hsB.1, hsB.2⟩ ?_ rfl
    rw [Grid.set_same]
    show (g.cell start).isVisited = false
    exact (hclean start).1
  have hcnt2 : unvisCount (astarRelaxFold start finish (getNeighbors ((g.set start { g.cell start with dist := EN.fin 0, fScore := EN.fin (manhattan start finish) }).set start { (g.set start { g.cell start with dist := EN.fin 0, fScore := EN.fin (manhattan start finish) }).cell start with isVisited := true }) start) (((g.set start { g.cell start with dist := EN.fin 0, fScore := EN.fin (manhattan start finish) }).set start { (g.set start { g.cell start with dist := EN.fin 0, fScore := EN.fin (manhattan start finish) }).cell start with isVisited := true }), [])).1 = unvisCount ((g.set start { g.cell start with dist := EN.fin 0, fScore := EN.fin (manhattan start finish) }).set start { (g.set start { g.cell start with dist := EN.fin 0, fScore := EN.fin (manhattan start finish) }).cell start with isVisited := true }) := by
    refine unvisCount_congr hrr hcc ?_
    intro q
    rw [hcell q]
    split
    · rfl
    · rfl
  have h4 : (getNeighbors ((g.set start { g.cell start with dist := EN.fin 0, fScore := EN.fin (manhattan start finish) }).set start { (g.set start { g.cell start with dist := EN.fin 0, fScore := EN.fin (manhattan start finish) }).cell start with isVisited := true }) start).length ≤ 4 := length_neighborsUDLR_le _ start
  have hlen2 : (astarRelaxFold start finish (getNeighbors ((g.set start { g.cell start with dist := EN.fin 0, fScore := EN.fin (manhattan start finish) }).set start { (g.set start { g.cell start with dist := EN.fin 0, fScore := EN.fin (manhattan start finish) }).cell start with isVisited := true }) start) (((g.set start { g.cell start with dist := EN.fin 0, fScore := EN.fin (manhattan start finish) }).set start { (g.set start { g.cell start with dist := EN.fin 0, fScore := EN.fin (manhattan start finish) }).cell start with isVisited := true }), [])).2.length ≤ 4 := by
    have h0 := astarRelaxFold_length start finish (getNeighbors ((g.set start { g.cell start with dist := EN.fin 0, fScore := EN.fin (manhattan start finish) }).set start { (g.set start { g.cell start with dist := EN.fin 0, fScore := EN.fin (manhattan start finish) }).cell start with isVisited := true }) start) (((g.set start { g.cell start with dist := EN.fin 0, fScore := EN.fin (manhattan start finish) }).set start { (g.set start { g.cell start with dist := EN.fin 0, fScore := EN.fin (manhattan start finish) }).cell start with isVisited := true }), [])
    have h0a : (astarRelaxFold start finish (getNeighbors ((g.set start { g.cell start with dist := EN.fin 0, fScore := EN.fin (manhattan start finish) }).set start { (g.set start { g.cell start with dist := EN.fin 0, fScore := EN.fin (manhattan start finish) }).cell start with isVisited := true }) start) (((g.set start { g.cell start with dist := EN.fin 0, fScore := EN.fin (manhattan start finish) }).set start { (g.set start { g.cell start with dist := EN.fin 0, fScore := EN.fin (manhattan start finish) }).cell start with isVisited := true }), [])).2.length ≤ 0 + (getNeighbors ((g.set start { g.cell start with dist := EN.fin 0, fScore := EN.fin (manhattan start finish) }).set start { (g.set start { g.cell start with dist := EN.fin 0, fScore := EN.fin (manhattan start finish) }).cell start with isVisited := true }) start).length := h0
    omega
  have hle := unvisCount_le (g.set start { g.cell start with dist := EN.fin 0, fScore := EN.fin (manhattan start finish) })
  have heq : (g.set start { g.cell start with dist := EN.fin 0, fScore := EN.fin (manhattan start finish) }).rows * (g.set start { g.cell start with dist := EN.fin 0, fScore := EN.fin (manhattan start finish) }).cols = g.rows * g.cols := rfl
  have hassoc5 : 5 * g.rows * g.cols = 5 * (g.rows * g.cols) := Nat.mul_assoc 5 _ _
  have hres := astarLoop_c8 start finish (5 * g.rows * g.cols + 1)
    (astarRelaxFold start finish (getNeighbors ((g.set start { g.cell start with dist := EN.fin 0, fScore := EN.fin (manhattan start finish) }).set start { (g.set start { g.cell start with dist := EN.fin 0, fScore := EN.fin (manhattan start finish) }).cell start with isVisited := true }) start) (((g.set start { g.cell start with dist := EN.fin 0, fScore := EN.fin (manhattan start finish) }).set start { (g.set start { g.cell start with dist := EN.fin 0, fScore := EN.fin (manhattan start finish) }).cell start with isVisited := true }), [])).1 (astarRelaxFold start finish (getNeighbors ((g.set start { g.cell start with dist := EN.fin 0, fScore := EN.fin (manhattan start finish) }).set start { (g.set start { g.cell start with dist := EN.fin 0, fScore := EN.fin (manhattan start finish) }).cell start with isVisited := true }) start) (((g.set start { g.cell start with dist := EN.fin 0, fScore := EN.fin (manhattan start finish) }).set start { (g.set start { g.cell start with dist := EN.fin 0, fScore := EN.fin (manhattan start finish) }).cell start with isVisited := true }), [])).2 ([] ++ [start])
    (by
      show (astarRelaxFold start finish (getNeighbors ((g.set start { g.cell start with dist := EN.fin 0, fScore := EN.fin (manhattan start finish) }).set start { (g.set start { g.cell start with dist := EN.fin 0, fScore := EN.fin (manhattan start finish) }).cell start with isVisited := true }) start) (((g.set start { g.cell start with dist := EN.fin 0, fScore := EN.fin (manhattan start finish) }).set start { (g.set start { g.cell start with dist := EN.fin 0, fScore := EN.fin (manhattan start finish) }).cell start with isVisited := true }), [])).2.length + 5 * unvisCount (astarRelaxFold start finish (getNeighbors ((g.set start { g.cell start with dist := EN.fin 0, fScore := EN.fin (manhattan start finish) }).set start { (g.set start { g.cell start with dist := EN.fin 0, fScore := EN.fin (manhattan start finish) }).cell start with isVisited := true }) start) (((g.set start { g.cell start with dist := EN.fin 0, fScore := EN.fin (manhattan start finish) }).set start { (g.set start { g.cell start with dist := EN.fin 0, fScore := EN.fin (manhattan start finish) }).cell start with isVisited := true }), [])).1 ≤ 5 * g.rows * g.cols + 1
      omega)
    (by
      intro p hp
      rcases (hiff p).mp hp with h | ⟨h, _⟩
      · simp at h
      · have hb2 := inB_of_mem_neighborsUDLR
          (⟨hsB.1, hsB.2⟩ : inB ((g.set start { g.cell start with dist := EN.fin 0, fScore := EN.fin (manhattan start finish) }).set start { (g.set start { g.cell start with dist := EN.fin 0, fScore := EN.fin (manhattan start finish) }).cell start with isVisited := true }) start) h
        exact ⟨by rw [hrr]; exact hb2.1, by rw [hcc]; exact hb2.2⟩)
    ((hiff finish).mpr (Or.inr hcond))
    (by
      rw [hfin_cell]
      show (((g.set start { g.cell start with dist := EN.fin 0, fScore := EN.fin (manhattan start finish) }).set start { (g.set start { g.cell start with dist := EN.fin 0, fScore := EN.fin (manhattan start finish) }).cell start with isVisited := true }).cell finish).isWall = false
      rw [hG0Pf]
      exact hfw)
    (by
      rw [hfin_cell]
      show (((g.set start { g.cell start with dist := EN.fin 0, fScore := EN.fin (manhattan start finish) }).set start { (g.set start { g.cell start with dist := EN.fin 0, fScore := EN.fin (manhattan start finish) }).cell start with isVisited := true }).cell finish).isVisited = false
      rw [hG0Pf]
      exact (hclean finish).1)
    (by
      rw [hfin_cell]
      show ((((g.set start { g.cell start with dist := EN.fin 0, fScore := EN.fin (manhattan start finish) }).set start { (g.set start { g.cell start with dist := EN.fin 0, fScore := EN.fin (manhattan start finish) }).cell start with isVisited := true }).cell start).dist).addN 1 = EN.fin 1
      rw [hG0Psd]
      rfl)
    (by rw [hfin_cell]; rfl)
    (by rw [hst_cell]; exact hG0Psp)
    (by rw [hst_cell]; exact hG0Psv)
  exact ⟨hres.1, pathOrder_two hres.1 hres.2⟩

/-- Greedy best-first on adjacent non-wall endpoints. -/
theorem greedy_c8 (g : Grid) (start finish : Pos)
    (hclean : WorkClean g) (hsB : inB g start)
    (hsw : (g.cell start).isWall = false) (hfw : (g.cell finish).isWall = false)
    (hadj : finish ∈ neighborsUDLR g start) :
    ((greedyBestFirst g start finish).2.cell finish).prev = some start ∧
    getNodesInShortestPathOrder (greedyBestFirst g start finish).2 finish =
      [start, finish] := by
  have hfs : finish ≠ start := fun h => self_not_mem_neighborsUDLR g start (h ▸ hadj)
  have hb : greedyBestFirst g start finish = greedyLoop finish (5 * g.rows * g.cols + 2)
      (g.set start { g.cell start with dist := EN.fin 0, fScore := EN.fin (manhattan start finish) }) [start] [] := rfl
  rw [hb]
  rw [show (5 * g.rows * g.cols + 2) = (5 * g.rows * g.cols + 1) + 1 from rfl,
    greedyLoop_step_expand finish start (5 * g.rows * g.cols + 1) (g.set start { g.cell start with dist := EN.fin 0, fScore := EN.fin (manhattan start finish) }) [start] [] [] rfl
      (by
        intro h
        rw [Grid.set_same] at h
        have h2 : (g.cell start).isWall = true := h
        rw [hsw] at h2
        exact Bool.noConfusion h2)
      (by
        intro h
        rw [Grid.set_same] at h
        have h2 : (g.cell start).isVisited = true := h
        rw [(hclean start).1] at h2
        exact Bool.noConfusion h2)
      (fun h => hfs h.symm)]
  have hG0f : (g.set start { g.cell start with dist := EN.fin 0, fScore := EN.fin (manhattan start finish) }).cell finish = g.cell finish := Grid.set_other _ _ hfs
  have hG0Pf : ((g.set start { g.cell start with dist := EN.fin 0, fScore := EN.fin (manhattan start finish) }).set start { (g.set start { g.cell start with dist := EN.fin 0, fScore := EN.fin (manhattan start finish) }).cell start with isVisited := true }).cell finish = g.cell finish := by
    rw [Grid.set_other _ _ hfs, Grid.set_other _ _ hfs]
  have hG0Psv : (((g.set start { g.cell start with dist := EN.fin 0, fScore := EN.fin (manhattan start finish) }).set start { (g.set start { g.cell start with dist := EN.fin 0, fScore := EN.fin (manhattan start finish) }).cell start with isVisited := true }).cell start).isVisited = true := by
    rw [Grid.set_same]
  have hG0Psp : (((g.set start { g.cell start with dist := EN.fin 0, fScore := EN.fin (manhattan start finish) }).set start { (g.set start { g.cell start with dist := EN.fin 0, fScore := EN.fin (manhattan start finish) }).cell start with isVisited := true }).cell start).prev = none := by
    rw [Grid.set_same]
    show ((g.set start { g.cell start with dist := EN.fin 0, fScore := EN.fin (manhattan start finish) }).cell start).prev = none
    rw [Grid.set_same]
    show (g.cell start).prev = none
    exact (hclean start).2.2.2
  obtain ⟨hrr, hcc, hcell, hiff⟩ := greedyRelaxFold_spec start finish
    (getNeighbors ((g.set start { g.cell start with dist := EN.fin 0, fScore := EN.fin (manhattan start finish) }).set start { (g.set start { g.cell start with dist := EN.fin 0, fScore := EN.fin (manhattan start finish) }).cell start with isVisited := true }) start) ((g.set start { g.cell start with dist := EN.fin 0, fScore := EN.fin (manhattan start finish) }).set start { (g.set start { g.cell start with dist := EN.fin 0, fScore := EN.fin (manhattan start finish) }).cell start with isVisited := true }) []
    (nodup_neighborsUDLR _ start)
  rw [greedyRelax_eq_fold]
  have hcond : finish ∈ (getNeighbors ((g.set start { g.cell start with dist := EN.fin 0, fScore := EN.fin (manhattan start finish) }).set start { (g.set start { g.cell start with dist := EN.fin 0, fScore := EN.fin (manhattan start finish) }).cell start with isVisited := true }) start) ∧ greedyRelaxCond ((g.set start { g.cell start with dist := EN.fin 0, fScore := EN.fin (manhattan start finish) }).set start { (g.set start { g.cell start with dist := EN.fin 0, fScore := EN.fin (manhattan start finish) }).cell start with isVisited := true }) finish := by
    refine ⟨hadj, ?_, ?_⟩
    · rw [hG0Pf]
      exact hfw
    · rw [hG0Pf]
      exact (hclean finish).1
  have hfin_cell : (greedyRelaxFold start finish (getNeighbors ((g.set start { g.cell start with dist := EN.fin 0, fScore := EN.fin (manhattan start finish) }).set start { (g.set start { g.cell start with dist := EN.fin 0, fScore := EN.fin (manhattan start finish) }).cell start with isVisited := true }) start) (((g.set start { g.cell start with dist := EN.fin 0, fScore := EN.fin (manhattan start finish) }).set start { (g.set start { g.cell start with dist := EN.fin 0, fScore := EN.fin (manhattan start finish) }).cell start with isVisited := true }), [])).1.cell finish = greedyRelaxedCell ((g.set start { g.cell start with dist := EN.fin 0, fScore := EN.fin (manhattan start finish) }).set start { (g.set start { g.cell start with dist := EN.fin 0, fScore := EN.fin (manhattan start finish) }).cell start with isVisited := true }) start finish finish := by
    rw [hcell finish, if_pos hcond]
  have hst_cell : (greedyRelaxFold start finish (getNeighbors ((g.set start { g.cell start with dist := EN.fin 0, fScore := EN.fin (manhattan start finish) }).set start { (g.set start { g.cell start with dist := EN.fin 0, fScore := EN.fin (manhattan start finish) }).cell start with isVisited := true }) start) (((g.set start { g.cell start with dist := EN.fin 0, fScore := EN.fin (manhattan start finish) }).set start { (g.set start { g.cell start with dist := EN.fin 0, fScore := EN.fin (manhattan start finish) }).cell start with isVisited := true }), [])).1.cell start = ((g.set start { g.cell start with dist := EN.fin 0, fScore := EN.fin (manhattan start finish) }).set start { (g.set start { g.cell start with dist := EN.fin 0, fScore := EN.fin (manhattan start finish) }).cell start with isVisited := true }).cell start := by
    rw [hcell start, if_neg]
    intro hx
    exact self_not_mem_neighborsUDLR _ start hx.1
  have hcnt1 : unvisCount ((g.set start { g.cell start with dist := EN.fin 0, fScore := EN.fin (manhattan start finish) }).set start { (g.set start { g.cell start with dist := EN.fin 0, fScore := EN.fin (manhattan start finish) }).cell start with isVisited := true }) + 1 = unvisCount (g.set start { g.cell start with dist := EN.fin 0, fScore := EN.fin (manhattan start finish) }) := by
    refine unvisCount_mark ⟨hsB.1, hsB.2⟩ ?_ rfl
    rw [Grid.set_same]
    show (g.cell start).isVisited = false
    exact (hclean start).1
  have hcnt2 : unvisCount (greedyRelaxFold start finish (getNeighbors ((g.set start { g.cell start with dist := EN.fin 0, fScore := EN.fin (manhattan start finish) }).set start { (g.set start { g.cell start with dist := EN.fin 0, fScore := EN.fin (manhattan start finish) }).cell start with isVisited := true }) start) (((g.set start { g.cell start with dist := EN.fin 0, fScore := EN.fin (manhattan start finish) }).set start { (g.set start { g.cell start with dist := EN.fin 0, fScore := EN.fin (manhattan start finish) }).cell start with isVisited := true }), [])).1 = unvisCount ((g.set start { g.cell start with dist := EN.fin 0, fScore := EN.fin (manhattan start finish) }).set start { (g.set start { g.cell start with dist := EN.fin 0, fScore := EN.fin (manhattan start finish) }).cell start with isVisited := true }) := by
    refine unvisCount_congr hrr hcc ?_
    intro q
    rw [hcell q]
    split
    · rfl
    · rfl
  have h4 : (getNeighbors ((g.set start { g.cell start with dist := EN.fin 0, fScore := EN.fin (manhattan start finish) }).set start { (g.set start { g.cell start with dist := EN.fin 0, fScore := EN.fin (manhattan start finish) }).cell start with isVisited := true }) start).length ≤ 4 := length_neighborsUDLR_le _ start
  have hlen2 : (greedyRelaxFold start finish (getNeighbors ((g.set start { g.cell start with dist := EN.fin 0, fScore := EN.fin (manhattan start finish) }).set start { (g.set start { g.cell start with dist := EN.fin 0, fScore := EN.fin (manhattan start finish) }).cell start with isVisited := true }) start) (((g.set start { g.cell start with dist := EN.fin 0, fScore := EN.fin (manhattan start finish) }).set start { (g.set start { g.cell start with dist := EN.fin 0, fScore := EN.fin (manhattan start finish) }).cell start with isVisited := true }), [])).2.length ≤ 4 := by
    have h0 := greedyRelaxFold_length start finish (getNeighbors ((g.set start { g.cell start with dist := EN.fin 0, fScore := EN.fin (manhattan start finish) }).set start { (g.set start { g.cell start with dist := EN.fin 0, fScore := EN.fin (manhattan start finish) }).cell start with isVisited := true }) start) (((g.set start { g.cell start with dist := EN.fin 0, fScore := EN.fin (manhattan start finish) }).set start { (g.set start { g.cell start with dist := EN.fin 0, fScore := EN.fin (manhattan start finish) }).cell start with isVisited := true }), [])
    have h0a : (greedyRelaxFold start finish (getNeighbors ((g.set start { g.cell start with dist := EN.fin 0, fScore := EN.fin (manhattan start finish) }).set start { (g.set start { g.cell start with dist := EN.fin 0, fScore := EN.fin (manhattan start finish) }).cell start with isVisited := true }) start) (((g.set start { g.cell start with dist := EN.fin 0, fScore := EN.fin (manhattan start finish) }).set start { (g.set start { g.cell start with dist := EN.fin 0, fScore := EN.fin (manhattan start finish) }).cell start with isVisited := true }), [])).2.length ≤ 0 + (getNeighbors ((g.set start { g.cell start with dist := EN.fin 0, fScore := EN.fin (manhattan start finish) }).set start { (g.set start { g.cell start with dist := EN.fin 0, fScore := EN.fin (manhattan start finish) }).cell start with isVisited := true }) start).length := h0
    omega
  have hle := unvisCount_le (g.set start { g.cell start with dist := EN.fin 0, fScore := EN.fin (manhattan start finish) })
  have heq : (g.set start { g.cell start with dist := EN.fin 0, fScore := EN.fin (manhattan start finish) }).rows * (g.set start { g.cell start with dist := EN.fin 0, fScore := EN.fin (manhattan start finish) }).cols = g.rows * g.cols := rfl
  have hassoc5 : 5 * g.rows * g.cols = 5 * (g.rows * g.cols) := Nat.mul_assoc 5 _ _
  have hres := greedyLoop_c8 start finish (5 * g.rows * g.cols + 1)
    (greedyRelaxFold start finish (getNeighbors ((g.set start { g.cell start with dist := EN.fin 0, fScore := EN.fin (manhattan start finish) }).set start { (g.set start { g.cell start with dist := EN.fin 0, fScore := EN.fin (manhattan start finish) }).cell start with isVisited := true }) start) (((g.set start { g.cell start with dist := EN.fin 0, fScore := EN.fin (manhattan start finish) }).set start { (g.set start { g.cell start with dist := EN.fin 0, fScore := EN.fin (manhattan start finish) }).cell start with isVisited := true }), [])).1 (greedyRelaxFold start finish (getNeighbors ((g.set start { g.cell start with dist := EN.fin 0, fScore := EN.fin (manhattan start finish) }).set start { (g.set start { g.cell start with dist := EN.fin 0, fScore := EN.fin (manhattan start finish) }).cell start with isVisited := true }) start) (((g.set start { g.cell start with dist := EN.fin 0, fScore := EN.fin (manhattan start finish) }).set start { (g.set start { g.cell start with dist := EN.fin 0, fScore := EN.fin (manhattan start finish) }).cell start with isVisited := true }), [])).2 ([] ++ [start])
    (by
      show (greedyRelaxFold start finish (getNeighbors ((g.set start { g.cell start with dist := EN.fin 0, fScore := EN.fin (manhattan start finish) }).set start { (g.set start { g.cell start with dist := EN.fin 0, fScore := EN.fin (manhattan start finish) }).cell start with isVisited := true }) start) (((g.set start { g.cell start with dist := EN.fin 0, fScore := EN.fin (manhattan start finish) }).set start { (g.set start { g.cell start with dist := EN.fin 0, fScore := EN.fin (manhattan start finish) }).cell start with isVisited := true }), [])).2.length + 5 * unvisCount (greedyRelaxFold start finish (getNeighbors ((g.set start { g.cell start with dist := EN.fin 0, fScore := EN.fin (manhattan start finish) }).set start { (g.set start { g.cell start with dist := EN.fin 0, fScore := EN.fin (manhattan start finish) }).cell start with isVisited := true }) start) (((g.set start { g.cell start with dist := EN.fin 0, fScore := EN.fin (manhattan start finish) }).set start { (g.set start { g.cell start with dist := EN.fin 0, fScore := EN.fin (manhattan start finish) }).cell start with isVisited := true }), [])).1 ≤ 5 * g.rows * g.cols + 1
      omega)
    (by
      intro p hp
      rcases (hiff p).mp hp with h | ⟨h, _⟩
      · simp at h
      · have hb2 := inB_of_mem_neighborsUDLR
          (⟨hsB.1, hsB.2⟩ : inB ((g.set start { g.cell start with dist := EN.fin 0, fScore := EN.fin (manhattan start finish) }).set start { (g.set start { g.cell start with dist := EN.fin 0, fScore := EN.fin (manhattan start finish) }).cell start with isVisited := true }) start) h
        exact ⟨by rw [hrr]; exact hb2.1, by rw [hcc]; exact hb2.2⟩)
    ((hiff finish).mpr (Or.inr hcond))
    (by
      rw [hfin_cell]
      show (((g.set start { g.cell start with dist := EN.fin 0, fScore := EN.fin (manhattan start finish) }).set start { (g.set start { g.cell start with dist := EN.fin 0, fScore := EN.fin (manhattan start finish) }).cell start with isVisited := true }).cell finish).isWall = false
      rw [hG0Pf]
      exact hfw)
    (by
      rw [hfin_cell]
      show (((g.set start { g.cell start with dist := EN.fin 0, fScore := EN.fin (manhattan start finish) }).set start { (g.set start { g.cell start with dist := EN.fin 0, fScore := EN.fin (manhattan start finish) }).cell start with isVisited := true }).cell finish).isVisited = false
      rw [hG0Pf]
      exact (hclean finish).1)
    (by
      rw [hfin_cell]
      rw [show (greedyRelaxedCell ((g.set start { g.cell start with dist := EN.fin 0, fScore := EN.fin (manhattan start finish) }).set start { (g.set start { g.cell start with dist := EN.fin 0, fScore := EN.fin (manhattan start finish) }).cell start with isVisited := true }) start finish finish).prev =
        (if (((g.set start { g.cell start with dist := EN.fin 0, fScore := EN.fin (manhattan start finish) }).set start { (g.set start { g.cell start with dist := EN.fin 0, fScore := EN.fin (manhattan start finish) }).cell start with isVisited := true }).cell finish).prev = none then some start
         else (((g.set start { g.cell start with dist := EN.fin 0, fScore := EN.fin (manhattan start finish) }).set start { (g.set start { g.cell start with dist := EN.fin 0, fScore := EN.fin (manhattan start finish) }).cell start with isVisited := true }).cell finish).prev) from rfl]
      rw [hG0Pf, (hclean finish).2.2.2]
      simp)
    (by rw [hst_cell]; exact hG0Psp)
    (by rw [hst_cell]; exact hG0Psv)
  exact ⟨hres.1, pathOrder_two hres.1 hres.2⟩


/-! ## Manhattan geometry on the grid

Facts about `manhattan` needed for the shortest-path analysis of the
wall-free grid: the metric axioms, the exact ±1 change across a grid
edge, the existence of a layer-decreasing neighbor, and symmetry of the
neighbor relation. -/

theorem manhattan_self (a : Pos) : manhattan a a = 0 := by
  unfold manhattan; omega

theorem manhattan_comm (a b : Pos) : manhattan a b = manhattan b a := by
  unfold manhattan; omega

theorem manhattan_triangle (a b c : Pos) :
    manhattan a c ≤ manhattan a b + manhattan b c := by
  unfold manhattan; omega

theorem eq_of_manhattan_eq_zero {a b : Pos} (h : manhattan a b = 0) : a = b := by
  unfold manhattan at h
  rcases a with ⟨a1, a2⟩; rcases b with ⟨b1, b2⟩
  have h1 : a1 = b1 := by omega
  have h2 : a2 = b2 := by omega
  simp [h1, h2]

/-- Crossing one grid edge changes the distance-to-`s` layer by exactly one. -/
theorem manhattan_adj_layer {g : Grid} {p q : Pos} (s : Pos)
    (hq : q ∈ neighborsUDLR g p) :
    manhattan s q = manhattan s p + 1 ∨ manhattan s p = manhattan s q + 1 := by
  rcases mem_neighborsUDLR.mp hq with ⟨h, rfl⟩ | ⟨h, rfl⟩ | ⟨h, rfl⟩ | ⟨h, rfl⟩ <;>
    (unfold manhattan; omega)

/-- Every in-bounds cell other than `s` has an in-bounds neighbor one
layer closer to `s`. -/
theorem exists_decrement_neighbor {g : Grid} {s p : Pos} (hs : inB g s) (hp : inB g p)
    (hne : p ≠ s) : ∃ q ∈ neighborsUDLR g p, manhattan s q + 1 = manhattan s p := by
  rcases hs with ⟨hs1, hs2⟩
  rcases hp with ⟨hp1, hp2⟩
  rcases Nat.lt_trichotomy p.1 s.1 with h1 | h1 | h1
  · refine ⟨(p.1 + 1, p.2), ?_, ?_⟩
    · exact mem_neighborsUDLR.mpr (Or.inr (Or.inl ⟨by omega, rfl⟩))
    · unfold manhattan; simp only; omega
  · rcases Nat.lt_trichotomy p.2 s.2 with h2 | h2 | h2
    · refine ⟨(p.1, p.2 + 1), ?_, ?_⟩
      · exact mem_neighborsUDLR.mpr (Or.inr (Or.inr (Or.inr ⟨by omega, rfl⟩)))
      · unfold manhattan; simp only; omega
    · exact absurd (Prod.ext h1 h2) hne
    · refine ⟨(p.1, p.2 - 1), ?_, ?_⟩
      · exact mem_neighborsUDLR.mpr (Or.inr (Or.inr (Or.inl ⟨by omega, rfl⟩)))
      · unfold manhattan; simp only; omega
  · refine ⟨(p.1 - 1, p.2), ?_, ?_⟩
    · exact mem_neighborsUDLR.mpr (Or.inl ⟨by omega, rfl⟩)
    · unfold manhattan; simp only; omega

/-- The grid-neighbor relation is symmetric on in-bounds cells. -/
theorem mem_neighborsUDLR_symm {g : Grid} {p q : Pos} (hp : inB g p)
    (hq : q ∈ neighborsUDLR g p) : p ∈ neighborsUDLR g q := by
  obtain ⟨pr, pc⟩ := p
  rcases hp with ⟨hp1, hp2⟩
  simp only at hp1 hp2
  rcases mem_neighborsUDLR.mp hq with ⟨h, rfl⟩ | ⟨h, rfl⟩ | ⟨h, rfl⟩ | ⟨h, rfl⟩
  · refine mem_neighborsUDLR.mpr (Or.inr (Or.inl ⟨?_, ?_⟩))
    · show pr - 1 < g.rows - 1
      omega
    · show ((pr : Nat), pc) = (pr - 1 + 1, pc)
      simp only [Prod.mk.injEq, and_true, true_and]
      omega
  · refine mem_neighborsUDLR.mpr (Or.inl ⟨?_, ?_⟩)
    · show 0 < pr + 1
      omega
    · show ((pr : Nat), pc) = (pr + 1 - 1, pc)
      simp only [Prod.mk.injEq, and_true, true_and]
      omega
  · refine mem_neighborsUDLR.mpr (Or.inr (Or.inr (Or.inr ⟨?_, ?_⟩)))
    · show pc - 1 < g.cols - 1
      omega
    · show ((pr : Nat), pc) = (pr, pc - 1 + 1)
      simp only [Prod.mk.injEq, and_true, true_and]
      omega
  · refine mem_neighborsUDLR.mpr (Or.inr (Or.inr (Or.inl ⟨?_, ?_⟩)))
    · show 0 < pc + 1
      omega
    · show ((pr : Nat), pc) = (pr, pc + 1 - 1)
      simp only [Prod.mk.injEq, and_true, true_and]
      omega

theorem manhattan_lt_bound {g : Grid} {s p : Pos} (hs : inB g s) (hp : inB g p) :
    manhattan s p < g.rows + g.cols := by
  rcases hs with ⟨hs1, hs2⟩
  rcases hp with ⟨hp1, hp2⟩
  unfold manhattan; omega

theorem add_le_mul_succ {r c : Nat} (hr : 1 ≤ r) (hc : 1 ≤ c) : r + c ≤ r * c + 1 := by
  rcases Nat.exists_eq_add_of_le hr with ⟨r', rfl⟩
  rcases Nat.exists_eq_add_of_le hc with ⟨c', rfl⟩
  have hx : (1 + r') * (1 + c') = 1 + r' + c' + r' * c' := by ring
  omega

/-! ## Back-link chains of known length

A `PChain P g s p n` is a `previousNode` chain of length `n` from `p`
down to `s` (whose own link is unset), every node of which satisfies `P`.
Reconstruction from the head of such a chain has exactly `n + 1` cells. -/

inductive PChain (P : Pos → Prop) (g : Grid) (s : Pos) : Pos → Nat → Prop where
  | base : P s → (g.cell s).prev = none → PChain P g s s 0
  | step (p q : Pos) (n : Nat) : P p → (g.cell p).prev = some q → PChain P g s q n →
      PChain P g s p (n + 1)

/-- Chains survive any grid change that preserves the links of `P`-cells,
and any weakening of `P`. -/
theorem PChain.mono {P Q : Pos → Prop} {g g' : Grid} {s p : Pos} {n : Nat}
    (h : PChain P g s p n) (hPQ : ∀ q, P q → Q q)
    (hprev : ∀ q, P q → (g'.cell q).prev = (g.cell q).prev) :
    PChain Q g' s p n := by
  induction h with
  | base hP hpr => exact .base (hPQ _ hP) ((hprev _ hP).trans hpr)
  | step p q n hP hpq hc ih => exact .step p q n (hPQ _ hP) ((hprev _ hP).trans hpq) ih

theorem pathStep_of_chain {P : Pos → Prop} {g : Grid} {s p : Pos} {n : Nat}
    (h : PChain P g s p n) :
    ∀ (fuel : Nat) (acc : List Pos), n + 1 ≤ fuel →
      (pathStep g fuel (some p) acc).length = n + 1 + acc.length := by
  induction h with
  | base hP hpr =>
    intro fuel acc hf
    cases fuel with
    | zero => omega
    | succ f =>
      rw [show pathStep g (f + 1) (some s) acc =
        pathStep g f ((g.cell s).prev) (s :: acc) from rfl, hpr, pathStep_none]
      simp only [List.length_cons]
      omega
  | step p q n hP hpq hc ih =>
    intro fuel acc hf
    cases fuel with
    | zero => omega
    | succ f =>
      rw [show pathStep g (f + 1) (some p) acc =
        pathStep g f ((g.cell p).prev) (p :: acc) from rfl, hpq,
        ih f (p :: acc) (by omega)]
      simp only [List.length_cons]
      omega

/-- Reconstruction length from the head of a chain. -/
theorem recon_length_of_chain {P : Pos → Prop} {g : Grid} {s p : Pos} {n : Nat}
    (h : PChain P g s p n) (hn : n + 1 ≤ g.rows * g.cols + 2) :
    (getNodesInShortestPathOrder g p).length = n + 1 := by
  have := pathStep_of_chain h (g.rows * g.cols + 2) [] hn
  simpa [getNodesInShortestPathOrder] using this

/-- A grid none of whose cells is a wall: the claim's "grid with no wall
cells". -/
def NoWalls (g : Grid) : Prop := ∀ q, (g.cell q).isWall = false

/-- A visited set that contains `s` and is closed under grid adjacency
covers the whole grid. -/
theorem marked_of_closed {g : Grid} {s : Pos} (hs : inB g s)
    (hvs : (g.cell s).isVisited = true)
    (hclosed : ∀ p, (g.cell p).isVisited = true →
      ∀ x ∈ neighborsUDLR g p, (g.cell x).isVisited = true) :
    ∀ p, inB g p → (g.cell p).isVisited = true := by
  have key : ∀ n p, inB g p → manhattan s p ≤ n → (g.cell p).isVisited = true := by
    intro n
    induction n with
    | zero =>
      intro p hp hl
      have hsp : s = p := eq_of_manhattan_eq_zero (Nat.le_zero.mp hl)
      rw [← hsp]
      exact hvs
    | succ n ih =>
      intro p hp hl
      by_cases hps : p = s
      · subst hps
        exact hvs
      · obtain ⟨u, hu_mem, hu_dec⟩ := exists_decrement_neighbor hs hp hps
        have hu_in : inB g u := inB_of_mem_neighborsUDLR hp hu_mem
        have hu_vis : (g.cell u).isVisited = true := ih u hu_in (by omega)
        exact hclosed u hu_vis p (mem_neighborsUDLR_symm hp hu_mem)
  intro p hp
  exact key (manhattan s p) p hp (le_refl _)

/-- On a wall-free grid the BFS loop proceeds in exact Manhattan layers
around `s`: the queue is a layer-`L` block `A` followed by a
layer-`(L+1)` block `B`, every cell through layer `L` is marked, marked
cells off the queue have fully marked neighborhoods, and every marked
cell carries a back-link chain to `s` of length exactly its layer.  The
loop then ends with the finish marked and chained at exactly its layer. -/
theorem bfsLoop_layers (s finish : Pos) :
    ∀ (fuel : Nat) (g : Grid) (A B acc : List Pos) (L : Nat),
      (A ++ B).length + 2 * unvisCount g ≤ fuel →
      NoWalls g →
      inB g s → inB g finish →
      (∀ p ∈ A, inB g p ∧ manhattan s p = L) →
      (∀ p ∈ B, inB g p ∧ manhattan s p = L + 1) →
      (∀ p ∈ B, (g.cell p).isVisited = true) →
      (∀ p, inB g p → manhattan s p ≤ L → (g.cell p).isVisited = true) →
      (∀ p, (g.cell p).isVisited = true → (inB g p ∧ manhattan s p ≤ L) ∨ p ∈ B) →
      (∀ p, (g.cell p).isVisited = true → p ∉ A ++ B →
        ∀ x ∈ neighborsUDLR g p, (g.cell x).isVisited = true) →
      (∀ p, (g.cell p).isVisited = true →
        PChain (fun x => (g.cell x).isVisited = true) g s p (manhattan s p)) →
      ((bfsLoop finish fuel g (A ++ B) acc).2.rows = g.rows ∧
        (bfsLoop finish fuel g (A ++ B) acc).2.cols = g.cols) ∧
      ((bfsLoop finish fuel g (A ++ B) acc).2.cell finish).isVisited = true ∧
      PChain (fun x => ((bfsLoop finish fuel g (A ++ B) acc).2.cell x).isVisited = true)
        (bfsLoop finish fuel g (A ++ B) acc).2 s finish (manhattan s finish) := by
  intro fuel
  induction fuel with
  | zero =>
    intro g A B acc L hfuel hNW hs hf hA hB hBv ha hb hd he
    have hlen : (A ++ B).length = 0 := by omega
    rw [List.length_eq_zero] at hlen
    rw [hlen]
    have hsv : (g.cell s).isVisited = true := by
      refine ha s hs ?_
      rw [manhattan_self]
      exact Nat.zero_le L
    have hall : ∀ p, inB g p → (g.cell p).isVisited = true := by
      refine marked_of_closed hs hsv ?_
      intro p hv
      refine hd p hv ?_
      rw [hlen]
      simp
    exact ⟨⟨rfl, rfl⟩, hall finish hf, he finish (hall finish hf)⟩
  | succ fuel ih =>
    intro g A B acc L hfuel hNW hs hf hA hB hBv ha hb hd he
    have main : ∀ (q : Pos) (A1 B0 : List Pos) (L0 : Nat),
        (q :: (A1 ++ B0)).length + 2 * unvisCount g ≤ fuel + 1 →
        (∀ p ∈ q :: A1, inB g p ∧ manhattan s p = L0) →
        (∀ p ∈ B0, inB g p ∧ manhattan s p = L0 + 1) →
        (∀ p ∈ B0, (g.cell p).isVisited = true) →
        (∀ p, inB g p → manhattan s p ≤ L0 → (g.cell p).isVisited = true) →
        (∀ p, (g.cell p).isVisited = true →
          (inB g p ∧ manhattan s p ≤ L0) ∨ p ∈ B0) →
        (∀ p, (g.cell p).isVisited = true → p ∉ q :: (A1 ++ B0) →
          ∀ x ∈ neighborsUDLR g p, (g.cell x).isVisited = true) →
        ((bfsLoop finish (fuel + 1) g (q :: (A1 ++ B0)) acc).2.rows = g.rows ∧
          (bfsLoop finish (fuel + 1) g (q :: (A1 ++ B0)) acc).2.cols = g.cols) ∧
        ((bfsLoop finish (fuel + 1) g (q :: (A1 ++ B0)) acc).2.cell finish).isVisited =
          true ∧
        PChain (fun x =>
            ((bfsLoop finish (fuel + 1) g (q :: (A1 ++ B0)) acc).2.cell x).isVisited = true)
          (bfsLoop finish (fuel + 1) g (q :: (A1 ++ B0)) acc).2 s finish
          (manhattan s finish) := by
      intro q A1 B0 L0 hfuel0 hA0 hB0 hBv0 ha0 hb0 hd0
      have hq_props := hA0 q (List.mem_cons_self q A1)
      have hq_in : inB g q := hq_props.1
      have hq_layer : manhattan s q = L0 := hq_props.2
      have hq_vis : (g.cell q).isVisited = true := ha0 q hq_in (le_of_eq hq_layer)
      by_cases hqf : q = finish
      · have hres : bfsLoop finish (fuel + 1) g (q :: (A1 ++ B0)) acc =
            (acc ++ [q], g) := by
          subst hqf
          simp [bfsLoop, hNW q]
        rw [hres]
        have hfv : (g.cell finish).isVisited = true := hqf ▸ hq_vis
        exact ⟨⟨rfl, rfl⟩, hfv, he finish hfv⟩
      · rw [bfsLoop_step_expand finish q fuel g (A1 ++ B0) acc
          (by rw [hNW q]; simp) hqf]
        obtain ⟨hout_eq, hr, hc, hcell⟩ := bfsExpand_spec g q
        obtain ⟨hout_nodup, hout_mem, hout_count⟩ := bfsExpand_out_spec hq_in
        have hout_mem_iff : ∀ x, x ∈ (bfsExpand g q).2 ↔
            x ∈ neighborsUDLR g q ∧ (g.cell x).isVisited = false := by
          intro x
          rw [hout_eq]
          simp [getUnvisitedNeighbors, List.mem_filter, hNW x]
        have hout_layer : ∀ x ∈ (bfsExpand g q).2, manhattan s x = L0 + 1 := by
          intro x hx
          have hx2 := (hout_mem_iff x).mp hx
          rcases manhattan_adj_layer s hx2.1 with hgt | hlt
          · rw [hgt, hq_layer]
          · exfalso
            have hx_in : inB g x := (hout_mem x hx).1
            have hxv : (g.cell x).isVisited = true :=
              ha0 x hx_in (by rw [hq_layer] at hlt; omega)
            rw [hx2.2] at hxv
            cases hxv
        have hpres : ∀ x, (g.cell x).isVisited = true →
            (bfsExpand g q).1.cell x = g.cell x := by
          intro x hx
          by_cases hxo : x ∈ (bfsExpand g q).2
          · exfalso
            have hxu := (hout_mem x hxo).2.1
            rw [hx] at hxu
            cases hxu
          · rw [hcell x, if_neg hxo]
        have hvis2 : ∀ x, ((bfsExpand g q).1.cell x).isVisited = true ↔
            ((g.cell x).isVisited = true ∨ x ∈ (bfsExpand g q).2) := by
          intro x
          rw [hcell x]
          by_cases hxo : x ∈ (bfsExpand g q).2
          · rw [if_pos hxo]
            constructor
            · intro _
              exact Or.inr hxo
            · intro _
              rfl
          · rw [if_neg hxo]
            constructor
            · exact Or.inl
            · intro h
              rcases h with h | h
              · exact h
              · exact absurd h hxo
        have hnbr : ∀ p, neighborsUDLR (bfsExpand g q).1 p = neighborsUDLR g p := by
          intro p
          unfold neighborsUDLR
          rw [hr, hc]
        have hinB2 : ∀ p, inB (bfsExpand g q).1 p ↔ inB g p := by
          intro p
          unfold inB
          rw [hr, hc]
        rw [List.append_assoc]
        have hstep := ih (bfsExpand g q).1 A1 (B0 ++ (bfsExpand g q).2) (acc ++ [q]) L0
          ?_ ?_ ?_ ?_ ?_ ?_ ?_ ?_ ?_ ?_ ?_
        · exact ⟨⟨hstep.1.1.trans hr, hstep.1.2.trans hc⟩, hstep.2.1, hstep.2.2⟩
        · simp only [List.length_append, List.length_cons] at hfuel0 ⊢
          omega
        · intro x
          rw [hcell x]
          by_cases hxo : x ∈ (bfsExpand g q).2
          · rw [if_pos hxo]
            show (g.cell x).isWall = false
            exact hNW x
          · rw [if_neg hxo]
            exact hNW x
        · exact (hinB2 s).mpr hs
        · exact (hinB2 finish).mpr hf
        · intro p hp
          have h0 := hA0 p (List.mem_cons_of_mem q hp)
          exact ⟨(hinB2 p).mpr h0.1, h0.2⟩
        · intro p hp
          rcases List.mem_append.mp hp with hp | hp
          · have h0 := hB0 p hp
            exact ⟨(hinB2 p).mpr h0.1, h0.2⟩
          · exact ⟨(hinB2 p).mpr (hout_mem p hp).1, hout_layer p hp⟩
        · intro p hp
          rcases List.mem_append.mp hp with hp | hp
          · rw [hpres p (hBv0 p hp)]
            exact hBv0 p hp
          · exact (hvis2 p).mpr (Or.inr hp)
        · intro p hp hl
          have hpv := ha0 p ((hinB2 p).mp hp) hl
          rw [hpres p hpv]
          exact hpv
        · intro p hp
          rcases (hvis2 p).mp hp with hp2 | hp2
          · rcases hb0 p hp2 with h0 | h0
            · exact Or.inl ⟨(hinB2 p).mpr h0.1, h0.2⟩
            · exact Or.inr (List.mem_append.mpr (Or.inl h0))
          · exact Or.inr (List.mem_append.mpr (Or.inr hp2))
        · intro p hp hnin x hx
          rw [hnbr p] at hx
          rcases (hvis2 p).mp hp with hp2 | hp2
          · by_cases hpq : p = q
            · subst hpq
              by_cases hxv : (g.cell x).isVisited = true
              · rw [hpres x hxv]
                exact hxv
              · have hxu : (g.cell x).isVisited = false := by
                  cases hbx : (g.cell x).isVisited
                  · rfl
                  · exact absurd hbx hxv
                have hxo : x ∈ (bfsExpand g p).2 := (hout_mem_iff x).mpr ⟨hx, hxu⟩
                exact (hvis2 x).mpr (Or.inr hxo)
            · have hpn : p ∉ q :: (A1 ++ B0) := by
                intro hmem
                rcases List.mem_cons.mp hmem with h0 | h0
                · exact hpq h0
                · rcases List.mem_append.mp h0 with h0 | h0
                  · exact hnin (List.mem_append.mpr (Or.inl h0))
                  · exact hnin (List.mem_append.mpr (Or.inr
                      (List.mem_append.mpr (Or.inl h0))))
              have hxv := hd0 p hp2 hpn x hx
              rw [hpres x hxv]
              exact hxv
          · exact absurd (List.mem_append.mpr (Or.inr
              (List.mem_append.mpr (Or.inr hp2)))) hnin
        · intro p hp
          rcases (hvis2 p).mp hp with hp2 | hp2
          · refine PChain.mono (he p hp2) ?_ ?_
            · intro x hxv
              exact (hvis2 x).mpr (Or.inl hxv)
            · intro x hxv
              rw [hpres x hxv]
          · have hprev : ((bfsExpand g q).1.cell p).prev = some q := by
              rw [hcell p, if_pos hp2]
              rfl
            have hq_chain := PChain.mono (he q hq_vis)
              (fun x hxv => (hvis2 x).mpr (Or.inl hxv))
              (fun x hxv => by rw [hpres x hxv])
            have hstepc := PChain.step p q (manhattan s q) hp hprev hq_chain
            rw [hout_layer p hp2, ← hq_layer]
            exact hstepc
    cases A with
    | nil =>
      cases B with
      | nil =>
        have hsv : (g.cell s).isVisited = true := by
          refine ha s hs ?_
          rw [manhattan_self]
          exact Nat.zero_le L
        have hall : ∀ p, inB g p → (g.cell p).isVisited = true := by
          refine marked_of_closed hs hsv ?_
          intro p hv
          refine hd p hv ?_
          simp
        exact ⟨⟨rfl, rfl⟩, hall finish hf, he finish (hall finish hf)⟩
      | cons q B1 =>
        have ha1 : ∀ p, inB g p → manhattan s p ≤ L + 1 →
            (g.cell p).isVisited = true := by
          intro p hp hl
          rcases Nat.lt_or_ge (manhattan s p) (L + 1) with h0 | h0
          · exact ha p hp (by omega)
          · have hlp : manhattan s p = L + 1 := by omega
            have hps : p ≠ s := by
              intro hpe
              subst hpe
              rw [manhattan_self] at hlp
              omega
            obtain ⟨u, hu_mem, hu_dec⟩ := exists_decrement_neighbor hs hp hps
            have hu_in : inB g u := inB_of_mem_neighborsUDLR hp hu_mem
            have hu_vis : (g.cell u).isVisited = true := ha u hu_in (by omega)
            have hu_nin : u ∉ ([] : List Pos) ++ q :: B1 := by
              intro hmem
              simp only [List.nil_append] at hmem
              have := (hB u hmem).2
              omega
            exact hd u hu_vis hu_nin p (mem_neighborsUDLR_symm hp hu_mem)
        have hm := main q B1 [] (L + 1) ?_ ?_ ?_ ?_ ?_ ?_ ?_
        · rw [List.append_nil] at hm
          exact hm
        · simp only [List.length_cons, List.length_append, List.length_nil,
            List.nil_append] at hfuel ⊢
          omega
        · intro p hp
          exact hB p hp
        · intro p hp
          cases hp
        · intro p hp
          cases hp
        · exact ha1
        · intro p hp
          rcases hb p hp with h0 | h0
          · exact Or.inl ⟨h0.1, Nat.le_succ_of_le h0.2⟩
          · exact Or.inl ⟨(hB p h0).1, le_of_eq (hB p h0).2⟩
        · intro p hp hnin
          refine hd p hp ?_
          intro hmem
          refine hnin ?_
          rw [List.append_nil]
          simpa using hmem
    | cons q A1 =>
      exact main q A1 B L hfuel hA hB hBv ha hb hd

/-- On a reset wall-free grid, BFS marks the finish with a back-link
chain of length exactly its Manhattan layer, so reconstruction has
`manhattan + 1` cells. -/
theorem bfs_optimal (g : Grid) (start finish : Pos) (hW : WorkClean g)
    (hNW : NoWalls g) (hs : inB g start) (hf : inB g finish) :
    (getNodesInShortestPathOrder (bfs g start finish).2 finish).length =
      manhattan start finish + 1 := by
  have hrows1 : 0 < g.rows := Nat.lt_of_le_of_lt (Nat.zero_le _) hf.1
  have hcols1 : 0 < g.cols := Nat.lt_of_le_of_lt (Nat.zero_le _) hf.2
  have hb : bfs g start finish =
      bfsLoop finish (2 * g.rows * g.cols + 2)
        (g.set start { g.cell start with isVisited := true, dist := EN.fin 0 })
        [start] [] := rfl
  set g0 := g.set start { g.cell start with isVisited := true, dist := EN.fin 0 }
    with hg0
  have hcell0 : ∀ p, p ≠ start → g0.cell p = g.cell p := by
    intro p hp
    rw [hg0, Grid.set_other _ _ hp]
  have hvis0 : ∀ p, (g0.cell p).isVisited = true ↔ p = start := by
    intro p
    by_cases hp : p = start
    · subst hp
      rw [hg0, Grid.set_same]
      simp
    · rw [hcell0 p hp]
      constructor
      · intro h
        rw [(hW p).1] at h
        cases h
      · intro h
        exact absurd h hp
  have hsv : (g0.cell start).isVisited = true := (hvis0 start).mpr rfl
  have hprev0 : (g0.cell start).prev = none := by
    rw [hg0, Grid.set_same]
    show (g.cell start).prev = none
    exact (hW start).2.2.2
  have hres := bfsLoop_layers start finish (2 * g.rows * g.cols + 2) g0
    [start] [] [] 0 ?_ ?_ ?_ ?_ ?_ ?_ ?_ ?_ ?_ ?_ ?_
  · rw [List.append_nil] at hres
    rw [hb]
    refine recon_length_of_chain hres.2.2 ?_
    rw [hres.1.1, hres.1.2]
    have hman := manhattan_lt_bound hs hf
    have hmul := add_le_mul_succ hrows1 hcols1
    have hr0 : g0.rows = g.rows := by rw [hg0, Grid.set_rows]
    have hc0 : g0.cols = g.cols := by rw [hg0, Grid.set_cols]
    rw [hr0, hc0]
    omega
  · have hu := unvisCount_le g0
    have hr0 : g0.rows = g.rows := by rw [hg0, Grid.set_rows]
    have hc0 : g0.cols = g.cols := by rw [hg0, Grid.set_cols]
    rw [hr0, hc0] at hu
    have hassoc : 2 * g.rows * g.cols = 2 * (g.rows * g.cols) := by ring
    simp only [List.append_nil, List.length_cons, List.length_nil]
    omega
  · intro x
    by_cases hx : x = start
    · subst hx
      rw [hg0, Grid.set_same]
      show (g.cell x).isWall = false
      exact hNW x
    · rw [hcell0 x hx]
      exact hNW x
  · exact hs
  · exact hf
  · intro p hp
    have hps : p = start := List.mem_singleton.mp hp
    subst hps
    exact ⟨hs, manhattan_self p⟩
  · intro p hp
    cases hp
  · intro p hp
    cases hp
  · intro p hp hl
    have hsp : start = p := eq_of_manhattan_eq_zero (Nat.le_zero.mp hl)
    rw [← hsp]
    exact hsv
  · intro p hp
    have hps : p = start := (hvis0 p).mp hp
    subst hps
    exact Or.inl ⟨hs, le_of_eq (manhattan_self p)⟩
  · intro p hp hnin
    exfalso
    have hps : p = start := (hvis0 p).mp hp
    refine hnin ?_
    rw [hps]
    simp
  · intro p hp
    have hps : p = start := (hvis0 p).mp hp
    subst hps
    rw [manhattan_self]
    exact PChain.base hsv hprev0

theorem EN.exists_fin_of_leb_fin {a : EN} {k : Nat}
    (h : EN.leb a (EN.fin k) = true) : ∃ d, d ≤ k ∧ a = EN.fin d := by
  cases a with
  | fin n =>
    refine ⟨n, ?_, rfl⟩
    simpa [EN.leb] using h
  | inf =>
    simp [EN.leb] at h

/-- The geodesic-witness argument shared by the Dijkstra and A* analyses:
at any point of a run on a wall-free grid with the start expanded, every
cell `w` on a start-geodesic toward a target `t` is either closed, or
some cell on the same geodesic carries an exact finite distance label and
lies on the frontier `F`.  Walking the geodesic down from `w`, the first
closed cell's expansion labelled the cell just above it exactly. -/
theorem geodesic_witness (g : Grid) (s t : Pos) (F : Pos → Prop)
    (hs : inB g s) (hvs : (g.cell s).isVisited = true)
    (hA3 : ∀ p, (g.cell p).isVisited = true → ∀ x ∈ neighborsUDLR g p,
      ∃ d, d ≤ manhattan s p + 1 ∧ (g.cell x).dist = EN.fin d)
    (hA2 : ∀ p d, (g.cell p).dist = EN.fin d → manhattan s p ≤ d)
    (hA5 : ∀ p, (g.cell p).isVisited = false → ∀ d, (g.cell p).dist = EN.fin d → F p) :
    ∀ n w, inB g w → manhattan s w ≤ n →
      manhattan s w + manhattan w t = manhattan s t →
      (g.cell w).isVisited = true ∨
      ∃ x, F x ∧ (g.cell x).dist = EN.fin (manhattan s x) ∧
        manhattan s x + manhattan x t = manhattan s t := by
  intro n
  induction n with
  | zero =>
    intro w hw hl hgeo
    left
    have hsw : s = w := eq_of_manhattan_eq_zero (Nat.le_zero.mp hl)
    rw [← hsw]
    exact hvs
  | succ n ih =>
    intro w hw hl hgeo
    by_cases hwv : (g.cell w).isVisited = true
    · exact Or.inl hwv
    · have hws : w ≠ s := by
        intro h
        rw [h] at hwv
        exact hwv hvs
      obtain ⟨u, hu_mem, hu_dec⟩ := exists_decrement_neighbor hs hw hws
      have hu_in : inB g u := inB_of_mem_neighborsUDLR hw hu_mem
      have hmanwu : manhattan w u = 1 := manhattan_of_mem_neighborsUDLR hu_mem
      have hmanuw : manhattan u w = 1 := by rw [manhattan_comm]; exact hmanwu
      have htri1 : manhattan u t ≤ manhattan u w + manhattan w t :=
        manhattan_triangle u w t
      have htri2 : manhattan s t ≤ manhattan s u + manhattan u t :=
        manhattan_triangle s u t
      have hgeo_u : manhattan s u + manhattan u t = manhattan s t := by omega
      by_cases huv : (g.cell u).isVisited = true
      · obtain ⟨d, hd_le, hd_eq⟩ := hA3 u huv w (mem_neighborsUDLR_symm hw hu_mem)
        have hge := hA2 w d hd_eq
        have hdw : d = manhattan s w := by omega
        have hwf : (g.cell w).isVisited = false := by
          cases hb : (g.cell w).isVisited
          · rfl
          · exact absurd hb hwv
        exact Or.inr ⟨w, hA5 w hwf d hd_eq, by rw [← hdw]; exact hd_eq, hgeo⟩
      · rcases ih u hu_in (by omega) hgeo_u with h | h
        · exact absurd h huv
        · exact Or.inr h

/-- On a wall-free grid with the start already expanded at distance 0,
dijkstra's loop pops cells with exact Manhattan-layer distance labels:
closed cells carry exact labels and back-link chains of length exactly
their layer, and the loop ends with the finish closed and chained. -/
theorem dijkstraLoop_exact (s finish : Pos) :
    ∀ (fuel : Nat) (g : Grid) (pool acc : List Pos),
      pool.length ≤ fuel →
      NoWalls g →
      inB g s → inB g finish →
      (∀ p ∈ pool, inB g p) →
      pool.Nodup →
      (∀ p, inB g p → ((g.cell p).isVisited = false ↔ p ∈ pool)) →
      (g.cell s).isVisited = true →
      (∀ p, (g.cell p).isVisited = true →
        (g.cell p).dist = EN.fin (manhattan s p) ∧
        PChain (fun x => (g.cell x).isVisited = true) g s p (manhattan s p)) →
      (∀ p d, (g.cell p).dist = EN.fin d → manhattan s p ≤ d ∧ inB g p) →
      (∀ p, (g.cell p).isVisited = true → ∀ x ∈ neighborsUDLR g p,
        ∃ d, d ≤ manhattan s p + 1 ∧ (g.cell x).dist = EN.fin d) →
      (∀ p, (g.cell p).isVisited = false → p ≠ s → ∀ d, (g.cell p).dist = EN.fin d →
        ∃ u d2, (g.cell p).prev = some u ∧ (g.cell u).isVisited = true ∧
          (g.cell u).dist = EN.fin d2 ∧ d = d2 + 1) →
      ((dijkstraLoop finish fuel g pool acc).2.rows = g.rows ∧
        (dijkstraLoop finish fuel g pool acc).2.cols = g.cols) ∧
      ((dijkstraLoop finish fuel g pool acc).2.cell finish).isVisited = true ∧
      PChain (fun x => ((dijkstraLoop finish fuel g pool acc).2.cell x).isVisited = true)
        (dijkstraLoop finish fuel g pool acc).2 s finish (manhattan s finish) := by
  intro fuel
  induction fuel with
  | zero =>
    intro g pool acc hfuel hNW hs hfin hpoolB hNodup hpart hvs hP1 hP2 hP3 hP6
    have hpool : pool = [] := List.length_eq_zero.mp (by omega)
    have hallv : ∀ p, inB g p → (g.cell p).isVisited = true := by
      intro p hp
      cases hbv : (g.cell p).isVisited
      · exfalso
        have hmem := (hpart p hp).mp hbv
        rw [hpool] at hmem
        cases hmem
      · rfl
    exact ⟨⟨rfl, rfl⟩, hallv finish hfin, (hP1 finish (hallv finish hfin)).2⟩
  | succ fuel ih =>
    intro g pool acc hfuel hNW hs hfin hpoolB hNodup hpart hvs hP1 hP2 hP3 hP6
    cases hsort : sortKey (fun p => (g.cell p).dist) pool with
    | nil =>
      have hpool : pool = [] := by
        have hleq := (sortKey_perm (fun p => (g.cell p).dist) pool).length_eq
        rw [hsort] at hleq
        exact List.length_eq_zero.mp hleq.symm
      have hloop : dijkstraLoop finish (fuel + 1) g pool acc = (acc, g) := by
        simp only [dijkstraLoop]
        rw [hsort]
      rw [hloop]
      have hallv : ∀ p, inB g p → (g.cell p).isVisited = true := by
        intro p hp
        cases hbv : (g.cell p).isVisited
        · exfalso
          have hmem := (hpart p hp).mp hbv
          rw [hpool] at hmem
          cases hmem
        · rfl
      exact ⟨⟨rfl, rfl⟩, hallv finish hfin, (hP1 finish (hallv finish hfin)).2⟩
    | cons closest rest =>
      have hpoolmem : ∀ y, y ∈ pool ↔ y ∈ closest :: rest := by
        intro y
        rw [← hsort, mem_sortKey]
      have hcl_pool : closest ∈ pool :=
        (hpoolmem closest).mpr (List.mem_cons_self _ _)
      have hcl_inB : inB g closest := hpoolB closest hcl_pool
      have hcl_unvis : (g.cell closest).isVisited = false :=
        (hpart closest hcl_inB).mpr hcl_pool
      have hcl_ne_s : closest ≠ s := by
        intro h
        have hcontra : (g.cell s).isVisited = false := h ▸ hcl_unvis
        rw [hvs] at hcontra
        cases hcontra
      have hsorted_nodup : (closest :: rest).Nodup := by
        have hiff := (sortKey_perm (fun p => (g.cell p).dist) pool).nodup_iff
        rw [hsort] at hiff
        exact hiff.mpr hNodup
      have hcl_nin_rest : closest ∉ rest := (List.nodup_cons.mp hsorted_nodup).1
      have hrest_nodup : rest.Nodup := (List.nodup_cons.mp hsorted_nodup).2
      have hlen : pool.length = rest.length + 1 := by
        have hleq := (sortKey_perm (fun p => (g.cell p).dist) pool).length_eq
        rw [hsort] at hleq
        simpa using hleq.symm
      have hwall : ¬ (g.cell closest).isWall = true := by
        rw [hNW closest]
        simp
      -- exactness of the popped label via the geodesic witness
      have hgw := geodesic_witness g s closest (fun p => p ∈ pool) hs hvs hP3
        (fun p d hd => (hP2 p d hd).1)
        (fun p hpv d hd => (hpart p (hP2 p d hd).2).mp hpv)
        (manhattan s closest) closest hcl_inB (le_refl _)
        (by simp [manhattan_self])
      have hexact : (g.cell closest).dist = EN.fin (manhattan s closest) := by
        rcases hgw with hv | ⟨x, hx_pool, hx_exact, hx_geo⟩
        · rw [hcl_unvis] at hv
          cases hv
        · have hle := sortKey_head_le hsort hx_pool
          rw [hx_exact] at hle
          obtain ⟨d, hd_le, hd_eq⟩ := EN.exists_fin_of_leb_fin hle
          have h2 := (hP2 closest d hd_eq).1
          have hd2 : d = manhattan s closest := by omega
          rw [hd_eq, hd2]
      have hinf : ¬ (g.cell closest).dist = EN.inf := by
        rw [hexact]
        intro h
        cases h
      -- the chain carried by the freshly closed cell
      obtain ⟨u, d2, hprev_cl, hu_vis, hu_dist, hd2_eq⟩ :=
        hP6 closest hcl_unvis hcl_ne_s (manhattan s closest) hexact
      have hu_exact := (hP1 u hu_vis).1
      have hu_layer : d2 = manhattan s u := by
        rw [hu_exact] at hu_dist
        injection hu_dist with h
        exact h.symm
      have hlc_eq : manhattan s closest = manhattan s u + 1 := by omega
      have hg1cell : ∀ q, q ≠ closest →
          (g.set closest { g.cell closest with isVisited := true }).cell q =
            g.cell q := fun q hq => Grid.set_other _ _ hq
      have hg1same : (g.set closest { g.cell closest with
          isVisited := true }).cell closest =
          { g.cell closest with isVisited := true } := Grid.set_same _ _ _
      have hpres1 : ∀ x, (g.cell x).isVisited = true →
          (g.set closest { g.cell closest with isVisited := true }).cell x =
            g.cell x := by
        intro x hx
        refine hg1cell x ?_
        intro hxc
        rw [hxc, hcl_unvis] at hx
        cases hx
      have hvis1 : ∀ x, ((g.set closest { g.cell closest with
          isVisited := true }).cell x).isVisited = true ↔
          (x = closest ∨ (g.cell x).isVisited = true) := by
        intro x
        by_cases hxc : x = closest
        · subst hxc
          rw [hg1same]
          constructor
          · intro _
            exact Or.inl rfl
          · intro _
            rfl
        · rw [hg1cell x hxc]
          constructor
          · exact Or.inr
          · intro h
            rcases h with h | h
            · exact absurd h hxc
            · exact h
      have hchain_u1 : PChain (fun x => ((g.set closest { g.cell closest with
          isVisited := true }).cell x).isVisited = true)
          (g.set closest { g.cell closest with isVisited := true }) s u
          (manhattan s u) :=
        PChain.mono (hP1 u hu_vis).2
          (fun x hx => (hvis1 x).mpr (Or.inr hx))
          (fun x hx => by rw [hpres1 x hx])
      have hchain_cl1 : PChain (fun x => ((g.set closest { g.cell closest with
          isVisited := true }).cell x).isVisited = true)
          (g.set closest { g.cell closest with isVisited := true }) s closest
          (manhattan s closest) := by
        rw [hlc_eq]
        refine PChain.step closest u (manhattan s u) ((hvis1 closest).mpr (Or.inl rfl))
          ?_ hchain_u1
        rw [hg1same]
        show (g.cell closest).prev = some u
        exact hprev_cl
      by_cases hceq : closest = finish
      · have hloop : dijkstraLoop finish (fuel + 1) g pool acc =
            (acc ++ [closest],
              g.set closest { g.cell closest with isVisited := true }) := by
          simp only [dijkstraLoop]
          rw [hsort]
          dsimp only
          rw [if_neg hwall, if_neg hinf, if_pos hceq]
        rw [hloop]
        refine ⟨⟨rfl, rfl⟩, ?_, ?_⟩
        · rw [← hceq]
          exact (hvis1 closest).mpr (Or.inl rfl)
        · rw [← hceq]
          exact hchain_cl1
      · rw [dijkstraLoop_step_expand finish closest fuel g pool acc rest hsort
          hwall hinf hceq, updateUnvisitedNeighbors_eq_relaxCells]
        obtain ⟨hrr, hcc, hcell⟩ := relaxCells_spec closest
          (getUnvisitedNeighbors (g.set closest { g.cell closest with
            isVisited := true }) closest)
          (g.set closest { g.cell closest with isVisited := true })
          (fun h => self_not_mem_neighborsUDLR _ closest (List.mem_of_mem_filter h))
          ((nodup_neighborsUDLR _ closest).filter _)
        set g1 := g.set closest { g.cell closest with isVisited := true } with hg1
        set L := getUnvisitedNeighbors g1 closest with hLdef
        set g2 := relaxCells closest L g1 with hg2
        have hnbr1 : ∀ p, neighborsUDLR g1 p = neighborsUDLR g p := fun p => rfl
        have hL_mem : ∀ x, x ∈ L ↔
            x ∈ neighborsUDLR g closest ∧ (g1.cell x).isVisited = false := by
          intro x
          rw [hLdef]
          unfold getUnvisitedNeighbors
          rw [List.mem_filter, hnbr1]
          constructor
          · rintro ⟨h1, h2⟩
            refine ⟨h1, ?_⟩
            simpa using h2
          · rintro ⟨h1, h2⟩
            refine ⟨h1, ?_⟩
            simpa using h2
        have hd1 : (g1.cell closest).dist.addN 1 =
            EN.fin (manhattan s closest + 1) := by
          rw [hg1same]
          show ((g.cell closest).dist).addN 1 = _
          rw [hexact]
          rfl
        have hnbr2 : ∀ p, neighborsUDLR g2 p = neighborsUDLR g p := by
          intro p
          unfold neighborsUDLR
          rw [hrr, hcc]
          rfl
        have hinB2 : ∀ p, inB g2 p ↔ inB g p := by
          intro p
          unfold inB
          rw [hrr, hcc]
          exact Iff.rfl
        have hvis2eq : ∀ p, (g2.cell p).isVisited = (g1.cell p).isVisited := by
          intro p
          rw [hcell p]
          split
          · rfl
          · rfl
        have hpres2 : ∀ x, (g1.cell x).isVisited = true → g2.cell x = g1.cell x := by
          intro x hx
          rw [hcell x]
          refine if_neg ?_
          rintro ⟨hxL, _⟩
          have hxu := ((hL_mem x).mp hxL).2
          rw [hx] at hxu
          cases hxu
        have hpres2g : ∀ x, (g.cell x).isVisited = true → g2.cell x = g.cell x := by
          intro x hx
          rw [hpres2 x ((hvis1 x).mpr (Or.inr hx))]
          exact hpres1 x hx
        have hvis2c : (g2.cell closest).isVisited = true := by
          rw [hvis2eq closest]
          exact (hvis1 closest).mpr (Or.inl rfl)
        have hcl2cell : g2.cell closest = g1.cell closest := by
          refine hpres2 closest ?_
          exact (hvis1 closest).mpr (Or.inl rfl)
        have hvis2 : ∀ x, (g2.cell x).isVisited = true ↔
            (x = closest ∨ (g.cell x).isVisited = true) := by
          intro x
          rw [hvis2eq x]
          exact hvis1 x
        have hcl2_exact : (g2.cell closest).dist = EN.fin (manhattan s closest) := by
          rw [hcl2cell, hg1same]
          show (g.cell closest).dist = _
          exact hexact
        -- relaxed-cell characterization in convenient form
        have hrelax : ∀ x, x ∈ L ∧
            EN.ltb ((g1.cell closest).dist.addN 1) ((g1.cell x).dist) = true →
            (g2.cell x).dist = EN.fin (manhattan s closest + 1) ∧
            (g2.cell x).prev = some closest := by
          intro x hx
          rw [hcell x, if_pos hx]
          constructor
          · show (g1.cell closest).dist.addN 1 = _
            exact hd1
          · rfl
        have hunrelax : ∀ x, ¬ (x ∈ L ∧
            EN.ltb ((g1.cell closest).dist.addN 1) ((g1.cell x).dist) = true) →
            g2.cell x = g1.cell x := by
          intro x hx
          rw [hcell x, if_neg hx]
        have hdr : g2.rows = g.rows := hrr
        have hdc : g2.cols = g.cols := hcc
        have hstep := ih g2 rest (acc ++ [closest]) ?_ ?_ ?_ ?_ ?_ ?_ ?_ ?_ ?_ ?_ ?_ ?_
        · exact ⟨⟨hstep.1.1.trans hdr, hstep.1.2.trans hdc⟩, hstep.2.1, hstep.2.2⟩
        · omega
        · intro x
          rw [hcell x]
          split
          · show (g1.cell x).isWall = false
            by_cases hxc : x = closest
            · rw [hxc, hg1same]
              show (g.cell closest).isWall = false
              exact hNW closest
            · rw [hg1cell x hxc]
              exact hNW x
          · by_cases hxc : x = closest
            · rw [hxc, hg1same]
              show (g.cell closest).isWall = false
              exact hNW closest
            · rw [hg1cell x hxc]
              exact hNW x
        · exact (hinB2 s).mpr hs
        · exact (hinB2 finish).mpr hfin
        · intro p hp
          refine (hinB2 p).mpr ?_
          exact hpoolB p ((hpoolmem p).mpr (List.mem_cons_of_mem _ hp))
        · exact hrest_nodup
        · intro p hp
          have hpB : inB g p := (hinB2 p).mp hp
          by_cases hpc : p = closest
          · subst hpc
            constructor
            · intro h
              rw [hvis2c] at h
              cases h
            · intro h
              exact absurd h hcl_nin_rest
          · have hveq : (g2.cell p).isVisited = (g.cell p).isVisited := by
              rw [hvis2eq p, hg1cell p hpc]
            rw [hveq, hpart p hpB]
            constructor
            · intro h
              rcases List.mem_cons.mp ((hpoolmem p).mp h) with h1 | h1
              · exact absurd h1 hpc
              · exact h1
            · intro h
              exact (hpoolmem p).mpr (List.mem_cons_of_mem _ h)
        · rw [hpres2g s hvs]
          exact hvs
        · intro p hp
          rcases (hvis2 p).mp hp with hp2 | hp2
          · rw [hp2]
            refine ⟨hcl2_exact, ?_⟩
            refine PChain.mono hchain_cl1 ?_ ?_
            · intro x hx
              rw [hvis2eq x]
              exact hx
            · intro x hx
              rw [hpres2 x hx]
          · rw [hpres2g p hp2]
            refine ⟨(hP1 p hp2).1, ?_⟩
            refine PChain.mono (hP1 p hp2).2 ?_ ?_
            · intro x hx
              exact (hvis2 x).mpr (Or.inr hx)
            · intro x hx
              rw [hpres2g x hx]
        · intro p d hd
          rw [hcell p] at hd
          by_cases hcond : p ∈ L ∧
              EN.ltb ((g1.cell closest).dist.addN 1) ((g1.cell p).dist) = true
          · rw [if_pos hcond] at hd
            have hdval : EN.fin (manhattan s closest + 1) = EN.fin d := by
              rw [← hd1]
              exact hd
            injection hdval with hdval
            have hp_nbr := ((hL_mem p).mp hcond.1).1
            have hp_inB : inB g p := inB_of_mem_neighborsUDLR hcl_inB hp_nbr
            rcases manhattan_adj_layer s hp_nbr with h | h
            · exact ⟨by omega, (hinB2 p).mpr hp_inB⟩
            · exact ⟨by omega, (hinB2 p).mpr hp_inB⟩
          · rw [if_neg hcond] at hd
            by_cases hpc : p = closest
            · subst hpc
              rw [hg1same] at hd
              have hd0 : (g.cell p).dist = EN.fin d := hd
              exact ⟨(hP2 p d hd0).1, (hinB2 p).mpr (hP2 p d hd0).2⟩
            · rw [hg1cell p hpc] at hd
              exact ⟨(hP2 p d hd).1, (hinB2 p).mpr (hP2 p d hd).2⟩
        · intro p hp x hx
          rw [hnbr2 p] at hx
          rcases (hvis2 p).mp hp with hp2 | hp2
          · rw [hp2] at hx ⊢
            by_cases hxv : (g1.cell x).isVisited = true
            · rcases (hvis1 x).mp hxv with hxc | hxc
              · exfalso
                rw [hxc] at hx
                exact self_not_mem_neighborsUDLR g closest hx
              · have hxe := (hP1 x hxc).1
                rw [hpres2g x hxc]
                refine ⟨manhattan s x, ?_, hxe⟩
                rcases manhattan_adj_layer s hx with h | h
                · omega
                · omega
            · have hxu : (g1.cell x).isVisited = false := by
                cases hb : (g1.cell x).isVisited
                · rfl
                · exact absurd hb hxv
              have hxL : x ∈ L := (hL_mem x).mpr ⟨hx, hxu⟩
              by_cases hlt : EN.ltb ((g1.cell closest).dist.addN 1)
                  ((g1.cell x).dist) = true
              · have hr := hrelax x ⟨hxL, hlt⟩
                exact ⟨manhattan s closest + 1, le_refl _, hr.1⟩
              · have hle : EN.leb ((g1.cell x).dist)
                    ((g1.cell closest).dist.addN 1) = true := EN.leb_of_not_ltb hlt
                rw [hd1] at hle
                obtain ⟨d, hd_le, hd_eq⟩ := EN.exists_fin_of_leb_fin hle
                rw [hunrelax x (fun hcc2 => hlt hcc2.2)]
                exact ⟨d, hd_le, hd_eq⟩
          · have hp_inB : inB g p := (hP2 p (manhattan s p) (hP1 p hp2).1).2
            obtain ⟨d, hd_le, hd_eq⟩ := hP3 p hp2 x hx
            by_cases hxc : x = closest
            · subst hxc
              refine ⟨manhattan s x, ?_, hcl2_exact⟩
              rcases manhattan_adj_layer s (mem_neighborsUDLR_symm hp_inB hx) with h | h
              · omega
              · omega
            · by_cases hcond : x ∈ L ∧
                  EN.ltb ((g1.cell closest).dist.addN 1) ((g1.cell x).dist) = true
              · have hr := hrelax x hcond
                have hlt := hcond.2
                rw [hd1, hg1cell x hxc, hd_eq] at hlt
                have hltn : manhattan s closest + 1 < d := by
                  simpa [EN.ltb] using hlt
                exact ⟨manhattan s closest + 1, by omega, hr.1⟩
              · rw [hunrelax x hcond, hg1cell x hxc]
                exact ⟨d, hd_le, hd_eq⟩
        · intro p hp hpns d hd
          have hp1 : (g1.cell p).isVisited = false := by
            rw [← hvis2eq p]
            exact hp
          have hpc : p ≠ closest := by
            intro h
            rw [h] at hp
            rw [hvis2c] at hp
            cases hp
          by_cases hcond : p ∈ L ∧
              EN.ltb ((g1.cell closest).dist.addN 1) ((g1.cell p).dist) = true
          · have hr := hrelax p hcond
            refine ⟨closest, manhattan s closest, hr.2, hvis2c, hcl2_exact, ?_⟩
            rw [hr.1] at hd
            injection hd with h
            omega
          · have hup : g2.cell p = g1.cell p := hunrelax p hcond
            rw [hup, hg1cell p hpc] at hd
            have hp0 : (g.cell p).isVisited = false := by
              rw [← hg1cell p hpc]
              exact hp1
            obtain ⟨u2, d2x, hprev, huv, hud, hdd⟩ := hP6 p hp0 hpns d hd
            refine ⟨u2, d2x, ?_, ?_, ?_, hdd⟩
            · rw [hup, hg1cell p hpc]
              exact hprev
            · exact (hvis2 u2).mpr (Or.inr huv)
            · rw [hpres2g u2 huv]
              exact hud

/-- On a reset wall-free grid, dijkstra closes the finish with a
back-link chain of length exactly its Manhattan layer, so reconstruction
has `manhattan + 1` cells. -/
theorem dijkstra_optimal (g : Grid) (start finish : Pos) (hW : WorkClean g)
    (hNW : NoWalls g) (hs : inB g start) (hf : inB g finish)
    (hne : start ≠ finish) :
    (getNodesInShortestPathOrder (dijkstra g start finish).2 finish).length =
      manhattan start finish + 1 := by
  have hrows1 : 0 < g.rows := Nat.lt_of_le_of_lt (Nat.zero_le _) hf.1
  have hcols1 : 0 < g.cols := Nat.lt_of_le_of_lt (Nat.zero_le _) hf.2
  have hd : dijkstra g start finish =
      dijkstraLoop finish (g.rows * g.cols + 1)
        (g.set start { g.cell start with dist := EN.fin 0 })
        (getAllNodes (g.set start { g.cell start with dist := EN.fin 0 })) [] := rfl
  set g0 := g.set start { g.cell start with dist := EN.fin 0 } with hg0
  have hg0cell : ∀ p, p ≠ start → g0.cell p = g.cell p := by
    intro p hp
    rw [hg0, Grid.set_other _ _ hp]
  have hg0same : g0.cell start = { g.cell start with dist := EN.fin 0 } := by
    rw [hg0, Grid.set_same]
  have hg0sdist : (g0.cell start).dist = EN.fin 0 := by
    rw [hg0same]
  have hg0svis : (g0.cell start).isVisited = false := by
    rw [hg0same]
    show (g.cell start).isVisited = false
    exact (hW start).1
  have hg0sprev : (g0.cell start).prev = none := by
    rw [hg0same]
    show (g.cell start).prev = none
    exact (hW start).2.2.2
  have hg0vis : ∀ p, (g0.cell p).isVisited = false := by
    intro p
    by_cases hp : p = start
    · rw [hp]
      exact hg0svis
    · rw [hg0cell p hp]
      exact (hW p).1
  have hg0dist : ∀ p, p ≠ start → (g0.cell p).dist = EN.inf := by
    intro p hp
    rw [hg0cell p hp]
    exact (hW p).2.1
  have hg0wall : ∀ p, (g0.cell p).isWall = false := by
    intro p
    by_cases hp : p = start
    · rw [hp, hg0same]
      show (g.cell start).isWall = false
      exact hNW start
    · rw [hg0cell p hp]
      exact hNW p
  have hpool_mem : ∀ p, p ∈ getAllNodes g0 ↔ inB g p := by
    intro p
    rw [mem_getAllNodes]
    exact Iff.rfl
  have hstart_pool : start ∈ getAllNodes g0 := (hpool_mem start).mpr hs
  obtain ⟨rest, hsort⟩ :
      ∃ rest, sortKey (fun q => (g0.cell q).dist) (getAllNodes g0) =
        start :: rest := by
    cases hs0 : sortKey (fun q => (g0.cell q).dist) (getAllNodes g0) with
    | nil =>
      exact absurd (mem_sortKey.mpr hstart_pool) (by rw [hs0]; simp)
    | cons h t =>
      by_cases hhp : h = start
      · exact ⟨t, by rw [hhp]⟩
      · have hle := sortKey_head_le hs0 hstart_pool
        rw [hg0dist h hhp, hg0sdist] at hle
        exact absurd hle (by simp [EN.leb])
  have hlen0 : (getAllNodes g0).length = rest.length + 1 := by
    have hleq := (sortKey_perm (fun q => (g0.cell q).dist) (getAllNodes g0)).length_eq
    rw [hsort] at hleq
    simpa using hleq.symm
  have hcnt : (getAllNodes g0).length = g.rows * g.cols := by
    have := getAllNodes_length g0
    rw [hg0, Grid.set_rows, Grid.set_cols] at this
    exact this
  have hpool_nodup : (getAllNodes g0).Nodup := getAllNodes_nodup g0
  have hsorted_nodup : (start :: rest).Nodup := by
    have hiff := (sortKey_perm (fun q => (g0.cell q).dist) (getAllNodes g0)).nodup_iff
    rw [hsort] at hiff
    exact hiff.mpr hpool_nodup
  have hstart_nin_rest : start ∉ rest := (List.nodup_cons.mp hsorted_nodup).1
  have hrest_nodup : rest.Nodup := (List.nodup_cons.mp hsorted_nodup).2
  have hrest_mem : ∀ p, p ∈ rest ↔ (inB g p ∧ p ≠ start) := by
    intro p
    constructor
    · intro hp
      have hpc : p ∈ start :: rest := List.mem_cons_of_mem _ hp
      have hpp : p ∈ getAllNodes g0 := by
        rw [← hsort] at hpc
        exact mem_sortKey.mp hpc
      refine ⟨(hpool_mem p).mp hpp, ?_⟩
      intro hpe
      rw [hpe] at hp
      exact hstart_nin_rest hp
    · rintro ⟨hp1, hp2⟩
      have hpp : p ∈ getAllNodes g0 := (hpool_mem p).mpr hp1
      have hpc : p ∈ start :: rest := by
        rw [← hsort]
        exact mem_sortKey.mpr hpp
      rcases List.mem_cons.mp hpc with h | h
      · exact absurd h hp2
      · exact h
  rw [hd, dijkstraLoop_step_expand finish start (g.rows * g.cols) g0
    (getAllNodes g0) [] rest hsort
    (by rw [hg0wall start]; simp)
    (by rw [hg0sdist]; intro h; cases h) hne,
    updateUnvisitedNeighbors_eq_relaxCells, List.nil_append]
  obtain ⟨hrr, hcc, hcell⟩ := relaxCells_spec start
    (getUnvisitedNeighbors (g0.set start { g0.cell start with
      isVisited := true }) start)
    (g0.set start { g0.cell start with isVisited := true })
    (fun h => self_not_mem_neighborsUDLR _ start (List.mem_of_mem_filter h))
    ((nodup_neighborsUDLR _ start).filter _)
  set g1 := g0.set start { g0.cell start with isVisited := true } with hg1
  set L1 := getUnvisitedNeighbors g1 start with hL1
  set g2 := relaxCells start L1 g1 with hg2
  have hg1cell : ∀ p, p ≠ start → g1.cell p = g0.cell p := by
    intro p hp
    rw [hg1, Grid.set_other _ _ hp]
  have hg1same : g1.cell start = { g0.cell start with isVisited := true } := by
    rw [hg1, Grid.set_same]
  have hg1sdist : (g1.cell start).dist = EN.fin 0 := by
    rw [hg1same]
    show (g0.cell start).dist = EN.fin 0
    exact hg0sdist
  have hg1svis : (g1.cell start).isVisited = true := by
    rw [hg1same]
  have hg1vis : ∀ p, (g1.cell p).isVisited = true ↔ p = start := by
    intro p
    by_cases hp : p = start
    · rw [hp]
      constructor
      · intro _
        rfl
      · intro _
        exact hg1svis
    · rw [hg1cell p hp]
      constructor
      · intro h
        rw [hg0vis p] at h
        cases h
      · intro h
        exact absurd h hp
  have hnbr1 : ∀ p, neighborsUDLR g1 p = neighborsUDLR g p := fun p => rfl
  have hL1_mem : ∀ x, x ∈ L1 ↔ x ∈ neighborsUDLR g start := by
    intro x
    rw [hL1]
    unfold getUnvisitedNeighbors
    rw [List.mem_filter, hnbr1]
    constructor
    · rintro ⟨h1, _⟩
      exact h1
    · intro h1
      refine ⟨h1, ?_⟩
      have hxs : x ≠ start := by
        intro hxe
        rw [hxe] at h1
        exact self_not_mem_neighborsUDLR g start h1
      have hxv : (g1.cell x).isVisited = false := by
        cases hb : (g1.cell x).isVisited
        · rfl
        · exact absurd ((hg1vis x).mp hb) hxs
      simp [hxv]
  have hltb : ∀ x ∈ L1, EN.ltb ((g1.cell start).dist.addN 1)
      ((g1.cell x).dist) = true := by
    intro x hx
    have hxs : x ≠ start := by
      intro hxe
      rw [hxe] at hx
      exact self_not_mem_neighborsUDLR g start ((hL1_mem start).mp hx)
    have hxd : (g1.cell x).dist = EN.inf := by
      rw [hg1cell x hxs]
      exact hg0dist x hxs
    rw [hxd, hg1sdist]
    rfl
  have hcell2 : ∀ q, g2.cell q =
      if q ∈ L1 then relaxedCell g1 start q else g1.cell q := by
    intro q
    rw [hcell q]
    by_cases hq : q ∈ L1
    · rw [if_pos ⟨hq, hltb q hq⟩, if_pos hq]
    · rw [if_neg (fun hc => hq hc.1), if_neg hq]
  have hrel_dist : ∀ q, (relaxedCell g1 start q).dist = EN.fin 1 := by
    intro q
    show (g1.cell start).dist.addN 1 = EN.fin 1
    rw [hg1sdist]
    rfl
  have hrel_prev : ∀ q, (relaxedCell g1 start q).prev = some start := fun q => rfl
  have hrel_vis : ∀ q, (relaxedCell g1 start q).isVisited =
      (g1.cell q).isVisited := fun q => rfl
  have hvis2 : ∀ p, (g2.cell p).isVisited = true ↔ p = start := by
    intro p
    rw [hcell2 p]
    by_cases hp : p ∈ L1
    · rw [if_pos hp, hrel_vis p]
      exact hg1vis p
    · rw [if_neg hp]
      exact hg1vis p
  have hvis2s : (g2.cell start).isVisited = true := (hvis2 start).mpr rfl
  have hstart_nin_L1 : start ∉ L1 := by
    intro h
    exact self_not_mem_neighborsUDLR g start ((hL1_mem start).mp h)
  have hg2s : g2.cell start = g1.cell start := by
    rw [hcell2 start, if_neg hstart_nin_L1]
  have hg2sdist : (g2.cell start).dist = EN.fin 0 := by
    rw [hg2s]
    exact hg1sdist
  have hg2sprev : (g2.cell start).prev = none := by
    rw [hg2s, hg1same]
    show (g0.cell start).prev = none
    exact hg0sprev
  have hinB2 : ∀ p, inB g2 p ↔ inB g p := by
    intro p
    unfold inB
    rw [hrr, hcc]
    exact Iff.rfl
  have hnbr2 : ∀ p, neighborsUDLR g2 p = neighborsUDLR g p := by
    intro p
    unfold neighborsUDLR
    rw [hrr, hcc]
    rfl
  have hchain_s : PChain (fun x => (g2.cell x).isVisited = true) g2 start start 0 :=
    PChain.base hvis2s hg2sprev
  have hstep := dijkstraLoop_exact start finish (g.rows * g.cols) g2 rest [start]
    ?_ ?_ ?_ ?_ ?_ ?_ ?_ ?_ ?_ ?_ ?_ ?_
  · refine recon_length_of_chain hstep.2.2 ?_
    have hdr : g2.rows = g.rows := hrr
    have hdc : g2.cols = g.cols := hcc
    rw [hstep.1.1, hstep.1.2, hdr, hdc]
    have hman := manhattan_lt_bound hs hf
    have hmul := add_le_mul_succ hrows1 hcols1
    omega
  · omega
  · intro x
    rw [hcell2 x]
    by_cases hx : x ∈ L1
    · rw [if_pos hx]
      show (g1.cell x).isWall = false
      by_cases hxs : x = start
      · rw [hxs, hg1same]
        show (g0.cell start).isWall = false
        exact hg0wall start
      · rw [hg1cell x hxs]
        exact hg0wall x
    · rw [if_neg hx]
      by_cases hxs : x = start
      · rw [hxs, hg1same]
        show (g0.cell start).isWall = false
        exact hg0wall start
      · rw [hg1cell x hxs]
        exact hg0wall x
  · exact (hinB2 start).mpr hs
  · exact (hinB2 finish).mpr hf
  · intro p hp
    exact (hinB2 p).mpr ((hrest_mem p).mp hp).1
  · exact hrest_nodup
  · intro p hp
    have hpB : inB g p := (hinB2 p).mp hp
    constructor
    · intro hpu
      have hps : p ≠ start := by
        intro hpe
        rw [hpe, hvis2s] at hpu
        cases hpu
      exact (hrest_mem p).mpr ⟨hpB, hps⟩
    · intro hpr
      have hps := ((hrest_mem p).mp hpr).2
      cases hb : (g2.cell p).isVisited
      · rfl
      · exact absurd ((hvis2 p).mp hb) hps
  · exact hvis2s
  · intro p hp
    have hps : p = start := (hvis2 p).mp hp
    rw [hps]
    constructor
    · rw [hg2sdist, manhattan_self]
    · rw [manhattan_self]
      exact hchain_s
  · intro p d hdp
    rw [hcell2 p] at hdp
    by_cases hp : p ∈ L1
    · rw [if_pos hp, hrel_dist p] at hdp
      injection hdp with hdv
      have hp_nbr := (hL1_mem p).mp hp
      have hman1 : manhattan start p = 1 := manhattan_of_mem_neighborsUDLR hp_nbr
      refine ⟨by omega, (hinB2 p).mpr (inB_of_mem_neighborsUDLR hs hp_nbr)⟩
    · rw [if_neg hp] at hdp
      by_cases hps : p = start
      · rw [hps, hg1sdist] at hdp
        injection hdp with hdv
        rw [hps]
        refine ⟨by rw [manhattan_self]; omega, (hinB2 start).mpr hs⟩
      · rw [hg1cell p hps, hg0dist p hps] at hdp
        cases hdp
  · intro p hp x hx
    have hps : p = start := (hvis2 p).mp hp
    rw [hnbr2 p, hps] at hx
    rw [hps]
    have hxL : x ∈ L1 := (hL1_mem x).mpr hx
    rw [manhattan_self]
    refine ⟨1, by omega, ?_⟩
    rw [hcell2 x, if_pos hxL, hrel_dist x]
  · intro p hp hpns d hdp
    rw [hcell2 p] at hdp
    by_cases hpL : p ∈ L1
    · rw [if_pos hpL, hrel_dist p] at hdp
      injection hdp with hdv
      refine ⟨start, 0, ?_, hvis2s, hg2sdist, by omega⟩
      rw [hcell2 p, if_pos hpL]
      exact hrel_prev p
    · rw [if_neg hpL] at hdp
      by_cases hps : p = start
      · exfalso
        rw [hps, hvis2s] at hp
        cases hp
      · rw [hg1cell p hps, hg0dist p hps] at hdp
        cases hdp

/-- On a wall-free grid with the start already expanded at distance 0,
the A* loop pops cells with exact Manhattan-layer distance labels: the
manhattan heuristic is consistent, so the head of the open set, whose
`fScore` is minimal, always carries the true distance.  Closed cells
carry exact labels and back-link chains of length exactly their layer,
and the loop ends with the finish closed and chained. -/
theorem astarLoop_exact (s finish : Pos) :
    ∀ (fuel : Nat) (g : Grid) (openl acc : List Pos),
      openl.length + 5 * unvisCount g ≤ fuel →
      NoWalls g →
      inB g s → inB g finish →
      (∀ p ∈ openl, inB g p) →
      (g.cell s).isVisited = true →
      (∀ p, (g.cell p).isVisited = true →
        (g.cell p).dist = EN.fin (manhattan s p) ∧
        PChain (fun x => (g.cell x).isVisited = true) g s p (manhattan s p)) →
      (∀ p d, (g.cell p).dist = EN.fin d → manhattan s p ≤ d ∧ inB g p) →
      (∀ p, (g.cell p).isVisited = true → ∀ x ∈ neighborsUDLR g p,
        ∃ d, d ≤ manhattan s p + 1 ∧ (g.cell x).dist = EN.fin d) →
      (∀ p, ((g.cell p).dist = EN.inf → (g.cell p).fScore = EN.inf) ∧
        (∀ d, (g.cell p).dist = EN.fin d →
          (g.cell p).fScore = EN.fin (d + manhattan p finish))) →
      (∀ p, (g.cell p).isVisited = false → ∀ d, (g.cell p).dist = EN.fin d →
        p ∈ openl) →
      (∀ p, (g.cell p).isVisited = false → p ≠ s → ∀ d, (g.cell p).dist = EN.fin d →
        ∃ u d2, (g.cell p).prev = some u ∧ (g.cell u).isVisited = true ∧
          (g.cell u).dist = EN.fin d2 ∧ d = d2 + 1) →
      ((astarLoop finish fuel g openl acc).2.rows = g.rows ∧
        (astarLoop finish fuel g openl acc).2.cols = g.cols) ∧
      ((astarLoop finish fuel g openl acc).2.cell finish).isVisited = true ∧
      PChain (fun x => ((astarLoop finish fuel g openl acc).2.cell x).isVisited = true)
        (astarLoop finish fuel g openl acc).2 s finish (manhattan s finish) := by
  intro fuel
  induction fuel with
  | zero =>
    intro g openl acc hfuel hNW hs hfin hopenB hvs hP1 hP2 hP3 hA4 hA5 hP6
    have hempty : openl = [] := List.length_eq_zero.mp (by omega)
    have hgw := geodesic_witness g s finish (fun p => p ∈ openl) hs hvs hP3
      (fun p d hd => (hP2 p d hd).1) hA5 (manhattan s finish) finish hfin
      (le_refl _) (by simp [manhattan_self])
    have hfv : (g.cell finish).isVisited = true := by
      rcases hgw with hv | ⟨x, hx_open, hx2, hx3⟩
      · exact hv
      · rw [hempty] at hx_open
        cases hx_open
    exact ⟨⟨rfl, rfl⟩, hfv, (hP1 finish hfv).2⟩
  | succ fuel ih =>
    intro g openl acc hfuel hNW hs hfin hopenB hvs hP1 hP2 hP3 hA4 hA5 hP6
    cases hsort : sortKey (fun p => (g.cell p).fScore) openl with
    | nil =>
      have hempty : openl = [] := by
        have hleq := (sortKey_perm (fun p => (g.cell p).fScore) openl).length_eq
        rw [hsort] at hleq
        exact List.length_eq_zero.mp hleq.symm
      have hloop : astarLoop finish (fuel + 1) g openl acc = (acc, g) := by
        simp only [astarLoop]
        rw [hsort]
      rw [hloop]
      have hgw := geodesic_witness g s finish (fun p => p ∈ openl) hs hvs hP3
        (fun p d hd => (hP2 p d hd).1) hA5 (manhattan s finish) finish hfin
        (le_refl _) (by simp [manhattan_self])
      have hfv : (g.cell finish).isVisited = true := by
        rcases hgw with hv | ⟨x, hx_open, hx2, hx3⟩
        · exact hv
        · rw [hempty] at hx_open
          cases hx_open
      exact ⟨⟨rfl, rfl⟩, hfv, (hP1 finish hfv).2⟩
    | cons cur rest =>
      have hopenmem : ∀ y, y ∈ openl ↔ y ∈ cur :: rest := by
        intro y
        rw [← hsort, mem_sortKey]
      have hcur_open : cur ∈ openl :=
        (hopenmem cur).mpr (List.mem_cons_self _ _)
      have hcur_inB : inB g cur := hopenB cur hcur_open
      have hlen : openl.length = rest.length + 1 := by
        have hleq := (sortKey_perm (fun p => (g.cell p).fScore) openl).length_eq
        rw [hsort] at hleq
        simpa using hleq.symm
      have hwall : ¬ (g.cell cur).isWall = true := by
        rw [hNW cur]
        simp
      by_cases hvcur : (g.cell cur).isVisited = true
      · -- already closed: the head is skipped
        have hloop : astarLoop finish (fuel + 1) g openl acc =
            astarLoop finish fuel g rest acc := by
          simp only [astarLoop]
          rw [hsort]
          dsimp only
          rw [if_neg hwall, if_pos hvcur]
        rw [hloop]
        refine ih g rest acc (by omega) hNW hs hfin ?_ hvs hP1 hP2 hP3 hA4 ?_ hP6
        · intro p hp
          exact hopenB p ((hopenmem p).mpr (List.mem_cons_of_mem _ hp))
        · intro p hpv d hd
          rcases List.mem_cons.mp ((hopenmem p).mp (hA5 p hpv d hd)) with h | h
          · exfalso
            rw [h, hvcur] at hpv
            cases hpv
          · exact h
      · have hcur_unvis : (g.cell cur).isVisited = false := by
          cases hb : (g.cell cur).isVisited
          · rfl
          · exact absurd hb hvcur
        have hcur_ne_s : cur ≠ s := by
          intro h
          have hcontra : (g.cell s).isVisited = false := h ▸ hcur_unvis
          rw [hvs] at hcontra
          cases hcontra
        -- exactness of the popped label via the geodesic witness and the
        -- consistency of the manhattan heuristic
        have hgw := geodesic_witness g s cur (fun p => p ∈ openl) hs hvs hP3
          (fun p d hd => (hP2 p d hd).1) hA5 (manhattan s cur) cur hcur_inB
          (le_refl _) (by simp [manhattan_self])
        have hexact : (g.cell cur).dist = EN.fin (manhattan s cur) := by
          rcases hgw with hv | ⟨x, hx_open, hx_exact, hx_geo⟩
          · exact absurd hv hvcur
          · have hxf : (g.cell x).fScore =
                EN.fin (manhattan s x + manhattan x finish) :=
              (hA4 x).2 (manhattan s x) hx_exact
            have hle := sortKey_head_le hsort hx_open
            rw [hxf] at hle
            obtain ⟨fc, hfc_le, hfc_eq⟩ := EN.exists_fin_of_leb_fin hle
            obtain ⟨dc, hdc⟩ : ∃ dc, (g.cell cur).dist = EN.fin dc := by
              cases hdd : (g.cell cur).dist with
              | fin n => exact ⟨n, rfl⟩
              | inf =>
                exfalso
                have := (hA4 cur).1 hdd
                rw [this] at hfc_eq
                cases hfc_eq
            have hcf : (g.cell cur).fScore =
                EN.fin (dc + manhattan cur finish) := (hA4 cur).2 dc hdc
            rw [hcf] at hfc_eq
            injection hfc_eq with hfc2
            have htri : manhattan x finish ≤ manhattan x cur + manhattan cur finish :=
              manhattan_triangle x cur finish
            have hge := (hP2 cur dc hdc).1
            have hdc_eq : dc = manhattan s cur := by omega
            rw [hdc, hdc_eq]
        have hinf_ne : ¬ (g.cell cur).dist = EN.inf := by
          rw [hexact]
          intro h
          cases h
        -- the chain carried by the freshly closed cell
        obtain ⟨u, d2, hprev_cl, hu_vis, hu_dist, hd2_eq⟩ :=
          hP6 cur hcur_unvis hcur_ne_s (manhattan s cur) hexact
        have hu_exact := (hP1 u hu_vis).1
        have hu_layer : d2 = manhattan s u := by
          rw [hu_exact] at hu_dist
          injection hu_dist with h
          exact h.symm
        have hlc_eq : manhattan s cur = manhattan s u + 1 := by omega
        have hg1cell : ∀ q, q ≠ cur →
            (g.set cur { g.cell cur with isVisited := true }).cell q =
              g.cell q := fun q hq => Grid.set_other _ _ hq
        have hg1same : (g.set cur { g.cell cur with
            isVisited := true }).cell cur =
            { g.cell cur with isVisited := true } := Grid.set_same _ _ _
        have hpres1 : ∀ x, (g.cell x).isVisited = true →
            (g.set cur { g.cell cur with isVisited := true }).cell x =
              g.cell x := by
          intro x hx
          refine hg1cell x ?_
          intro hxc
          rw [hxc, hcur_unvis] at hx
          cases hx
        have hvis1 : ∀ x, ((g.set cur { g.cell cur with
            isVisited := true }).cell x).isVisited = true ↔
            (x = cur ∨ (g.cell x).isVisited = true) := by
          intro x
          by_cases hxc : x = cur
          · subst hxc
            rw [hg1same]
            constructor
            · intro _
              exact Or.inl rfl
            · intro _
              rfl
          · rw [hg1cell x hxc]
            constructor
            · exact Or.inr
            · intro h
              rcases h with h | h
              · exact absurd h hxc
              · exact h
        have hchain_u1 : PChain (fun x => ((g.set cur { g.cell cur with
            isVisited := true }).cell x).isVisited = true)
            (g.set cur { g.cell cur with isVisited := true }) s u
            (manhattan s u) :=
          PChain.mono (hP1 u hu_vis).2
            (fun x hx => (hvis1 x).mpr (Or.inr hx))
            (fun x hx => by rw [hpres1 x hx])
        have hchain_cl1 : PChain (fun x => ((g.set cur { g.cell cur with
            isVisited := true }).cell x).isVisited = true)
            (g.set cur { g.cell cur with isVisited := true }) s cur
            (manhattan s cur) := by
          rw [hlc_eq]
          refine PChain.step cur u (manhattan s u) ((hvis1 cur).mpr (Or.inl rfl))
            ?_ hchain_u1
          rw [hg1same]
          show (g.cell cur).prev = some u
          exact hprev_cl
        by_cases hceq : cur = finish
        · have hloop : astarLoop finish (fuel + 1) g openl acc =
              (acc ++ [cur],
                g.set cur { g.cell cur with isVisited := true }) := by
            simp only [astarLoop]
            rw [hsort]
            dsimp only
            rw [if_neg hwall, if_neg hvcur, if_pos hceq]
          rw [hloop]
          refine ⟨⟨rfl, rfl⟩, ?_, ?_⟩
          · rw [← hceq]
            exact (hvis1 cur).mpr (Or.inl rfl)
          · rw [← hceq]
            exact hchain_cl1
        · rw [astarLoop_step_expand finish cur fuel g openl acc rest hsort
            hwall hvcur hceq, astarRelax_eq_fold]
          obtain ⟨hrr, hcc, hcell, hopen⟩ := astarRelaxFold_spec cur finish
            (getNeighbors (g.set cur { g.cell cur with isVisited := true }) cur)
            (g.set cur { g.cell cur with isVisited := true }) rest
            (self_not_mem_neighborsUDLR _ cur)
            (nodup_neighborsUDLR _ cur)
          set g1 := g.set cur { g.cell cur with isVisited := true } with hg1
          set g2 := (astarRelaxFold cur finish (getNeighbors g1 cur) (g1, rest)).1
            with hg2
          set open2 := (astarRelaxFold cur finish (getNeighbors g1 cur) (g1, rest)).2
            with hopen2
          have hnb : getNeighbors g1 cur = neighborsUDLR g cur := rfl
          rw [hnb] at hcell hopen
          have hg1curdist : (g1.cell cur).dist = EN.fin (manhattan s cur) := by
            rw [hg1same]
            show (g.cell cur).dist = _
            exact hexact
          have hg1curfs : (g1.cell cur).fScore = (g.cell cur).fScore := by
            rw [hg1same]
          have hrel_dist : ∀ q, (astarRelaxedCell g1 cur finish q).dist =
              EN.fin (manhattan s cur + 1) := by
            intro q
            show (g1.cell cur).dist.addN 1 = _
            rw [hg1curdist]
            rfl
          have hrel_fs : ∀ q, (astarRelaxedCell g1 cur finish q).fScore =
              EN.fin (manhattan s cur + 1 + manhattan q finish) := by
            intro q
            show ((g1.cell cur).dist.addN 1).addN (manhattan q finish) = _
            rw [hg1curdist]
            rfl
          have hrel_prev : ∀ q, (astarRelaxedCell g1 cur finish q).prev =
              some cur := fun q => rfl
          have hrel_vis : ∀ q, (astarRelaxedCell g1 cur finish q).isVisited =
              (g1.cell q).isVisited := fun q => rfl
          have hrel_wall : ∀ q, (astarRelaxedCell g1 cur finish q).isWall =
              (g1.cell q).isWall := fun q => rfl
          have hvis2eq : ∀ p, (g2.cell p).isVisited = (g1.cell p).isVisited := by
            intro p
            rw [hcell p]
            split
            · rw [hrel_vis p]
            · rfl
          have hvis2 : ∀ x, (g2.cell x).isVisited = true ↔
              (x = cur ∨ (g.cell x).isVisited = true) := by
            intro x
            rw [hvis2eq x]
            exact hvis1 x
          have hpres2 : ∀ x, (g1.cell x).isVisited = true → g2.cell x = g1.cell x := by
            intro x hx
            rw [hcell x]
            refine if_neg ?_
            rintro ⟨hx1, hx2⟩
            have hfalse : (g1.cell x).isVisited = false := hx2.2.1
            rw [hx] at hfalse
            cases hfalse
          have hpres2g : ∀ x, (g.cell x).isVisited = true → g2.cell x = g.cell x := by
            intro x hx
            rw [hpres2 x ((hvis1 x).mpr (Or.inr hx))]
            exact hpres1 x hx
          have hvis2c : (g2.cell cur).isVisited = true := by
            rw [hvis2eq cur]
            exact (hvis1 cur).mpr (Or.inl rfl)
          have hcl2cell : g2.cell cur = g1.cell cur := by
            refine hpres2 cur ?_
            exact (hvis1 cur).mpr (Or.inl rfl)
          have hcl2_exact : (g2.cell cur).dist = EN.fin (manhattan s cur) := by
            rw [hcl2cell]
            exact hg1curdist
          have hinB2 : ∀ p, inB g2 p ↔ inB g p := by
            intro p
            unfold inB
            rw [hrr, hcc]
            exact Iff.rfl
          have hnbr2 : ∀ p, neighborsUDLR g2 p = neighborsUDLR g p := by
            intro p
            unfold neighborsUDLR
            rw [hrr, hcc]
            rfl
          have hcond_cells : ∀ x, x ∈ neighborsUDLR g cur →
              astarRelaxCond g1 cur x →
              x ≠ cur ∧ (g.cell x).isVisited = false := by
            intro x hx hc
            have hxc : x ≠ cur := by
              intro h
              rw [h] at hx
              exact self_not_mem_neighborsUDLR g cur hx
            refine ⟨hxc, ?_⟩
            have := hc.2.1
            rw [hg1cell x hxc] at this
            exact this
          have hucount : unvisCount g2 + 1 = unvisCount g := by
            have hmark : unvisCount g1 + 1 = unvisCount g :=
              @unvisCount_mark g cur { g.cell cur with isVisited := true }
                hcur_inB hcur_unvis rfl
            have hcongr : unvisCount g2 = unvisCount g1 := by
              refine unvisCount_congr ?_ ?_ ?_
              · exact hrr
              · exact hcc
              · exact hvis2eq
            omega
          have hflen : open2.length ≤ rest.length + 4 := by
            have h1 := astarRelaxFold_length cur finish
              (getNeighbors g1 cur) (g1, rest)
            have h2 : (getNeighbors g1 cur).length ≤ 4 := by
              rw [hnb]
              exact length_neighborsUDLR_le g cur
            have h3 : open2.length ≤
                rest.length + (getNeighbors g1 cur).length := h1
            omega
          have hstep := ih g2 open2 (acc ++ [cur]) ?_ ?_ ?_ ?_ ?_ ?_ ?_ ?_ ?_ ?_ ?_ ?_
          · exact ⟨⟨hstep.1.1.trans hrr, hstep.1.2.trans hcc⟩, hstep.2.1, hstep.2.2⟩
          · omega
          · intro x
            rw [hcell x]
            split
            · rw [hrel_wall x]
              by_cases hxc : x = cur
              · rw [hxc, hg1same]
                show (g.cell cur).isWall = false
                exact hNW cur
              · rw [hg1cell x hxc]
                exact hNW x
            · by_cases hxc : x = cur
              · rw [hxc, hg1same]
                show (g.cell cur).isWall = false
                exact hNW cur
              · rw [hg1cell x hxc]
                exact hNW x
          · exact (hinB2 s).mpr hs
          · exact (hinB2 finish).mpr hfin
          · intro p hp
            rcases (hopen p).mp hp with h | h
            · exact (hinB2 p).mpr
                (hopenB p ((hopenmem p).mpr (List.mem_cons_of_mem _ h)))
            · exact (hinB2 p).mpr (inB_of_mem_neighborsUDLR hcur_inB h.1)
          · rw [hpres2g s hvs]
            exact hvs
          · intro p hp
            rcases (hvis2 p).mp hp with hp2 | hp2
            · rw [hp2]
              refine ⟨hcl2_exact, ?_⟩
              refine PChain.mono hchain_cl1 ?_ ?_
              · intro x hx
                rw [hvis2eq x]
                exact hx
              · intro x hx
                rw [hpres2 x hx]
            · rw [hpres2g p hp2]
              refine ⟨(hP1 p hp2).1, ?_⟩
              refine PChain.mono (hP1 p hp2).2 ?_ ?_
              · intro x hx
                exact (hvis2 x).mpr (Or.inr hx)
              · intro x hx
                rw [hpres2g x hx]
          · intro p d hd
            rw [hcell p] at hd
            by_cases hcond : p ∈ neighborsUDLR g cur ∧ astarRelaxCond g1 cur p
            · rw [if_pos hcond] at hd
              rw [hrel_dist p] at hd
              injection hd with hdv
              have hp_inB : inB g p := inB_of_mem_neighborsUDLR hcur_inB hcond.1
              rcases manhattan_adj_layer s hcond.1 with h | h
              · exact ⟨by omega, (hinB2 p).mpr hp_inB⟩
              · exact ⟨by omega, (hinB2 p).mpr hp_inB⟩
            · rw [if_neg hcond] at hd
              by_cases hpc : p = cur
              · rw [hpc, hg1same] at hd
                have hd0 : (g.cell cur).dist = EN.fin d := hd
                rw [hpc]
                exact ⟨(hP2 cur d hd0).1, (hinB2 cur).mpr (hP2 cur d hd0).2⟩
              · rw [hg1cell p hpc] at hd
                exact ⟨(hP2 p d hd).1, (hinB2 p).mpr (hP2 p d hd).2⟩
          · intro p hp x hx
            rw [hnbr2 p] at hx
            rcases (hvis2 p).mp hp with hp2 | hp2
            · rw [hp2] at hx ⊢
              by_cases hxv : (g1.cell x).isVisited = true
              · rcases (hvis1 x).mp hxv with hxc | hxc
                · exfalso
                  rw [hxc] at hx
                  exact self_not_mem_neighborsUDLR g cur hx
                · have hxe := (hP1 x hxc).1
                  rw [hpres2g x hxc]
                  refine ⟨manhattan s x, ?_, hxe⟩
                  rcases manhattan_adj_layer s hx with h | h
                  · omega
                  · omega
              · have hxu : (g1.cell x).isVisited = false := by
                  cases hb : (g1.cell x).isVisited
                  · rfl
                  · exact absurd hb hxv
                have hxw : (g1.cell x).isWall = false := by
                  have hxc : x ≠ cur := by
                    intro h
                    rw [h] at hx
                    exact self_not_mem_neighborsUDLR g cur hx
                  rw [hg1cell x hxc]
                  exact hNW x
                by_cases hlt : EN.ltb ((g1.cell cur).dist.addN 1)
                    ((g1.cell x).dist) = true
                · have hcond : x ∈ neighborsUDLR g cur ∧ astarRelaxCond g1 cur x :=
                    ⟨hx, hxw, hxu, hlt⟩
                  rw [hcell x, if_pos hcond, hrel_dist x]
                  exact ⟨manhattan s cur + 1, le_refl _, rfl⟩
                · have hle : EN.leb ((g1.cell x).dist)
                      ((g1.cell cur).dist.addN 1) = true := EN.leb_of_not_ltb hlt
                  rw [hg1curdist] at hle
                  have hle2 : EN.leb ((g1.cell x).dist)
                      (EN.fin (manhattan s cur + 1)) = true := hle
                  obtain ⟨d, hd_le, hd_eq⟩ := EN.exists_fin_of_leb_fin hle2
                  rw [hcell x, if_neg (fun hc => hlt hc.2.2.2)]
                  exact ⟨d, hd_le, hd_eq⟩
            · have hp_inB : inB g p := (hP2 p (manhattan s p) (hP1 p hp2).1).2
              obtain ⟨d, hd_le, hd_eq⟩ := hP3 p hp2 x hx
              by_cases hxc : x = cur
              · rw [hxc]
                refine ⟨manhattan s cur, ?_, hcl2_exact⟩
                rw [← hxc]
                rcases manhattan_adj_layer s (mem_neighborsUDLR_symm hp_inB hx)
                  with h | h
                · rw [hxc] at h ⊢
                  omega
                · rw [hxc] at h ⊢
                  omega
              · by_cases hcond : x ∈ neighborsUDLR g cur ∧ astarRelaxCond g1 cur x
                · have hlt := hcond.2.2.2
                  rw [hg1curdist, hg1cell x hxc, hd_eq] at hlt
                  have hltn : manhattan s cur + 1 < d := by
                    simpa [EN.addN, EN.ltb] using hlt
                  rw [hcell x, if_pos hcond, hrel_dist x]
                  exact ⟨manhattan s cur + 1, by omega, rfl⟩
                · rw [hcell x, if_neg hcond, hg1cell x hxc]
                  exact ⟨d, hd_le, hd_eq⟩
          · intro p
            constructor
            · intro hdinf
              rw [hcell p] at hdinf ⊢
              by_cases hcond : p ∈ neighborsUDLR g cur ∧ astarRelaxCond g1 cur p
              · rw [if_pos hcond] at hdinf
                rw [hrel_dist p] at hdinf
                cases hdinf
              · rw [if_neg hcond] at hdinf ⊢
                by_cases hpc : p = cur
                · rw [hpc, hg1same] at hdinf ⊢
                  exact (hA4 cur).1 hdinf
                · rw [hg1cell p hpc] at hdinf ⊢
                  exact (hA4 p).1 hdinf
            · intro d hd
              rw [hcell p] at hd ⊢
              by_cases hcond : p ∈ neighborsUDLR g cur ∧ astarRelaxCond g1 cur p
              · rw [if_pos hcond] at hd ⊢
                rw [hrel_dist p] at hd
                injection hd with hdv
                rw [hrel_fs p, ← hdv]
              · rw [if_neg hcond] at hd ⊢
                by_cases hpc : p = cur
                · rw [hpc, hg1same] at hd ⊢
                  exact (hA4 cur).2 d hd
                · rw [hg1cell p hpc] at hd ⊢
                  exact (hA4 p).2 d hd
          · intro p hpv d hd
            rw [hcell p] at hd
            by_cases hcond : p ∈ neighborsUDLR g cur ∧ astarRelaxCond g1 cur p
            · rw [hopen p]
              exact Or.inr hcond
            · rw [if_neg hcond] at hd
              have hpc : p ≠ cur := by
                intro h
                rw [h, hvis2c] at hpv
                cases hpv
              rw [hg1cell p hpc] at hd
              have hpv0 : (g.cell p).isVisited = false := by
                have := hpv
                rw [hvis2eq p, hg1cell p hpc] at this
                exact this
              have hmem := hA5 p hpv0 d hd
              rcases List.mem_cons.mp ((hopenmem p).mp hmem) with h | h
              · exact absurd h hpc
              · rw [hopen p]
                exact Or.inl h
          · intro p hpv hpns d hd
            have hpc : p ≠ cur := by
              intro h
              rw [h, hvis2c] at hpv
              cases hpv
            rw [hcell p] at hd
            by_cases hcond : p ∈ neighborsUDLR g cur ∧ astarRelaxCond g1 cur p
            · rw [if_pos hcond] at hd
              rw [hrel_dist p] at hd
              injection hd with hdv
              refine ⟨cur, manhattan s cur, ?_, hvis2c, hcl2_exact, by omega⟩
              rw [hcell p, if_pos hcond]
              exact hrel_prev p
            · rw [if_neg hcond, hg1cell p hpc] at hd
              have hpv0 : (g.cell p).isVisited = false := by
                have := hpv
                rw [hvis2eq p, hg1cell p hpc] at this
                exact this
              obtain ⟨u2, d2x, hprev, huv, hud, hdd⟩ := hP6 p hpv0 hpns d hd
              refine ⟨u2, d2x, ?_, ?_, ?_, hdd⟩
              · rw [hcell p, if_neg hcond, hg1cell p hpc]
                exact hprev
              · exact (hvis2 u2).mpr (Or.inr huv)
              · rw [hpres2g u2 huv]
                exact hud

/-- On a reset wall-free grid, A* closes the finish with a back-link
chain of length exactly its Manhattan layer, so reconstruction has
`manhattan + 1` cells. -/
theorem astar_optimal (g : Grid) (start finish : Pos) (hW : WorkClean g)
    (hNW : NoWalls g) (hs : inB g start) (hf : inB g finish)
    (hne : start ≠ finish) :
    (getNodesInShortestPathOrder (astar g start finish).2 finish).length =
      manhattan start finish + 1 := by
  have hrows1 : 0 < g.rows := Nat.lt_of_le_of_lt (Nat.zero_le _) hf.1
  have hcols1 : 0 < g.cols := Nat.lt_of_le_of_lt (Nat.zero_le _) hf.2
  have hd : astar g start finish =
      astarLoop finish (5 * g.rows * g.cols + 1 + 1)
        (g.set start { g.cell start with
          dist := EN.fin 0
          fScore := EN.fin (manhattan start finish) }) [start] [] := rfl
  set g0 := g.set start { g.cell start with
    dist := EN.fin 0
    fScore := EN.fin (manhattan start finish) } with hg0
  have hg0cell : ∀ p, p ≠ start → g0.cell p = g.cell p := by
    intro p hp
    rw [hg0, Grid.set_other _ _ hp]
  have hg0same : g0.cell start = { g.cell start with
      dist := EN.fin 0
      fScore := EN.fin (manhattan start finish) } := by
    rw [hg0, Grid.set_same]
  have hg0sdist : (g0.cell start).dist = EN.fin 0 := by
    rw [hg0same]
  have hg0sfs : (g0.cell start).fScore = EN.fin (manhattan start finish) := by
    rw [hg0same]
  have hg0svis : (g0.cell start).isVisited = false := by
    rw [hg0same]
    show (g.cell start).isVisited = false
    exact (hW start).1
  have hg0sprev : (g0.cell start).prev = none := by
    rw [hg0same]
    show (g.cell start).prev = none
    exact (hW start).2.2.2
  have hg0dist : ∀ p, p ≠ start → (g0.cell p).dist = EN.inf := by
    intro p hp
    rw [hg0cell p hp]
    exact (hW p).2.1
  have hg0fs : ∀ p, p ≠ start → (g0.cell p).fScore = EN.inf := by
    intro p hp
    rw [hg0cell p hp]
    exact (hW p).2.2.1
  have hg0vis : ∀ p, p ≠ start → (g0.cell p).isVisited = false := by
    intro p hp
    rw [hg0cell p hp]
    exact (hW p).1
  have hg0wall : ∀ p, (g0.cell p).isWall = false := by
    intro p
    by_cases hp : p = start
    · rw [hp, hg0same]
      show (g.cell start).isWall = false
      exact hNW start
    · rw [hg0cell p hp]
      exact hNW p
  have hsort0 : sortKey (fun p => (g0.cell p).fScore) [start] = start :: [] := rfl
  rw [hd, astarLoop_step_expand finish start (5 * g.rows * g.cols + 1) g0
    [start] [] [] hsort0
    (by rw [hg0wall start]; simp)
    (by rw [hg0svis]; simp) hne,
    astarRelax_eq_fold, List.nil_append]
  obtain ⟨hrr, hcc, hcell, hopen⟩ := astarRelaxFold_spec start finish
    (getNeighbors (g0.set start { g0.cell start with isVisited := true }) start)
    (g0.set start { g0.cell start with isVisited := true }) []
    (self_not_mem_neighborsUDLR _ start)
    (nodup_neighborsUDLR _ start)
  set g1 := g0.set start { g0.cell start with isVisited := true } with hg1
  set g2 := (astarRelaxFold start finish (getNeighbors g1 start) (g1, [])).1
    with hg2
  set open2 := (astarRelaxFold start finish (getNeighbors g1 start) (g1, [])).2
    with hopen2
  have hnb : getNeighbors g1 start = neighborsUDLR g start := rfl
  rw [hnb] at hcell hopen
  have hg1cell : ∀ p, p ≠ start → g1.cell p = g0.cell p := by
    intro p hp
    rw [hg1, Grid.set_other _ _ hp]
  have hg1same : g1.cell start = { g0.cell start with isVisited := true } := by
    rw [hg1, Grid.set_same]
  have hg1sdist : (g1.cell start).dist = EN.fin 0 := by
    rw [hg1same]
    show (g0.cell start).dist = EN.fin 0
    exact hg0sdist
  have hg1svis : (g1.cell start).isVisited = true := by
    rw [hg1same]
  have hg1vis : ∀ p, (g1.cell p).isVisited = true ↔ p = start := by
    intro p
    by_cases hp : p = start
    · rw [hp]
      constructor
      · intro _
        rfl
      · intro _
        exact hg1svis
    · rw [hg1cell p hp]
      constructor
      · intro h
        rw [hg0vis p hp] at h
        cases h
      · intro h
        exact absurd h hp
  have hcond_iff : ∀ x, x ∈ neighborsUDLR g start →
      astarRelaxCond g1 start x := by
    intro x hx
    have hxs : x ≠ start := by
      intro hxe
      rw [hxe] at hx
      exact self_not_mem_neighborsUDLR g start hx
    refine ⟨?_, ?_, ?_⟩
    · rw [hg1cell x hxs]
      exact hg0wall x
    · rw [hg1cell x hxs]
      exact hg0vis x hxs
    · rw [hg1cell x hxs, hg0dist x hxs, hg1sdist]
      rfl
  have hcell2 : ∀ q, g2.cell q =
      if q ∈ neighborsUDLR g start then astarRelaxedCell g1 start finish q
      else g1.cell q := by
    intro q
    rw [hcell q]
    by_cases hq : q ∈ neighborsUDLR g start
    · rw [if_pos ⟨hq, hcond_iff q hq⟩, if_pos hq]
    · rw [if_neg (fun hc => hq hc.1), if_neg hq]
  have hopen_iff : ∀ q, q ∈ open2 ↔ q ∈ neighborsUDLR g start := by
    intro q
    rw [hopen q]
    constructor
    · intro h
      rcases h with h | h
      · cases h
      · exact h.1
    · intro h
      exact Or.inr ⟨h, hcond_iff q h⟩
  have hrel_dist : ∀ q, (astarRelaxedCell g1 start finish q).dist = EN.fin 1 := by
    intro q
    show (g1.cell start).dist.addN 1 = _
    rw [hg1sdist]
    rfl
  have hrel_fs : ∀ q, (astarRelaxedCell g1 start finish q).fScore =
      EN.fin (1 + manhattan q finish) := by
    intro q
    show ((g1.cell start).dist.addN 1).addN (manhattan q finish) = _
    rw [hg1sdist]
    rfl
  have hrel_prev : ∀ q, (astarRelaxedCell g1 start finish q).prev =
      some start := fun q => rfl
  have hrel_vis : ∀ q, (astarRelaxedCell g1 start finish q).isVisited =
      (g1.cell q).isVisited := fun q => rfl
  have hstart_nin_nbr : start ∉ neighborsUDLR g start :=
    self_not_mem_neighborsUDLR g start
  have hvis2 : ∀ p, (g2.cell p).isVisited = true ↔ p = start := by
    intro p
    rw [hcell2 p]
    by_cases hp : p ∈ neighborsUDLR g start
    · rw [if_pos hp, hrel_vis p]
      exact hg1vis p
    · rw [if_neg hp]
      exact hg1vis p
  have hvis2s : (g2.cell start).isVisited = true := (hvis2 start).mpr rfl
  have hg2s : g2.cell start = g1.cell start := by
    rw [hcell2 start, if_neg hstart_nin_nbr]
  have hg2sdist : (g2.cell start).dist = EN.fin 0 := by
    rw [hg2s]
    exact hg1sdist
  have hg2sfs : (g2.cell start).fScore = EN.fin (manhattan start finish) := by
    rw [hg2s, hg1same]
    show (g0.cell start).fScore = _
    exact hg0sfs
  have hg2sprev : (g2.cell start).prev = none := by
    rw [hg2s, hg1same]
    show (g0.cell start).prev = none
    exact hg0sprev
  have hinB2 : ∀ p, inB g2 p ↔ inB g p := by
    intro p
    unfold inB
    rw [hrr, hcc]
    exact Iff.rfl
  have hnbr2 : ∀ p, neighborsUDLR g2 p = neighborsUDLR g p := by
    intro p
    unfold neighborsUDLR
    rw [hrr, hcc]
    rfl
  have hchain_s : PChain (fun x => (g2.cell x).isVisited = true) g2 start start 0 :=
    PChain.base hvis2s hg2sprev
  have hucount : unvisCount g2 + 1 = unvisCount g0 := by
    have hmark : unvisCount g1 + 1 = unvisCount g0 :=
      @unvisCount_mark g0 start { g0.cell start with isVisited := true }
        hs hg0svis rfl
    have hvis2eq : ∀ p, (g2.cell p).isVisited = (g1.cell p).isVisited := by
      intro p
      rw [hcell2 p]
      by_cases hp : p ∈ neighborsUDLR g start
      · rw [if_pos hp, hrel_vis p]
      · rw [if_neg hp]
    have hcongr : unvisCount g2 = unvisCount g1 :=
      unvisCount_congr hrr hcc hvis2eq
    omega
  have hstep := astarLoop_exact start finish (5 * g.rows * g.cols + 1) g2 open2
    [start] ?_ ?_ ?_ ?_ ?_ ?_ ?_ ?_ ?_ ?_ ?_ ?_
  · refine recon_length_of_chain hstep.2.2 ?_
    have hdr : g2.rows = g.rows := hrr
    have hdc : g2.cols = g.cols := hcc
    rw [hstep.1.1, hstep.1.2, hdr, hdc]
    have hman := manhattan_lt_bound hs hf
    have hmul := add_le_mul_succ hrows1 hcols1
    omega
  · have hflen : open2.length ≤ 4 := by
      have h1 := astarRelaxFold_length start finish
        (getNeighbors g1 start) (g1, [])
      have h2 : (getNeighbors g1 start).length ≤ 4 := by
        rw [hnb]
        exact length_neighborsUDLR_le g start
      have h3 : open2.length ≤
          List.length ([] : List Pos) + (getNeighbors g1 start).length := h1
      simp only [List.length_nil] at h3
      omega
    have hle := unvisCount_le g0
    have hr0 : g0.rows = g.rows := by rw [hg0]; rfl
    have hc0 : g0.cols = g.cols := by rw [hg0]; rfl
    rw [hr0, hc0] at hle
    have hassoc : 5 * g.rows * g.cols = 5 * (g.rows * g.cols) := by ring
    omega
  · intro x
    rw [hcell2 x]
    by_cases hx : x ∈ neighborsUDLR g start
    · rw [if_pos hx]
      show (g1.cell x).isWall = false
      by_cases hxs : x = start
      · rw [hxs, hg1same]
        show (g0.cell start).isWall = false
        exact hg0wall start
      · rw [hg1cell x hxs]
        exact hg0wall x
    · rw [if_neg hx]
      by_cases hxs : x = start
      · rw [hxs, hg1same]
        show (g0.cell start).isWall = false
        exact hg0wall start
      · rw [hg1cell x hxs]
        exact hg0wall x
  · exact (hinB2 start).mpr hs
  · exact (hinB2 finish).mpr hf
  · intro p hp
    exact (hinB2 p).mpr
      (inB_of_mem_neighborsUDLR hs ((hopen_iff p).mp hp))
  · exact hvis2s
  · intro p hp
    have hps : p = start := (hvis2 p).mp hp
    rw [hps]
    constructor
    · rw [hg2sdist, manhattan_self]
    · rw [manhattan_self]
      exact hchain_s
  · intro p d hdp
    rw [hcell2 p] at hdp
    by_cases hp : p ∈ neighborsUDLR g start
    · rw [if_pos hp, hrel_dist p] at hdp
      injection hdp with hdv
      have hman1 : manhattan start p = 1 := manhattan_of_mem_neighborsUDLR hp
      refine ⟨by omega, (hinB2 p).mpr (inB_of_mem_neighborsUDLR hs hp)⟩
    · rw [if_neg hp] at hdp
      by_cases hps : p = start
      · rw [hps, hg1sdist] at hdp
        injection hdp with hdv
        rw [hps]
        refine ⟨by rw [manhattan_self]; omega, (hinB2 start).mpr hs⟩
      · rw [hg1cell p hps, hg0dist p hps] at hdp
        cases hdp
  · intro p hp x hx
    have hps : p = start := (hvis2 p).mp hp
    rw [hnbr2 p, hps] at hx
    rw [hps]
    rw [manhattan_self]
    refine ⟨1, by omega, ?_⟩
    rw [hcell2 x, if_pos hx, hrel_dist x]
  · intro p
    constructor
    · intro hdinf
      rw [hcell2 p] at hdinf ⊢
      by_cases hp : p ∈ neighborsUDLR g start
      · rw [if_pos hp, hrel_dist p] at hdinf
        cases hdinf
      · rw [if_neg hp] at hdinf ⊢
        by_cases hps : p = start
        · rw [hps, hg1sdist] at hdinf
          cases hdinf
        · rw [hg1cell p hps] at hdinf ⊢
          rw [hg0fs p hps]
    · intro d hdp
      rw [hcell2 p] at hdp ⊢
      by_cases hp : p ∈ neighborsUDLR g start
      · rw [if_pos hp, hrel_dist p] at hdp
        injection hdp with hdv
        rw [if_pos hp, hrel_fs p, ← hdv]
      · rw [if_neg hp] at hdp ⊢
        by_cases hps : p = start
        · rw [hps, hg1sdist] at hdp
          injection hdp with hdv
          rw [hps, hg1same]
          show (g0.cell start).fScore = _
          rw [hg0sfs, ← hdv, Nat.zero_add]
        · rw [hg1cell p hps, hg0dist p hps] at hdp
          cases hdp
  · intro p hpv d hdp
    rw [hcell2 p] at hdp
    by_cases hp : p ∈ neighborsUDLR g start
    · exact (hopen_iff p).mpr hp
    · rw [if_neg hp] at hdp
      by_cases hps : p = start
      · exfalso
        rw [hps, hvis2s] at hpv
        cases hpv
      · rw [hg1cell p hps, hg0dist p hps] at hdp
        cases hdp
  · intro p hpv hpns d hdp
    rw [hcell2 p] at hdp
    by_cases hp : p ∈ neighborsUDLR g start
    · rw [if_pos hp, hrel_dist p] at hdp
      injection hdp with hdv
      refine ⟨start, 0, ?_, hvis2s, hg2sdist, by omega⟩
      rw [hcell2 p, if_pos hp]
      exact hrel_prev p
    · rw [if_neg hp] at hdp
      by_cases hps : p = start
      · exfalso
        rw [hps, hvis2s] at hpv
        cases hpv
      · rw [hg1cell p hps, hg0dist p hps] at hdp
        cases hdp

/-! ## Claims -/

set_option maxRecDepth 100000

/-- C2: on an 11×11 grid with addBorder = true, distinct in-bounds
start (6,6) and finish (1,1), and the recorded choice sequence, the wall
set returned by `generateRecursiveBacktrackerMaze` leaves all four grid
neighbors of the start as walls while the start and finish themselves are
open, so the start is not reachable from the finish through 4-adjacent
non-wall cells — the reachability invariant fails on the code.  (The
carving can produce a spanning tree of the odd lattice avoiding every
lattice edge adjacent to the even-even start; the endpoint-connection pass
then finds the start itself — just cleared — as its own "nearest open
cell" and carves nothing.) -/
theorem c2_backtracker_isolates_start :
    ((5, 6) ∈ c2Walls ∧ (6, 5) ∈ c2Walls ∧ (6, 7) ∈ c2Walls ∧ (7, 6) ∈ c2Walls) ∧
    ((6, 6) ∉ c2Walls ∧ (1, 1) ∉ c2Walls) ∧
    ¬ MazeReach 11 11 c2Walls (6, 6) (1, 1) := by
  refine ⟨by decide, by decide, ?_⟩
  intro hreach
  rcases Relation.ReflTransGen.cases_head hreach with heq | ⟨c, hadj, _⟩
  · exact absurd heq (by decide)
  · obtain ⟨hb, hnw, hd⟩ := hadj
    have hc : c = ((5 : Int), (6 : Int)) ∨ c = (7, 6) ∨ c = (6, 5) ∨ c = (6, 7) := by
      rcases c with ⟨cr, cc⟩
      simp only [Prod.mk.injEq]
      omega
    rcases hc with rfl | rfl | rfl | rfl
    · exact hnw (by decide)
    · exact hnw (by decide)
    · exact hnw (by decide)
    · exact hnw (by decide)

/-- C5: for every grid size, every start and finish, every addBorder flag
and every random choice sequence, the wall sets returned by
`generateRecursiveDivisionMaze` and by `generateRecursiveBacktrackerMaze`
never contain the start or the finish coordinate: every insertion goes
through `addWall`/`setWall`, which refuse protected coordinates, and every
other wall-set operation only deletes. -/
theorem c5_protected_cells (rows cols : Int) (start finish : IPos) (addBorder : Bool)
    (rand : RStream) :
    (start ∉ generateRecursiveDivisionMaze rows cols start finish addBorder rand ∧
     finish ∉ generateRecursiveDivisionMaze rows cols start finish addBorder rand) ∧
    (start ∉ generateRecursiveBacktrackerMaze rows cols start finish addBorder rand ∧
     finish ∉ generateRecursiveBacktrackerMaze rows cols start finish addBorder rand) :=
  ⟨⟨not_mem_divisionMaze (by simp), not_mem_divisionMaze (by simp)⟩,
   ⟨not_mem_backtrackerMaze (by simp), not_mem_backtrackerMaze (by simp)⟩⟩

/-- C4 counterexample: the claim says a run with start = finish is
rejected with an `InvalidInput` failure before the search executes.  The
code has no such check: on a reset 1×2 grid with start = finish = (0,0),
`bfs` executes normally, returns the one-element visited list and marks
the start cell visited (the grid is mutated, nothing fails). -/
theorem c4_counterexample :
    (bfs (cleanGrid 1 2) (0, 0) (0, 0)).1 = [(0, 0)] ∧
    ((bfs (cleanGrid 1 2) (0, 0) (0, 0)).2.cell (0, 0)).isVisited = true := by
  exact ⟨by decide, by decide⟩

/-- C4 amended: the search functions perform no input validation.  With
start = finish (in bounds, reset grid) the search executes and mutates the
grid instead of failing: `bfs` and `dijkstra` (the two cited sources) both
return the one-element visited list `[start]` and set its visited flag. -/
theorem c4_amended_no_validation (rows cols : Nat) (p : Pos)
    (h1 : p.1 < rows) (h2 : p.2 < cols) :
    (bfs (cleanGrid rows cols) p p).1 = [p] ∧
    ((bfs (cleanGrid rows cols) p p).2.cell p).isVisited = true ∧
    (dijkstra (cleanGrid rows cols) p p).1 = [p] ∧
    ((dijkstra (cleanGrid rows cols) p p).2.cell p).isVisited = true := by
  have hrows : (cleanGrid rows cols).rows = rows := rfl
  have hcols : (cleanGrid rows cols).cols = cols := rfl
  unfold bfs dijkstra
  set g0b := (cleanGrid rows cols).set p
    { (cleanGrid rows cols).cell p with isVisited := true, dist := EN.fin 0 } with hg0b
  set g0d := (cleanGrid rows cols).set p
    { (cleanGrid rows cols).cell p with dist := EN.fin 0 } with hg0d
  have hwb : (g0b.cell p).isWall = false := by
    rw [hg0b, Grid.set_same]
    rfl
  have hwd : (g0d.cell p).isWall = false := by
    rw [hg0d, Grid.set_same]
    rfl
  have hbfs := @bfsLoop_start_eq_finish g0b p
    (2 * (cleanGrid rows cols).rows * (cleanGrid rows cols).cols + 2) (by omega) hwb
  have hpd : (g0d.cell p).dist = EN.fin 0 := by rw [hg0d, Grid.set_same]
  have hpool : p ∈ getAllNodes g0d := mem_getAllNodes.mpr (by
    rw [hg0d]; exact ⟨h1, h2⟩)
  obtain ⟨rest, hsort⟩ :
      ∃ rest, sortKey (fun q => (g0d.cell q).dist) (getAllNodes g0d) = p :: rest := by
    cases hs : sortKey (fun q => (g0d.cell q).dist) (getAllNodes g0d) with
    | nil =>
      exact absurd (mem_sortKey.mpr hpool) (by rw [hs]; simp)
    | cons h t =>
      have hle := sortKey_head_le hs hpool
      by_cases hhp : h = p
      · exact ⟨t, by rw [hhp]⟩
      · have hcl : g0d.cell h = Cell.clean := by
          rw [hg0d, Grid.set_other _ _ hhp]; rfl
        rw [hcl, hpd] at hle
        exact absurd hle (by simp [Cell.clean, EN.leb])
  have hdij := dijkstraLoop_head_finish
    ((cleanGrid rows cols).rows * (cleanGrid rows cols).cols + 1) (by omega) hsort hwd
    (by rw [hpd]; exact fun h => by cases h)
  refine ⟨?_, ?_, ?_, ?_⟩
  · rw [hbfs]
  · rw [hbfs, hg0b, Grid.set_same]
  · rw [hdij]
  · rw [hdij, Grid.set_same]

/-- C4 amended witness at rows = 1, cols = 2, start = finish = (0,1). -/
theorem c4_amended_witness :
    (bfs (cleanGrid 1 2) (0, 1) (0, 1)).1 = [(0, 1)] ∧
    ((bfs (cleanGrid 1 2) (0, 1) (0, 1)).2.cell (0, 1)).isVisited = true ∧
    (dijkstra (cleanGrid 1 2) (0, 1) (0, 1)).1 = [(0, 1)] ∧
    ((dijkstra (cleanGrid 1 2) (0, 1) (0, 1)).2.cell (0, 1)).isVisited = true :=
  c4_amended_no_validation 1 2 (0, 1) (by decide) (by decide)

/-- C9: each of the five search functions is a pure function of the grid
value: two runs on independent clones of the same grid (equal as values)
with the same endpoints produce identical visited-order sequences and
identical reconstructed paths.  Determinism of the embedding — including
tie-breaking among equal-priority frontier cells — holds because the model
captures JavaScript's stable sort and the fixed neighbor orders as
functions, with no ambient randomness in any search. -/
theorem c9_determinism (g1 g2 : Grid) (start finish : Pos) (h : g1 = g2) :
    ((bfs g1 start finish).1 = (bfs g2 start finish).1 ∧
      getNodesInShortestPathOrder (bfs g1 start finish).2 finish =
        getNodesInShortestPathOrder (bfs g2 start finish).2 finish) ∧
    ((dfs g1 start finish).1 = (dfs g2 start finish).1 ∧
      getNodesInShortestPathOrder (dfs g1 start finish).2 finish =
        getNodesInShortestPathOrder (dfs g2 start finish).2 finish) ∧
    ((dijkstra g1 start finish).1 = (dijkstra g2 start finish).1 ∧
      getNodesInShortestPathOrder (dijkstra g1 start finish).2 finish =
        getNodesInShortestPathOrder (dijkstra g2 start finish).2 finish) ∧
    ((astar g1 start finish).1 = (astar g2 start finish).1 ∧
      getNodesInShortestPathOrder (astar g1 start finish).2 finish =
        getNodesInShortestPathOrder (astar g2 start finish).2 finish) ∧
    ((greedyBestFirst g1 start finish).1 = (greedyBestFirst g2 start finish).1 ∧
      getNodesInShortestPathOrder (greedyBestFirst g1 start finish).2 finish =
        getNodesInShortestPathOrder (greedyBestFirst g2 start finish).2 finish) := by
  subst h
  exact ⟨⟨rfl, rfl⟩, ⟨rfl, rfl⟩, ⟨rfl, rfl⟩, ⟨rfl, rfl⟩, ⟨rfl, rfl⟩⟩

/-- A 2×2 grid with a single wall at (0,1), used as the C7 witness input. -/
def c7Grid : Grid := (cleanGrid 2 2).set (0, 1) { Cell.clean with isWall := true }

/-- C7: on any grid whose start cell is not a wall, none of the five
search functions ever marks a wall cell visited (its `isVisited` flag is
exactly what it was before the run), and no wall cell appears in the
returned visited list. -/
theorem c7_walls_never_visited (g : Grid) (start finish : Pos)
    (hs : (g.cell start).isWall = false) (p : Pos) (hp : (g.cell p).isWall = true) :
    (((bfs g start finish).2.cell p).isVisited = (g.cell p).isVisited ∧
      p ∉ (bfs g start finish).1) ∧
    (((dfs g start finish).2.cell p).isVisited = (g.cell p).isVisited ∧
      p ∉ (dfs g start finish).1) ∧
    (((dijkstra g start finish).2.cell p).isVisited = (g.cell p).isVisited ∧
      p ∉ (dijkstra g start finish).1) ∧
    (((astar g start finish).2.cell p).isVisited = (g.cell p).isVisited ∧
      p ∉ (astar g start finish).1) ∧
    (((greedyBestFirst g start finish).2.cell p).isVisited = (g.cell p).isVisited ∧
      p ∉ (greedyBestFirst g start finish).1) := by
  have hinit : ∀ c : Cell, c.isWall = (g.cell start).isWall →
      c.isVisited = true ∨ c.isVisited = (g.cell start).isVisited →
      WallSafe g (g.set start c) := by
    intro c hcw hcv q
    by_cases hq : q = start
    · subst hq
      rw [Grid.set_same]
      exact ⟨hcw, fun hw => absurd hw (by simp [hs])⟩
    · rw [Grid.set_other _ _ hq]
      exact ⟨rfl, fun _ => rfl⟩
  have h1 := bfsLoop_wallSafe g finish (2 * g.rows * g.cols + 2)
    (g.set start { g.cell start with isVisited := true, dist := EN.fin 0 }) [start] []
    (hinit _ rfl (Or.inl rfl)) (by simp)
  have h2 := dfsLoop_wallSafe g finish (2 * g.rows * g.cols + 2)
    (g.set start { g.cell start with isVisited := true, dist := EN.fin 0 }) [start] []
    (hinit _ rfl (Or.inl rfl)) (by simp)
  have h3 := dijkstraLoop_wallSafe g finish (g.rows * g.cols + 1)
    (g.set start { g.cell start with dist := EN.fin 0 })
    (getAllNodes (g.set start { g.cell start with dist := EN.fin 0 })) []
    (hinit _ rfl (Or.inr rfl)) (by simp)
  have h4 := astarLoop_wallSafe g finish (5 * g.rows * g.cols + 2)
    (g.set start { g.cell start with
      dist := EN.fin 0
      fScore := EN.fin (manhattan start finish) }) [start] []
    (hinit _ rfl (Or.inr rfl)) (by simp)
  have h5 := greedyLoop_wallSafe g finish (5 * g.rows * g.cols + 2)
    (g.set start { g.cell start with
      dist := EN.fin 0
      fScore := EN.fin (manhattan start finish) }) [start] []
    (hinit _ rfl (Or.inr rfl)) (by simp)
  exact ⟨⟨(h1.1 p).2 hp, fun hm => absurd hp (by simp [h1.2 p hm])⟩,
    ⟨(h2.1 p).2 hp, fun hm => absurd hp (by simp [h2.2 p hm])⟩,
    ⟨(h3.1 p).2 hp, fun hm => absurd hp (by simp [h3.2 p hm])⟩,
    ⟨(h4.1 p).2 hp, fun hm => absurd hp (by simp [h4.2 p hm])⟩,
    ⟨(h5.1 p).2 hp, fun hm => absurd hp (by simp [h5.2 p hm])⟩⟩

/-- C7 witness: the 2×2 grid with a wall at (0,1). -/
theorem c7_walls_never_visited_witness :
    (((bfs c7Grid (0, 0) (1, 1)).2.cell (0, 1)).isVisited = (c7Grid.cell (0, 1)).isVisited ∧
      (0, 1) ∉ (bfs c7Grid (0, 0) (1, 1)).1) ∧
    (((dfs c7Grid (0, 0) (1, 1)).2.cell (0, 1)).isVisited = (c7Grid.cell (0, 1)).isVisited ∧
      (0, 1) ∉ (dfs c7Grid (0, 0) (1, 1)).1) ∧
    (((dijkstra c7Grid (0, 0) (1, 1)).2.cell (0, 1)).isVisited =
        (c7Grid.cell (0, 1)).isVisited ∧
      (0, 1) ∉ (dijkstra c7Grid (0, 0) (1, 1)).1) ∧
    (((astar c7Grid (0, 0) (1, 1)).2.cell (0, 1)).isVisited =
        (c7Grid.cell (0, 1)).isVisited ∧
      (0, 1) ∉ (astar c7Grid (0, 0) (1, 1)).1) ∧
    (((greedyBestFirst c7Grid (0, 0) (1, 1)).2.cell (0, 1)).isVisited =
        (c7Grid.cell (0, 1)).isVisited ∧
      (0, 1) ∉ (greedyBestFirst c7Grid (0, 0) (1, 1)).1) :=
  c7_walls_never_visited c7Grid (0, 0) (1, 1) (by decide) (0, 1) (by decide)

/-- C6 counterexample: on a 9×11 grid (interior 7×9) with the all-zero
choice stream, the source's `divide` and the claim's re-evaluated-rule
`divide` produce different wall sets: after the first vertical split the
left sub-region is 3 wide × 7 tall — taller than wide, so the claim's rule
splits it horizontally — but the code splits it with the inherited
`chooseOrientation(9, 7) = vertical`, walling cell (3,4), which the
claim-model run leaves open. -/
theorem c6_counterexample :
    (3, 4) ∈ generateRecursiveDivisionMaze 9 11 (0, 0) (8, 10) true (fun _ => 0) ∧
    (3, 4) ∉ generateRecursiveDivisionMazeRuleC6 9 11 (0, 0) (8, 10) true (fun _ => 0) :=
  ⟨by decide, by decide⟩

/-- C6 amended: each region is split along the orientation passed as the
argument (the initial call passes `chooseOrientation(cols, rows)`), and
both recursive calls receive `chooseOrientation(width, height)` of the
region just split — not the opposite orientation, and not the rule
re-evaluated on the sub-region.  Formally: the source's `divide` equals
the definition written from that description, on all inputs and streams. -/
theorem c6_amended_orientation (rand : RStream) (prot : List IPos) (fuel : Nat)
    (minRow maxRow minCol maxCol : Int) (o : Orient) (w : List IPos) (i : Nat) :
    divideAmendedC6 rand prot fuel minRow maxRow minCol maxCol o w i =
      divide rand prot fuel minRow maxRow minCol maxCol o w i := by
  induction fuel generalizing minRow maxRow minCol maxCol o w i with
  | zero => rfl
  | succ n ih =>
    simp only [divide, divideAmendedC6]
    split
    · rfl
    · cases o <;> simp only [ih]

/-- C9 witness: two clones of a reset 2×2 grid. -/
theorem c9_determinism_witness :
    ((bfs (cleanGrid 2 2) (0, 0) (1, 1)).1 = (bfs (cleanGrid 2 2) (0, 0) (1, 1)).1 ∧
      getNodesInShortestPathOrder (bfs (cleanGrid 2 2) (0, 0) (1, 1)).2 (1, 1) =
        getNodesInShortestPathOrder (bfs (cleanGrid 2 2) (0, 0) (1, 1)).2 (1, 1)) ∧
    ((dfs (cleanGrid 2 2) (0, 0) (1, 1)).1 = (dfs (cleanGrid 2 2) (0, 0) (1, 1)).1 ∧
      getNodesInShortestPathOrder (dfs (cleanGrid 2 2) (0, 0) (1, 1)).2 (1, 1) =
        getNodesInShortestPathOrder (dfs (cleanGrid 2 2) (0, 0) (1, 1)).2 (1, 1)) ∧
    ((dijkstra (cleanGrid 2 2) (0, 0) (1, 1)).1 = (dijkstra (cleanGrid 2 2) (0, 0) (1, 1)).1 ∧
      getNodesInShortestPathOrder (dijkstra (cleanGrid 2 2) (0, 0) (1, 1)).2 (1, 1) =
        getNodesInShortestPathOrder (dijkstra (cleanGrid 2 2) (0, 0) (1, 1)).2 (1, 1)) ∧
    ((astar (cleanGrid 2 2) (0, 0) (1, 1)).1 = (astar (cleanGrid 2 2) (0, 0) (1, 1)).1 ∧
      getNodesInShortestPathOrder (astar (cleanGrid 2 2) (0, 0) (1, 1)).2 (1, 1) =
        getNodesInShortestPathOrder (astar (cleanGrid 2 2) (0, 0) (1, 1)).2 (1, 1)) ∧
    ((greedyBestFirst (cleanGrid 2 2) (0, 0) (1, 1)).1 =
        (greedyBestFirst (cleanGrid 2 2) (0, 0) (1, 1)).1 ∧
      getNodesInShortestPathOrder (greedyBestFirst (cleanGrid 2 2) (0, 0) (1, 1)).2 (1, 1) =
        getNodesInShortestPathOrder (greedyBestFirst (cleanGrid 2 2) (0, 0) (1, 1)).2 (1, 1)) :=
  c9_determinism (cleanGrid 2 2) (cleanGrid 2 2) (0, 0) (1, 1) rfl

/-- **C3**: for every grid with reset working fields and non-wall in-bounds
start and finish, each of the five searches returns a visited list in which
the finish, if recorded, is exactly the final element (recorded once, when
it is dequeued/extracted for expansion); and a run that ends without the
finish being dequeued returns every visited-marked cell in its list and
leaves the finish's back-link unset, so the predecessor chain from finish
reconstructs no start-to-finish path (it is just `[finish]`). -/
theorem c3_finish_dequeue_or_exhaust (g : Grid) (start finish : Pos)
    (hclean : WorkClean g) (hsB : inB g start) (hfB : inB g finish)
    (hsw : (g.cell start).isWall = false) (hfw : (g.cell finish).isWall = false) :
    ((finish ∈ (bfs g start finish).1 →
        ∃ pre, (bfs g start finish).1 = pre ++ [finish] ∧ finish ∉ pre) ∧
      (finish ∉ (bfs g start finish).1 →
        (∀ p, ((bfs g start finish).2.cell p).isVisited = true →
          p ∈ (bfs g start finish).1) ∧
        getNodesInShortestPathOrder (bfs g start finish).2 finish = [finish])) ∧
    ((finish ∈ (dfs g start finish).1 →
        ∃ pre, (dfs g start finish).1 = pre ++ [finish] ∧ finish ∉ pre) ∧
      (finish ∉ (dfs g start finish).1 →
        (∀ p, ((dfs g start finish).2.cell p).isVisited = true →
          p ∈ (dfs g start finish).1) ∧
        getNodesInShortestPathOrder (dfs g start finish).2 finish = [finish])) ∧
    ((finish ∈ (dijkstra g start finish).1 →
        ∃ pre, (dijkstra g start finish).1 = pre ++ [finish] ∧ finish ∉ pre) ∧
      (finish ∉ (dijkstra g start finish).1 →
        (∀ p, ((dijkstra g start finish).2.cell p).isVisited = true →
          p ∈ (dijkstra g start finish).1) ∧
        getNodesInShortestPathOrder (dijkstra g start finish).2 finish = [finish])) ∧
    ((finish ∈ (astar g start finish).1 →
        ∃ pre, (astar g start finish).1 = pre ++ [finish] ∧ finish ∉ pre) ∧
      (finish ∉ (astar g start finish).1 →
        (∀ p, ((astar g start finish).2.cell p).isVisited = true →
          p ∈ (astar g start finish).1) ∧
        getNodesInShortestPathOrder (astar g start finish).2 finish = [finish])) ∧
    ((finish ∈ (greedyBestFirst g start finish).1 →
        ∃ pre, (greedyBestFirst g start finish).1 = pre ++ [finish] ∧ finish ∉ pre) ∧
      (finish ∉ (greedyBestFirst g start finish).1 →
        (∀ p, ((greedyBestFirst g start finish).2.cell p).isVisited = true →
          p ∈ (greedyBestFirst g start finish).1) ∧
        getNodesInShortestPathOrder (greedyBestFirst g start finish).2 finish =
          [finish])) := by
  have hassoc2 : 2 * g.rows * g.cols = 2 * (g.rows * g.cols) := Nat.mul_assoc 2 _ _
  have hassoc5 : 5 * g.rows * g.cols = 5 * (g.rows * g.cols) := Nat.mul_assoc 5 _ _
  have Hbfs : (finish ∈ (bfs g start finish).1 →
        ∃ pre, (bfs g start finish).1 = pre ++ [finish] ∧ finish ∉ pre) ∧
      (finish ∉ (bfs g start finish).1 →
        (∀ p, ((bfs g start finish).2.cell p).isVisited = true →
          p ∈ (bfs g start finish).1) ∧
        getNodesInShortestPathOrder (bfs g start finish).2 finish = [finish]) := by
    have hb : bfs g start finish = bfsLoop finish (2 * g.rows * g.cols + 2)
        (g.set start { g.cell start with isVisited := true, dist := EN.fin 0 })
        [start] [] := rfl
    rw [hb]
    have hprev0 : ((g.set start { g.cell start with isVisited := true, dist := EN.fin 0 }).cell finish).prev = none := by
      by_cases hfs : finish = start
      · rw [hfs, Grid.set_same]
        exact (hclean start).2.2.2
      · rw [Grid.set_other _ _ hfs]
        exact (hclean finish).2.2.2
    have hfw0 : ((g.set start { g.cell start with isVisited := true, dist := EN.fin 0 }).cell finish).isWall = false := by
      by_cases hfs : finish = start
      · rw [hfs, Grid.set_same]
        exact hsw
      · rw [Grid.set_other _ _ hfs]
        exact hfw
    constructor
    · intro hmem
      exact bfsLoop_finish_last finish _ _ _ _ (by simp) hmem
    · intro hnmem
      have hle := unvisCount_le
        (g.set start { g.cell start with isVisited := true, dist := EN.fin 0 })
      have heq : (g.set start { g.cell start with isVisited := true, dist := EN.fin 0 }).rows * (g.set start { g.cell start with
          isVisited := true, dist := EN.fin 0 }).cols = g.rows * g.cols := rfl
      have hend := bfsLoop_end finish (2 * g.rows * g.cols + 2)
        (g.set start { g.cell start with isVisited := true, dist := EN.fin 0 })
        [start] []
        (by
          show 1 + 2 * unvisCount (g.set start { g.cell start with
            isVisited := true, dist := EN.fin 0 }) ≤ 2 * g.rows * g.cols + 2
          omega)
        (by
          intro p hp
          simp only [List.mem_singleton] at hp
          subst hp
          exact ⟨hsB.1, hsB.2⟩)
        hfw0
        (by
          intro p hp
          by_cases hps : p = start
          · subst hps
            exact Or.inr ⟨by simp, by rw [Grid.set_same]; exact hsw⟩
          · rw [Grid.set_other _ _ hps] at hp
            rw [(hclean p).1] at hp
            exact absurd hp (by simp))
      rcases hend with h | ⟨h1, h2, h3⟩
      · exact absurd h hnmem
      · refine ⟨h3, ?_⟩
        apply pathOrder_none
        rw [h2]
        exact hprev0
  have Hdfs : (finish ∈ (dfs g start finish).1 →
        ∃ pre, (dfs g start finish).1 = pre ++ [finish] ∧ finish ∉ pre) ∧
      (finish ∉ (dfs g start finish).1 →
        (∀ p, ((dfs g start finish).2.cell p).isVisited = true →
          p ∈ (dfs g start finish).1) ∧
        getNodesInShortestPathOrder (dfs g start finish).2 finish = [finish]) := by
    have hb : dfs g start finish = dfsLoop finish (2 * g.rows * g.cols + 2)
        (g.set start { g.cell start with isVisited := true, dist := EN.fin 0 })
        [start] [] := rfl
    rw [hb]
    have hprev0 : ((g.set start { g.cell start with isVisited := true, dist := EN.fin 0 }).cell finish).prev = none := by
      by_cases hfs : finish = start
      · rw [hfs, Grid.set_same]
        exact (hclean start).2.2.2
      · rw [Grid.set_other _ _ hfs]
        exact (hclean finish).2.2.2
    have hfw0 : ((g.set start { g.cell start with isVisited := true, dist := EN.fin 0 }).cell finish).isWall = false := by
      by_cases hfs : finish = start
      · rw [hfs, Grid.set_same]
        exact hsw
      · rw [Grid.set_other _ _ hfs]
        exact hfw
    constructor
    · intro hmem
      exact dfsLoop_finish_last finish _ _ _ _ (by simp) hmem
    · intro hnmem
      have hle := unvisCount_le
        (g.set start { g.cell start with isVisited := true, dist := EN.fin 0 })
      have heq : (g.set start { g.cell start with isVisited := true, dist := EN.fin 0 }).rows * (g.set start { g.cell start with
          isVisited := true, dist := EN.fin 0 }).cols = g.rows * g.cols := rfl
      have hend := dfsLoop_end finish (2 * g.rows * g.cols + 2)
        (g.set start { g.cell start with isVisited := true, dist := EN.fin 0 })
        [start] []
        (by
          show 1 + 2 * unvisCount (g.set start { g.cell start with
            isVisited := true, dist := EN.fin 0 }) ≤ 2 * g.rows * g.cols + 2
          omega)
        (by
          intro p hp
          simp only [List.mem_singleton] at hp
          subst hp
          exact ⟨hsB.1, hsB.2⟩)
        hfw0
        (by
          intro p hp
          by_cases hps : p = start
          · subst hps
            exact Or.inr ⟨by simp, by rw [Grid.set_same]; exact hsw⟩
          · rw [Grid.set_other _ _ hps] at hp
            rw [(hclean p).1] at hp
            exact absurd hp (by simp))
      rcases hend with h | ⟨h1, h2, h3⟩
      · exact absurd h hnmem
      · refine ⟨h3, ?_⟩
        apply pathOrder_none
        rw [h2]
        exact hprev0
  have Hdij : (finish ∈ (dijkstra g start finish).1 →
        ∃ pre, (dijkstra g start finish).1 = pre ++ [finish] ∧ finish ∉ pre) ∧
      (finish ∉ (dijkstra g start finish).1 →
        (∀ p, ((dijkstra g start finish).2.cell p).isVisited = true →
          p ∈ (dijkstra g start finish).1) ∧
        getNodesInShortestPathOrder (dijkstra g start finish).2 finish = [finish]) := by
    have hb : dijkstra g start finish = dijkstraLoop finish (g.rows * g.cols + 1)
        (g.set start { g.cell start with dist := EN.fin 0 })
        (getAllNodes (g.set start { g.cell start with dist := EN.fin 0 })) [] := rfl
    rw [hb]
    have hvis : ∀ p, ((g.set start { g.cell start with dist := EN.fin 0 }).cell
        p).isVisited = (g.cell p).isVisited := by
      intro p
      by_cases hps : p = start
      · rw [hps, Grid.set_same]
      · rw [Grid.set_other _ _ hps]
    have hprev : ∀ p, ((g.set start { g.cell start with dist := EN.fin 0 }).cell
        p).prev = none := by
      intro p
      by_cases hps : p = start
      · rw [hps, Grid.set_same]
        exact (hclean start).2.2.2
      · rw [Grid.set_other _ _ hps]
        exact (hclean p).2.2.2
    have hfw0 : ((g.set start { g.cell start with dist := EN.fin 0 }).cell
        finish).isWall = false := by
      by_cases hfs : finish = start
      · rw [hfs, Grid.set_same]
        exact hsw
      · rw [Grid.set_other _ _ hfs]
        exact hfw
    constructor
    · intro hmem
      exact dijkstraLoop_finish_last finish _ _ _ _ (by simp) hmem
    · intro hnmem
      have hlen := getAllNodes_length (g.set start { g.cell start with dist := EN.fin 0 })
      have heq : (g.set start { g.cell start with dist := EN.fin 0 }).rows *
          (g.set start { g.cell start with dist := EN.fin 0 }).cols =
          g.rows * g.cols := rfl
      have hend := dijkstraLoop_end finish (g.rows * g.cols + 1)
        (g.set start { g.cell start with dist := EN.fin 0 })
        (getAllNodes (g.set start { g.cell start with dist := EN.fin 0 })) []
        (by omega)
        hfw0
        (by
          intro p hp
          rw [hvis p, (hclean p).1] at hp
          exact absurd hp (by simp))
        (fun p _ => hprev p)
        (Or.inl (mem_getAllNodes.mpr ⟨hfB.1, hfB.2⟩))
      rcases hend with h | ⟨h1, h2⟩
      · exact absurd h hnmem
      · exact ⟨h2, pathOrder_none h1⟩
  have Hast : (finish ∈ (astar g start finish).1 →
        ∃ pre, (astar g start finish).1 = pre ++ [finish] ∧ finish ∉ pre) ∧
      (finish ∉ (astar g start finish).1 →
        (∀ p, ((astar g start finish).2.cell p).isVisited = true →
          p ∈ (astar g start finish).1) ∧
        getNodesInShortestPathOrder (astar g start finish).2 finish = [finish]) := by
    have hb : astar g start finish = astarLoop finish (5 * g.rows * g.cols + 2)
        (g.set start { g.cell start with dist := EN.fin 0, fScore := EN.fin (manhattan start finish) }) [start] [] := rfl
    rw [hb]
    have hvis : ∀ p, ((g.set start { g.cell start with dist := EN.fin 0, fScore := EN.fin (manhattan start finish) }).cell p).isVisited =
        (g.cell p).isVisited := by
      intro p
      by_cases hps : p = start
      · rw [hps, Grid.set_same]
      · rw [Grid.set_other _ _ hps]
    have hprev : ∀ p, ((g.set start { g.cell start with dist := EN.fin 0, fScore := EN.fin (manhattan start finish) }).cell p).prev = none := by
      intro p
      by_cases hps : p = start
      · rw [hps, Grid.set_same]
        exact (hclean start).2.2.2
      · rw [Grid.set_other _ _ hps]
        exact (hclean p).2.2.2
    have hfw0 : ((g.set start { g.cell start with dist := EN.fin 0, fScore := EN.fin (manhattan start finish) }).cell finish).isWall = false := by
      by_cases hfs : finish = start
      · rw [hfs, Grid.set_same]
        exact hsw
      · rw [Grid.set_other _ _ hfs]
        exact hfw
    constructor
    · intro hmem
      exact astarLoop_finish_last finish _ _ _ _ (by simp) hmem
    · intro hnmem
      have hle := unvisCount_le (g.set start { g.cell start with dist := EN.fin 0, fScore := EN.fin (manhattan start finish) })
      have heq : (g.set start { g.cell start with dist := EN.fin 0, fScore := EN.fin (manhattan start finish) }).rows *
          (g.set start { g.cell start with dist := EN.fin 0, fScore := EN.fin (manhattan start finish) }).cols = g.rows * g.cols := rfl
      have hend := astarLoop_end finish (5 * g.rows * g.cols + 2)
        (g.set start { g.cell start with dist := EN.fin 0, fScore := EN.fin (manhattan start finish) }) [start] []
        (by
          show 1 + 5 * unvisCount (g.set start { g.cell start with
            dist := EN.fin 0, fScore := EN.fin (manhattan start finish) }) ≤ 5 * g.rows * g.cols + 2
          omega)
        (by
          intro p hp
          simp only [List.mem_singleton] at hp
          subst hp
          exact ⟨hsB.1, hsB.2⟩)
        hfw0
        (by
          intro p hp
          rw [hvis p, (hclean p).1] at hp
          exact absurd hp (by simp))
        (Or.inl (hprev finish))
      rcases hend with h | ⟨h1, h2⟩
      · exact absurd h hnmem
      · exact ⟨h2, pathOrder_none h1⟩
  have Hgre : (finish ∈ (greedyBestFirst g start finish).1 →
        ∃ pre, (greedyBestFirst g start finish).1 = pre ++ [finish] ∧ finish ∉ pre) ∧
      (finish ∉ (greedyBestFirst g start finish).1 →
        (∀ p, ((greedyBestFirst g start finish).2.cell p).isVisited = true →
          p ∈ (greedyBestFirst g start finish).1) ∧
        getNodesInShortestPathOrder (greedyBestFirst g start finish).2 finish =
          [finish]) := by
    have hb : greedyBestFirst g start finish = greedyLoop finish
        (5 * g.rows * g.cols + 2)
        (g.set start { g.cell start with dist := EN.fin 0, fScore := EN.fin (manhattan start finish) }) [start] [] := rfl
    rw [hb]
    have hvis : ∀ p, ((g.set start { g.cell start with dist := EN.fin 0, fScore := EN.fin (manhattan start finish) }).cell p).isVisited =
        (g.cell p).isVisited := by
      intro p
      by_cases hps : p = start
      · rw [hps, Grid.set_same]
      · rw [Grid.set_other _ _ hps]
    have hprev : ∀ p, ((g.set start { g.cell start with dist := EN.fin 0, fScore := EN.fin (manhattan start finish) }).cell p).prev = none := by
      intro p
      by_cases hps : p = start
      · rw [hps, Grid.set_same]
        exact (hclean start).2.2.2
      · rw [Grid.set_other _ _ hps]
        exact (hclean p).2.2.2
    have hfw0 : ((g.set start { g.cell start with dist := EN.fin 0, fScore := EN.fin (manhattan start finish) }).cell finish).isWall = false := by
      by_cases hfs : finish = start
      · rw [hfs, Grid.set_same]
        exact hsw
      · rw [Grid.set_other _ _ hfs]
        exact hfw
    constructor
    · intro hmem
      exact greedyLoop_finish_last finish _ _ _ _ (by simp) hmem
    · intro hnmem
      have hle := unvisCount_le (g.set start { g.cell start with dist := EN.fin 0, fScore := EN.fin (manhattan start finish) })
      have heq : (g.set start { g.cell start with dist := EN.fin 0, fScore := EN.fin (manhattan start finish) }).rows *
          (g.set start { g.cell start with dist := EN.fin 0, fScore := EN.fin (manhattan start finish) }).cols = g.rows * g.cols := rfl
      have hend := greedyLoop_end finish (5 * g.rows * g.cols + 2)
        (g.set start { g.cell start with dist := EN.fin 0, fScore := EN.fin (manhattan start finish) }) [start] []
        (by
          show 1 + 5 * unvisCount (g.set start { g.cell start with
            dist := EN.fin 0, fScore := EN.fin (manhattan start finish) }) ≤ 5 * g.rows * g.cols + 2
          omega)
        (by
          intro p hp
          simp only [List.mem_singleton] at hp
          subst hp
          exact ⟨hsB.1, hsB.2⟩)
        hfw0
        (by
          intro p hp
          rw [hvis p, (hclean p).1] at hp
          exact absurd hp (by simp))
        (Or.inl (hprev finish))
      rcases hend with h | ⟨h1, h2⟩
      · exact absurd h hnmem
      · exact ⟨h2, pathOrder_none h1⟩
  exact ⟨Hbfs, Hdfs, Hdij, Hast, Hgre⟩

/-- C3 witness: the termination contract instantiated on a reset 2x2 grid
with start (0,0) and finish (1,1). -/
theorem c3_finish_dequeue_or_exhaust_witness :
    (((1, 1) ∈ (bfs (cleanGrid 2 2) (0, 0) (1, 1)).1 →
        ∃ pre, (bfs (cleanGrid 2 2) (0, 0) (1, 1)).1 = pre ++ [(1, 1)] ∧ (1, 1) ∉ pre) ∧
      ((1, 1) ∉ (bfs (cleanGrid 2 2) (0, 0) (1, 1)).1 →
        (∀ p, ((bfs (cleanGrid 2 2) (0, 0) (1, 1)).2.cell p).isVisited = true →
          p ∈ (bfs (cleanGrid 2 2) (0, 0) (1, 1)).1) ∧
        getNodesInShortestPathOrder (bfs (cleanGrid 2 2) (0, 0) (1, 1)).2 (1, 1) =
          [(1, 1)])) ∧
    (((1, 1) ∈ (dfs (cleanGrid 2 2) (0, 0) (1, 1)).1 →
        ∃ pre, (dfs (cleanGrid 2 2) (0, 0) (1, 1)).1 = pre ++ [(1, 1)] ∧ (1, 1) ∉ pre) ∧
      ((1, 1) ∉ (dfs (cleanGrid 2 2) (0, 0) (1, 1)).1 →
        (∀ p, ((dfs (cleanGrid 2 2) (0, 0) (1, 1)).2.cell p).isVisited = true →
          p ∈ (dfs (cleanGrid 2 2) (0, 0) (1, 1)).1) ∧
        getNodesInShortestPathOrder (dfs (cleanGrid 2 2) (0, 0) (1, 1)).2 (1, 1) =
          [(1, 1)])) ∧
    (((1, 1) ∈ (dijkstra (cleanGrid 2 2) (0, 0) (1, 1)).1 →
        ∃ pre, (dijkstra (cleanGrid 2 2) (0, 0) (1, 1)).1 = pre ++ [(1, 1)] ∧ (1, 1) ∉ pre) ∧
      ((1, 1) ∉ (dijkstra (cleanGrid 2 2) (0, 0) (1, 1)).1 →
        (∀ p, ((dijkstra (cleanGrid 2 2) (0, 0) (1, 1)).2.cell p).isVisited = true →
          p ∈ (dijkstra (cleanGrid 2 2) (0, 0) (1, 1)).1) ∧
        getNodesInShortestPathOrder (dijkstra (cleanGrid 2 2) (0, 0) (1, 1)).2 (1, 1) =
          [(1, 1)])) ∧
    (((1, 1) ∈ (astar (cleanGrid 2 2) (0, 0) (1, 1)).1 →
        ∃ pre, (astar (cleanGrid 2 2) (0, 0) (1, 1)).1 = pre ++ [(1, 1)] ∧ (1, 1) ∉ pre) ∧
      ((1, 1) ∉ (astar (cleanGrid 2 2) (0, 0) (1, 1)).1 →
        (∀ p, ((astar (cleanGrid 2 2) (0, 0) (1, 1)).2.cell p).isVisited = true →
          p ∈ (astar (cleanGrid 2 2) (0, 0) (1, 1)).1) ∧
        getNodesInShortestPathOrder (astar (cleanGrid 2 2) (0, 0) (1, 1)).2 (1, 1) =
          [(1, 1)])) ∧
    (((1, 1) ∈ (greedyBestFirst (cleanGrid 2 2) (0, 0) (1, 1)).1 →
        ∃ pre, (greedyBestFirst (cleanGrid 2 2) (0, 0) (1, 1)).1 = pre ++ [(1, 1)] ∧ (1, 1) ∉ pre) ∧
      ((1, 1) ∉ (greedyBestFirst (cleanGrid 2 2) (0, 0) (1, 1)).1 →
        (∀ p, ((greedyBestFirst (cleanGrid 2 2) (0, 0) (1, 1)).2.cell p).isVisited = true →
          p ∈ (greedyBestFirst (cleanGrid 2 2) (0, 0) (1, 1)).1) ∧
        getNodesInShortestPathOrder (greedyBestFirst (cleanGrid 2 2) (0, 0) (1, 1)).2 (1, 1) =
          [(1, 1)])) :=
  c3_finish_dequeue_or_exhaust (cleanGrid 2 2) (0, 0) (1, 1)
    (fun _ => ⟨rfl, rfl, rfl, rfl⟩) (by decide) (by decide) rfl rfl

/-- **C10, counterexample**: the claim says every `previousNode` chain ends
at the start cell.  On a reset 1x3 grid with a wall at (0,1), bfs from
(0,0) to (0,2) never reaches (0,2): its back-link stays unset, so the chain
from (0,2) is just [(0,2)], which does not end at start (0,0). -/
theorem c10_counterexample :
    getNodesInShortestPathOrder (bfs ((cleanGrid 1 3).set (0, 1)
      { Cell.clean with isWall := true }) (0, 0) (0, 2)).2 (0, 2) = [(0, 2)] ∧
    ((0, 2) : Pos) ≠ ((0, 0) : Pos) := by
  constructor
  · rfl
  · decide

/-- **C10, amended**: on a grid with reset working fields and an in-bounds
non-wall start, after any of the five searches the `previousNode` links are
acyclic: every chain reaches `none` within `rows*cols + 1` steps (it ends at
the start cell or at an unreached cell), so `getNodesInShortestPathOrder`
terminates on every cell: `pathStep` is independent of any fuel beyond the
chain length. -/
theorem c10_amended_acyclic (g : Grid) (start finish : Pos)
    (hclean : WorkClean g) (hsB : inB g start)
    (hsw : (g.cell start).isWall = false) :
    (∀ p : Pos, ∃ k, k ≤ g.rows * g.cols + 1 ∧
      prevIter (bfs g start finish).2 k (some p) = none ∧
      ∀ fuel, k ≤ fuel →
        pathStep (bfs g start finish).2 fuel (some p) [] =
          getNodesInShortestPathOrder (bfs g start finish).2 p) ∧
    (∀ p : Pos, ∃ k, k ≤ g.rows * g.cols + 1 ∧
      prevIter (dfs g start finish).2 k (some p) = none ∧
      ∀ fuel, k ≤ fuel →
        pathStep (dfs g start finish).2 fuel (some p) [] =
          getNodesInShortestPathOrder (dfs g start finish).2 p) ∧
    (∀ p : Pos, ∃ k, k ≤ g.rows * g.cols + 1 ∧
      prevIter (dijkstra g start finish).2 k (some p) = none ∧
      ∀ fuel, k ≤ fuel →
        pathStep (dijkstra g start finish).2 fuel (some p) [] =
          getNodesInShortestPathOrder (dijkstra g start finish).2 p) ∧
    (∀ p : Pos, ∃ k, k ≤ g.rows * g.cols + 1 ∧
      prevIter (astar g start finish).2 k (some p) = none ∧
      ∀ fuel, k ≤ fuel →
        pathStep (astar g start finish).2 fuel (some p) [] =
          getNodesInShortestPathOrder (astar g start finish).2 p) ∧
    (∀ p : Pos, ∃ k, k ≤ g.rows * g.cols + 1 ∧
      prevIter (greedyBestFirst g start finish).2 k (some p) = none ∧
      ∀ fuel, k ≤ fuel →
        pathStep (greedyBestFirst g start finish).2 fuel (some p) [] =
          getNodesInShortestPathOrder (greedyBestFirst g start finish).2 p) := by
  have Hbfs : ∀ p : Pos, ∃ k, k ≤ g.rows * g.cols + 1 ∧
      prevIter (bfs g start finish).2 k (some p) = none ∧
      ∀ fuel, k ≤ fuel →
        pathStep (bfs g start finish).2 fuel (some p) [] =
          getNodesInShortestPathOrder (bfs g start finish).2 p := by
    have hb : bfs g start finish = bfsLoop finish (2 * g.rows * g.cols + 2)
        (g.set start { g.cell start with isVisited := true, dist := EN.fin 0 })
        [start] [] := rfl
    rw [hb]
    have hprev0 : ∀ p, ((g.set start { g.cell start with isVisited := true, dist := EN.fin 0 }).cell p).prev = none := by
      intro p
      by_cases hps : p = start
      · rw [hps, Grid.set_same]
        exact (hclean start).2.2.2
      · rw [Grid.set_other _ _ hps]
        exact (hclean p).2.2.2
    obtain ⟨r1, r2, r3, r4, r5⟩ := bfsLoop_prevInv finish (2 * g.rows * g.cols + 2)
      (g.set start { g.cell start with isVisited := true, dist := EN.fin 0 })
      [start] []
      (by
        intro p hp
        simp only [List.mem_singleton] at hp
        rw [hp]
        refine ⟨⟨hsB.1, hsB.2⟩, ?_, ?_⟩
        · rw [Grid.set_same]
        · rw [Grid.set_same]
          exact hsw)
      (by intro p hp; simp at hp)
      (List.nodup_singleton _) List.nodup_nil
      (by intro p hp; simp)
      (by
        intro p q hpq
        rw [hprev0 p] at hpq
        exact Option.noConfusion hpq)
    exact chainsAndStable _ g.rows g.cols r1 r2 r3 r4 r5
  have Hdfs : ∀ p : Pos, ∃ k, k ≤ g.rows * g.cols + 1 ∧
      prevIter (dfs g start finish).2 k (some p) = none ∧
      ∀ fuel, k ≤ fuel →
        pathStep (dfs g start finish).2 fuel (some p) [] =
          getNodesInShortestPathOrder (dfs g start finish).2 p := by
    have hb : dfs g start finish = dfsLoop finish (2 * g.rows * g.cols + 2)
        (g.set start { g.cell start with isVisited := true, dist := EN.fin 0 })
        [start] [] := rfl
    rw [hb]
    have hprev0 : ∀ p, ((g.set start { g.cell start with isVisited := true, dist := EN.fin 0 }).cell p).prev = none := by
      intro p
      by_cases hps : p = start
      · rw [hps, Grid.set_same]
        exact (hclean start).2.2.2
      · rw [Grid.set_other _ _ hps]
        exact (hclean p).2.2.2
    obtain ⟨r1, r2, r3, r4, r5⟩ := dfsLoop_prevInv finish (2 * g.rows * g.cols + 2)
      (g.set start { g.cell start with isVisited := true, dist := EN.fin 0 })
      [start] []
      (by
        intro p hp
        simp only [List.mem_singleton] at hp
        rw [hp]
        refine ⟨⟨hsB.1, hsB.2⟩, ?_, ?_⟩
        · rw [Grid.set_same]
        · rw [Grid.set_same]
          exact hsw)
      (by intro p hp; simp at hp)
      (List.nodup_singleton _) List.nodup_nil
      (by intro p hp; simp)
      (by
        intro p q hpq
        rw [hprev0 p] at hpq
        exact Option.noConfusion hpq)
    exact chainsAndStable _ g.rows g.cols r1 r2 r3 r4 r5
  have Hdij : ∀ p : Pos, ∃ k, k ≤ g.rows * g.cols + 1 ∧
      prevIter (dijkstra g start finish).2 k (some p) = none ∧
      ∀ fuel, k ≤ fuel →
        pathStep (dijkstra g start finish).2 fuel (some p) [] =
          getNodesInShortestPathOrder (dijkstra g start finish).2 p := by
    have hb : dijkstra g start finish = dijkstraLoop finish (g.rows * g.cols + 1)
        (g.set start { g.cell start with dist := EN.fin 0 })
        (getAllNodes (g.set start { g.cell start with dist := EN.fin 0 })) [] := rfl
    rw [hb]
    have hvis : ∀ p, ((g.set start { g.cell start with dist := EN.fin 0 }).cell
        p).isVisited = (g.cell p).isVisited := by
      intro p
      by_cases hps : p = start
      · rw [hps, Grid.set_same]
      · rw [Grid.set_other _ _ hps]
    have hprev0 : ∀ p, ((g.set start { g.cell start with dist := EN.fin 0 }).cell
        p).prev = none := by
      intro p
      by_cases hps : p = start
      · rw [hps, Grid.set_same]
        exact (hclean start).2.2.2
      · rw [Grid.set_other _ _ hps]
        exact (hclean p).2.2.2
    obtain ⟨r1, r2, r3, r4, r5⟩ := dijkstraLoop_prevInv finish (g.rows * g.cols + 1)
      (g.set start { g.cell start with dist := EN.fin 0 })
      (getAllNodes (g.set start { g.cell start with dist := EN.fin 0 })) []
      (by
        intro p hp
        refine ⟨mem_getAllNodes.mp hp, ?_⟩
        rw [hvis p]
        exact (hclean p).1)
      (by intro p hp; simp at hp)
      (getAllNodes_nodup _) List.nodup_nil
      (by
        intro p q hpq
        rw [hprev0 p] at hpq
        exact Option.noConfusion hpq)
    exact chainsAndStable _ g.rows g.cols r1 r2 r3 r4 r5
  have Hast : ∀ p : Pos, ∃ k, k ≤ g.rows * g.cols + 1 ∧
      prevIter (astar g start finish).2 k (some p) = none ∧
      ∀ fuel, k ≤ fuel →
        pathStep (astar g start finish).2 fuel (some p) [] =
          getNodesInShortestPathOrder (astar g start finish).2 p := by
    have hb : astar g start finish = astarLoop finish (5 * g.rows * g.cols + 2)
        (g.set start { g.cell start with
          dist := EN.fin 0, fScore := EN.fin (manhattan start finish) })
        [start] [] := rfl
    rw [hb]
    have hprev0 : ∀ p, ((g.set start { g.cell start with
        dist := EN.fin 0, fScore := EN.fin (manhattan start finish) }).cell
        p).prev = none := by
      intro p
      by_cases hps : p = start
      · rw [hps, Grid.set_same]
        exact (hclean start).2.2.2
      · rw [Grid.set_other _ _ hps]
        exact (hclean p).2.2.2
    obtain ⟨r1, r2, r3, r4, r5⟩ := astarLoop_prevInv finish (5 * g.rows * g.cols + 2)
      (g.set start { g.cell start with
        dist := EN.fin 0, fScore := EN.fin (manhattan start finish) })
      [start] []
      (by
        intro p hp
        simp only [List.mem_singleton] at hp
        rw [hp]
        exact ⟨hsB.1, hsB.2⟩)
      (by intro p hp; simp at hp)
      List.nodup_nil
      (by
        intro p q hpq
        rw [hprev0 p] at hpq
        exact Option.noConfusion hpq)
    exact chainsAndStable _ g.rows g.cols r1 r2 r3 r4 r5
  have Hgre : ∀ p : Pos, ∃ k, k ≤ g.rows * g.cols + 1 ∧
      prevIter (greedyBestFirst g start finish).2 k (some p) = none ∧
      ∀ fuel, k ≤ fuel →
        pathStep (greedyBestFirst g start finish).2 fuel (some p) [] =
          getNodesInShortestPathOrder (greedyBestFirst g start finish).2 p := by
    have hb : greedyBestFirst g start finish = greedyLoop finish
        (5 * g.rows * g.cols + 2)
        (g.set start { g.cell start with
          dist := EN.fin 0, fScore := EN.fin (manhattan start finish) })
        [start] [] := rfl
    rw [hb]
    have hprev0 : ∀ p, ((g.set start { g.cell start with
        dist := EN.fin 0, fScore := EN.fin (manhattan start finish) }).cell
        p).prev = none := by
      intro p
      by_cases hps : p = start
      · rw [hps, Grid.set_same]
        exact (hclean start).2.2.2
      · rw [Grid.set_other _ _ hps]
        exact (hclean p).2.2.2
    obtain ⟨r1, r2, r3, r4, r5⟩ := greedyLoop_prevInv finish (5 * g.rows * g.cols + 2)
      (g.set start { g.cell start with
        dist := EN.fin 0, fScore := EN.fin (manhattan start finish) })
      [start] []
      (by
        intro p hp
        simp only [List.mem_singleton] at hp
        rw [hp]
        exact ⟨hsB.1, hsB.2⟩)
      (by intro p hp; simp at hp)
      List.nodup_nil
      (by
        intro p q hpq
        rw [hprev0 p] at hpq
        exact Option.noConfusion hpq)
    exact chainsAndStable _ g.rows g.cols r1 r2 r3 r4 r5
  exact ⟨Hbfs, Hdfs, Hdij, Hast, Hgre⟩

/-- C10 amended witness: acyclicity of the back-links on a reset 2x2 grid
with start (0,0) and finish (1,1). -/
theorem c10_amended_acyclic_witness :
    (∀ p : Pos, ∃ k, k ≤ (cleanGrid 2 2).rows * (cleanGrid 2 2).cols + 1 ∧
      prevIter (bfs (cleanGrid 2 2) (0, 0) (1, 1)).2 k (some p) = none ∧
      ∀ fuel, k ≤ fuel →
        pathStep (bfs (cleanGrid 2 2) (0, 0) (1, 1)).2 fuel (some p) [] =
          getNodesInShortestPathOrder (bfs (cleanGrid 2 2) (0, 0) (1, 1)).2 p) ∧
    (∀ p : Pos, ∃ k, k ≤ (cleanGrid 2 2).rows * (cleanGrid 2 2).cols + 1 ∧
      prevIter (dfs (cleanGrid 2 2) (0, 0) (1, 1)).2 k (some p) = none ∧
      ∀ fuel, k ≤ fuel →
        pathStep (dfs (cleanGrid 2 2) (0, 0) (1, 1)).2 fuel (some p) [] =
          getNodesInShortestPathOrder (dfs (cleanGrid 2 2) (0, 0) (1, 1)).2 p) ∧
    (∀ p : Pos, ∃ k, k ≤ (cleanGrid 2 2).rows * (cleanGrid 2 2).cols + 1 ∧
      prevIter (dijkstra (cleanGrid 2 2) (0, 0) (1, 1)).2 k (some p) = none ∧
      ∀ fuel, k ≤ fuel →
        pathStep (dijkstra (cleanGrid 2 2) (0, 0) (1, 1)).2 fuel (some p) [] =
          getNodesInShortestPathOrder (dijkstra (cleanGrid 2 2) (0, 0) (1, 1)).2 p) ∧
    (∀ p : Pos, ∃ k, k ≤ (cleanGrid 2 2).rows * (cleanGrid 2 2).cols + 1 ∧
      prevIter (astar (cleanGrid 2 2) (0, 0) (1, 1)).2 k (some p) = none ∧
      ∀ fuel, k ≤ fuel →
        pathStep (astar (cleanGrid 2 2) (0, 0) (1, 1)).2 fuel (some p) [] =
          getNodesInShortestPathOrder (astar (cleanGrid 2 2) (0, 0) (1, 1)).2 p) ∧
    (∀ p : Pos, ∃ k, k ≤ (cleanGrid 2 2).rows * (cleanGrid 2 2).cols + 1 ∧
      prevIter (greedyBestFirst (cleanGrid 2 2) (0, 0) (1, 1)).2 k (some p) = none ∧
      ∀ fuel, k ≤ fuel →
        pathStep (greedyBestFirst (cleanGrid 2 2) (0, 0) (1, 1)).2 fuel (some p) [] =
          getNodesInShortestPathOrder (greedyBestFirst (cleanGrid 2 2) (0, 0) (1, 1)).2 p) :=
  c10_amended_acyclic (cleanGrid 2 2) (0, 0) (1, 1)
    (fun _ => ⟨rfl, rfl, rfl, rfl⟩) (by decide) rfl

/-- **C8**: on any grid with reset working fields in which the start is
in-bounds and non-wall and the finish is a non-wall grid neighbor of the
start, every one of the five searches ends with the finish's back-link set
directly to the start, and reconstruction yields exactly the two-cell path
`[start, finish]`. -/
theorem c8_adjacent_two_cell_path (g : Grid) (start finish : Pos)
    (hclean : WorkClean g) (hsB : inB g start)
    (hsw : (g.cell start).isWall = false) (hfw : (g.cell finish).isWall = false)
    (hadj : finish ∈ neighborsUDLR g start) :
    (((bfs g start finish).2.cell finish).prev = some start ∧
      getNodesInShortestPathOrder (bfs g start finish).2 finish = [start, finish]) ∧
    (((dfs g start finish).2.cell finish).prev = some start ∧
      getNodesInShortestPathOrder (dfs g start finish).2 finish = [start, finish]) ∧
    (((dijkstra g start finish).2.cell finish).prev = some start ∧
      getNodesInShortestPathOrder (dijkstra g start finish).2 finish = [start, finish]) ∧
    (((astar g start finish).2.cell finish).prev = some start ∧
      getNodesInShortestPathOrder (astar g start finish).2 finish = [start, finish]) ∧
    (((greedyBestFirst g start finish).2.cell finish).prev = some start ∧
      getNodesInShortestPathOrder (greedyBestFirst g start finish).2 finish = [start, finish]) :=
  ⟨bfs_c8 g start finish hclean hsB hsw hfw hadj,
   dfs_c8 g start finish hclean hsB hsw hfw hadj,
   dijkstra_c8 g start finish hclean hsB hsw hfw hadj,
   astar_c8 g start finish hclean hsB hsw hfw hadj,
   greedy_c8 g start finish hclean hsB hsw hfw hadj⟩

/-- C8 witness: reset 2x2 grid, start (0,0), adjacent finish (0,1). -/
theorem c8_adjacent_two_cell_path_witness :
    (((bfs (cleanGrid 2 2) (0, 0) (0, 1)).2.cell (0, 1)).prev = some (0, 0) ∧
      getNodesInShortestPathOrder (bfs (cleanGrid 2 2) (0, 0) (0, 1)).2 (0, 1) = [(0, 0), (0, 1)]) ∧
    (((dfs (cleanGrid 2 2) (0, 0) (0, 1)).2.cell (0, 1)).prev = some (0, 0) ∧
      getNodesInShortestPathOrder (dfs (cleanGrid 2 2) (0, 0) (0, 1)).2 (0, 1) = [(0, 0), (0, 1)]) ∧
    (((dijkstra (cleanGrid 2 2) (0, 0) (0, 1)).2.cell (0, 1)).prev = some (0, 0) ∧
      getNodesInShortestPathOrder (dijkstra (cleanGrid 2 2) (0, 0) (0, 1)).2 (0, 1) = [(0, 0), (0, 1)]) ∧
    (((astar (cleanGrid 2 2) (0, 0) (0, 1)).2.cell (0, 1)).prev = some (0, 0) ∧
      getNodesInShortestPathOrder (astar (cleanGrid 2 2) (0, 0) (0, 1)).2 (0, 1) = [(0, 0), (0, 1)]) ∧
    (((greedyBestFirst (cleanGrid 2 2) (0, 0) (0, 1)).2.cell (0, 1)).prev = some (0, 0) ∧
      getNodesInShortestPathOrder (greedyBestFirst (cleanGrid 2 2) (0, 0) (0, 1)).2 (0, 1) = [(0, 0), (0, 1)]) :=
  c8_adjacent_two_cell_path (cleanGrid 2 2) (0, 0) (0, 1)
    (fun _ => ⟨rfl, rfl, rfl, rfl⟩) (by decide) rfl rfl (by decide)

/-- C1: counterexample to the claim as stated.  On the wall-free 1×2
grid with start (0,0) and finish (0,1), each of BFS, Dijkstra and A*
reconstructs the path [(0,0), (0,1)] with 2 cells, while the Manhattan
distance is 1: the claimed "path length equals the Manhattan distance"
is off by one (a path of n moves has n+1 cells). -/
theorem c1_counterexample :
    ((getNodesInShortestPathOrder (bfs (cleanGrid 1 2) (0, 0) (0, 1)).2
        (0, 1)).length ≠ manhattan (0, 0) (0, 1)) ∧
    ((getNodesInShortestPathOrder (dijkstra (cleanGrid 1 2) (0, 0) (0, 1)).2
        (0, 1)).length ≠ manhattan (0, 0) (0, 1)) ∧
    ((getNodesInShortestPathOrder (astar (cleanGrid 1 2) (0, 0) (0, 1)).2
        (0, 1)).length ≠ manhattan (0, 0) (0, 1)) := by
  refine ⟨?_, ?_, ?_⟩ <;> decide

/-- C1 (amended): for every grid with reset working fields and no wall
cells and every distinct in-bounds start and finish, the path
reconstructed after running BFS, Dijkstra, or A* (following
previousNode links back from the finish) has exactly
`manhattan start finish + 1` cells, i.e. `manhattan start finish`
moves. -/
theorem c1_amended_path_length (g : Grid) (start finish : Pos)
    (hW : WorkClean g) (hNW : NoWalls g) (hs : inB g start) (hf : inB g finish)
    (hne : start ≠ finish) :
    (getNodesInShortestPathOrder (bfs g start finish).2 finish).length =
      manhattan start finish + 1 ∧
    (getNodesInShortestPathOrder (dijkstra g start finish).2 finish).length =
      manhattan start finish + 1 ∧
    (getNodesInShortestPathOrder (astar g start finish).2 finish).length =
      manhattan start finish + 1 :=
  ⟨bfs_optimal g start finish hW hNW hs hf,
   dijkstra_optimal g start finish hW hNW hs hf hne,
   astar_optimal g start finish hW hNW hs hf hne⟩

/-- Witness for C1 (amended) at the concrete input: the clean 2×2 grid
with start (0,0) and finish (1,1). -/
theorem c1_amended_path_length_witness :
    (getNodesInShortestPathOrder (bfs (cleanGrid 2 2) (0, 0) (1, 1)).2
        (1, 1)).length = manhattan (0, 0) (1, 1) + 1 ∧
    (getNodesInShortestPathOrder (dijkstra (cleanGrid 2 2) (0, 0) (1, 1)).2
        (1, 1)).length = manhattan (0, 0) (1, 1) + 1 ∧
    (getNodesInShortestPathOrder (astar (cleanGrid 2 2) (0, 0) (1, 1)).2
        (1, 1)).length = manhattan (0, 0) (1, 1) + 1 :=
  c1_amended_path_length (cleanGrid 2 2) (0, 0) (1, 1)
    (fun q => ⟨rfl, rfl, rfl, rfl⟩) (fun q => rfl) (by decide) (by decide)
    (by decide)

end PV
